import Mathlib

/-!
# Sequential interactions: the sequencer component and the interaction lifecycle

A shallow embedding of `Interaction.cpp`, `InteractionCondition.cpp` and
`SequentialInteractionComponent.cpp`.

Modelling conventions.

* Objects created at run time (the working instances made by `DuplicateObject`)
  live in a heap `World.Objects`; a `UInteraction*` to such an object is an index
  into it and `nullptr` is `none`.  Slot templates are never written to by the
  code and are stored by value in their slot.
* A pointer that the sources dereference without a test and that the data model
  treats as always present (a slot's template, the entries of `Conditions`) is a
  value; pointers the sources test or that may be absent (`AActor*`, the active
  instance) are `Option`s, and dereferencing `none` is the fault `nullDeref`.
* Blueprint events, delegate broadcasts and condition evaluations are appended
  to `World.Log` in the order in which they happen.  The debug overlay and the
  text of the `UE_LOGFMT` lines are not modelled.  Of the pointers that the log
  lines dereference, `InteractingActor` in the refused branch of
  `CommitInteraction` is modelled, since that public method can be called
  before any instigator has been recorded; the others are set by the only code
  path that leads to their log line (`bIsActive`, `InteractingActor` and
  `ActivateInteraction` are private, and the component's private methods run
  after `CurrentlyInteractingActor` has been recorded).
* The two multicast delegates of an interaction are modelled by two flags that
  say whether the component's handler is bound; a broadcast on a bound delegate
  runs the handler synchronously, before the broadcasting method continues.
* The call chain `StartNextSequentialInteraction → TryActivateInteraction →
  CancelInteraction → OnInteractionCancelled → OnInteractionEnded →
  StartNextSequentialInteraction` need not terminate, so
  `StartNextSequentialInteraction` takes a fuel argument that bounds the nesting
  depth of its calls; running out is the fault `outOfFuel`, which carries the
  state reached at the point where the chain was cut off.
* `int32` values are `Int`s.  The only arithmetic is `cursor + 1` and
  `Num() - 1`, which do not overflow for a cursor that is `-1` or an index of a
  `TArray`.
-/

namespace SequentialInteractions

/-! ## Data model -/

/-- Reason for failing an interaction (`EInteractionCancelReason`). -/
inductive EInteractionCancelReason
  | Cancel_Cancelled
  | Cancel_ConditionsNotMet
  | Cancel_Failed
  deriving DecidableEq, Repr

/-- Possible states of a sequence (`EInteractionState`). -/
inductive EInteractionState
  | SequentialState_Idle
  | SequentialState_InProgress
  | SequentialState_Waiting
  | SequentialState_Failed
  deriving DecidableEq, Repr

/-- An actor as far as the plugin looks at it: an identity and whether the
engine still regards the object as valid. -/
structure AActor where
  name : Nat
  bValid : Bool
  deriving DecidableEq, Repr

/-- The engine test `IsValid(ptr)`: not null and not marked as garbage. -/
def IsValid : Option AActor → Bool
  | none => false
  | some a => a.bValid

/-- A condition object: the overridable check and the `InvertCondition` flag. -/
structure UInteractionCondition where
  CheckInteractionConditions : Option AActor → Bool
  InvertCondition : Bool

/-- The base class: `CheckInteractionConditions_Implementation` returns false and
the constructor clears `InvertCondition`. -/
def UInteractionCondition.base : UInteractionCondition :=
  { CheckInteractionConditions := fun _ => false, InvertCondition := false }

/-- The fields of `UInteraction`.  `OnInteractionEnded` and
`OnInteractionCancelled` say whether the component's handler of the same name is
bound to the delegate. -/
structure UInteraction where
  Conditions : List UInteractionCondition
  bCanRepeatInteraction : Bool
  bStartNextInteractionAutomatically : Bool
  InteractingActor : Option AActor
  bIsActive : Bool
  OnInteractionEnded : Bool
  OnInteractionCancelled : Bool

/-- A slot of the sequence (`FSequentialInteraction`, without its debug name). -/
structure FSequentialInteraction where
  SequentialInteraction : UInteraction
  bResetInteractionsOnConditionsFail : Bool
  bInteractionComplete : Bool

/-- The run-time fields of `USequentialInteractionComponent`. -/
structure USequentialInteractionComponent where
  SequentialInteractions : List FSequentialInteraction
  CurrentSequentialInteractionIndex : Int
  CurrentlyInteractingActor : Option AActor
  ActiveInteractionInstance : Option Nat
  CurrentInteractionState : EInteractionState

/-- What an observer of an interaction object can see happen. -/
inductive Signal
  | CheckInteractionConditions (obj k : Nat)
  | InteractionActivated (obj : Nat)
  | InteractionCommitted (obj : Nat)
  | InteractionCancelled (obj : Nat) (r : EInteractionCancelReason)
  | InteractionEnded (obj : Nat)
  | BroadcastEnded (obj : Nat) (bCompletedSuccessfully : Bool)
  | BroadcastCancelled (obj : Nat) (r : EInteractionCancelReason)
  deriving DecidableEq, Repr

/-- The component, the heap of working instances and the log. -/
structure World where
  Component : USequentialInteractionComponent
  Objects : List UInteraction
  Log : List Signal

/-- Ways in which a call fails to return.  `outOfFuel w` is a call chain cut off
at a nested `StartNextSequentialInteraction`, `w` being the state in which that
call was made. -/
inductive Fault
  | outOfFuel (w : World)
  | nullDeref
  | outOfBounds

/-- The two functions of the component that are bound to an instance's
delegates. -/
structure Handlers where
  OnInteractionEnded : Bool → World → Except Fault World
  OnInteractionCancelled : EInteractionCancelReason → World → Except Fault World

/-! ## Small state updates -/

/-- Append a signal to the log. -/
def World.emit (w : World) (s : Signal) : World :=
  { w with Log := w.Log ++ [s] }

/-- Append several signals to the log. -/
def World.emitAll (w : World) (ss : List Signal) : World :=
  { w with Log := w.Log ++ ss }

/-- Overwrite the object at address `self`. -/
def World.setObject (w : World) (self : Nat) (o : UInteraction) : World :=
  { w with Objects := w.Objects.set self o }

/-- Assign `CurrentInteractionState`. -/
def World.setState (w : World) (s : EInteractionState) : World :=
  { w with Component := { w.Component with CurrentInteractionState := s } }

/-- Assign `ActiveInteractionInstance`. -/
def World.setActiveInstance (w : World) (p : Option Nat) : World :=
  { w with Component := { w.Component with ActiveInteractionInstance := p } }

/-- Assign `CurrentSequentialInteractionIndex`. -/
def World.setIndex (w : World) (i : Int) : World :=
  { w with Component := { w.Component with CurrentSequentialInteractionIndex := i } }

/-- Assign `CurrentlyInteractingActor`. -/
def World.setActor (w : World) (a : Option AActor) : World :=
  { w with Component := { w.Component with CurrentlyInteractingActor := a } }

/-- The assignment `SequentialInteractions[i].bInteractionComplete = true`. -/
def markComplete (slots : List FSequentialInteraction) (i : Nat) : List FSequentialInteraction :=
  match slots[i]? with
  | none => slots
  | some s => slots.set i { s with bInteractionComplete := true }

/-- Assign the slot array. -/
def World.setSlots (w : World) (slots : List FSequentialInteraction) : World :=
  { w with Component := { w.Component with SequentialInteractions := slots } }

/-- Array access `SequentialInteractions[i]` with an `int32` index. -/
def slotAt (slots : List FSequentialInteraction) (i : Int) : Option FSequentialInteraction :=
  if 0 ≤ i then slots[i.toNat]? else none

/-- The test `TArray::IsValidIndex`. -/
def IsValidIndex (slots : List FSequentialInteraction) (i : Int) : Bool :=
  decide (0 ≤ i) && decide (i < (slots.length : Int))

/-! ## `UInteraction` -/

namespace UInteraction

/-- Run the bound handler of `OnInteractionCancelled`, if any. -/
def BroadcastCancelled (H : Handlers) (bound : Bool) (r : EInteractionCancelReason)
    (w : World) : Except Fault World :=
  if bound then H.OnInteractionCancelled r w else .ok w

/-- Run the bound handler of `OnInteractionEnded`, if any. -/
def BroadcastEnded (H : Handlers) (bound : Bool) (b : Bool) (w : World) : Except Fault World :=
  if bound then H.OnInteractionEnded b w else .ok w

/-- `UInteraction::CancelInteraction`: clear the active flag, broadcast
`OnInteractionCancelled`, then fire the blueprint event. -/
def CancelInteraction (H : Handlers) (self : Nat) (CancelReason : EInteractionCancelReason)
    (w : World) : Except Fault World :=
  match w.Objects[self]? with
  | none => .error .nullDeref
  | some o =>
    let w1 := w.setObject self { o with bIsActive := false }
    let w2 := w1.emit (.BroadcastCancelled self CancelReason)
    match BroadcastCancelled H o.OnInteractionCancelled CancelReason w2 with
    | .error e => .error e
    | .ok w3 => .ok (w3.emit (.InteractionCancelled self CancelReason))

/-- The loop of `UInteraction::AreInteractionConditionsMet` from condition number
`k` on: the result and the evaluations made. -/
def AreInteractionConditionsMet.loop (self : Nat) (actor : Option AActor) :
    List UInteractionCondition → Nat → Bool × List Signal
  | [], _ => (true, [])
  | c :: cs, k =>
    let bConditionsMet := c.CheckInteractionConditions actor
    let bConditionsMet := if c.InvertCondition then !bConditionsMet else bConditionsMet
    if !bConditionsMet then (false, [.CheckInteractionConditions self k])
    else
      let r := AreInteractionConditionsMet.loop self actor cs (k + 1)
      (r.1, .CheckInteractionConditions self k :: r.2)

/-- `UInteraction::AreInteractionConditionsMet`. -/
def AreInteractionConditionsMet (self : Nat) (w : World) : Except Fault (Bool × World) :=
  match w.Objects[self]? with
  | none => .error .nullDeref
  | some o =>
    let r := AreInteractionConditionsMet.loop self o.InteractingActor o.Conditions 0
    .ok (r.1, w.emitAll r.2)

/-- `UInteraction::CanActivateInteraction`. -/
def CanActivateInteraction (self : Nat) (w : World) : Except Fault (Bool × World) :=
  AreInteractionConditionsMet self w

/-- `UInteraction::ActivateInteraction`. -/
def ActivateInteraction (self : Nat) (w : World) : Except Fault World :=
  match w.Objects[self]? with
  | none => .error .nullDeref
  | some o =>
    .ok ((w.setObject self { o with bIsActive := true }).emit (.InteractionActivated self))

/-- `UInteraction::TryActivateInteraction`. -/
def TryActivateInteraction (H : Handlers) (self : Nat) (ActivatingActor : Option AActor)
    (w : World) : Except Fault World :=
  match w.Objects[self]? with
  | none => .error .nullDeref
  | some o =>
    if !IsValid ActivatingActor then
      .ok (w.emit (.InteractionCancelled self .Cancel_Failed))
    else
      let w1 := w.setObject self { o with InteractingActor := ActivatingActor }
      match CanActivateInteraction self w1 with
      | .error e => .error e
      | .ok (can, w2) =>
        if !can then CancelInteraction H self .Cancel_ConditionsNotMet w2
        else ActivateInteraction self w2

/-- The loop of `UInteraction::CanCommitInteraction` from condition number `k`
on. -/
def CanCommitInteraction.loop (H : Handlers) (self : Nat) (actor : Option AActor) :
    List UInteractionCondition → Nat → World → Except Fault (Bool × World)
  | [], _, w => .ok (true, w)
  | c :: cs, k, w =>
    let w1 := w.emit (.CheckInteractionConditions self k)
    if c.CheckInteractionConditions actor then
      match CancelInteraction H self .Cancel_ConditionsNotMet w1 with
      | .error e => .error e
      | .ok w2 => .ok (false, w2)
    else CanCommitInteraction.loop H self actor cs (k + 1) w1

/-- `UInteraction::CanCommitInteraction`. -/
def CanCommitInteraction (H : Handlers) (self : Nat) (w : World) : Except Fault (Bool × World) :=
  match w.Objects[self]? with
  | none => .error .nullDeref
  | some o => CanCommitInteraction.loop H self o.InteractingActor o.Conditions 0 w

/-- `UInteraction::CommitInteraction`. When `CanCommitInteraction` refuses, the
log line of that branch evaluates `InteractingActor->GetName()` before
`InteractionCommitted` fires. -/
def CommitInteraction (H : Handlers) (self : Nat) (bBypassRequirements : Bool)
    (w : World) : Except Fault World :=
  if !bBypassRequirements then
    match CanCommitInteraction H self w with
    | .error e => .error e
    | .ok (bCanCommit, w1) =>
      if !bCanCommit then
        match w1.Objects[self]? with
        | none => .error .nullDeref
        | some o =>
          match o.InteractingActor with
          | none => .error .nullDeref
          | some _ => .ok (w1.emit (.InteractionCommitted self))
      else .ok (w1.emit (.InteractionCommitted self))
  else .ok (w.emit (.InteractionCommitted self))

/-- `UInteraction::EndInteraction`: nothing unless active; otherwise broadcast
`OnInteractionEnded(true)`, clear the active flag, fire the blueprint event. -/
def EndInteraction (H : Handlers) (self : Nat) (w : World) : Except Fault World :=
  match w.Objects[self]? with
  | none => .error .nullDeref
  | some o =>
    if o.bIsActive == false then .ok w
    else
      let w1 := w.emit (.BroadcastEnded self true)
      match BroadcastEnded H o.OnInteractionEnded true w1 with
      | .error e => .error e
      | .ok w2 =>
        match w2.Objects[self]? with
        | none => .error .nullDeref
        | some o2 =>
          .ok ((w2.setObject self { o2 with bIsActive := false }).emit (.InteractionEnded self))

end UInteraction

/-! ## `USequentialInteractionComponent` -/

/-- The engine call `DuplicateObject`: a new object of the same class whose
reflected properties are copied from the source.  `bIsActive` is not a reflected
property and keeps the value the constructor gives it. -/
def DuplicateObject (t : UInteraction) : UInteraction :=
  { t with bIsActive := false }

/-- The constructor `USequentialInteractionComponent()` for a configured slot
array. -/
def USequentialInteractionComponent.ctor (slots : List FSequentialInteraction) :
    USequentialInteractionComponent :=
  { SequentialInteractions := slots
    CurrentSequentialInteractionIndex := -1
    CurrentlyInteractingActor := none
    ActiveInteractionInstance := none
    CurrentInteractionState := .SequentialState_Idle }

/-- `USequentialInteractionComponent::EndSequentialInteractions`. -/
def EndSequentialInteractions (w : World) : World :=
  (w.setIndex (-1)).setState .SequentialState_Idle

/-- `USequentialInteractionComponent::HasInteractionBeenCompleted`. -/
def HasInteractionBeenCompleted (w : World) (InteractionIndex : Int) : Bool :=
  if !IsValidIndex w.Component.SequentialInteractions InteractionIndex then false
  else
    match slotAt w.Component.SequentialInteractions InteractionIndex with
    | none => false
    | some s => s.bInteractionComplete

/-- `USequentialInteractionComponent::OnInteractionEnded`, with the call of
`StartNextSequentialInteraction` in its last line passed in as `next`. -/
def OnInteractionEndedWith (next : World → Except Fault World) (bCompletedSuccessfully : Bool)
    (w : World) : Except Fault World :=
  match w.Component.ActiveInteractionInstance with
  | none => .error .nullDeref
  | some p =>
    match w.Objects[p]? with
    | none => .error .nullDeref
    | some inst =>
      let bStartNextInteractionAutomatically := inst.bStartNextInteractionAutomatically
      let w1 := w.setActiveInstance none
      let idx := w1.Component.CurrentSequentialInteractionIndex
      if !IsValidIndex w1.Component.SequentialInteractions idx then
        .ok (w1.setState .SequentialState_Failed)
      else
        match slotAt w1.Component.SequentialInteractions idx with
        | none => .error .outOfBounds
        | some slot =>
          let w2 :=
            if !slot.SequentialInteraction.bCanRepeatInteraction then
              w1.setSlots (markComplete w1.Component.SequentialInteractions idx.toNat)
            else w1
          let w3 := w2.setState .SequentialState_Waiting
          let w4 :=
            if idx == (w3.Component.SequentialInteractions.length : Int) - 1
                || (!bCompletedSuccessfully && slot.bResetInteractionsOnConditionsFail) then
              EndSequentialInteractions w3
            else w3
          if bStartNextInteractionAutomatically then next w4 else .ok w4

/-- `USequentialInteractionComponent::OnInteractionCancelled` (its debug drawing
left out), with the same parameter as `OnInteractionEndedWith`. -/
def OnInteractionCancelledWith (next : World → Except Fault World)
    (_CancelReason : EInteractionCancelReason) (w : World) : Except Fault World :=
  OnInteractionEndedWith next false w

/-- The handlers the component binds, given what its
`StartNextSequentialInteraction` does. -/
def handlersWith (next : World → Except Fault World) : Handlers :=
  { OnInteractionEnded := OnInteractionEndedWith next
    OnInteractionCancelled := OnInteractionCancelledWith next }

/-- The search loop of `StartNextSequentialInteraction`: `steps` iterations from
index `idx`, giving the first index whose slot is not complete. -/
def scanSlots (slots : List FSequentialInteraction) : Nat → Int → Except Fault (Option Int)
  | 0, _ => .ok none
  | steps + 1, idx =>
    match slotAt slots idx with
    | none => .error .outOfBounds
    | some s =>
      if !s.bInteractionComplete then .ok (some idx)
      else scanSlots slots steps (idx + 1)

/-- The two `AddDynamic` calls on the object at `p`. -/
def World.bindHandlers (w : World) (p : Nat) : World :=
  match w.Objects[p]? with
  | none => w
  | some o => w.setObject p { o with OnInteractionEnded := true, OnInteractionCancelled := true }

/-- `USequentialInteractionComponent::StartNextSequentialInteraction`. -/
def StartNextSequentialInteraction : Nat → World → Except Fault World
  | 0, w => .error (.outOfFuel w)
  | fuel + 1, w =>
    let MaxPotentialIndex : Int := (w.Component.SequentialInteractions.length : Int) - 1
    let first := w.Component.CurrentSequentialInteractionIndex + 1
    match scanSlots w.Component.SequentialInteractions (MaxPotentialIndex - first + 1).toNat first with
    | .error e => .error e
    | .ok none => .ok (EndSequentialInteractions w)
    | .ok (some PotentialInteractionIndex) =>
      let w1 := w.setIndex PotentialInteractionIndex
      match slotAt w1.Component.SequentialInteractions
          w1.Component.CurrentSequentialInteractionIndex with
      | none => .error .outOfBounds
      | some CurrentSequentialInteraction =>
        let p := w1.Objects.length
        let w2 : World :=
          { w1 with Objects := w1.Objects ++ [DuplicateObject CurrentSequentialInteraction.SequentialInteraction] }
        let w3 := w2.setActiveInstance (some p)
        let w4 := w3.bindHandlers p
        match UInteraction.TryActivateInteraction
            (handlersWith (StartNextSequentialInteraction fuel)) p
            w4.Component.CurrentlyInteractingActor w4 with
        | .error e => .error e
        | .ok w5 =>
          if w5.Component.ActiveInteractionInstance.isSome then
            .ok (w5.setState .SequentialState_InProgress)
          else .ok w5

/-- The handlers bound to a working instance, at a given fuel. -/
def componentHandlers (fuel : Nat) : Handlers :=
  handlersWith (StartNextSequentialInteraction fuel)

/-- `USequentialInteractionComponent::OnInteractionEnded`. -/
def OnInteractionEnded (fuel : Nat) (bCompletedSuccessfully : Bool) (w : World) :
    Except Fault World :=
  OnInteractionEndedWith (StartNextSequentialInteraction fuel) bCompletedSuccessfully w

/-- `USequentialInteractionComponent::OnInteractionCancelled`. -/
def OnInteractionCancelled (fuel : Nat) (CancelReason : EInteractionCancelReason) (w : World) :
    Except Fault World :=
  OnInteractionCancelledWith (StartNextSequentialInteraction fuel) CancelReason w

/-- `USequentialInteractionComponent::StartSequentialInteractions`. -/
def StartSequentialInteractions (fuel : Nat) (InteractingActor : Option AActor) (w : World) :
    Except Fault World :=
  if w.Component.ActiveInteractionInstance.isSome then .ok w
  else
    let w1 := w.setState .SequentialState_Waiting
    if !IsValid InteractingActor then .ok w1
    else
      let w2 := w1.setActor InteractingActor
      StartNextSequentialInteraction fuel w2

/-! ## Vocabulary of the statements -/

/-- What `AreInteractionConditionsMet` computes: every condition, after its
inversion, holds for the actor. -/
def conditionsPass (actor : Option AActor) (cs : List UInteractionCondition) : Bool :=
  cs.all (fun c => xor (c.CheckInteractionConditions actor) c.InvertCondition)

/-- The evaluations `AreInteractionConditionsMet` makes, in order. -/
def evaluations (self : Nat) (actor : Option AActor) (cs : List UInteractionCondition) :
    List Signal :=
  (UInteraction.AreInteractionConditionsMet.loop self actor cs 0).2

/-- Continue a call that returned by firing a signal. -/
def thenEmit (sig : Signal) : Except Fault World → Except Fault World
  | .error e => .error e
  | .ok w => .ok (w.emit sig)

/-- The rest of `EndInteraction` once the broadcast has returned: clear the
active flag of the object at `p` and fire `InteractionEnded`. -/
def thenEnded (p : Nat) : Except Fault World → Except Fault World
  | .error e => .error e
  | .ok w =>
    match w.Objects[p]? with
    | none => .error .nullDeref
    | some o => .ok ((w.setObject p { o with bIsActive := false }).emit (.InteractionEnded p))

/-- The last step of `StartNextSequentialInteraction` after `TryActivateInteraction`
returned: the state becomes in-progress if an instance is active. -/
def thenInProgress : Except Fault World → Except Fault World
  | .error e => .error e
  | .ok w =>
    if w.Component.ActiveInteractionInstance.isSome then
      .ok (w.setState .SequentialState_InProgress)
    else .ok w

/-- The working instance made from a template: the duplicate, with the
component's two handlers bound. -/
def workingCopy (t : UInteraction) : UInteraction :=
  { DuplicateObject t with OnInteractionEnded := true, OnInteractionCancelled := true }

/-- The state in which `StartNextSequentialInteraction` calls
`TryActivateInteraction` once it has chosen slot `i`: the cursor is `i` and the
working copy of the slot's template is the new, active instance. -/
def World.enterSlot (w : World) (i : Nat) (s : FSequentialInteraction) : World :=
  { Component :=
      { w.Component with
        CurrentSequentialInteractionIndex := (i : Int)
        ActiveInteractionInstance := some w.Objects.length }
    Objects := w.Objects ++ [workingCopy s.SequentialInteraction]
    Log := w.Log }

/-- Slot `i` is the first slot after the cursor `c` that is not complete. -/
def FirstIncompleteAfter (slots : List FSequentialInteraction) (c : Int) (i : Nat) : Prop :=
  c < (i : Int) ∧ (∃ s, slots[i]? = some s ∧ s.bInteractionComplete = false) ∧
    ∀ (k : Nat) (t : FSequentialInteraction), c < (k : Int) → k < i →
      slots[k]? = some t → t.bInteractionComplete = true

/-- Every slot after the cursor `c` is complete. -/
def AllCompleteAfter (slots : List FSequentialInteraction) (c : Int) : Prop :=
  ∀ (k : Nat) (t : FSequentialInteraction), c < (k : Int) →
    slots[k]? = some t → t.bInteractionComplete = true

/-- Does `OnInteractionEnded` run `EndSequentialInteractions` for an outcome
reported at slot `i`? -/
def endsSequence (slots : List FSequentialInteraction) (i : Nat) (s : FSequentialInteraction)
    (bCompletedSuccessfully : Bool) : Bool :=
  decide ((i : Int) = (slots.length : Int) - 1)
    || (!bCompletedSuccessfully && s.bResetInteractionsOnConditionsFail)

/-- The slot array after the marking step of `OnInteractionEnded` at slot `i`. -/
def markedSlots (slots : List FSequentialInteraction) (i : Nat) (s : FSequentialInteraction) :
    List FSequentialInteraction :=
  if s.SequentialInteraction.bCanRepeatInteraction then slots
  else slots.set i { s with bInteractionComplete := true }

/-- The state `OnInteractionEnded` reaches before its last line, for an outcome
reported at the valid cursor `i` whose slot is `s`. -/
def World.afterOutcome (w : World) (i : Nat) (s : FSequentialInteraction)
    (bCompletedSuccessfully : Bool) : World :=
  { w with
    Component :=
      { SequentialInteractions := markedSlots w.Component.SequentialInteractions i s
        CurrentSequentialInteractionIndex :=
          if endsSequence w.Component.SequentialInteractions i s bCompletedSuccessfully
          then -1 else (i : Int)
        CurrentlyInteractingActor := w.Component.CurrentlyInteractingActor
        ActiveInteractionInstance := none
        CurrentInteractionState :=
          if endsSequence w.Component.SequentialInteractions i s bCompletedSuccessfully
          then .SequentialState_Idle else .SequentialState_Waiting } }

/-- The object a signal is about. -/
def Signal.obj : Signal → Nat
  | .CheckInteractionConditions q _ => q
  | .InteractionActivated q => q
  | .InteractionCommitted q => q
  | .InteractionCancelled q _ => q
  | .InteractionEnded q => q
  | .BroadcastEnded q _ => q
  | .BroadcastCancelled q _ => q

/-- The relation `R` holds between `w` and the state in which a call made in `w`
returns, or in which its chain of nested calls is cut off. -/
def Reaches (R : World → World → Prop) (w : World) : Except Fault World → Prop
  | .ok w' => R w w'
  | .error (.outOfFuel w') => R w w'
  | .error _ => True

/-- A relation between states that every elementary step of the component and of
its working instance respects. -/
structure ChainRel (R : World → World → Prop) : Prop where
  refl : ∀ w, R w w
  trans : ∀ {a b c}, R a b → R b c → R a c
  endSeq : ∀ w, w.Component.ActiveInteractionInstance = none →
    R w (EndSequentialInteractions w)
  enter : ∀ w (i : Nat) s, w.Component.ActiveInteractionInstance = none →
    w.Component.SequentialInteractions[i]? = some s → s.bInteractionComplete = false →
    w.Component.CurrentSequentialInteractionIndex < (i : Int) → R w (w.enterSlot i s)
  log : ∀ w p l, w.Component.ActiveInteractionInstance = some p →
    (∀ sig ∈ l, sig.obj = p) → R w (w.emitAll l)
  cancelEvent : ∀ w w3, w.Component.ActiveInteractionInstance = none → R w w3 →
    R w (w3.emit (.InteractionCancelled w.Objects.length .Cancel_ConditionsNotMet))
  obj : ∀ w p o a b, w.Component.ActiveInteractionInstance = some p →
    w.Objects[p]? = some o →
    R w (w.setObject p { o with InteractingActor := a, bIsActive := b })
  outcome : ∀ w p inst (i : Nat) s b, w.Component.ActiveInteractionInstance = some p →
    w.Objects[p]? = some inst → w.Component.CurrentSequentialInteractionIndex = (i : Int) →
    w.Component.SequentialInteractions[i]? = some s → R w (w.afterOutcome i s b)
  progress : ∀ w, w.Component.ActiveInteractionInstance.isSome = true →
    R w (w.setState .SequentialState_InProgress)
  failed : ∀ w p, w.Component.ActiveInteractionInstance = some p →
    IsValidIndex w.Component.SequentialInteractions
      w.Component.CurrentSequentialInteractionIndex = false →
    R w ((w.setActiveInstance none).setState .SequentialState_Failed)
  start : ∀ w a, w.Component.ActiveInteractionInstance = none →
    R w ((w.setState .SequentialState_Waiting).setActor a)
  waiting : ∀ w, w.Component.ActiveInteractionInstance = none →
    R w (w.setState .SequentialState_Waiting)

/-! ## Concrete configurations -/

/-- A valid instigating actor. -/
def actorE : Option AActor := some { name := 1, bValid := true }

/-- A template as a designer configures it: the two behaviour flags and the
conditions; no instigator, not active, nothing bound. -/
def template (bCanRepeat bStartNext : Bool) (cs : List UInteractionCondition) : UInteraction :=
  { Conditions := cs
    bCanRepeatInteraction := bCanRepeat
    bStartNextInteractionAutomatically := bStartNext
    InteractingActor := none
    bIsActive := false
    OnInteractionEnded := false
    OnInteractionCancelled := false }

/-- A slot as `FSequentialInteraction()` leaves it, around a template. -/
def slotOf (t : UInteraction) (bReset : Bool) : FSequentialInteraction :=
  { SequentialInteraction := t
    bResetInteractionsOnConditionsFail := bReset
    bInteractionComplete := false }

/-- The state after construction: the component as its constructor leaves it, no
working instance on the heap, an empty log. -/
def initialWorld (slots : List FSequentialInteraction) : World :=
  { Component := USequentialInteractionComponent.ctor slots, Objects := [], Log := [] }

/-- Scenario A: two non-repeatable slots without conditions, the first of which
advances automatically. -/
def scenarioA : World :=
  initialWorld [slotOf (template false true []) false, slotOf (template false false []) false]

/-- Scenario B: a single non-repeatable slot whose condition is the base
condition, which evaluates to false. -/
def scenarioB : World :=
  initialWorld [slotOf (template false false [UInteractionCondition.base]) false]

/-- The state in which `StartSequentialInteractions` calls
`StartNextSequentialInteraction` for the instigator `a`. -/
def World.started (w : World) (a : Option AActor) : World :=
  (w.setState .SequentialState_Waiting).setActor a

/-! ## Completion flags over time -/

/-- The slot array `new` comes from `old` by marking some non-repeatable slots
complete and changing nothing else. -/
def SlotsAdvance (old new : List FSequentialInteraction) : Prop :=
  new.length = old.length ∧
    ∀ (j : Nat) (s : FSequentialInteraction), old[j]? = some s →
      new[j]? = some s
        ∨ (s.SequentialInteraction.bCanRepeatInteraction = false
            ∧ new[j]? = some { s with bInteractionComplete := true })

/-- Every slot that is complete in `w` is complete in `w'`. -/
def FlagsKept (w w' : World) : Prop :=
  ∀ (j : Nat) (s : FSequentialInteraction), w.Component.SequentialInteractions[j]? = some s →
    s.bInteractionComplete = true →
    ∃ s', w'.Component.SequentialInteractions[j]? = some s' ∧ s'.bInteractionComplete = true

/-- The state a call returned, or `d` if it did not return. -/
def returned (d : World) : Except Fault World → World
  | .ok w => w
  | .error _ => d

/-- Scenario A after `StartSequentialInteractions` for the actor `actorE`: the
copy of slot 0 is the active instance. -/
def scenarioA1 : World :=
  returned scenarioA (StartSequentialInteractions 1 actorE scenarioA)

/-- A state holding one interaction object, at address 0, next to a component
without slots. -/
def isolated (o : UInteraction) : World :=
  { Component := USequentialInteractionComponent.ctor [], Objects := [o], Log := [] }

/-- The state in which `StartNextSequentialInteraction` calls
`TryActivateInteraction` on the copy of the slot of scenario B when the recorded
instigator is null. -/
def scenarioBNullActor : World :=
  (scenarioB.started none).enterSlot 0
    (slotOf (template false false [UInteractionCondition.base]) false)

/-- Scenario A after the copy of slot 0 has ended successfully: the copy of slot
1 is the active instance. -/
def scenarioA2 : World :=
  returned scenarioA1 (UInteraction.EndInteraction (componentHandlers 1) 0 scenarioA1)

/-- The state `StartNextSequentialInteraction` returns when it enters slot `i`
and the copy of its template activates: cursor `i`, the active copy as a new
object and as the active instance, the evaluations and `InteractionActivated` in
the log, state in-progress. -/
def World.activatedAt (w : World) (i : Nat) (s : FSequentialInteraction) : World :=
  { Component :=
      { w.Component with
        CurrentSequentialInteractionIndex := (i : Int)
        ActiveInteractionInstance := some w.Objects.length
        CurrentInteractionState := .SequentialState_InProgress }
    Objects := w.Objects ++ [{ workingCopy s.SequentialInteraction with
      InteractingActor := w.Component.CurrentlyInteractingActor, bIsActive := true }]
    Log := w.Log ++ evaluations w.Objects.length w.Component.CurrentlyInteractingActor
        s.SequentialInteraction.Conditions
      ++ [.InteractionActivated w.Objects.length] }

/-- The state in which the component's `OnInteractionCancelled` runs when the
copy made for slot `i` fails a condition during activation. -/
def World.cancelledAt (w : World) (i : Nat) (s : FSequentialInteraction) : World :=
  { Component :=
      { w.Component with
        CurrentSequentialInteractionIndex := (i : Int)
        ActiveInteractionInstance := some w.Objects.length }
    Objects := w.Objects ++ [{ workingCopy s.SequentialInteraction with
      InteractingActor := w.Component.CurrentlyInteractingActor, bIsActive := false }]
    Log := w.Log ++ evaluations w.Objects.length w.Component.CurrentlyInteractingActor
        s.SequentialInteraction.Conditions
      ++ [.BroadcastCancelled w.Objects.length .Cancel_ConditionsNotMet] }

/-! ## Sequences of lifecycle calls on one interaction -/

/-- A call that a script can make on an interaction object. -/
inductive LifecycleCall
  | TryActivate (a : Option AActor)
  | CanCommit
  | Commit (bBypassRequirements : Bool)
  | End
  | Cancel (r : EInteractionCancelReason)

/-- Make one call on the object at `p`. -/
def LifecycleCall.run (H : Handlers) (p : Nat) : LifecycleCall → World → Except Fault World
  | .TryActivate a, w => UInteraction.TryActivateInteraction H p a w
  | .CanCommit, w =>
    match UInteraction.CanCommitInteraction H p w with
    | .error e => .error e
    | .ok r => .ok r.2
  | .Commit b, w => UInteraction.CommitInteraction H p b w
  | .End, w => UInteraction.EndInteraction H p w
  | .Cancel r, w => UInteraction.CancelInteraction H p r w

/-- Make the calls of a list, in order, on the object at `p`. -/
def runCalls (H : Handlers) (p : Nat) : List LifecycleCall → World → Except Fault World
  | [], w => .ok w
  | c :: cs, w =>
    match c.run H p w with
    | .error e => .error e
    | .ok w' => runCalls H p cs w'

/-- Is the call a `CancelInteraction`? -/
def LifecycleCall.isCancel : LifecycleCall → Bool
  | .Cancel _ => true
  | _ => false

/-- Is the signal a broadcast of `OnInteractionEnded` by the object at `p`? -/
def isEnded (p : Nat) : Signal → Bool
  | .BroadcastEnded q _ => q == p
  | _ => false

/-- Is the signal a broadcast of `OnInteractionCancelled` by the object at `p`? -/
def isCancelled (p : Nat) : Signal → Bool
  | .BroadcastCancelled q _ => q == p
  | _ => false

/-- Is the signal the event `InteractionActivated` of the object at `p`? -/
def isActivated (p : Nat) : Signal → Bool
  | .InteractionActivated q => q == p
  | _ => false

/-- One if the interaction is active, zero otherwise. -/
def activeUnits (o : UInteraction) : Nat := if o.bIsActive then 1 else 0

/-! ## Objects that a call chain leaves alone -/

/-- A chain of calls that starts in `w` with at least `N` objects on the heap and
an active instance, if any, at an address from `N` on, ends in `w'` likewise,
with the first `N` objects as they were and a log extended only by signals about
objects from `N` on. -/
def FrameRel (N : Nat) (w w' : World) : Prop :=
  N ≤ w.Objects.length → (∀ p, w.Component.ActiveInteractionInstance = some p → N ≤ p) →
    N ≤ w'.Objects.length
      ∧ (∀ p, w'.Component.ActiveInteractionInstance = some p → N ≤ p)
      ∧ (∀ q, q < N → w'.Objects[q]? = w.Objects[q]?)
      ∧ ∃ ext, w'.Log = w.Log ++ ext ∧ ∀ sig ∈ ext, N ≤ sig.obj

/-- The objects of `w` are as they were in `w'`, and the log has been extended
only by signals about objects created since. -/
def Untouched (w w' : World) : Prop :=
  w.Objects.length ≤ w'.Objects.length
    ∧ (∀ q, q < w.Objects.length → w'.Objects[q]? = w.Objects[q]?)
    ∧ ∃ ext, w'.Log = w.Log ++ ext ∧ ∀ sig ∈ ext, w.Objects.length ≤ sig.obj

/-! ## Handlers that leave an object alone -/

/-- Between `w` and `w'` the object at `p` is unchanged and the log has gained
no signal about it. -/
def QuietStep (p : Nat) (w w' : World) : Prop :=
  w'.Objects[p]? = w.Objects[p]? ∧ ∃ ext, w'.Log = w.Log ++ ext ∧ ∀ sig ∈ ext, sig.obj ≠ p

/-- Handlers that, when they return, have left the object at `p` alone. -/
def Handlers.Quiet (H : Handlers) (p : Nat) : Prop :=
  ∀ (w w' : World), p < w.Objects.length →
    (∀ b, H.OnInteractionEnded b w = .ok w' → QuietStep p w w')
      ∧ (∀ r, H.OnInteractionCancelled r w = .ok w' → QuietStep p w w')

/-- Scenario A after its start and then `EndInteraction`, `EndInteraction` and
`CancelInteraction` on the copy of slot 0. -/
def scenarioA1Ended : World :=
  returned scenarioA1
    (runCalls (componentHandlers 1) 0 [.End, .End, .Cancel .Cancel_Cancelled] scenarioA1)

/-! ## Further concrete configurations -/

/-- Two non-repeatable slots without conditions, neither of which advances
automatically. -/
def scenarioManual : World :=
  initialWorld [slotOf (template false false []) false, slotOf (template false false []) false]

/-- The configuration `scenarioManual` after `StartSequentialInteractions` for
`actorE` and `EndInteraction` on the copy of slot 0: slot 0 is complete, slot 1
is not, no instance is active. -/
def scenarioManualHalf : World :=
  returned scenarioManual
    (UInteraction.EndInteraction (componentHandlers 0) 0
      (returned scenarioManual (StartSequentialInteractions 1 actorE scenarioManual)))

/-! ## Vocabulary for committing -/

/-- The rest of `CanCommitInteraction` once `CancelInteraction` has returned: the
answer is false. -/
def thenRefuse : Except Fault World → Except Fault (Bool × World)
  | .error e => .error e
  | .ok w => .ok (false, w)

/-- The rest of `CommitInteraction` once `CanCommitInteraction` has returned:
after a refusal the log line reads the name of the recorded instigator; then,
whatever the answer, `InteractionCommitted` fires. -/
def thenCommitted (p : Nat) : Except Fault (Bool × World) → Except Fault World
  | .error e => .error e
  | .ok (bCanCommit, w) =>
    if !bCanCommit then
      match w.Objects[p]? with
      | none => .error .nullDeref
      | some o =>
        match o.InteractingActor with
        | none => .error .nullDeref
        | some _ => .ok (w.emit (.InteractionCommitted p))
    else .ok (w.emit (.InteractionCommitted p))

/-- The evaluations of `n` conditions of the object at `p`, from the condition
with index `k` on, in order. -/
def checksFrom (p : Nat) : Nat → Nat → List Signal
  | _, 0 => []
  | k, n + 1 => .CheckInteractionConditions p k :: checksFrom p (k + 1) n

/-- The unmodified result of a condition for an actor. -/
def rawResult (actor : Option AActor) (c : UInteractionCondition) : Bool :=
  c.CheckInteractionConditions actor

/-- Is the signal the event `InteractionCommitted` of the object at `p`? -/
def isCommitted (p : Nat) : Signal → Bool
  | .InteractionCommitted q => q == p
  | _ => false

/-- A condition of a subclass whose check answers true for every actor. -/
def UInteractionCondition.always (invert : Bool) : UInteractionCondition :=
  { CheckInteractionConditions := fun _ => true, InvertCondition := invert }

/-- An active interaction for `actorE`, with nothing bound, whose second
condition is the first with a true raw result; that condition is inverted. -/
def committing : UInteraction :=
  { template true false
      [UInteractionCondition.base, UInteractionCondition.always true,
        UInteractionCondition.base] with
    InteractingActor := actorE, bIsActive := true }

/-! ## Configurations for the restart from the top -/

/-- A non-repeatable first slot without conditions that advances automatically
and resets on failure, and a repeatable last slot whose base condition fails
and which does not advance automatically. -/
def scenarioRestart : World :=
  initialWorld [slotOf (template false true []) true,
    slotOf (template true false [UInteractionCondition.base]) false]

/-- The configuration `scenarioRestart` after `StartSequentialInteractions` for
`actorE`: the copy of slot 0 is the active instance. -/
def scenarioRestart1 : World :=
  returned scenarioRestart (StartSequentialInteractions 1 actorE scenarioRestart)

/-- A single repeatable slot without conditions that advances automatically. -/
def scenarioRepeat : World :=
  initialWorld [slotOf (template true true []) false]

/-- The configuration `scenarioRepeat` after `StartSequentialInteractions` for
`actorE`: the copy of the slot is the active instance. -/
def scenarioRepeat1 : World :=
  returned scenarioRepeat (StartSequentialInteractions 1 actorE scenarioRepeat)

/-! ## Configurations that never come to rest -/

/-- A slot of a sequence that cannot come to rest for the instigator `E`: not
complete, with a repeatable template that advances automatically and whose
conditions fail for `E`. -/
def Restless (E : Option AActor) (s : FSequentialInteraction) : Prop :=
  s.SequentialInteraction.bCanRepeatInteraction = true
    ∧ s.SequentialInteraction.bStartNextInteractionAutomatically = true
    ∧ conditionsPass E s.SequentialInteraction.Conditions = false
    ∧ s.bInteractionComplete = false

/-- A single repeatable slot that advances automatically and whose base
condition fails. -/
def scenarioLoop : World :=
  initialWorld [slotOf (template true true [UInteractionCondition.base]) false]

/-! ## The states between top-level operations -/

/-- An instance is active exactly when the state is in-progress. -/
def InstanceMatchesState (w : World) : Prop :=
  w.Component.ActiveInteractionInstance.isSome = true
    ↔ w.Component.CurrentInteractionState = .SequentialState_InProgress

/-- Every interaction object that is active, the address `x` apart, is the
component's active instance. -/
def OnlyInstanceActive (x : Option Nat) (w : World) : Prop :=
  ∀ (q : Nat) (o : UInteraction), w.Objects[q]? = some o → x ≠ some q → o.bIsActive = true →
    w.Component.ActiveInteractionInstance = some q

/-- No interaction object, the address `x` apart, is active. -/
def NoneActive (x : Option Nat) (w : World) : Prop :=
  ∀ (q : Nat) (o : UInteraction), w.Objects[q]? = some o → x ≠ some q → o.bIsActive = false

/-- The states in which a component constructed with the slots `slots` can be
found between two top-level operations: the state after construction, the state
in which a call of `StartSequentialInteractions` returns, and the state in which
a lifecycle call on the active working instance, through which that instance
reports its outcome to the component, returns. -/
inductive Reachable (slots : List FSequentialInteraction) : World → Prop
  | init : Reachable slots (initialWorld slots)
  | start (fuel : Nat) (a : Option AActor) (w w' : World) :
      Reachable slots w → StartSequentialInteractions fuel a w = .ok w' → Reachable slots w'
  | report (fuel : Nat) (c : LifecycleCall) (p : Nat) (w w' : World) :
      Reachable slots w → w.Component.ActiveInteractionInstance = some p →
      c.run (componentHandlers fuel) p w = .ok w' → Reachable slots w'

/-- An active interaction for `actorE`, with nothing bound, whose only condition
is not inverted and has a true raw result: its activation conditions are met. -/
def activated : UInteraction :=
  { template true false [UInteractionCondition.always false] with
    InteractingActor := actorE, bIsActive := true }

/-- The cursor is none (`-1`) or the index of a slot, it is the index of a slot
when an instance is active, and the state is not failed. -/
def CursorInRange (w : World) : Prop :=
  (w.Component.CurrentSequentialInteractionIndex = -1
      ∨ (0 ≤ w.Component.CurrentSequentialInteractionIndex
          ∧ w.Component.CurrentSequentialInteractionIndex
              < (w.Component.SequentialInteractions.length : Int)))
    ∧ (w.Component.ActiveInteractionInstance.isSome = true →
        0 ≤ w.Component.CurrentSequentialInteractionIndex
          ∧ w.Component.CurrentSequentialInteractionIndex
              < (w.Component.SequentialInteractions.length : Int))
    ∧ w.Component.CurrentInteractionState ≠ .SequentialState_Failed

/-! ## A measure for chains over non-repeatable slots -/

/-- The number of slots that are not complete. -/
def incompleteCount (slots : List FSequentialInteraction) : Nat :=
  slots.countP (fun s => !s.bInteractionComplete)

/-! ## Two runs that differ in one field -/

/-- Apply a change of the state to the state a call returns, or to the state in
which its chain is cut off. -/
def liftResult (f : World → World) : Except Fault World → Except Fault World
  | .ok w => .ok (f w)
  | .error (.outOfFuel w) => .error (.outOfFuel (f w))
  | .error .nullDeref => .error .nullDeref
  | .error .outOfBounds => .error .outOfBounds

/-- How `StartNextSequentialInteraction` goes on once it has entered slot `i`,
with `next` for the nested call of itself: the copy activates, or it is
cancelled and the component handles the outcome, or (without a valid
instigator) the copy stays as the instance. -/
def enteredResult (next : World → Except Fault World) (w : World) (i : Nat)
    (s : FSequentialInteraction) : Except Fault World :=
  if IsValid w.Component.CurrentlyInteractingActor then
    if conditionsPass w.Component.CurrentlyInteractingActor s.SequentialInteraction.Conditions
    then .ok (w.activatedAt i s)
    else
      thenInProgress (thenEmit (.InteractionCancelled w.Objects.length .Cancel_ConditionsNotMet)
        (if s.SequentialInteraction.bStartNextInteractionAutomatically then
          next ((w.cancelledAt i s).afterOutcome i s false)
        else .ok ((w.cancelledAt i s).afterOutcome i s false)))
  else
    .ok (((w.enterSlot i s).emit
      (.InteractionCancelled w.Objects.length .Cancel_Failed)).setState
        .SequentialState_InProgress)

/-- The state with the automatic-advance flag of the template of slot `i`
set to `y`. -/
def World.setTemplateAuto (w : World) (i : Nat) (s : FSequentialInteraction) (y : Bool) :
    World :=
  w.setSlots (w.Component.SequentialInteractions.set i
    { s with SequentialInteraction :=
        { s.SequentialInteraction with bStartNextInteractionAutomatically := y } })

/-- The state in which the slot at index `i` is `t`. -/
def World.setSlot (w : World) (i : Nat) (t : FSequentialInteraction) : World :=
  w.setSlots (w.Component.SequentialInteractions.set i t)

/-- A sequence that cannot come to rest for the instigator `E` once its chain
runs: every slot is complete or restless, and the last slot is restless. -/
def RestlessTail (E : Option AActor) (slots : List FSequentialInteraction) : Prop :=
  (∀ s ∈ slots, s.bInteractionComplete = true ∨ Restless E s)
    ∧ ∃ s, slots[slots.length - 1]? = some s ∧ Restless E s

/-- A first slot that is non-repeatable, advances automatically and whose only
condition is not inverted and has a true raw result (its activation conditions
are met, its commit conditions are not), followed by a last slot that is
repeatable, advances automatically and whose base condition fails. -/
def scenarioStuck : World :=
  initialWorld [slotOf (template false true [UInteractionCondition.always false]) false,
    slotOf (template true true [UInteractionCondition.base]) false]

/-- The configuration `scenarioStuck` after `StartSequentialInteractions` for
`actorE`: the copy of slot 0 is the active instance. -/
def scenarioStuck1 : World :=
  returned scenarioStuck (StartSequentialInteractions 1 actorE scenarioStuck)

/-- The working copy of slot 0 of `scenarioStuck` once it is activated for
`actorE`, with both handlers of the component bound. -/
def stuckInstance : UInteraction :=
  { template false true [UInteractionCondition.always false] with
    InteractingActor := actorE, bIsActive := true,
    OnInteractionEnded := true, OnInteractionCancelled := true }

/-! ## Lists -/

theorem getElem?_lt_of_some {α : Type} {l : List α} {p : Nat} {o : α} (h : l[p]? = some o) :
    p < l.length := by
  by_contra hn
  rw [List.getElem?_eq_none (by omega)] at h
  cases h

/-! ## Conditions -/

theorem loop_fst (self : Nat) (actor : Option AActor) (cs : List UInteractionCondition) (k : Nat) :
    (UInteraction.AreInteractionConditionsMet.loop self actor cs k).1 = conditionsPass actor cs := by
  induction cs generalizing k with
  | nil => rfl
  | cons c cs ih =>
    simp only [UInteraction.AreInteractionConditionsMet.loop, conditionsPass, List.all_cons]
    cases hc : c.CheckInteractionConditions actor <;> cases hi : c.InvertCondition <;>
      simp [ih, conditionsPass]

theorem tryActivate_invalid (H : Handlers) (p : Nat) (a : Option AActor) (w : World)
    (o : UInteraction) (ho : w.Objects[p]? = some o) (ha : IsValid a = false) :
    UInteraction.TryActivateInteraction H p a w
      = .ok (w.emit (.InteractionCancelled p .Cancel_Failed)) := by
  simp [UInteraction.TryActivateInteraction, ho, ha]


theorem areConditionsMet_eq (p : Nat) (w : World) (o : UInteraction)
    (ho : w.Objects[p]? = some o) :
    UInteraction.AreInteractionConditionsMet p w
      = .ok (conditionsPass o.InteractingActor o.Conditions,
          w.emitAll (evaluations p o.InteractingActor o.Conditions)) := by
  simp [UInteraction.AreInteractionConditionsMet, ho, loop_fst, evaluations]

theorem cancel_eq (H : Handlers) (p : Nat) (r : EInteractionCancelReason) (w : World)
    (o : UInteraction) (ho : w.Objects[p]? = some o) :
    UInteraction.CancelInteraction H p r w
      = thenEmit (.InteractionCancelled p r)
          (UInteraction.BroadcastCancelled H o.OnInteractionCancelled r
            ((w.setObject p { o with bIsActive := false }).emit (.BroadcastCancelled p r))) := by
  simp only [UInteraction.CancelInteraction, ho]
  cases UInteraction.BroadcastCancelled H o.OnInteractionCancelled r
    ((w.setObject p { o with bIsActive := false }).emit (.BroadcastCancelled p r)) <;> rfl

theorem tryActivate_pass (H : Handlers) (p : Nat) (a : Option AActor) (w : World)
    (o : UInteraction) (ho : w.Objects[p]? = some o) (ha : IsValid a = true)
    (hc : conditionsPass a o.Conditions = true) :
    UInteraction.TryActivateInteraction H p a w
      = .ok (((w.setObject p { o with InteractingActor := a, bIsActive := true }).emitAll
          (evaluations p a o.Conditions)).emit (.InteractionActivated p)) := by
  have hp := getElem?_lt_of_some ho
  simp [UInteraction.TryActivateInteraction, ho, ha, UInteraction.CanActivateInteraction,
    UInteraction.AreInteractionConditionsMet, World.setObject, hp, loop_fst, hc,
    UInteraction.ActivateInteraction, World.emitAll, World.emit, evaluations]

theorem tryActivate_fail (H : Handlers) (p : Nat) (a : Option AActor) (w : World)
    (o : UInteraction) (ho : w.Objects[p]? = some o) (ha : IsValid a = true)
    (hc : conditionsPass a o.Conditions = false) :
    UInteraction.TryActivateInteraction H p a w
      = thenEmit (.InteractionCancelled p .Cancel_ConditionsNotMet)
          (UInteraction.BroadcastCancelled H o.OnInteractionCancelled .Cancel_ConditionsNotMet
            (((w.setObject p { o with InteractingActor := a, bIsActive := false }).emitAll
              (evaluations p a o.Conditions)).emit
                (.BroadcastCancelled p .Cancel_ConditionsNotMet))) := by
  have hp := getElem?_lt_of_some ho
  have h1 : UInteraction.TryActivateInteraction H p a w
      = UInteraction.CancelInteraction H p .Cancel_ConditionsNotMet
          ((w.setObject p { o with InteractingActor := a }).emitAll
            (evaluations p a o.Conditions)) := by
    simp [UInteraction.TryActivateInteraction, ho, ha, UInteraction.CanActivateInteraction,
      UInteraction.AreInteractionConditionsMet, World.setObject, hp, loop_fst, hc,
      World.emitAll, evaluations]
  rw [h1, cancel_eq H p _ _ { o with InteractingActor := a } (by simp [World.setObject, World.emitAll, hp])]
  simp [World.setObject, World.emitAll, World.emit]

/-! ## Facts about condition evaluation -/

theorem conditionsPass_iff (a : Option AActor) (cs : List UInteractionCondition) :
    conditionsPass a cs = true
      ↔ ∀ c ∈ cs, xor (c.CheckInteractionConditions a) c.InvertCondition = true := by
  simp [conditionsPass, List.all_eq_true]

theorem conditionsPass_false_iff (a : Option AActor) (cs : List UInteractionCondition) :
    conditionsPass a cs = false
      ↔ ∃ c ∈ cs, (c.InvertCondition = false ∧ c.CheckInteractionConditions a = false)
          ∨ (c.InvertCondition = true ∧ c.CheckInteractionConditions a = true) := by
  rw [← Bool.not_eq_true, conditionsPass_iff]
  constructor
  · intro h
    by_contra hn
    apply h
    intro c hc
    by_contra hx
    apply hn
    refine ⟨c, hc, ?_⟩
    cases h1 : c.CheckInteractionConditions a <;> cases h2 : c.InvertCondition <;>
      simp [h1, h2] at hx ⊢
  · rintro ⟨c, hc, h | h⟩ hall
    · have := hall c hc
      rw [h.1, h.2] at this
      exact absurd this (by decide)
    · have := hall c hc
      rw [h.1, h.2] at this
      exact absurd this (by decide)

theorem loop_snd_checks (self : Nat) (actor : Option AActor) (cs : List UInteractionCondition) :
    ∀ (k : Nat) (sig : Signal),
      sig ∈ (UInteraction.AreInteractionConditionsMet.loop self actor cs k).2 →
      ∃ j, sig = .CheckInteractionConditions self j := by
  induction cs with
  | nil => intro k sig h; simp [UInteraction.AreInteractionConditionsMet.loop] at h
  | cons c cs ih =>
    intro k sig h
    simp only [UInteraction.AreInteractionConditionsMet.loop] at h
    cases h1 : c.CheckInteractionConditions actor <;> cases h2 : c.InvertCondition <;>
      simp only [h1, h2, Bool.not_true, Bool.not_false, if_true, if_false, Bool.false_eq_true,
        List.mem_singleton, List.mem_cons] at h
    · rcases h with h | h
      · exact ⟨k, h⟩
      · cases h
    · rcases h with h | h
      · exact ⟨k, h⟩
      · exact ih (k + 1) sig h
    · rcases h with h | h
      · exact ⟨k, h⟩
      · exact ih (k + 1) sig h
    · rcases h with h | h
      · exact ⟨k, h⟩
      · cases h

theorem evaluations_checks (self : Nat) (actor : Option AActor) (cs : List UInteractionCondition)
    (sig : Signal) (h : sig ∈ evaluations self actor cs) :
    ∃ j, sig = .CheckInteractionConditions self j :=
  loop_snd_checks self actor cs 0 sig h

/-! ## The search loop -/

theorem scanSlots_found (slots : List FSequentialInteraction) (i : Nat)
    (s : FSequentialInteraction) (hs : slots[i]? = some s)
    (hc : s.bInteractionComplete = false) :
    ∀ (steps j : Nat), j ≤ i → i < j + steps →
      (∀ k t, j ≤ k → k < i → slots[k]? = some t → t.bInteractionComplete = true) →
      scanSlots slots steps (j : Int) = .ok (some (i : Int)) := by
  intro steps
  induction steps with
  | zero => intro j h1 h2; omega
  | succ n ih =>
    intro j h1 h2 hall
    have hi := getElem?_lt_of_some hs
    rcases Nat.eq_or_lt_of_le h1 with rfl | hlt
    · simp [scanSlots, slotAt, hs, hc]
    · have hj : j < slots.length := by omega
      have hjs : slots[j]? = some slots[j] := List.getElem?_eq_getElem hj
      have := hall j _ (le_refl _) hlt hjs
      have ih' := ih (j + 1) (by omega) (by omega)
        (fun k t hk1 hk2 hk => hall k t (by omega) hk2 hk)
      have hcast : ((j + 1 : Nat) : Int) = (j : Int) + 1 := by push_cast; rfl
      rw [hcast] at ih'
      simp [scanSlots, slotAt, hjs, this, ih']

theorem scanSlots_none (slots : List FSequentialInteraction) :
    ∀ (steps j : Nat), j + steps ≤ slots.length →
      (∀ k t, j ≤ k → slots[k]? = some t → t.bInteractionComplete = true) →
      scanSlots slots steps (j : Int) = .ok none := by
  intro steps
  induction steps with
  | zero => intro j _ _; rfl
  | succ n ih =>
    intro j h1 hall
    have hj : j < slots.length := by omega
    have hjs : slots[j]? = some slots[j] := List.getElem?_eq_getElem hj
    have := hall j _ (le_refl _) hjs
    have ih' := ih (j + 1) (by omega) (fun k t hk1 hk => hall k t (by omega) hk)
    have hcast : ((j + 1 : Nat) : Int) = (j : Int) + 1 := by push_cast; rfl
    rw [hcast] at ih'
    simp [scanSlots, slotAt, hjs, this, ih']

/-! ## Entering a slot -/

theorem set_concat_length {α : Type} (l : List α) (x y : α) :
    (l ++ [x]).set l.length y = l ++ [y] := by
  induction l with
  | nil => rfl
  | cons a l ih => simp [List.set, ih]

theorem scan_from_cursor_found (slots : List FSequentialInteraction) (c : Int) (hc : -1 ≤ c)
    (i : Nat) (h : FirstIncompleteAfter slots c i) :
    scanSlots slots (((slots.length : Int) - 1) - (c + 1) + 1).toNat (c + 1)
      = .ok (some (i : Int)) := by
  obtain ⟨h1, ⟨s, hs, hsc⟩, h3⟩ := h
  have hi := getElem?_lt_of_some hs
  obtain ⟨j, hj⟩ : ∃ j : Nat, c + 1 = (j : Int) := ⟨(c + 1).toNat, by omega⟩
  rw [hj]
  apply scanSlots_found slots i s hs hsc _ j (by omega) (by omega)
  intro k t hk1 hk2 hk
  exact h3 k t (by omega) hk2 hk

theorem scan_from_cursor_none (slots : List FSequentialInteraction) (c : Int) (hc : -1 ≤ c)
    (h : AllCompleteAfter slots c) :
    scanSlots slots (((slots.length : Int) - 1) - (c + 1) + 1).toNat (c + 1) = .ok none := by
  obtain ⟨j, hj⟩ : ∃ j : Nat, c + 1 = (j : Int) := ⟨(c + 1).toNat, by omega⟩
  rw [hj]
  by_cases hlen : j ≤ slots.length
  · apply scanSlots_none slots _ j (by omega)
    intro k t hk1 hk
    exact h k t (by omega) hk
  · have h0 : ((slots.length : Int) - 1 - (j : Int) + 1).toNat = 0 := by omega
    rw [h0]
    rfl

theorem startNext_of_scan (fuel : Nat) (w : World) (i : Nat) (s : FSequentialInteraction)
    (hs : w.Component.SequentialInteractions[i]? = some s)
    (hscan : scanSlots w.Component.SequentialInteractions
      (((w.Component.SequentialInteractions.length : Int) - 1)
        - (w.Component.CurrentSequentialInteractionIndex + 1) + 1).toNat
      (w.Component.CurrentSequentialInteractionIndex + 1) = .ok (some (i : Int))) :
    StartNextSequentialInteraction (fuel + 1) w
      = thenInProgress (UInteraction.TryActivateInteraction (componentHandlers fuel)
          w.Objects.length w.Component.CurrentlyInteractingActor (w.enterSlot i s)) := by
  simp only [StartNextSequentialInteraction, hscan]
  simp only [World.setIndex, slotAt, Int.toNat_ofNat, hs, Nat.cast_nonneg, if_true,
    World.setActiveInstance, World.bindHandlers, List.getElem?_concat_length, World.setObject,
    set_concat_length]
  rfl

theorem startNext_found (fuel : Nat) (w : World)
    (hc : -1 ≤ w.Component.CurrentSequentialInteractionIndex) (i : Nat)
    (s : FSequentialInteraction) (hs : w.Component.SequentialInteractions[i]? = some s)
    (h : FirstIncompleteAfter w.Component.SequentialInteractions
      w.Component.CurrentSequentialInteractionIndex i) :
    StartNextSequentialInteraction (fuel + 1) w
      = thenInProgress (UInteraction.TryActivateInteraction (componentHandlers fuel)
          w.Objects.length w.Component.CurrentlyInteractingActor (w.enterSlot i s)) := by
  have hscan := scan_from_cursor_found _ _ hc i h
  exact startNext_of_scan fuel w i s hs hscan

theorem startNext_none (fuel : Nat) (w : World)
    (hc : -1 ≤ w.Component.CurrentSequentialInteractionIndex)
    (h : AllCompleteAfter w.Component.SequentialInteractions
      w.Component.CurrentSequentialInteractionIndex) :
    StartNextSequentialInteraction (fuel + 1) w = .ok (EndSequentialInteractions w) := by
  have hscan := scan_from_cursor_none _ _ hc h
  simp only [StartNextSequentialInteraction, hscan]

/-! ## An outcome reported to the component -/

theorem markedSlots_length (slots : List FSequentialInteraction) (i : Nat)
    (s : FSequentialInteraction) : (markedSlots slots i s).length = slots.length := by
  unfold markedSlots
  split <;> simp

theorem onEndedWith_eq (next : World → Except Fault World) (b : Bool) (w : World)
    (p : Nat) (inst : UInteraction) (i : Nat) (s : FSequentialInteraction)
    (hp : w.Component.ActiveInteractionInstance = some p) (hinst : w.Objects[p]? = some inst)
    (hi : w.Component.CurrentSequentialInteractionIndex = (i : Int))
    (hs : w.Component.SequentialInteractions[i]? = some s) :
    OnInteractionEndedWith next b w
      = if inst.bStartNextInteractionAutomatically then next (w.afterOutcome i s b)
        else .ok (w.afterOutcome i s b) := by
  have hlt := getElem?_lt_of_some hs
  have hv : IsValidIndex w.Component.SequentialInteractions (i : Int) = true := by
    simp [IsValidIndex, hlt]
  have hm : markComplete w.Component.SequentialInteractions i
      = w.Component.SequentialInteractions.set i { s with bInteractionComplete := true } := by
    simp [markComplete, hs]
  simp only [OnInteractionEndedWith, hp, hinst, World.setActiveInstance, hi, hv, slotAt]
  simp only [Int.toNat_ofNat, hs, Nat.cast_nonneg, if_true, Bool.not_true, Bool.false_eq_true,
    if_false, hm]
  cases hr : s.SequentialInteraction.bCanRepeatInteraction <;>
    cases hb : b <;> cases hz : s.bResetInteractionsOnConditionsFail <;>
    by_cases hl : (i : Int) = (w.Component.SequentialInteractions.length : Int) - 1 <;>
    simp [World.afterOutcome, markedSlots, endsSequence, hr, hl, hz, World.setSlots, World.setState,
      EndSequentialInteractions, World.setIndex]

/-! ## Relations kept by every call chain -/

theorem reaches_trans {R : World → World → Prop} (hR : ChainRel R) {w w1 : World}
    {r : Except Fault World} (h1 : R w w1) (h2 : Reaches R w1 r) : Reaches R w r := by
  cases r with
  | ok w' => exact hR.trans h1 h2
  | error e =>
    cases e with
    | outOfFuel w' => exact hR.trans h1 h2
    | nullDeref => trivial
    | outOfBounds => trivial

theorem reaches_cancelEvent {R : World → World → Prop} (hR : ChainRel R) {w : World}
    {r : Except Fault World} (hw : w.Component.ActiveInteractionInstance = none)
    (h : Reaches R w r) :
    Reaches R w (thenEmit (.InteractionCancelled w.Objects.length .Cancel_ConditionsNotMet) r) := by
  cases r with
  | ok w' => exact hR.cancelEvent w w' hw h
  | error e => exact h

theorem reaches_thenInProgress {R : World → World → Prop} (hR : ChainRel R) {w : World}
    {r : Except Fault World} (h : Reaches R w r) : Reaches R w (thenInProgress r) := by
  cases r with
  | ok w' =>
    simp only [thenInProgress]
    split
    · next hs => exact hR.trans h (hR.progress w' hs)
    · exact h
  | error e => exact h

theorem scanSlots_cases (slots : List FSequentialInteraction) :
    ∀ (steps : Nat) (idx : Int),
      scanSlots slots steps idx = .error .outOfBounds ∨ scanSlots slots steps idx = .ok none ∨
        ∃ (i : Nat) (s : FSequentialInteraction), scanSlots slots steps idx = .ok (some (i : Int))
          ∧ idx ≤ (i : Int) ∧ slots[i]? = some s ∧ s.bInteractionComplete = false := by
  intro steps
  induction steps with
  | zero => intro idx; right; left; rfl
  | succ n ih =>
    intro idx
    simp only [scanSlots]
    cases hs : slotAt slots idx with
    | none => left; rfl
    | some s =>
      have h0 : 0 ≤ idx := by
        by_contra hn
        simp [slotAt, hn] at hs
      have hs' : slots[idx.toNat]? = some s := by simpa [slotAt, h0] using hs
      cases hc : s.bInteractionComplete with
      | false =>
        right; right
        refine ⟨idx.toNat, s, ?_, ?_, hs', hc⟩
        · simp [Int.toNat_of_nonneg h0, hc]
        · simp [Int.toNat_of_nonneg h0]
      | true =>
        have hstep : (if (!s.bInteractionComplete) = true then Except.ok (some idx)
            else scanSlots slots n (idx + 1)) = scanSlots slots n (idx + 1) := by simp [hc]
        simp only [hstep]
        rcases ih (idx + 1) with h | h | ⟨i, t, h1, h2, h3, h4⟩
        · left; exact h
        · right; left; exact h
        · right; right; exact ⟨i, t, h1, by omega, h3, h4⟩

theorem startNext_succ_cases (fuel : Nat) (w : World) :
    StartNextSequentialInteraction (fuel + 1) w = .error .outOfBounds
      ∨ StartNextSequentialInteraction (fuel + 1) w = .ok (EndSequentialInteractions w)
      ∨ ∃ (i : Nat) (s : FSequentialInteraction),
          w.Component.SequentialInteractions[i]? = some s ∧ s.bInteractionComplete = false
          ∧ w.Component.CurrentSequentialInteractionIndex < (i : Int)
          ∧ StartNextSequentialInteraction (fuel + 1) w
            = thenInProgress (UInteraction.TryActivateInteraction (componentHandlers fuel)
                w.Objects.length w.Component.CurrentlyInteractingActor (w.enterSlot i s)) := by
  rcases scanSlots_cases w.Component.SequentialInteractions
      (((w.Component.SequentialInteractions.length : Int) - 1)
        - (w.Component.CurrentSequentialInteractionIndex + 1) + 1).toNat
      (w.Component.CurrentSequentialInteractionIndex + 1) with h | h | ⟨i, s, h1, h2, h3, h4⟩
  · left; simp only [StartNextSequentialInteraction, h]
  · right; left; simp only [StartNextSequentialInteraction, h]
  · right; right
    exact ⟨i, s, h3, h4, by omega, startNext_of_scan fuel w i s h3 h1⟩

theorem enterSlot_object (w : World) (i : Nat) (s : FSequentialInteraction) :
    (w.enterSlot i s).Objects[w.Objects.length]? = some (workingCopy s.SequentialInteraction) := by
  simp [World.enterSlot]

theorem evaluations_obj (p : Nat) (a : Option AActor) (cs : List UInteractionCondition) :
    ∀ sig ∈ evaluations p a cs, sig.obj = p := by
  intro sig h
  obtain ⟨j, rfl⟩ := evaluations_checks p a cs sig h
  rfl

theorem chain_rel {R : World → World → Prop} (hR : ChainRel R) :
    ∀ (fuel : Nat) (w : World), w.Component.ActiveInteractionInstance = none →
      Reaches R w (StartNextSequentialInteraction fuel w) := by
  intro fuel
  induction fuel with
  | zero => intro w _; exact hR.refl w
  | succ n ih =>
    intro w hnone
    rcases startNext_succ_cases n w with h | h | ⟨i, s, hs, hsc, hlt, h⟩
    · rw [h]; trivial
    · rw [h]; exact hR.endSeq w hnone
    · rw [h]
      have hw1 : R w (w.enterSlot i s) := hR.enter w i s hnone hs hsc hlt
      have hobj := enterSlot_object w i s
      have hact : (w.enterSlot i s).Component.ActiveInteractionInstance = some w.Objects.length :=
        rfl
      apply reaches_thenInProgress hR
      cases ha : IsValid w.Component.CurrentlyInteractingActor with
      | false =>
        rw [tryActivate_invalid _ _ _ _ _ hobj ha]
        exact hR.trans hw1 (hR.log _ w.Objects.length [_] hact
          (fun sig hsig => by rw [List.mem_singleton.1 hsig]; rfl))
      | true =>
        cases hcnd : conditionsPass w.Component.CurrentlyInteractingActor
            (workingCopy s.SequentialInteraction).Conditions with
        | true =>
          rw [tryActivate_pass _ _ _ _ _ hobj ha hcnd]
          exact hR.trans hw1 (hR.trans (hR.trans (hR.obj _ _ _ _ _ hact hobj)
            (hR.log _ w.Objects.length _ rfl (evaluations_obj _ _ _)))
            (hR.log _ w.Objects.length [_] rfl
              (fun sig hsig => by rw [List.mem_singleton.1 hsig]; rfl)))
        | false =>
          rw [tryActivate_fail _ _ _ _ _ hobj ha hcnd]
          apply reaches_cancelEvent hR hnone
          have hmid : R (w.enterSlot i s)
              ((((w.enterSlot i s).setObject w.Objects.length
                { workingCopy s.SequentialInteraction with
                  InteractingActor := w.Component.CurrentlyInteractingActor
                  bIsActive := false }).emitAll
                (evaluations w.Objects.length w.Component.CurrentlyInteractingActor
                  (workingCopy s.SequentialInteraction).Conditions)).emit
                  (.BroadcastCancelled w.Objects.length .Cancel_ConditionsNotMet)) :=
            hR.trans (hR.trans (hR.obj _ _ _ _ _ hact hobj)
              (hR.log _ w.Objects.length _ rfl (evaluations_obj _ _ _)))
              (hR.log _ w.Objects.length [_] rfl
                (fun sig hsig => by rw [List.mem_singleton.1 hsig]; rfl))
          apply reaches_trans hR (hR.trans hw1 hmid)
          have hlen : w.Objects.length < (w.enterSlot i s).Objects.length := by
            simp [World.enterSlot]
          have hobj2 : ((((w.enterSlot i s).setObject w.Objects.length
                { workingCopy s.SequentialInteraction with
                  InteractingActor := w.Component.CurrentlyInteractingActor
                  bIsActive := false }).emitAll
                (evaluations w.Objects.length w.Component.CurrentlyInteractingActor
                  (workingCopy s.SequentialInteraction).Conditions)).emit
                  (.BroadcastCancelled w.Objects.length .Cancel_ConditionsNotMet)).Objects[
                    w.Objects.length]?
              = some { workingCopy s.SequentialInteraction with
                  InteractingActor := w.Component.CurrentlyInteractingActor
                  bIsActive := false } := by
            simp [World.setObject, World.emitAll, World.emit, hlen]
          have hbc : UInteraction.BroadcastCancelled (componentHandlers n)
              (workingCopy s.SequentialInteraction).OnInteractionCancelled
              .Cancel_ConditionsNotMet
              = OnInteractionEndedWith (StartNextSequentialInteraction n) false := rfl
          rw [hbc, onEndedWith_eq _ _ _ _ _ i s rfl hobj2 rfl hs]
          have hout := hR.outcome _ _ _ i s false rfl hobj2 rfl hs
          split
          · exact reaches_trans hR hout (ih _ rfl)
          · exact hout

theorem isValidIndex_true {slots : List FSequentialInteraction} {idx : Int}
    (h : IsValidIndex slots idx = true) :
    ∃ (i : Nat) (s : FSequentialInteraction), idx = (i : Int) ∧ slots[i]? = some s := by
  simp only [IsValidIndex, Bool.and_eq_true, decide_eq_true_eq] at h
  have hlt : idx.toNat < slots.length := by omega
  exact ⟨idx.toNat, slots[idx.toNat], by omega, List.getElem?_eq_getElem hlt⟩

theorem onEndedWith_invalid (next : World → Except Fault World) (b : Bool) (w : World)
    (p : Nat) (inst : UInteraction)
    (hp : w.Component.ActiveInteractionInstance = some p) (hinst : w.Objects[p]? = some inst)
    (hv : IsValidIndex w.Component.SequentialInteractions
      w.Component.CurrentSequentialInteractionIndex = false) :
    OnInteractionEndedWith next b w
      = .ok ((w.setActiveInstance none).setState .SequentialState_Failed) := by
  simp [OnInteractionEndedWith, hp, hinst, World.setActiveInstance, hv]

theorem onInteractionEnded_reaches {R : World → World → Prop} (hR : ChainRel R) (fuel : Nat)
    (b : Bool) (w : World) : Reaches R w (OnInteractionEnded fuel b w) := by
  unfold OnInteractionEnded
  cases hp : w.Component.ActiveInteractionInstance with
  | none => simp [OnInteractionEndedWith, hp, Reaches]
  | some p =>
    cases hinst : w.Objects[p]? with
    | none => simp [OnInteractionEndedWith, hp, hinst, Reaches]
    | some inst =>
      cases hv : IsValidIndex w.Component.SequentialInteractions
          w.Component.CurrentSequentialInteractionIndex with
      | false =>
        rw [onEndedWith_invalid _ _ _ _ _ hp hinst hv]
        exact hR.failed w p hp hv
      | true =>
        obtain ⟨i, s, hi, hs⟩ := isValidIndex_true hv
        rw [onEndedWith_eq _ _ _ _ _ i s hp hinst hi hs]
        have hout := hR.outcome _ _ _ i s b hp hinst hi hs
        split
        · exact reaches_trans hR hout (chain_rel hR fuel _ rfl)
        · exact hout

theorem onInteractionCancelled_reaches {R : World → World → Prop} (hR : ChainRel R)
    (fuel : Nat) (r : EInteractionCancelReason) (w : World) :
    Reaches R w (OnInteractionCancelled fuel r w) :=
  onInteractionEnded_reaches hR fuel false w

theorem startSequence_reaches {R : World → World → Prop} (hR : ChainRel R) (fuel : Nat)
    (a : Option AActor) (w : World) : Reaches R w (StartSequentialInteractions fuel a w) := by
  unfold StartSequentialInteractions
  cases hp : w.Component.ActiveInteractionInstance with
  | some p => simpa [Reaches] using hR.refl w
  | none =>
    cases ha : IsValid a with
    | false => simpa [Reaches, ha] using hR.waiting w hp
    | true =>
      simp only [Option.isSome_none, Bool.false_eq_true, if_false, ha, Bool.not_true]
      exact reaches_trans hR (hR.start w a hp) (chain_rel hR fuel _ hp)

/-! ## Completion flags only ever get set -/

theorem slotsAdvance_refl (l : List FSequentialInteraction) : SlotsAdvance l l :=
  ⟨rfl, fun _ _ h => Or.inl h⟩

theorem slotsAdvance_trans {a b c : List FSequentialInteraction} (h1 : SlotsAdvance a b)
    (h2 : SlotsAdvance b c) : SlotsAdvance a c := by
  refine ⟨h2.1.trans h1.1, ?_⟩
  intro j s hs
  rcases h1.2 j s hs with hb | ⟨hr, hb⟩
  · exact h2.2 j s hb
  · rcases h2.2 j _ hb with hc | ⟨_, hc⟩
    · exact Or.inr ⟨hr, hc⟩
    · exact Or.inr ⟨hr, hc⟩

theorem slotsAdvance_marked (slots : List FSequentialInteraction) (i : Nat)
    (s : FSequentialInteraction) (hs : slots[i]? = some s) :
    SlotsAdvance slots (markedSlots slots i s) := by
  refine ⟨markedSlots_length slots i s, ?_⟩
  intro j t ht
  unfold markedSlots
  cases hr : s.SequentialInteraction.bCanRepeatInteraction with
  | true => exact Or.inl (by simpa using ht)
  | false =>
    by_cases hji : j = i
    · subst hji
      have hst : t = s := by rw [hs] at ht; exact (Option.some.inj ht).symm
      subst hst
      right
      refine ⟨hr, ?_⟩
      have hlt := getElem?_lt_of_some hs
      simp [hlt]
    · left
      simp only [Bool.false_eq_true, if_false]
      rw [List.getElem?_set_ne (Ne.symm hji)]
      exact ht

theorem slotsAdvance_chainRel :
    ChainRel (fun w w' => SlotsAdvance w.Component.SequentialInteractions
      w'.Component.SequentialInteractions) where
  refl := fun _ => slotsAdvance_refl _
  trans := fun h1 h2 => slotsAdvance_trans h1 h2
  endSeq := fun _ _ => slotsAdvance_refl _
  enter := fun _ _ _ _ _ _ _ => slotsAdvance_refl _
  log := fun _ _ _ _ _ => slotsAdvance_refl _
  cancelEvent := fun _ _ _ h => h
  obj := fun _ _ _ _ _ _ _ => slotsAdvance_refl _
  outcome := fun _ _ _ i s _ _ _ _ hs => slotsAdvance_marked _ i s hs
  progress := fun _ _ => slotsAdvance_refl _
  failed := fun _ _ _ _ => slotsAdvance_refl _
  start := fun _ _ _ => slotsAdvance_refl _
  waiting := fun _ _ => slotsAdvance_refl _

theorem reaches_mono {R S : World → World → Prop} {w v : World} {r : Except Fault World}
    (h : ∀ w', R w w' → S v w') (hr : Reaches R w r) : Reaches S v r := by
  cases r with
  | ok w' => exact h _ hr
  | error e =>
    cases e with
    | outOfFuel w' => exact h _ hr
    | nullDeref => trivial
    | outOfBounds => trivial

theorem flagsKept_of_slotsAdvance {w w' : World}
    (h : SlotsAdvance w.Component.SequentialInteractions w'.Component.SequentialInteractions) :
    FlagsKept w w' := by
  intro j s hs hc
  rcases h.2 j s hs with h1 | ⟨_, h1⟩
  · exact ⟨s, h1, hc⟩
  · exact ⟨_, h1, rfl⟩

theorem markedSlots_at (slots : List FSequentialInteraction) (i : Nat)
    (s : FSequentialInteraction) (hs : slots[i]? = some s) :
    (markedSlots slots i s)[i]? = some { s with bInteractionComplete :=
      s.bInteractionComplete || !s.SequentialInteraction.bCanRepeatInteraction } := by
  have hlt := getElem?_lt_of_some hs
  unfold markedSlots
  cases hr : s.SequentialInteraction.bCanRepeatInteraction with
  | true => simpa using hs
  | false => simp [hlt]

theorem markedSlots_other (slots : List FSequentialInteraction) (i j : Nat)
    (s : FSequentialInteraction) (hji : j ≠ i) :
    (markedSlots slots i s)[j]? = slots[j]? := by
  unfold markedSlots
  split
  · rfl
  · exact List.getElem?_set_ne (Ne.symm hji)

theorem startNext_clear_instance (fuel : Nat) (w : World) :
    StartNextSequentialInteraction (fuel + 1) w = .error .outOfBounds
      ∨ StartNextSequentialInteraction (fuel + 1) w = .ok (EndSequentialInteractions w)
      ∨ StartNextSequentialInteraction (fuel + 1) w
          = StartNextSequentialInteraction (fuel + 1) (w.setActiveInstance none) := by
  rcases scanSlots_cases w.Component.SequentialInteractions
      (((w.Component.SequentialInteractions.length : Int) - 1)
        - (w.Component.CurrentSequentialInteractionIndex + 1) + 1).toNat
      (w.Component.CurrentSequentialInteractionIndex + 1) with h | h | ⟨i, s, h1, _, h3, _⟩
  · left; simp only [StartNextSequentialInteraction, h]
  · right; left; simp only [StartNextSequentialInteraction, h]
  · right; right
    rw [startNext_of_scan fuel w i s h3 h1,
      startNext_of_scan fuel (w.setActiveInstance none) i s h3 h1]
    rfl

theorem startNext_slotsAdvance (fuel : Nat) (w : World) :
    Reaches (fun w w' => SlotsAdvance w.Component.SequentialInteractions
      w'.Component.SequentialInteractions) w (StartNextSequentialInteraction fuel w) := by
  cases fuel with
  | zero => exact slotsAdvance_refl _
  | succ n =>
    rcases startNext_clear_instance n w with h | h | h
    · rw [h]; trivial
    · rw [h]; exact slotsAdvance_refl _
    · rw [h]
      exact reaches_mono (fun w' hw' => hw')
        (chain_rel slotsAdvance_chainRel (n + 1) (w.setActiveInstance none) rfl)

theorem tryActivate_fail_cancel (H : Handlers) (p : Nat) (a : Option AActor) (w : World)
    (o : UInteraction) (ho : w.Objects[p]? = some o) (ha : IsValid a = true)
    (hc : conditionsPass a o.Conditions = false) :
    UInteraction.TryActivateInteraction H p a w
      = UInteraction.CancelInteraction H p .Cancel_ConditionsNotMet
          ((w.setObject p { o with InteractingActor := a }).emitAll
            (evaluations p a o.Conditions)) := by
  have hp := getElem?_lt_of_some ho
  simp [UInteraction.TryActivateInteraction, ho, ha, UInteraction.CanActivateInteraction,
    UInteraction.AreInteractionConditionsMet, World.setObject, hp, loop_fst, hc,
    World.emitAll, evaluations]

/-! ## Ending an active working instance -/

theorem endInteraction_eq (H : Handlers) (p : Nat) (w : World) (o : UInteraction)
    (ho : w.Objects[p]? = some o) (hact : o.bIsActive = true) :
    UInteraction.EndInteraction H p w
      = thenEnded p (UInteraction.BroadcastEnded H o.OnInteractionEnded true
          (w.emit (.BroadcastEnded p true))) := by
  simp only [UInteraction.EndInteraction, ho, hact]
  rfl

theorem endInteraction_inactive (H : Handlers) (p : Nat) (w : World) (o : UInteraction)
    (ho : w.Objects[p]? = some o) (hact : o.bIsActive = false) :
    UInteraction.EndInteraction H p w = .ok w := by
  simp [UInteraction.EndInteraction, ho, hact]

/-! ## What `StartNextSequentialInteraction` returns -/

theorem startNext_invalid (fuel : Nat) (w : World)
    (hc : -1 ≤ w.Component.CurrentSequentialInteractionIndex) (i : Nat)
    (s : FSequentialInteraction) (hs : w.Component.SequentialInteractions[i]? = some s)
    (h : FirstIncompleteAfter w.Component.SequentialInteractions
      w.Component.CurrentSequentialInteractionIndex i)
    (ha : IsValid w.Component.CurrentlyInteractingActor = false) :
    StartNextSequentialInteraction (fuel + 1) w
      = .ok (((w.enterSlot i s).emit
          (.InteractionCancelled w.Objects.length .Cancel_Failed)).setState
            .SequentialState_InProgress) := by
  rw [startNext_found fuel w hc i s hs h,
    tryActivate_invalid _ _ _ _ _ (enterSlot_object w i s) ha]
  rfl

theorem startNext_pass (fuel : Nat) (w : World)
    (hc : -1 ≤ w.Component.CurrentSequentialInteractionIndex) (i : Nat)
    (s : FSequentialInteraction) (hs : w.Component.SequentialInteractions[i]? = some s)
    (h : FirstIncompleteAfter w.Component.SequentialInteractions
      w.Component.CurrentSequentialInteractionIndex i)
    (ha : IsValid w.Component.CurrentlyInteractingActor = true)
    (hcnd : conditionsPass w.Component.CurrentlyInteractingActor
      s.SequentialInteraction.Conditions = true) :
    StartNextSequentialInteraction (fuel + 1) w = .ok (w.activatedAt i s) := by
  rw [startNext_found fuel w hc i s hs h,
    tryActivate_pass _ _ _ _ _ (enterSlot_object w i s) ha hcnd]
  simp [thenInProgress, World.enterSlot, World.setObject, World.emitAll, World.emit,
    World.setState, set_concat_length, World.activatedAt, workingCopy, DuplicateObject]

theorem startNext_fail (fuel : Nat) (w : World)
    (hc : -1 ≤ w.Component.CurrentSequentialInteractionIndex) (i : Nat)
    (s : FSequentialInteraction) (hs : w.Component.SequentialInteractions[i]? = some s)
    (h : FirstIncompleteAfter w.Component.SequentialInteractions
      w.Component.CurrentSequentialInteractionIndex i)
    (ha : IsValid w.Component.CurrentlyInteractingActor = true)
    (hcnd : conditionsPass w.Component.CurrentlyInteractingActor
      s.SequentialInteraction.Conditions = false) :
    StartNextSequentialInteraction (fuel + 1) w
      = thenInProgress (thenEmit
          (.InteractionCancelled w.Objects.length .Cancel_ConditionsNotMet)
          (OnInteractionCancelled fuel .Cancel_ConditionsNotMet (w.cancelledAt i s))) := by
  rw [startNext_found fuel w hc i s hs h,
    tryActivate_fail _ _ _ _ _ (enterSlot_object w i s) ha hcnd]
  have hw : ((((w.enterSlot i s).setObject w.Objects.length
      { workingCopy s.SequentialInteraction with
        InteractingActor := w.Component.CurrentlyInteractingActor
        bIsActive := false }).emitAll
      (evaluations w.Objects.length w.Component.CurrentlyInteractingActor
        (workingCopy s.SequentialInteraction).Conditions)).emit
      (.BroadcastCancelled w.Objects.length .Cancel_ConditionsNotMet)) = w.cancelledAt i s := by
    simp [World.enterSlot, World.setObject, World.emitAll, World.emit, set_concat_length,
      World.cancelledAt, workingCopy, DuplicateObject]
  rw [hw]
  rfl

theorem cancelledAt_object (w : World) (i : Nat) (s : FSequentialInteraction) :
    (w.cancelledAt i s).Objects[w.Objects.length]?
      = some { workingCopy s.SequentialInteraction with
          InteractingActor := w.Component.CurrentlyInteractingActor, bIsActive := false } := by
  simp [World.cancelledAt]

theorem isSome_of_isValid {a : Option AActor} (h : IsValid a = true) : a.isSome = true := by
  cases a with
  | none => cases h
  | some x => rfl

/-! ## `CommitInteraction` after `CanCommitInteraction` -/

theorem canCommit_eq (H : Handlers) (p : Nat) (w : World) (o : UInteraction)
    (ho : w.Objects[p]? = some o) :
    UInteraction.CanCommitInteraction H p w
      = UInteraction.CanCommitInteraction.loop H p o.InteractingActor o.Conditions 0 w := by
  simp only [UInteraction.CanCommitInteraction, ho]

theorem commit_eq (H : Handlers) (p : Nat) (w : World) :
    UInteraction.CommitInteraction H p false w
      = thenCommitted p (UInteraction.CanCommitInteraction H p w) := by
  unfold UInteraction.CommitInteraction thenCommitted
  simp only [Bool.not_false, if_true]

theorem commit_bypass (H : Handlers) (p : Nat) (w : World) :
    UInteraction.CommitInteraction H p true w = .ok (w.emit (.InteractionCommitted p)) := rfl

theorem thenCommitted_accepted (p : Nat) (w : World) :
    thenCommitted p (.ok (true, w)) = .ok (w.emit (.InteractionCommitted p)) := rfl

theorem thenCommitted_refused (p : Nat) (w : World) (o : UInteraction)
    (ho : w.Objects[p]? = some o) (ha : o.InteractingActor.isSome = true) :
    thenCommitted p (.ok (false, w)) = .ok (w.emit (.InteractionCommitted p)) := by
  cases hact : o.InteractingActor with
  | none => rw [hact] at ha; cases ha
  | some a => simp only [thenCommitted, Bool.not_false, if_true, ho, hact]

theorem thenCommitted_ok {p : Nat} {r : Except Fault (Bool × World)} {w' : World}
    (h : thenCommitted p r = .ok w') :
    ∃ b w1, r = .ok (b, w1) ∧ w' = w1.emit (.InteractionCommitted p) := by
  cases r with
  | error e => cases h
  | ok r =>
    obtain ⟨b, w1⟩ := r
    refine ⟨b, w1, rfl, ?_⟩
    cases b with
    | true => exact (Except.ok.inj h).symm
    | false =>
      simp only [thenCommitted, Bool.not_false, if_true] at h
      cases ho : w1.Objects[p]? with
      | none => rw [ho] at h; cases h
      | some o =>
        rw [ho] at h
        cases hact : o.InteractingActor with
        | none => simp only [hact] at h; cases h
        | some a =>
          simp only [hact] at h
          exact (Except.ok.inj h).symm

/-! ## One lifecycle call on an interaction without bound handlers -/

theorem count_checks_zero (p : Nat) (q : Signal → Bool) (l : List Signal)
    (hq : ∀ j, q (.CheckInteractionConditions p j) = false)
    (hl : ∀ sig ∈ l, ∃ j, sig = Signal.CheckInteractionConditions p j) :
    l.countP q = 0 := by
  rw [List.countP_eq_zero]
  intro sig hsig
  obtain ⟨j, rfl⟩ := hl sig hsig
  simp [hq j]

theorem broadcastCancelled_unbound (H : Handlers) {b : Bool} (hb : b = false)
    (r : EInteractionCancelReason) (w : World) :
    UInteraction.BroadcastCancelled H b r w = .ok w := by
  simp [UInteraction.BroadcastCancelled, hb]

theorem broadcastEnded_unbound (H : Handlers) {b : Bool} (hb : b = false) (x : Bool)
    (w : World) : UInteraction.BroadcastEnded H b x w = .ok w := by
  simp [UInteraction.BroadcastEnded, hb]

theorem canCommitLoop_unbound (H : Handlers) (p : Nat) (actor : Option AActor)
    (o : UInteraction) (hb : o.OnInteractionCancelled = false)
    (cs : List UInteractionCondition) :
    ∀ (k : Nat) (w : World), w.Objects[p]? = some o →
      ∃ (b : Bool) (w' : World) (pre : List Signal),
        UInteraction.CanCommitInteraction.loop H p actor cs k w = .ok (b, w')
          ∧ (∀ sig ∈ pre, ∃ j, sig = Signal.CheckInteractionConditions p j)
          ∧ w'.Component = w.Component
          ∧ b = cs.all (fun c => !c.CheckInteractionConditions actor)
          ∧ (b = true → w'.Objects = w.Objects ∧ w'.Log = w.Log ++ pre)
          ∧ (b = false → w'.Objects = w.Objects.set p { o with bIsActive := false }
              ∧ w'.Log = w.Log ++ pre ++ [.BroadcastCancelled p .Cancel_ConditionsNotMet,
                  .InteractionCancelled p .Cancel_ConditionsNotMet]) := by
  induction cs with
  | nil =>
    intro k w _
    exact ⟨true, w, [], rfl, by simp, rfl, rfl, fun _ => ⟨rfl, by simp⟩,
      fun h => Bool.noConfusion h⟩
  | cons c cs ih =>
    intro k w ho
    cases hc : c.CheckInteractionConditions actor with
    | true =>
      have ho' : (w.emit (.CheckInteractionConditions p k)).Objects[p]? = some o := ho
      refine ⟨false, ((((w.emit (.CheckInteractionConditions p k)).setObject p
          { o with bIsActive := false }).emit
            (.BroadcastCancelled p .Cancel_ConditionsNotMet)).emit
              (.InteractionCancelled p .Cancel_ConditionsNotMet)),
        [Signal.CheckInteractionConditions p k], ?_, ?_, ?_, ?_, ?_, ?_⟩
      · simp only [UInteraction.CanCommitInteraction.loop, hc, if_true]
        rw [cancel_eq H p _ _ o ho', broadcastCancelled_unbound H hb]
        rfl
      · intro sig hsig
        exact ⟨k, List.mem_singleton.1 hsig⟩
      · rfl
      · simp [hc]
      · intro h; exact Bool.noConfusion h
      · intro _
        refine ⟨rfl, ?_⟩
        simp [World.emit, World.setObject]
    | false =>
      obtain ⟨b, w', pre, h1, h2, h3, h4, h5, h6⟩ :=
        ih (k + 1) (w.emit (.CheckInteractionConditions p k)) ho
      refine ⟨b, w', .CheckInteractionConditions p k :: pre, ?_, ?_, h3, ?_, ?_, ?_⟩
      · simp only [UInteraction.CanCommitInteraction.loop, hc, Bool.false_eq_true, if_false]
        exact h1
      · intro sig hsig
        rcases List.mem_cons.1 hsig with h | h
        · exact ⟨k, h⟩
        · exact h2 sig h
      · simp [hc, h4]
      · intro hbt
        obtain ⟨ha, hl⟩ := h5 hbt
        exact ⟨ha, by rw [hl]; simp [World.emit]⟩
      · intro hbf
        obtain ⟨ha, hl⟩ := h6 hbf
        exact ⟨ha, by rw [hl]; simp [World.emit]⟩

theorem evaluations_count (p q : Nat) (a : Option AActor) (cs : List UInteractionCondition) :
    (evaluations p a cs).countP (isEnded q) = 0
      ∧ (evaluations p a cs).countP (isCancelled q) = 0
      ∧ (evaluations p a cs).countP (isActivated q) = 0 :=
  ⟨count_checks_zero p _ _ (fun _ => rfl) (evaluations_checks p a cs),
    count_checks_zero p _ _ (fun _ => rfl) (evaluations_checks p a cs),
    count_checks_zero p _ _ (fun _ => rfl) (evaluations_checks p a cs)⟩

theorem call_step (H : Handlers) (p : Nat) (c : LifecycleCall) (w : World) (o : UInteraction)
    (ho : w.Objects[p]? = some o) (hb1 : o.OnInteractionEnded = false)
    (hb2 : o.OnInteractionCancelled = false)
    (hsafe : o.InteractingActor.isSome = true ∨ c ≠ .Commit false) :
    ∃ (w' : World) (o' : UInteraction) (ext : List Signal),
      c.run H p w = .ok w' ∧ w'.Objects[p]? = some o'
        ∧ o'.OnInteractionEnded = false ∧ o'.OnInteractionCancelled = false
        ∧ (o.InteractingActor.isSome = true → o'.InteractingActor.isSome = true)
        ∧ w'.Log = w.Log ++ ext
        ∧ ext.countP (isEnded p) + activeUnits o' ≤ ext.countP (isActivated p) + activeUnits o
        ∧ ext.countP (isEnded p) + ext.countP (isCancelled p) ≤ 1
        ∧ (c.isCancel = true → ext.countP (isCancelled p) = 1) := by
  have hp := getElem?_lt_of_some ho
  cases c with
  | TryActivate a =>
    cases ha : IsValid a with
    | false =>
      refine ⟨_, o, [.InteractionCancelled p .Cancel_Failed],
        tryActivate_invalid H p a w o ho ha, ho, hb1, hb2, fun h => h, rfl, ?_, ?_, ?_⟩
      · simp [isEnded, isActivated]
      · simp [isEnded, isCancelled]
      · intro h; exact Bool.noConfusion h
    | true =>
      obtain ⟨e1, e2, e3⟩ := evaluations_count p p a o.Conditions
      cases hc : conditionsPass a o.Conditions with
      | true =>
        refine ⟨_, { o with InteractingActor := a, bIsActive := true },
          evaluations p a o.Conditions ++ [.InteractionActivated p],
          tryActivate_pass H p a w o ho ha hc, ?_, hb1, hb2, fun _ => isSome_of_isValid ha,
          ?_, ?_, ?_, ?_⟩
        · simp [World.emit, World.emitAll, World.setObject, hp]
        · simp [World.emit, World.emitAll, World.setObject]
        · simp [List.countP_append, e1, e3, isEnded, isActivated, activeUnits]
        · simp [List.countP_append, e1, e2, isEnded, isCancelled]
        · intro h; exact Bool.noConfusion h
      | false =>
        refine ⟨_, { o with InteractingActor := a, bIsActive := false },
          evaluations p a o.Conditions ++ [.BroadcastCancelled p .Cancel_ConditionsNotMet,
            .InteractionCancelled p .Cancel_ConditionsNotMet],
          (tryActivate_fail H p a w o ho ha hc).trans
            (by rw [broadcastCancelled_unbound H hb2]; rfl), ?_, hb1, hb2,
          fun _ => isSome_of_isValid ha, ?_, ?_, ?_, ?_⟩
        · simp [World.emit, World.emitAll, World.setObject, hp]
        · simp [World.emit, World.emitAll, World.setObject]
        · simp [List.countP_append, e1, e3, isEnded, isActivated, activeUnits]
        · simp [List.countP_append, e1, e2, isEnded, isCancelled]
        · intro h; exact Bool.noConfusion h
  | CanCommit =>
    obtain ⟨b, w', pre, h1, h2, _, _, h5, h6⟩ :=
      canCommitLoop_unbound H p o.InteractingActor o hb2 o.Conditions 0 w ho
    have hrun : LifecycleCall.CanCommit.run H p w = .ok w' := by
      simp [LifecycleCall.run, UInteraction.CanCommitInteraction, ho, h1]
    have c1 := count_checks_zero p (isEnded p) pre (fun _ => rfl) h2
    have c2 := count_checks_zero p (isCancelled p) pre (fun _ => rfl) h2
    have c3 := count_checks_zero p (isActivated p) pre (fun _ => rfl) h2
    cases b with
    | true =>
      obtain ⟨ha, hl⟩ := h5 rfl
      refine ⟨w', o, pre, hrun, by rw [ha]; exact ho, hb1, hb2, fun h => h, hl, ?_, ?_, ?_⟩
      · simp [c1, c3]
      · simp [c1, c2]
      · intro h; exact Bool.noConfusion h
    | false =>
      obtain ⟨ha, hl⟩ := h6 rfl
      refine ⟨w', { o with bIsActive := false }, pre ++
        [.BroadcastCancelled p .Cancel_ConditionsNotMet,
          .InteractionCancelled p .Cancel_ConditionsNotMet], hrun, ?_, hb1, hb2,
        fun h => h, by rw [hl]; simp, ?_, ?_, ?_⟩
      · rw [ha]; simp [hp]
      · simp [List.countP_append, c1, c3, isEnded, isActivated, activeUnits]
      · simp [List.countP_append, c1, c2, isEnded, isCancelled]
      · intro h; exact Bool.noConfusion h
  | Commit bypass =>
    cases bypass with
    | true =>
      refine ⟨w.emit (.InteractionCommitted p), o, [.InteractionCommitted p], ?_, ho, hb1, hb2,
        fun h => h, rfl, ?_, ?_, ?_⟩
      · simp [LifecycleCall.run, UInteraction.CommitInteraction]
      · simp [isEnded, isActivated]
      · simp [isEnded, isCancelled]
      · intro h; exact Bool.noConfusion h
    | false =>
      obtain ⟨b, w', pre, h1, h2, _, _, h5, h6⟩ :=
        canCommitLoop_unbound H p o.InteractingActor o hb2 o.Conditions 0 w ho
      have hrun : (LifecycleCall.Commit false).run H p w
          = .ok (w'.emit (.InteractionCommitted p)) := by
        show UInteraction.CommitInteraction H p false w = _
        rw [commit_eq, canCommit_eq H p w o ho, h1]
        cases b with
        | true => rfl
        | false =>
          rcases hsafe with hsome | hne
          · have hat : w'.Objects[p]? = some { o with bIsActive := false } := by
              rw [(h6 rfl).1]
              exact List.getElem?_set_self hp
            exact thenCommitted_refused p w' _ hat hsome
          · exact absurd rfl hne
      have c1 := count_checks_zero p (isEnded p) pre (fun _ => rfl) h2
      have c2 := count_checks_zero p (isCancelled p) pre (fun _ => rfl) h2
      have c3 := count_checks_zero p (isActivated p) pre (fun _ => rfl) h2
      cases b with
      | true =>
        obtain ⟨ha, hl⟩ := h5 rfl
        refine ⟨_, o, pre ++ [.InteractionCommitted p], hrun, ?_, hb1, hb2, fun h => h,
          ?_, ?_, ?_, ?_⟩
        · show w'.Objects[p]? = some o
          rw [ha]; exact ho
        · simp [World.emit, hl]
        · simp [List.countP_append, c1, c3, isEnded, isActivated]
        · simp [List.countP_append, c1, c2, isEnded, isCancelled]
        · intro h; exact Bool.noConfusion h
      | false =>
        obtain ⟨ha, hl⟩ := h6 rfl
        refine ⟨_, { o with bIsActive := false }, pre ++
          [.BroadcastCancelled p .Cancel_ConditionsNotMet,
            .InteractionCancelled p .Cancel_ConditionsNotMet, .InteractionCommitted p], hrun,
          ?_, hb1, hb2, fun h => h, ?_, ?_, ?_, ?_⟩
        · show w'.Objects[p]? = _
          rw [ha]; simp [hp]
        · simp [World.emit, hl]
        · simp [List.countP_append, c1, c3, isEnded, isActivated, activeUnits]
        · simp [List.countP_append, c1, c2, isEnded, isCancelled]
        · intro h; exact Bool.noConfusion h
  | End =>
    cases hact : o.bIsActive with
    | false =>
      refine ⟨w, o, [], endInteraction_inactive H p w o ho hact, ho, hb1, hb2, fun h => h,
        by simp, ?_, ?_, ?_⟩
      · simp
      · simp
      · intro h; exact Bool.noConfusion h
    | true =>
      refine ⟨(((w.emit (.BroadcastEnded p true)).setObject p { o with bIsActive := false }).emit
          (.InteractionEnded p)), { o with bIsActive := false },
        [.BroadcastEnded p true, .InteractionEnded p], ?_, ?_, hb1, hb2, fun h => h,
        ?_, ?_, ?_, ?_⟩
      · show UInteraction.EndInteraction H p w = _
        rw [endInteraction_eq H p w o ho hact, broadcastEnded_unbound H hb1]
        simp [thenEnded, World.emit, ho]
      · simp [World.emit, World.setObject, hp]
      · simp [World.emit, World.setObject]
      · simp [isEnded, isActivated, activeUnits, hact]
      · simp [isEnded, isCancelled]
      · intro h; exact Bool.noConfusion h
  | Cancel r =>
    refine ⟨(((w.setObject p { o with bIsActive := false }).emit (.BroadcastCancelled p r)).emit
        (.InteractionCancelled p r)), { o with bIsActive := false },
      [.BroadcastCancelled p r, .InteractionCancelled p r], ?_, ?_, hb1, hb2, fun h => h,
      ?_, ?_, ?_, ?_⟩
    · show UInteraction.CancelInteraction H p r w = _
      rw [cancel_eq H p r w o ho, broadcastCancelled_unbound H hb2]
      rfl
    · simp [World.emit, World.setObject, hp]
    · simp [World.emit, World.setObject]
    · simp [isEnded, isActivated, activeUnits]
    · simp [isEnded, isCancelled]
    · intro _; simp [isCancelled]

theorem runCalls_unbound (H : Handlers) (p : Nat) (cs : List LifecycleCall) :
    ∀ (w : World) (o : UInteraction), w.Objects[p]? = some o →
      o.OnInteractionEnded = false → o.OnInteractionCancelled = false →
      (o.InteractingActor.isSome = true ∨ ∀ c ∈ cs, c ≠ LifecycleCall.Commit false) →
      ∃ (w' : World) (o' : UInteraction) (ext : List Signal),
        runCalls H p cs w = .ok w' ∧ w'.Objects[p]? = some o' ∧ w'.Log = w.Log ++ ext
          ∧ ext.countP (isEnded p) + activeUnits o'
              ≤ ext.countP (isActivated p) + activeUnits o
          ∧ ext.countP (isEnded p) + ext.countP (isCancelled p) ≤ cs.length
          ∧ cs.countP LifecycleCall.isCancel ≤ ext.countP (isCancelled p) := by
  induction cs with
  | nil =>
    intro w o ho _ _ _
    exact ⟨w, o, [], rfl, ho, by simp, by simp, by simp, by simp⟩
  | cons c cs ih =>
    intro w o ho hb1 hb2 hsafe
    have hsafe1 : o.InteractingActor.isSome = true ∨ c ≠ LifecycleCall.Commit false :=
      hsafe.imp id (fun h => h c (List.mem_cons_self _ _))
    obtain ⟨w1, o1, e1, h1, h2, h3, h4, hkeep, h5, h6, h7, h8⟩ :=
      call_step H p c w o ho hb1 hb2 hsafe1
    have hsafe2 : o1.InteractingActor.isSome = true ∨ ∀ d ∈ cs, d ≠ LifecycleCall.Commit false :=
      hsafe.imp hkeep (fun h d hd => h d (List.mem_cons_of_mem _ hd))
    obtain ⟨w2, o2, e2, k1, k2, k3, k4, k5, k6⟩ := ih w1 o1 h2 h3 h4 hsafe2
    refine ⟨w2, o2, e1 ++ e2, ?_, k2, ?_, ?_, ?_, ?_⟩
    · simp only [runCalls, h1]
      exact k1
    · rw [k3, h5, List.append_assoc]
    · simp only [List.countP_append]
      omega
    · simp only [List.countP_append, List.length_cons]
      omega
    · simp only [List.countP_append, List.countP_cons]
      cases hc : c.isCancel with
      | true =>
        have := h8 hc
        simp only [if_true]
        omega
      | false =>
        simp only [Bool.false_eq_true, if_false]
        omega

/-! ## A call chain only touches the objects it creates -/

theorem frameRel_of_same (N : Nat) {w w' : World} (ho : w'.Objects = w.Objects)
    (hl : w'.Log = w.Log)
    (ha : ∀ p, w'.Component.ActiveInteractionInstance = some p →
      w.Component.ActiveInteractionInstance = some p) : FrameRel N w w' := by
  intro h1 h2
  refine ⟨by rw [ho]; exact h1, fun p hp => h2 p (ha p hp), fun q _ => by rw [ho],
    [], by simp [hl], by simp⟩

theorem frameRel_chainRel (N : Nat) : ChainRel (FrameRel N) where
  refl := fun w => frameRel_of_same N rfl rfl (fun _ h => h)
  trans := by
    intro a b c hab hbc h1 h2
    obtain ⟨b1, b2, b3, e1, b4, b5⟩ := hab h1 h2
    obtain ⟨c1, c2, c3, e2, c4, c5⟩ := hbc b1 b2
    refine ⟨c1, c2, fun q hq => (c3 q hq).trans (b3 q hq), e1 ++ e2, ?_, ?_⟩
    · rw [c4, b4, List.append_assoc]
    · intro sig hsig
      rcases List.mem_append.1 hsig with h | h
      · exact b5 sig h
      · exact c5 sig h
  endSeq := fun w _ => frameRel_of_same N rfl rfl (fun _ h => h)
  enter := by
    intro w i s _ _ _ _ h1 _
    refine ⟨?_, ?_, ?_, [], by simp [World.enterSlot], by simp⟩
    · simp only [World.enterSlot, List.length_append, List.length_singleton]
      omega
    · intro p hp
      have hp' : some w.Objects.length = some p := hp
      have := Option.some.inj hp'
      omega
    · intro q hq
      simp only [World.enterSlot]
      exact List.getElem?_append_left (by omega)
  log := by
    intro w p l hp hl h1 h2
    refine ⟨h1, h2, fun _ _ => rfl, l, rfl, ?_⟩
    intro sig hsig
    rw [hl sig hsig]
    exact h2 p hp
  cancelEvent := by
    intro w w3 _ h h1 h2
    obtain ⟨b1, b2, b3, e1, b4, b5⟩ := h h1 h2
    refine ⟨b1, b2, b3, e1 ++ [.InteractionCancelled w.Objects.length .Cancel_ConditionsNotMet],
      ?_, ?_⟩
    · simp [World.emit, b4]
    · intro sig hsig
      rcases List.mem_append.1 hsig with h | h
      · exact b5 sig h
      · rw [List.mem_singleton.1 h]
        exact h1
  obj := by
    intro w p o a b hp _ h1 h2
    have hNp := h2 p hp
    refine ⟨by simpa [World.setObject] using h1, h2, ?_, [], by simp [World.setObject], by simp⟩
    intro q hq
    simp only [World.setObject]
    exact List.getElem?_set_ne (by omega)
  outcome := fun w _ _ i s b _ _ _ _ =>
    frameRel_of_same N rfl rfl (fun _ h => by cases h)
  progress := fun w _ => frameRel_of_same N rfl rfl (fun _ h => h)
  failed := fun w _ _ _ => frameRel_of_same N rfl rfl (fun _ h => by cases h)
  start := fun w _ _ => frameRel_of_same N rfl rfl (fun _ h => h)
  waiting := fun w _ => frameRel_of_same N rfl rfl (fun _ h => h)

theorem untouched_of_same {w w' : World} (ho : w'.Objects = w.Objects) (hl : w'.Log = w.Log) :
    Untouched w w' :=
  ⟨by rw [ho], fun q _ => by rw [ho], [], by simp [hl], by simp⟩

theorem startNext_untouched (fuel : Nat) (w : World)
    (hnone : w.Component.ActiveInteractionInstance = none) :
    Reaches Untouched w (StartNextSequentialInteraction fuel w) := by
  refine reaches_mono (fun w' h => ?_) (chain_rel (frameRel_chainRel w.Objects.length) fuel w hnone)
  obtain ⟨h1, _, h3, h4⟩ := h (le_refl _) (fun p hp => by rw [hnone] at hp; cases hp)
  exact ⟨h1, h3, h4⟩

theorem onInteractionEnded_untouched (fuel : Nat) (b : Bool) (w : World) :
    Reaches Untouched w (OnInteractionEnded fuel b w) := by
  unfold OnInteractionEnded
  cases hp : w.Component.ActiveInteractionInstance with
  | none => simp [OnInteractionEndedWith, hp, Reaches]
  | some p =>
    cases hinst : w.Objects[p]? with
    | none => simp [OnInteractionEndedWith, hp, hinst, Reaches]
    | some inst =>
      cases hv : IsValidIndex w.Component.SequentialInteractions
          w.Component.CurrentSequentialInteractionIndex with
      | false =>
        rw [onEndedWith_invalid _ _ _ _ _ hp hinst hv]
        exact untouched_of_same rfl rfl
      | true =>
        obtain ⟨i, s, hi, hs⟩ := isValidIndex_true hv
        rw [onEndedWith_eq _ _ _ _ _ i s hp hinst hi hs]
        split
        · exact reaches_mono (fun w' h => h) (startNext_untouched fuel (w.afterOutcome i s b) rfl)
        · exact untouched_of_same rfl rfl

theorem tryActivate_fail_component (fuel : Nat) (p : Nat) (a : Option AActor) (w : World)
    (o : UInteraction) (ho : w.Objects[p]? = some o) (ha : IsValid a = true)
    (hc : conditionsPass a o.Conditions = false) :
    Reaches (fun _ w' =>
        w'.Objects[p]? = some { o with InteractingActor := a, bIsActive := false }
          ∧ ∃ ext, w'.Log = w.Log ++ ext
            ∧ Signal.BroadcastCancelled p .Cancel_ConditionsNotMet ∈ ext
            ∧ Signal.InteractionActivated p ∉ ext)
      w (UInteraction.TryActivateInteraction (componentHandlers fuel) p a w) := by
  have hp := getElem?_lt_of_some ho
  rw [tryActivate_fail _ p a w o ho ha hc]
  have hnoAct : Signal.InteractionActivated p ∉ evaluations p a o.Conditions := by
    intro h
    obtain ⟨j, hj⟩ := evaluations_checks _ _ _ _ h
    cases hj
  -- the state in which the cancellation is broadcast
  have hmidObj : ((((w.setObject p { o with InteractingActor := a, bIsActive := false }).emitAll
      (evaluations p a o.Conditions)).emit
        (.BroadcastCancelled p .Cancel_ConditionsNotMet))).Objects[p]?
      = some { o with InteractingActor := a, bIsActive := false } := by
    simp [World.emit, World.emitAll, World.setObject, hp]
  have hmidLen : p < ((((w.setObject p { o with InteractingActor := a, bIsActive := false
      }).emitAll (evaluations p a o.Conditions)).emit
        (.BroadcastCancelled p .Cancel_ConditionsNotMet))).Objects.length := by
    simp [World.emit, World.emitAll, World.setObject, hp]
  have hmidLog : ((((w.setObject p { o with InteractingActor := a, bIsActive := false }).emitAll
      (evaluations p a o.Conditions)).emit
        (.BroadcastCancelled p .Cancel_ConditionsNotMet))).Log
      = w.Log ++ (evaluations p a o.Conditions
          ++ [.BroadcastCancelled p .Cancel_ConditionsNotMet]) := by
    simp [World.emit, World.emitAll, World.setObject]
  -- what holds of any state reached from there without touching the old objects
  have hkey : ∀ w3 : World,
      Untouched ((((w.setObject p { o with InteractingActor := a, bIsActive := false }).emitAll
        (evaluations p a o.Conditions)).emit
          (.BroadcastCancelled p .Cancel_ConditionsNotMet))) w3 →
      w3.Objects[p]? = some { o with InteractingActor := a, bIsActive := false }
        ∧ ∃ ext, w3.Log = w.Log ++ ext
          ∧ Signal.BroadcastCancelled p .Cancel_ConditionsNotMet ∈ ext
          ∧ Signal.InteractionActivated p ∉ ext := by
    intro w3 hu
    obtain ⟨_, h2, ext, h3, h4⟩ := hu
    refine ⟨(h2 p hmidLen).trans hmidObj, (evaluations p a o.Conditions
        ++ [.BroadcastCancelled p .Cancel_ConditionsNotMet]) ++ ext, ?_, ?_, ?_⟩
    · rw [h3, hmidLog, List.append_assoc]
    · simp
    · intro hmem
      rcases List.mem_append.1 hmem with h | h
      · rcases List.mem_append.1 h with h | h
        · exact hnoAct h
        · simp at h
      · have := h4 _ h
        simp only [Signal.obj] at this
        omega
  rcases Bool.eq_false_or_eq_true o.OnInteractionCancelled with hb | hb
  swap
  · rw [broadcastCancelled_unbound _ hb]
    obtain ⟨h1, ext, h2, h3, h4⟩ := hkey _ (untouched_of_same rfl rfl)
    refine ⟨h1, ext ++ [.InteractionCancelled p .Cancel_ConditionsNotMet], ?_, ?_, ?_⟩
    · show (_ ++ [_] : List Signal) = _
      rw [h2, List.append_assoc]
    · exact List.mem_append_left _ h3
    · intro hmem
      rcases List.mem_append.1 hmem with h | h
      · exact h4 h
      · simp at h
  · have hbc : UInteraction.BroadcastCancelled (componentHandlers fuel)
        o.OnInteractionCancelled .Cancel_ConditionsNotMet
        = OnInteractionEnded fuel false := by
      funext x
      simp [UInteraction.BroadcastCancelled, hb, componentHandlers, handlersWith,
        OnInteractionCancelledWith, OnInteractionEnded]
    rw [hbc]
    have hreach := onInteractionEnded_untouched fuel false
      ((((w.setObject p { o with InteractingActor := a, bIsActive := false }).emitAll
        (evaluations p a o.Conditions)).emit
          (.BroadcastCancelled p .Cancel_ConditionsNotMet)))
    cases hr : OnInteractionEnded fuel false
      ((((w.setObject p { o with InteractingActor := a, bIsActive := false }).emitAll
        (evaluations p a o.Conditions)).emit
          (.BroadcastCancelled p .Cancel_ConditionsNotMet))) with
    | ok w3 =>
      rw [hr] at hreach
      obtain ⟨h1, ext, h2, h3, h4⟩ := hkey w3 hreach
      refine ⟨h1, ext ++ [.InteractionCancelled p .Cancel_ConditionsNotMet], ?_, ?_, ?_⟩
      · show (_ ++ [_] : List Signal) = _
        rw [h2, List.append_assoc]
      · exact List.mem_append_left _ h3
      · intro hmem
        rcases List.mem_append.1 hmem with h | h
        · exact h4 h
        · simp at h
    | error e =>
      rw [hr] at hreach
      cases e with
      | outOfFuel w3 => exact hkey w3 hreach
      | nullDeref => trivial
      | outOfBounds => trivial

/-! ## Lifecycle calls under handlers that leave the object alone -/

theorem componentHandlers_quiet (fuel p : Nat) : (componentHandlers fuel).Quiet p := by
  intro w w' hp
  have key : ∀ b, OnInteractionEnded fuel b w = .ok w' → QuietStep p w w' := by
    intro b hb
    have h := onInteractionEnded_untouched fuel b w
    rw [hb] at h
    obtain ⟨_, h2, ext, h3, h4⟩ := h
    refine ⟨h2 p hp, ext, h3, ?_⟩
    intro sig hsig
    have := h4 sig hsig
    omega
  exact ⟨fun b hb => key b hb, fun _ hr => key false hr⟩

theorem quiet_counts (p : Nat) (ext : List Signal) (h : ∀ sig ∈ ext, sig.obj ≠ p) :
    ext.countP (isEnded p) = 0 ∧ ext.countP (isCancelled p) = 0
      ∧ ext.countP (isActivated p) = 0 := by
  refine ⟨?_, ?_, ?_⟩ <;>
  · rw [List.countP_eq_zero]
    intro sig hsig
    have := h sig hsig
    cases sig <;> simp_all [isEnded, isCancelled, isActivated, Signal.obj]

theorem thenEmit_ok {sig : Signal} {r : Except Fault World} {w' : World}
    (h : thenEmit sig r = .ok w') : ∃ w3, r = .ok w3 ∧ w' = w3.emit sig := by
  cases r with
  | error e => cases h
  | ok w3 => exact ⟨w3, rfl, (Except.ok.inj h).symm⟩

theorem broadcastCancelled_quiet (H : Handlers) (p : Nat) (hq : H.Quiet p) (b : Bool)
    (r : EInteractionCancelReason) (w w' : World) (hp : p < w.Objects.length)
    (h : UInteraction.BroadcastCancelled H b r w = .ok w') : QuietStep p w w' := by
  cases b with
  | false =>
    have : w' = w := (Except.ok.inj h).symm
    subst this
    exact ⟨rfl, [], by simp, by simp⟩
  | true => exact (hq w w' hp).2 r h

theorem broadcastEnded_quiet (H : Handlers) (p : Nat) (hq : H.Quiet p) (b x : Bool)
    (w w' : World) (hp : p < w.Objects.length)
    (h : UInteraction.BroadcastEnded H b x w = .ok w') : QuietStep p w w' := by
  cases b with
  | false =>
    have : w' = w := (Except.ok.inj h).symm
    subst this
    exact ⟨rfl, [], by simp, by simp⟩
  | true => exact (hq w w' hp).1 x h

theorem cancel_quiet (H : Handlers) (p : Nat) (hq : H.Quiet p) (r : EInteractionCancelReason)
    (w w' : World) (o : UInteraction) (ho : w.Objects[p]? = some o)
    (h : UInteraction.CancelInteraction H p r w = .ok w') :
    ∃ ext, (∀ sig ∈ ext, sig.obj ≠ p)
      ∧ w'.Objects[p]? = some { o with bIsActive := false }
      ∧ w'.Log = w.Log ++ [.BroadcastCancelled p r] ++ ext ++ [.InteractionCancelled p r] := by
  have hp := getElem?_lt_of_some ho
  rw [cancel_eq H p r w o ho] at h
  obtain ⟨w3, h3, rfl⟩ := thenEmit_ok h
  obtain ⟨q1, ext, q2, q3⟩ := broadcastCancelled_quiet H p hq _ r _ w3
    (by simpa [World.emit, World.setObject] using hp) h3
  refine ⟨ext, q3, ?_, ?_⟩
  · show w3.Objects[p]? = _
    rw [q1]
    simp [World.emit, World.setObject, hp]
  · show w3.Log ++ [_] = _
    rw [q2]
    simp [World.emit, World.setObject]

theorem end_quiet (H : Handlers) (p : Nat) (hq : H.Quiet p) (w w' : World) (o : UInteraction)
    (ho : w.Objects[p]? = some o) (hact : o.bIsActive = true)
    (h : UInteraction.EndInteraction H p w = .ok w') :
    ∃ ext, (∀ sig ∈ ext, sig.obj ≠ p)
      ∧ w'.Objects[p]? = some { o with bIsActive := false }
      ∧ w'.Log = w.Log ++ [.BroadcastEnded p true] ++ ext ++ [.InteractionEnded p] := by
  have hp := getElem?_lt_of_some ho
  rw [endInteraction_eq H p w o ho hact] at h
  cases hr : UInteraction.BroadcastEnded H o.OnInteractionEnded true
      (w.emit (.BroadcastEnded p true)) with
  | error e => rw [hr] at h; cases h
  | ok w2 =>
    rw [hr] at h
    obtain ⟨q1, ext, q2, q3⟩ := broadcastEnded_quiet H p hq _ true _ w2
      (by simpa [World.emit] using hp) hr
    have ho2 : w2.Objects[p]? = some o := by rw [q1]; exact ho
    have hp2 := getElem?_lt_of_some ho2
    simp only [thenEnded, ho2] at h
    have hw' := (Except.ok.inj h).symm
    subst hw'
    refine ⟨ext, q3, ?_, ?_⟩
    · simp [World.emit, World.setObject, hp2]
    · simp [World.emit, World.setObject, q2]

theorem canCommitLoop_quiet (H : Handlers) (p : Nat) (hq : H.Quiet p) (actor : Option AActor)
    (o : UInteraction) (cs : List UInteractionCondition) :
    ∀ (k : Nat) (w w' : World) (b : Bool), w.Objects[p]? = some o →
      UInteraction.CanCommitInteraction.loop H p actor cs k w = .ok (b, w') →
      ∃ (pre ext : List Signal),
        (∀ sig ∈ pre, ∃ j, sig = Signal.CheckInteractionConditions p j)
          ∧ (∀ sig ∈ ext, sig.obj ≠ p)
          ∧ (b = true → w'.Objects[p]? = some o ∧ w'.Log = w.Log ++ pre)
          ∧ (b = false → w'.Objects[p]? = some { o with bIsActive := false }
              ∧ w'.Log = w.Log ++ pre ++ [.BroadcastCancelled p .Cancel_ConditionsNotMet]
                  ++ ext ++ [.InteractionCancelled p .Cancel_ConditionsNotMet]) := by
  induction cs with
  | nil =>
    intro k w w' b ho h
    simp only [UInteraction.CanCommitInteraction.loop, Except.ok.injEq, Prod.mk.injEq] at h
    obtain ⟨rfl, rfl⟩ := h
    exact ⟨[], [], by simp, by simp, fun _ => ⟨ho, by simp⟩, fun h => Bool.noConfusion h⟩
  | cons c cs ih =>
    intro k w w' b ho h
    cases hc : c.CheckInteractionConditions actor with
    | true =>
      simp only [UInteraction.CanCommitInteraction.loop, hc, if_true] at h
      cases hr : UInteraction.CancelInteraction H p .Cancel_ConditionsNotMet
          (w.emit (.CheckInteractionConditions p k)) with
      | error e => rw [hr] at h; cases h
      | ok w2 =>
        rw [hr] at h
        simp only [Except.ok.injEq, Prod.mk.injEq] at h
        obtain ⟨rfl, rfl⟩ := h
        obtain ⟨ext, q1, q2, q3⟩ := cancel_quiet H p hq _
          (w.emit (.CheckInteractionConditions p k)) w2 o ho hr
        refine ⟨[.CheckInteractionConditions p k], ext, ?_, q1, fun h => Bool.noConfusion h,
          fun _ => ⟨q2, ?_⟩⟩
        · intro sig hsig
          exact ⟨k, List.mem_singleton.1 hsig⟩
        · rw [q3]
          simp [World.emit]
    | false =>
      simp only [UInteraction.CanCommitInteraction.loop, hc, Bool.false_eq_true, if_false] at h
      obtain ⟨pre, ext, h1, h2, h3, h4⟩ :=
        ih (k + 1) (w.emit (.CheckInteractionConditions p k)) w' b ho h
      refine ⟨.CheckInteractionConditions p k :: pre, ext, ?_, h2, ?_, ?_⟩
      · intro sig hsig
        rcases List.mem_cons.1 hsig with h | h
        · exact ⟨k, h⟩
        · exact h1 sig h
      · intro hb
        obtain ⟨ha, hl⟩ := h3 hb
        exact ⟨ha, by rw [hl]; simp [World.emit]⟩
      · intro hb
        obtain ⟨ha, hl⟩ := h4 hb
        exact ⟨ha, by rw [hl]; simp [World.emit]⟩

theorem call_step_quiet (H : Handlers) (p : Nat) (hq : H.Quiet p) (c : LifecycleCall)
    (w w' : World) (o : UInteraction) (ho : w.Objects[p]? = some o)
    (h : c.run H p w = .ok w') :
    ∃ (o' : UInteraction) (ext : List Signal),
      w'.Objects[p]? = some o' ∧ w'.Log = w.Log ++ ext
        ∧ ext.countP (isEnded p) + activeUnits o' ≤ ext.countP (isActivated p) + activeUnits o
        ∧ ext.countP (isEnded p) + ext.countP (isCancelled p) ≤ 1
        ∧ (c.isCancel = true → ext.countP (isCancelled p) = 1) := by
  have hp := getElem?_lt_of_some ho
  cases c with
  | TryActivate a =>
    have h' : UInteraction.TryActivateInteraction H p a w = .ok w' := h
    cases ha : IsValid a with
    | false =>
      rw [tryActivate_invalid H p a w o ho ha] at h'
      have hw := (Except.ok.inj h').symm
      subst hw
      refine ⟨o, [.InteractionCancelled p .Cancel_Failed], ho, rfl, ?_, ?_, ?_⟩
      · simp [isEnded, isActivated]
      · simp [isEnded, isCancelled]
      · intro h; exact Bool.noConfusion h
    | true =>
      obtain ⟨e1, e2, e3⟩ := evaluations_count p p a o.Conditions
      cases hc : conditionsPass a o.Conditions with
      | true =>
        rw [tryActivate_pass H p a w o ho ha hc] at h'
        have hw := (Except.ok.inj h').symm
        subst hw
        refine ⟨{ o with InteractingActor := a, bIsActive := true },
          evaluations p a o.Conditions ++ [.InteractionActivated p], ?_, ?_, ?_, ?_, ?_⟩
        · simp [World.emit, World.emitAll, World.setObject, hp]
        · simp [World.emit, World.emitAll, World.setObject]
        · simp [List.countP_append, e1, e3, isEnded, isActivated, activeUnits]
        · simp [List.countP_append, e1, e2, isEnded, isCancelled]
        · intro h; exact Bool.noConfusion h
      | false =>
        rw [tryActivate_fail_cancel H p a w o ho ha hc] at h'
        obtain ⟨ext, q1, q2, q3⟩ := cancel_quiet H p hq _ _ w'
          { o with InteractingActor := a }
          (by simp [World.emitAll, World.setObject, hp]) h'
        obtain ⟨c1, c2, c3⟩ := quiet_counts p ext q1
        refine ⟨_, evaluations p a o.Conditions
          ++ [.BroadcastCancelled p .Cancel_ConditionsNotMet] ++ ext
          ++ [.InteractionCancelled p .Cancel_ConditionsNotMet], q2, ?_, ?_, ?_, ?_⟩
        · rw [q3]; simp [World.emitAll, World.setObject]
        · simp [List.countP_append, e1, e3, c1, c3, isEnded, isActivated, activeUnits]
        · simp [List.countP_append, e1, e2, c1, c2, isEnded, isCancelled]
        · intro h; exact Bool.noConfusion h
  | CanCommit =>
    have h' : (match UInteraction.CanCommitInteraction H p w with
      | .error e => .error e
      | .ok r => .ok r.2) = Except.ok w' := h
    simp only [UInteraction.CanCommitInteraction, ho] at h'
    cases hr : UInteraction.CanCommitInteraction.loop H p o.InteractingActor o.Conditions 0 w with
    | error e => rw [hr] at h'; cases h'
    | ok r =>
      rw [hr] at h'
      have hw := (Except.ok.inj h').symm
      obtain ⟨b, w2⟩ := r
      simp only at hw
      subst hw
      obtain ⟨pre, ext, h1, h2, h3, h4⟩ := canCommitLoop_quiet H p hq _ o _ 0 w w' b ho hr
      have k1 := count_checks_zero p (isEnded p) pre (fun _ => rfl) h1
      have k2 := count_checks_zero p (isCancelled p) pre (fun _ => rfl) h1
      have k3 := count_checks_zero p (isActivated p) pre (fun _ => rfl) h1
      obtain ⟨c1, c2, c3⟩ := quiet_counts p ext h2
      cases b with
      | true =>
        obtain ⟨ha, hl⟩ := h3 rfl
        refine ⟨o, pre, ha, hl, ?_, ?_, ?_⟩
        · simp [k1, k3]
        · simp [k1, k2]
        · intro h; exact Bool.noConfusion h
      | false =>
        obtain ⟨ha, hl⟩ := h4 rfl
        refine ⟨_, pre ++ [.BroadcastCancelled p .Cancel_ConditionsNotMet] ++ ext
          ++ [.InteractionCancelled p .Cancel_ConditionsNotMet], ha, by rw [hl]; simp, ?_, ?_,
          ?_⟩
        · simp [List.countP_append, k1, k3, c1, c3, isEnded, isActivated, activeUnits]
        · simp [List.countP_append, k1, k2, c1, c2, isEnded, isCancelled]
        · intro h; exact Bool.noConfusion h
  | Commit bypass =>
    have h' : UInteraction.CommitInteraction H p bypass w = .ok w' := h
    cases bypass with
    | true =>
      simp only [UInteraction.CommitInteraction, Bool.not_true, Bool.false_eq_true, if_false,
        Except.ok.injEq] at h'
      subst h'
      refine ⟨o, [.InteractionCommitted p], ho, rfl, ?_, ?_, ?_⟩
      · simp [isEnded, isActivated]
      · simp [isEnded, isCancelled]
      · intro h; exact Bool.noConfusion h
    | false =>
      rw [commit_eq, canCommit_eq H p w o ho] at h'
      obtain ⟨b, w2, hr, hw⟩ := thenCommitted_ok h'
      · subst hw
        obtain ⟨pre, ext, h1, h2, h3, h4⟩ := canCommitLoop_quiet H p hq _ o _ 0 w w2 b ho hr
        have k1 := count_checks_zero p (isEnded p) pre (fun _ => rfl) h1
        have k2 := count_checks_zero p (isCancelled p) pre (fun _ => rfl) h1
        have k3 := count_checks_zero p (isActivated p) pre (fun _ => rfl) h1
        obtain ⟨c1, c2, c3⟩ := quiet_counts p ext h2
        cases b with
        | true =>
          obtain ⟨ha, hl⟩ := h3 rfl
          refine ⟨o, pre ++ [.InteractionCommitted p], ha, ?_, ?_, ?_, ?_⟩
          · simp [World.emit, hl]
          · simp [List.countP_append, k1, k3, isEnded, isActivated]
          · simp [List.countP_append, k1, k2, isEnded, isCancelled]
          · intro h; exact Bool.noConfusion h
        | false =>
          obtain ⟨ha, hl⟩ := h4 rfl
          refine ⟨_, pre ++ [.BroadcastCancelled p .Cancel_ConditionsNotMet] ++ ext
            ++ [.InteractionCancelled p .Cancel_ConditionsNotMet, .InteractionCommitted p], ha,
            ?_, ?_, ?_, ?_⟩
          · show w2.Log ++ [_] = _
            rw [hl]; simp
          · simp [List.countP_append, k1, k3, c1, c3, isEnded, isActivated, activeUnits]
          · simp [List.countP_append, k1, k2, c1, c2, isEnded, isCancelled]
          · intro h; exact Bool.noConfusion h
  | End =>
    have h' : UInteraction.EndInteraction H p w = .ok w' := h
    cases hact : o.bIsActive with
    | false =>
      rw [endInteraction_inactive H p w o ho hact] at h'
      have hw := (Except.ok.inj h').symm
      subst hw
      exact ⟨o, [], ho, by simp, by simp, by simp, fun h => Bool.noConfusion h⟩
    | true =>
      obtain ⟨ext, q1, q2, q3⟩ := end_quiet H p hq w w' o ho hact h'
      obtain ⟨c1, c2, c3⟩ := quiet_counts p ext q1
      refine ⟨_, [.BroadcastEnded p true] ++ ext ++ [.InteractionEnded p], q2,
        by rw [q3]; simp, ?_, ?_, ?_⟩
      · simp [List.countP_append, c1, c3, isEnded, isActivated, activeUnits, hact]
      · simp [List.countP_append, c1, c2, isEnded, isCancelled]
      · intro h; exact Bool.noConfusion h
  | Cancel r =>
    have h' : UInteraction.CancelInteraction H p r w = .ok w' := h
    obtain ⟨ext, q1, q2, q3⟩ := cancel_quiet H p hq r w w' o ho h'
    obtain ⟨c1, c2, c3⟩ := quiet_counts p ext q1
    refine ⟨_, [.BroadcastCancelled p r] ++ ext ++ [.InteractionCancelled p r], q2,
      by rw [q3]; simp, ?_, ?_, ?_⟩
    · simp [List.countP_append, c1, c3, isEnded, isActivated, activeUnits]
    · simp [List.countP_append, c1, c2, isEnded, isCancelled]
    · intro _; simp [List.countP_append, c2, isCancelled]

theorem runCalls_quiet (H : Handlers) (p : Nat) (hq : H.Quiet p) (cs : List LifecycleCall) :
    ∀ (w w' : World) (o : UInteraction), w.Objects[p]? = some o →
      runCalls H p cs w = .ok w' →
      ∃ (o' : UInteraction) (ext : List Signal),
        w'.Objects[p]? = some o' ∧ w'.Log = w.Log ++ ext
          ∧ ext.countP (isEnded p) + ext.countP (isCancelled p) ≤ cs.length
          ∧ ext.countP (isEnded p) + activeUnits o'
              ≤ ext.countP (isActivated p) + activeUnits o
          ∧ cs.countP LifecycleCall.isCancel ≤ ext.countP (isCancelled p) := by
  induction cs with
  | nil =>
    intro w w' o ho h
    have hw := (Except.ok.inj h).symm
    subst hw
    exact ⟨o, [], ho, by simp, by simp, by simp, by simp⟩
  | cons c cs ih =>
    intro w w' o ho h
    simp only [runCalls] at h
    cases hr : c.run H p w with
    | error e => rw [hr] at h; cases h
    | ok w1 =>
      rw [hr] at h
      obtain ⟨o1, e1, h2, h5, h6, h7, h8⟩ := call_step_quiet H p hq c w w1 o ho hr
      obtain ⟨o2, e2, k2, k3, k4, k5, k6⟩ := ih w1 w' o1 h2 h
      refine ⟨o2, e1 ++ e2, k2, ?_, ?_, ?_, ?_⟩
      · rw [k3, h5, List.append_assoc]
      · simp only [List.countP_append, List.length_cons]
        omega
      · simp only [List.countP_append]
        omega
      · simp only [List.countP_append, List.countP_cons]
        cases hc : c.isCancel with
        | true =>
          have := h8 hc
          simp only [if_true]
          omega
        | false =>
          simp only [Bool.false_eq_true, if_false]
          omega

/-! ## `CanCommitInteraction` and `CommitInteraction` -/

theorem emitAll_nil (w : World) : w.emitAll [] = w := by
  simp [World.emitAll]

theorem emit_emitAll (w : World) (sig : Signal) (l : List Signal) :
    (w.emit sig).emitAll l = w.emitAll (sig :: l) := by
  simp [World.emit, World.emitAll]

theorem checksFrom_obj (p : Nat) : ∀ (n k : Nat), ∀ sig ∈ checksFrom p k n, sig.obj = p := by
  intro n
  induction n with
  | zero => intro k sig h; simp [checksFrom] at h
  | succ n ih =>
    intro k sig h
    rcases List.mem_cons.1 h with h | h
    · rw [h]; rfl
    · exact ih (k + 1) sig h

theorem checksFrom_counts (p q : Nat) : ∀ (n k : Nat),
    (checksFrom p k n).countP (isCancelled q) = 0
      ∧ (checksFrom p k n).countP (isEnded q) = 0
      ∧ (checksFrom p k n).countP (isCommitted q) = 0 := by
  intro n
  induction n with
  | zero => intro k; exact ⟨rfl, rfl, rfl⟩
  | succ n ih =>
    intro k
    obtain ⟨h1, h2, h3⟩ := ih (k + 1)
    refine ⟨?_, ?_, ?_⟩
    · show (Signal.CheckInteractionConditions p k :: checksFrom p (k + 1) n).countP _ = 0
      rw [List.countP_cons_of_neg _ _ (by simp [isCancelled]), h1]
    · show (Signal.CheckInteractionConditions p k :: checksFrom p (k + 1) n).countP _ = 0
      rw [List.countP_cons_of_neg _ _ (by simp [isEnded]), h2]
    · show (Signal.CheckInteractionConditions p k :: checksFrom p (k + 1) n).countP _ = 0
      rw [List.countP_cons_of_neg _ _ (by simp [isCommitted]), h3]

/-- With every raw result false the loop of `CanCommitInteraction` evaluates
every condition and answers true. -/
theorem canCommitLoop_all_false (H : Handlers) (p : Nat) (actor : Option AActor) :
    ∀ (cs : List UInteractionCondition) (k : Nat) (w : World),
      (∀ c ∈ cs, rawResult actor c = false) →
      UInteraction.CanCommitInteraction.loop H p actor cs k w
        = .ok (true, w.emitAll (checksFrom p k cs.length)) := by
  intro cs
  induction cs with
  | nil =>
    intro k w _
    show Except.ok (true, w) = _
    rw [show checksFrom p k ([] : List UInteractionCondition).length = [] from rfl, emitAll_nil]
  | cons c cs ih =>
    intro k w h
    have hc : c.CheckInteractionConditions actor = false := h c (List.mem_cons_self _ _)
    simp only [UInteraction.CanCommitInteraction.loop, hc, Bool.false_eq_true, if_false]
    rw [ih (k + 1) _ (fun d hd => h d (List.mem_cons_of_mem _ hd)), emit_emitAll]
    rfl

/-- With a first condition whose raw result is true the loop of
`CanCommitInteraction` evaluates the conditions up to it, cancels and answers
false. -/
theorem canCommitLoop_first_true (H : Handlers) (p : Nat) (actor : Option AActor)
    (c : UInteractionCondition) (post : List UInteractionCondition)
    (hc : rawResult actor c = true) :
    ∀ (pre : List UInteractionCondition) (k : Nat) (w : World),
      (∀ d ∈ pre, rawResult actor d = false) →
      UInteraction.CanCommitInteraction.loop H p actor (pre ++ c :: post) k w
        = thenRefuse (UInteraction.CancelInteraction H p .Cancel_ConditionsNotMet
            (w.emitAll (checksFrom p k (pre.length + 1)))) := by
  intro pre
  induction pre with
  | nil =>
    intro k w _
    have hc' : c.CheckInteractionConditions actor = true := hc
    simp only [List.nil_append, UInteraction.CanCommitInteraction.loop, hc', if_true]
    rfl
  | cons d pre ih =>
    intro k w h
    have hd : d.CheckInteractionConditions actor = false := h d (List.mem_cons_self _ _)
    simp only [List.cons_append, UInteraction.CanCommitInteraction.loop, hd,
      Bool.false_eq_true, if_false]
    have hrec := ih (k + 1) (w.emit (.CheckInteractionConditions p k))
      (fun e he => h e (List.mem_cons_of_mem _ he))
    rw [emit_emitAll] at hrec
    exact hrec

/-- The answer of the loop of `CanCommitInteraction`, whenever it returns. -/
theorem canCommitLoop_answer (H : Handlers) (p : Nat) (actor : Option AActor) :
    ∀ (cs : List UInteractionCondition) (k : Nat) (w w' : World) (b : Bool),
      UInteraction.CanCommitInteraction.loop H p actor cs k w = .ok (b, w') →
      b = cs.all (fun c => !rawResult actor c) := by
  intro cs
  induction cs with
  | nil =>
    intro k w w' b h
    simp only [UInteraction.CanCommitInteraction.loop, Except.ok.injEq, Prod.mk.injEq] at h
    simp [h.1.symm]
  | cons c cs ih =>
    intro k w w' b h
    cases hc : c.CheckInteractionConditions actor with
    | true =>
      simp only [UInteraction.CanCommitInteraction.loop, hc, if_true] at h
      cases hr : UInteraction.CancelInteraction H p .Cancel_ConditionsNotMet
          (w.emit (.CheckInteractionConditions p k)) with
      | error e => rw [hr] at h; cases h
      | ok w2 =>
        rw [hr] at h
        simp only [Except.ok.injEq, Prod.mk.injEq] at h
        simp [rawResult, hc, h.1.symm]
    | false =>
      simp only [UInteraction.CanCommitInteraction.loop, hc, Bool.false_eq_true, if_false] at h
      have := ih (k + 1) _ w' b h
      simp [rawResult, hc, this]

/-- The loop of `CanCommitInteraction` reads of each condition only its raw
result. -/
theorem canCommitLoop_congr (H : Handlers) (p : Nat) (actor : Option AActor) :
    ∀ (cs cs' : List UInteractionCondition) (k : Nat) (w : World),
      cs'.map (rawResult actor) = cs.map (rawResult actor) →
      UInteraction.CanCommitInteraction.loop H p actor cs' k w
        = UInteraction.CanCommitInteraction.loop H p actor cs k w := by
  intro cs
  induction cs with
  | nil =>
    intro cs' k w h
    cases cs' with
    | nil => rfl
    | cons c' cs' => simp at h
  | cons c cs ih =>
    intro cs' k w h
    cases cs' with
    | nil => simp at h
    | cons c' cs' =>
      simp only [List.map_cons, List.cons.injEq] at h
      obtain ⟨h1, h2⟩ := h
      have h1' : c'.CheckInteractionConditions actor = c.CheckInteractionConditions actor := h1
      simp only [UInteraction.CanCommitInteraction.loop, h1']
      rw [ih cs' (k + 1) _ h2]

theorem thenRefuse_ok {r : Except Fault World} {b : Bool} {w' : World}
    (h : thenRefuse r = .ok (b, w')) : b = false ∧ r = .ok w' := by
  cases r with
  | error e => cases h
  | ok w2 =>
    simp only [thenRefuse, Except.ok.injEq, Prod.mk.injEq] at h
    exact ⟨h.1.symm, by rw [h.2]⟩

theorem quiet_committed (p : Nat) (ext : List Signal) (h : ∀ sig ∈ ext, sig.obj ≠ p) :
    ext.countP (isCommitted p) = 0 := by
  rw [List.countP_eq_zero]
  intro sig hsig
  have := h sig hsig
  cases sig <;> simp_all [isCommitted, Signal.obj]

/-- Whenever `CommitInteraction` returns under handlers that leave the object
alone, the log has gained `InteractionCommitted` of the object exactly once, as
its last signal. -/
theorem commit_quiet (H : Handlers) (p : Nat) (hq : H.Quiet p) (bBypass : Bool) (w w' : World)
    (o : UInteraction) (ho : w.Objects[p]? = some o)
    (h : UInteraction.CommitInteraction H p bBypass w = .ok w') :
    ∃ before, w'.Log = w.Log ++ before ++ [.InteractionCommitted p]
      ∧ before.countP (isCommitted p) = 0 := by
  cases bBypass with
  | true =>
    have hw : w' = w.emit (.InteractionCommitted p) := (Except.ok.inj h).symm
    subst hw
    exact ⟨[], by simp [World.emit], rfl⟩
  | false =>
    rw [commit_eq] at h
    obtain ⟨b, w1, hr, hw⟩ := thenCommitted_ok h
    subst hw
    rw [canCommit_eq H p w o ho] at hr
    obtain ⟨pre, ext, h1, h2, h3, h4⟩ := canCommitLoop_quiet H p hq _ o _ 0 w w1 b ho hr
    have hpre : pre.countP (isCommitted p) = 0 :=
      count_checks_zero p _ pre (fun _ => rfl) h1
    have hext := quiet_committed p ext h2
    cases b with
    | true =>
      refine ⟨pre, ?_, hpre⟩
      show w1.Log ++ [Signal.InteractionCommitted p] = _
      rw [(h3 rfl).2]
    | false =>
      refine ⟨pre ++ [.BroadcastCancelled p .Cancel_ConditionsNotMet] ++ ext
        ++ [.InteractionCancelled p .Cancel_ConditionsNotMet], ?_, ?_⟩
      · show w1.Log ++ [Signal.InteractionCommitted p] = _
        rw [(h4 rfl).2]
        simp
      · simp [List.countP_append, hpre, hext, isCommitted]

/-! ## The restart after `EndSequentialInteractions` -/

theorem afterOutcome_ended (w : World) (i : Nat) (s : FSequentialInteraction) (b : Bool)
    (hend : endsSequence w.Component.SequentialInteractions i s b = true) :
    (w.afterOutcome i s b).Component.CurrentSequentialInteractionIndex = -1
      ∧ (w.afterOutcome i s b).Component.CurrentInteractionState = .SequentialState_Idle
      ∧ EndSequentialInteractions (w.afterOutcome i s b) = w.afterOutcome i s b := by
  refine ⟨?_, ?_, ?_⟩
  · simp [World.afterOutcome, hend]
  · simp [World.afterOutcome, hend]
  · simp [EndSequentialInteractions, World.setIndex, World.setState, World.afterOutcome, hend]

/-! ## A chain that never returns -/

/-- In a sequence of restless slots, with the cursor before the last slot,
`StartNextSequentialInteraction` uses up any amount of fuel, creating one
instance per unit. -/
theorem startNext_restless (E : Option AActor) (hE : IsValid E = true) :
    ∀ (fuel : Nat) (w : World), w.Component.CurrentlyInteractingActor = E →
      (∀ s ∈ w.Component.SequentialInteractions, Restless E s) →
      -1 ≤ w.Component.CurrentSequentialInteractionIndex →
      w.Component.CurrentSequentialInteractionIndex + 1
        < (w.Component.SequentialInteractions.length : Int) →
      ∃ w', StartNextSequentialInteraction fuel w = .error (.outOfFuel w')
        ∧ w'.Objects.length = w.Objects.length + fuel := by
  intro fuel
  induction fuel with
  | zero => intro w _ _ _ _; exact ⟨w, rfl, rfl⟩
  | succ fuel ih =>
    intro w hact hall hc hlt
    obtain ⟨i, hi⟩ : ∃ i : Nat, (i : Int) = w.Component.CurrentSequentialInteractionIndex + 1 :=
      ⟨(w.Component.CurrentSequentialInteractionIndex + 1).toNat, by omega⟩
    have hilt : i < w.Component.SequentialInteractions.length := by omega
    obtain ⟨s, hs⟩ : ∃ s, w.Component.SequentialInteractions[i]? = some s :=
      ⟨_, List.getElem?_eq_getElem hilt⟩
    have hmem : s ∈ w.Component.SequentialInteractions := List.getElem?_mem hs
    obtain ⟨hrep, hauto, hfail, hinc⟩ := hall s hmem
    have hfirst : FirstIncompleteAfter w.Component.SequentialInteractions
        w.Component.CurrentSequentialInteractionIndex i :=
      ⟨by omega, ⟨s, hs, hinc⟩, fun k t h1 h2 _ => by omega⟩
    have hrun := startNext_fail fuel w hc i s hs hfirst (by rw [hact]; exact hE)
      (by rw [hact]; exact hfail)
    have hhandler : OnInteractionCancelled fuel .Cancel_ConditionsNotMet (w.cancelledAt i s)
        = StartNextSequentialInteraction fuel ((w.cancelledAt i s).afterOutcome i s false) := by
      show OnInteractionEndedWith (StartNextSequentialInteraction fuel) false
        (w.cancelledAt i s) = _
      rw [onEndedWith_eq _ false (w.cancelledAt i s) w.Objects.length _ i s rfl
        (cancelledAt_object w i s) rfl hs]
      have : (workingCopy s.SequentialInteraction).bStartNextInteractionAutomatically = true :=
        hauto
      simp only [this, if_true]
    have hm : markedSlots w.Component.SequentialInteractions i s
        = w.Component.SequentialInteractions := by
      simp [markedSlots, hrep]
    obtain ⟨w', h1, h2⟩ := ih ((w.cancelledAt i s).afterOutcome i s false) hact
      (by
        show ∀ t ∈ markedSlots w.Component.SequentialInteractions i s, Restless E t
        rw [hm]; exact hall)
      (by
        show (-1 : Int) ≤ if endsSequence w.Component.SequentialInteractions i s false
          then -1 else (i : Int)
        split <;> omega)
      (by
        show (if endsSequence w.Component.SequentialInteractions i s false
          then -1 else (i : Int)) + 1
            < ((markedSlots w.Component.SequentialInteractions i s).length : Int)
        rw [hm]
        by_cases he : endsSequence w.Component.SequentialInteractions i s false = true
        · rw [if_pos he]; omega
        · rw [if_neg he]
          have hne : ¬ ((i : Int) = (w.Component.SequentialInteractions.length : Int) - 1) := by
            intro hlast
            apply he
            simp [endsSequence, hlast]
          omega)
    refine ⟨w', ?_, ?_⟩
    · rw [hrun, hhandler, h1]
      rfl
    · rw [h2]
      show (w.Objects ++ [_]).length + fuel = _
      rw [List.length_append, List.length_singleton]
      omega

/-! ## What holds when a chain returns -/

theorem thenInProgress_ok {r : Except Fault World} {w' : World}
    (h : thenInProgress r = .ok w') :
    ∃ w5, r = .ok w5
      ∧ ((w5.Component.ActiveInteractionInstance.isSome = true
            ∧ w' = w5.setState .SequentialState_InProgress)
          ∨ (w5.Component.ActiveInteractionInstance.isSome = false ∧ w' = w5)) := by
  cases r with
  | error e => cases h
  | ok w5 =>
    refine ⟨w5, rfl, ?_⟩
    rcases Bool.eq_false_or_eq_true w5.Component.ActiveInteractionInstance.isSome with hs | hs
    · left
      simp only [thenInProgress, hs, if_true] at h
      exact ⟨hs, (Except.ok.inj h).symm⟩
    · right
      simp only [thenInProgress, hs, Bool.false_eq_true, if_false] at h
      exact ⟨hs, (Except.ok.inj h).symm⟩

/-- The three ways in which the call of `TryActivateInteraction` on the copy of
an entered slot goes on. -/
theorem entered_cases (fuel : Nat) (w : World) (i : Nat) (s : FSequentialInteraction) :
    (IsValid w.Component.CurrentlyInteractingActor = false →
        thenInProgress (UInteraction.TryActivateInteraction (componentHandlers fuel)
            w.Objects.length w.Component.CurrentlyInteractingActor (w.enterSlot i s))
          = .ok (((w.enterSlot i s).emit
              (.InteractionCancelled w.Objects.length .Cancel_Failed)).setState
                .SequentialState_InProgress))
      ∧ (IsValid w.Component.CurrentlyInteractingActor = true →
          conditionsPass w.Component.CurrentlyInteractingActor
            s.SequentialInteraction.Conditions = true →
          thenInProgress (UInteraction.TryActivateInteraction (componentHandlers fuel)
              w.Objects.length w.Component.CurrentlyInteractingActor (w.enterSlot i s))
            = .ok (w.activatedAt i s))
      ∧ (IsValid w.Component.CurrentlyInteractingActor = true →
          conditionsPass w.Component.CurrentlyInteractingActor
            s.SequentialInteraction.Conditions = false →
          thenInProgress (UInteraction.TryActivateInteraction (componentHandlers fuel)
              w.Objects.length w.Component.CurrentlyInteractingActor (w.enterSlot i s))
            = thenInProgress (thenEmit
                (.InteractionCancelled w.Objects.length .Cancel_ConditionsNotMet)
                (OnInteractionCancelled fuel .Cancel_ConditionsNotMet (w.cancelledAt i s)))) := by
  refine ⟨fun ha => ?_, fun ha hcnd => ?_, fun ha hcnd => ?_⟩
  · rw [tryActivate_invalid _ _ _ _ _ (enterSlot_object w i s) ha]
    rfl
  · rw [tryActivate_pass _ _ _ _ _ (enterSlot_object w i s) ha hcnd]
    simp [thenInProgress, World.enterSlot, World.setObject, World.emitAll, World.emit,
      World.setState, set_concat_length, World.activatedAt, workingCopy, DuplicateObject]
  · rw [tryActivate_fail _ _ _ _ _ (enterSlot_object w i s) ha hcnd]
    have hw : ((((w.enterSlot i s).setObject w.Objects.length
        { workingCopy s.SequentialInteraction with
          InteractingActor := w.Component.CurrentlyInteractingActor
          bIsActive := false }).emitAll
        (evaluations w.Objects.length w.Component.CurrentlyInteractingActor
          (workingCopy s.SequentialInteraction).Conditions)).emit
        (.BroadcastCancelled w.Objects.length .Cancel_ConditionsNotMet)) = w.cancelledAt i s := by
      simp [World.enterSlot, World.setObject, World.emitAll, World.emit, set_concat_length,
        World.cancelledAt, workingCopy, DuplicateObject]
    rw [hw]
    rfl

/-- A property `Post` holds whenever `StartNextSequentialInteraction` returns,
if it holds in the states in which the chain of calls can come to rest and is
kept by the steps made on the way back. -/
theorem chain_post (Pre Post : World → Prop)
    (hEnd : ∀ w, w.Component.ActiveInteractionInstance = none → Pre w →
      Post (EndSequentialInteractions w))
    (hInvalid : ∀ w (i : Nat) s, w.Component.ActiveInteractionInstance = none → Pre w →
      w.Component.SequentialInteractions[i]? = some s →
      Post (((w.enterSlot i s).emit
        (.InteractionCancelled w.Objects.length .Cancel_Failed)).setState
          .SequentialState_InProgress))
    (hPass : ∀ w (i : Nat) s, w.Component.ActiveInteractionInstance = none → Pre w →
      w.Component.SequentialInteractions[i]? = some s → Post (w.activatedAt i s))
    (hOutcome : ∀ w (i : Nat) s, w.Component.ActiveInteractionInstance = none → Pre w →
      w.Component.SequentialInteractions[i]? = some s →
      Pre ((w.cancelledAt i s).afterOutcome i s false)
        ∧ Post ((w.cancelledAt i s).afterOutcome i s false))
    (hEmit : ∀ w sig, Post w → Post (w.emit sig))
    (hProgress : ∀ w, Post w → w.Component.ActiveInteractionInstance.isSome = true →
      Post (w.setState .SequentialState_InProgress)) :
    ∀ (fuel : Nat) (w w' : World), w.Component.ActiveInteractionInstance = none → Pre w →
      StartNextSequentialInteraction fuel w = .ok w' → Post w' := by
  intro fuel
  induction fuel with
  | zero => intro w w' _ _ h; cases h
  | succ fuel ih =>
    intro w w' hnone hpre h
    rcases startNext_succ_cases fuel w with h1 | h1 | ⟨i, s, hs, _, _, h1⟩
    · rw [h1] at h; cases h
    · rw [h1] at h
      have hw : w' = EndSequentialInteractions w := (Except.ok.inj h).symm
      rw [hw]
      exact hEnd w hnone hpre
    · rw [h1] at h
      obtain ⟨e1, e2, e3⟩ := entered_cases fuel w i s
      rcases Bool.eq_false_or_eq_true (IsValid w.Component.CurrentlyInteractingActor)
        with ha | ha
      · rcases Bool.eq_false_or_eq_true (conditionsPass w.Component.CurrentlyInteractingActor
          s.SequentialInteraction.Conditions) with hc | hc
        · rw [e2 ha hc] at h
          rw [← Except.ok.inj h]
          exact hPass w i s hnone hpre hs
        · rw [e3 ha hc] at h
          obtain ⟨hpre', hpost'⟩ := hOutcome w i s hnone hpre hs
          have hhandler : OnInteractionCancelled fuel .Cancel_ConditionsNotMet
              (w.cancelledAt i s)
              = if (workingCopy s.SequentialInteraction).bStartNextInteractionAutomatically
                then StartNextSequentialInteraction fuel
                  ((w.cancelledAt i s).afterOutcome i s false)
                else .ok ((w.cancelledAt i s).afterOutcome i s false) := by
            show OnInteractionEndedWith (StartNextSequentialInteraction fuel) false
              (w.cancelledAt i s) = _
            rw [onEndedWith_eq _ false (w.cancelledAt i s) w.Objects.length _ i s rfl
              (cancelledAt_object w i s) rfl hs]
          obtain ⟨w5, h5, hcase⟩ := thenInProgress_ok h
          obtain ⟨w3, h3, hw5⟩ := thenEmit_ok h5
          have hpost3 : Post w3 := by
            rw [hhandler] at h3
            split at h3
            · exact ih _ w3 rfl hpre' h3
            · rw [← Except.ok.inj h3]
              exact hpost'
          have hpost5 : Post w5 := by
            rw [hw5]
            exact hEmit w3 _ hpost3
          rcases hcase with ⟨hsome, hw⟩ | ⟨_, hw⟩
          · rw [hw]
            exact hProgress w5 hpost5 hsome
          · rw [hw]
            exact hpost5
      · rw [e1 ha] at h
        rw [← Except.ok.inj h]
        exact hInvalid w i s hnone hpre hs

theorem getElem?_concat_cases {α : Type} (l : List α) (a : α) (q : Nat) (o : α)
    (h : (l ++ [a])[q]? = some o) :
    l[q]? = some o ∨ (q = l.length ∧ o = a) := by
  rcases Nat.lt_or_ge q l.length with hq | hq
  · left
    rw [List.getElem?_append_left hq] at h
    exact h
  · right
    rw [List.getElem?_append_right hq] at h
    have hlt : q - l.length < 1 := by
      have := getElem?_lt_of_some h
      simpa using this
    have hq0 : q - l.length = 0 := by omega
    rw [hq0] at h
    simp only [List.getElem?_cons_zero, Option.some.injEq] at h
    exact ⟨by omega, h.symm⟩

theorem noneActive_only {x : Option Nat} {w w' : World} (hobj : w'.Objects = w.Objects)
    (h : NoneActive x w) : OnlyInstanceActive x w' := by
  intro q o hq hx hact
  rw [hobj] at hq
  rw [h q o hq hx] at hact
  cases hact

/-- Whenever `StartNextSequentialInteraction`, called without an active instance
and with no object active, returns, an instance is active exactly when the state
is in-progress, and no object but that instance is active. -/
theorem startNext_settles (x : Option Nat) :
    ∀ (fuel : Nat) (w w' : World), w.Component.ActiveInteractionInstance = none →
      NoneActive x w → StartNextSequentialInteraction fuel w = .ok w' →
      InstanceMatchesState w' ∧ OnlyInstanceActive x w' := by
  apply chain_post (NoneActive x) (fun w => InstanceMatchesState w ∧ OnlyInstanceActive x w)
  · intro w hnone hpre
    refine ⟨?_, noneActive_only rfl hpre⟩
    show (w.Component.ActiveInteractionInstance.isSome = true
      ↔ EInteractionState.SequentialState_Idle = .SequentialState_InProgress)
    rw [hnone]
    exact ⟨fun h => Bool.noConfusion h, fun h => EInteractionState.noConfusion h⟩
  · intro w i s _ hpre _
    refine ⟨⟨fun _ => rfl, fun _ => rfl⟩, ?_⟩
    intro q o hq hx hact
    have hq' : (w.Objects ++ [workingCopy s.SequentialInteraction])[q]? = some o := hq
    rcases getElem?_concat_cases _ _ q o hq' with h | ⟨_, h⟩
    · rw [hpre q o h hx] at hact; cases hact
    · rw [h] at hact; cases hact
  · intro w i s _ hpre _
    refine ⟨⟨fun _ => rfl, fun _ => rfl⟩, ?_⟩
    intro q o hq hx hact
    have hq' : (w.Objects ++ [{ workingCopy s.SequentialInteraction with
        InteractingActor := w.Component.CurrentlyInteractingActor, bIsActive := true }])[q]?
        = some o := hq
    rcases getElem?_concat_cases _ _ q o hq' with h | ⟨h, _⟩
    · rw [hpre q o h hx] at hact; cases hact
    · rw [h]; rfl
  · intro w i s _ hpre _
    have hnone : NoneActive x ((w.cancelledAt i s).afterOutcome i s false) := by
      intro q o hq hx
      have hq' : (w.Objects ++ [{ workingCopy s.SequentialInteraction with
          InteractingActor := w.Component.CurrentlyInteractingActor, bIsActive := false }])[q]?
          = some o := hq
      rcases getElem?_concat_cases _ _ q o hq' with h | ⟨_, h⟩
      · exact hpre q o h hx
      · rw [h]
    refine ⟨hnone, ?_, noneActive_only rfl hnone⟩
    show ((none : Option Nat).isSome = true
      ↔ (if endsSequence w.Component.SequentialInteractions i s false
          then EInteractionState.SequentialState_Idle
          else EInteractionState.SequentialState_Waiting) = .SequentialState_InProgress)
    constructor
    · intro h; exact Bool.noConfusion h
    · intro h
      split at h <;> exact EInteractionState.noConfusion h
  · intro w sig h
    exact h
  · intro w h _
    exact ⟨⟨fun _ => rfl, fun _ => by assumption⟩, h.2⟩

theorem noneActive_of_only {w : World} {p : Nat}
    (hp : w.Component.ActiveInteractionInstance = some p) (h : OnlyInstanceActive none w) :
    NoneActive (some p) w := by
  intro q o hq hx
  rcases Bool.eq_false_or_eq_true o.bIsActive with hact | hact
  · have := h q o hq (by simp) hact
    rw [hp] at this
    exact absurd this hx
  · exact hact

theorem noneActive_setObject {w : World} {p : Nat} (o' : UInteraction)
    (h : NoneActive (some p) w) : NoneActive (some p) (w.setObject p o') := by
  intro q o hq hx
  have hne : p ≠ q := fun e => hx (by rw [e])
  have hq' : (w.Objects.set p o')[q]? = some o := hq
  rw [List.getElem?_set_ne hne] at hq'
  exact h q o hq' hx

theorem only_of_inactive_at {w : World} {p : Nat} (h : OnlyInstanceActive (some p) w)
    (hp : ∀ o, w.Objects[p]? = some o → o.bIsActive = false) : OnlyInstanceActive none w := by
  intro q o hq _ hact
  by_cases hqp : q = p
  · subst hqp
    rw [hp o hq] at hact
    cases hact
  · exact h q o hq (fun e => hqp (Option.some.inj e).symm) hact

theorem only_setObject_inactive {w : World} {p : Nat} (o' : UInteraction)
    (h : OnlyInstanceActive (some p) w) (ho' : o'.bIsActive = false) :
    OnlyInstanceActive none (w.setObject p o') := by
  intro q o hq _ hact
  have hq' : (w.Objects.set p o')[q]? = some o := hq
  by_cases hqp : q = p
  · subst hqp
    rw [List.getElem?_set] at hq'
    simp only [if_true] at hq'
    split at hq'
    · rw [← Option.some.inj hq', ho'] at hact
      cases hact
    · cases hq'
  · rw [List.getElem?_set_ne (fun e => hqp e.symm)] at hq'
    exact h q o hq' (fun e => hqp (Option.some.inj e).symm) hact

theorem only_setObject_instance {w : World} {p : Nat} (o' : UInteraction)
    (hp : w.Component.ActiveInteractionInstance = some p) (h : OnlyInstanceActive none w) :
    OnlyInstanceActive none (w.setObject p o') := by
  intro q o hq hx hact
  have hq' : (w.Objects.set p o')[q]? = some o := hq
  by_cases hqp : q = p
  · subst hqp
    exact hp
  · rw [List.getElem?_set_ne (fun e => hqp e.symm)] at hq'
    exact h q o hq' hx hact

/-- Whenever the component's `OnInteractionEnded` returns, called for the active
instance `p` while no other object is active: an instance is active exactly when
the state is in-progress, no object but that instance and `p` is active, and `p`
is as it was. -/
theorem onEnded_settles (fuel : Nat) (b : Bool) (p : Nat) (wm w3 : World)
    (hp : wm.Component.ActiveInteractionInstance = some p) (hna : NoneActive (some p) wm)
    (h : OnInteractionEnded fuel b wm = .ok w3) :
    InstanceMatchesState w3 ∧ OnlyInstanceActive (some p) w3
      ∧ w3.Objects[p]? = wm.Objects[p]? := by
  have h' : OnInteractionEndedWith (StartNextSequentialInteraction fuel) b wm = .ok w3 := h
  cases hinst : wm.Objects[p]? with
  | none =>
    simp only [OnInteractionEndedWith, hp, hinst] at h'
    cases h'
  | some inst =>
    have hobj : w3.Objects[p]? = wm.Objects[p]? :=
      (((componentHandlers_quiet fuel p) wm w3 (getElem?_lt_of_some hinst)).1 b h).1
    rw [hinst] at hobj
    refine ⟨?_, ?_, hobj⟩
    all_goals
      rcases Bool.eq_false_or_eq_true (IsValidIndex wm.Component.SequentialInteractions
        wm.Component.CurrentSequentialInteractionIndex) with hv | hv
    · obtain ⟨i, s, hi, hs⟩ := isValidIndex_true hv
      rw [onEndedWith_eq _ b wm p inst i s hp hinst hi hs] at h'
      split at h'
      · exact (startNext_settles (some p) fuel (wm.afterOutcome i s b) w3 rfl hna h').1
      · rw [← Except.ok.inj h']
        show ((none : Option Nat).isSome = true
          ↔ (if endsSequence wm.Component.SequentialInteractions i s b
              then EInteractionState.SequentialState_Idle
              else EInteractionState.SequentialState_Waiting) = .SequentialState_InProgress)
        constructor
        · intro h; exact Bool.noConfusion h
        · intro h
          split at h <;> exact EInteractionState.noConfusion h
    · rw [onEndedWith_invalid _ b wm p inst hp hinst hv] at h'
      rw [← Except.ok.inj h']
      exact ⟨fun h => Bool.noConfusion h, fun h => EInteractionState.noConfusion h⟩
    · obtain ⟨i, s, hi, hs⟩ := isValidIndex_true hv
      rw [onEndedWith_eq _ b wm p inst i s hp hinst hi hs] at h'
      split at h'
      · exact (startNext_settles (some p) fuel (wm.afterOutcome i s b) w3 rfl hna h').2
      · rw [← Except.ok.inj h']
        exact noneActive_only rfl hna
    · rw [onEndedWith_invalid _ b wm p inst hp hinst hv] at h'
      rw [← Except.ok.inj h']
      exact noneActive_only rfl hna

/-! ## Lifecycle calls on the active instance -/

theorem broadcastCancelled_bound (H : Handlers) {b : Bool} (hb : b = true)
    (r : EInteractionCancelReason) (w : World) :
    UInteraction.BroadcastCancelled H b r w = H.OnInteractionCancelled r w := by
  simp [UInteraction.BroadcastCancelled, hb]

theorem broadcastEnded_bound (H : Handlers) {b : Bool} (hb : b = true) (x : Bool)
    (w : World) : UInteraction.BroadcastEnded H b x w = H.OnInteractionEnded x w := by
  simp [UInteraction.BroadcastEnded, hb]

theorem thenEnded_ok {p : Nat} {r : Except Fault World} {w' : World}
    (h : thenEnded p r = .ok w') :
    ∃ w3 o2, r = .ok w3 ∧ w3.Objects[p]? = some o2
      ∧ w' = (w3.setObject p { o2 with bIsActive := false }).emit (.InteractionEnded p) := by
  cases r with
  | error e => cases h
  | ok w3 =>
    cases ho : w3.Objects[p]? with
    | none =>
      simp only [thenEnded, ho] at h
      cases h
    | some o2 =>
      simp only [thenEnded, ho] at h
      exact ⟨w3, o2, rfl, ho, (Except.ok.inj h).symm⟩

theorem cancel_settles (fuel p : Nat) (r : EInteractionCancelReason) (w w' : World)
    (hp : w.Component.ActiveInteractionInstance = some p) (hinv : InstanceMatchesState w)
    (hon : OnlyInstanceActive none w)
    (h : UInteraction.CancelInteraction (componentHandlers fuel) p r w = .ok w') :
    InstanceMatchesState w' ∧ OnlyInstanceActive none w' := by
  cases ho : w.Objects[p]? with
  | none =>
    simp only [UInteraction.CancelInteraction, ho] at h
    cases h
  | some o =>
    rw [cancel_eq _ p r w o ho] at h
    obtain ⟨w3, h3, hw⟩ := thenEmit_ok h
    rw [hw]
    have hna : NoneActive (some p)
        ((w.setObject p { o with bIsActive := false }).emit (.BroadcastCancelled p r)) :=
      noneActive_setObject _ (noneActive_of_only hp hon)
    rcases Bool.eq_false_or_eq_true o.OnInteractionCancelled with hb | hb
    · rw [broadcastCancelled_bound _ hb] at h3
      obtain ⟨i1, i2, i3⟩ := onEnded_settles fuel false p
        ((w.setObject p { o with bIsActive := false }).emit (.BroadcastCancelled p r)) w3
        hp hna h3
      have hat : ((w.setObject p { o with bIsActive := false }).emit
          (.BroadcastCancelled p r)).Objects[p]? = some { o with bIsActive := false } :=
        List.getElem?_set_self (getElem?_lt_of_some ho)
      refine ⟨i1, only_of_inactive_at i2 (fun o' ho' => ?_)⟩
      have ho'' : w3.Objects[p]? = some o' := ho'
      rw [i3, hat] at ho''
      rw [← Option.some.inj ho'']
    · rw [broadcastCancelled_unbound _ hb] at h3
      rw [← Except.ok.inj h3]
      exact ⟨hinv, only_setObject_inactive _
        (noneActive_only rfl (noneActive_of_only hp hon)) rfl⟩

theorem end_settles (fuel p : Nat) (w w' : World)
    (hp : w.Component.ActiveInteractionInstance = some p) (hinv : InstanceMatchesState w)
    (hon : OnlyInstanceActive none w)
    (h : UInteraction.EndInteraction (componentHandlers fuel) p w = .ok w') :
    InstanceMatchesState w' ∧ OnlyInstanceActive none w' := by
  cases ho : w.Objects[p]? with
  | none =>
    simp only [UInteraction.EndInteraction, ho] at h
    cases h
  | some o =>
    rcases Bool.eq_false_or_eq_true o.bIsActive with hact | hact
    · rw [endInteraction_eq _ p w o ho hact] at h
      obtain ⟨w3, o2, h3, _, hw⟩ := thenEnded_ok h
      rw [hw]
      have hna : NoneActive (some p) (w.emit (.BroadcastEnded p true)) :=
        noneActive_of_only hp hon
      rcases Bool.eq_false_or_eq_true o.OnInteractionEnded with hb | hb
      · rw [broadcastEnded_bound _ hb] at h3
        obtain ⟨i1, i2, _⟩ := onEnded_settles fuel true p (w.emit (.BroadcastEnded p true)) w3
          hp hna h3
        exact ⟨i1, only_setObject_inactive _ i2 rfl⟩
      · rw [broadcastEnded_unbound _ hb] at h3
        rw [← Except.ok.inj h3]
        exact ⟨hinv, only_setObject_inactive _ (noneActive_only rfl hna) rfl⟩
    · rw [endInteraction_inactive _ p w o ho hact] at h
      rw [← Except.ok.inj h]
      exact ⟨hinv, hon⟩

theorem tryActivate_settles (fuel p : Nat) (a : Option AActor) (w w' : World)
    (hp : w.Component.ActiveInteractionInstance = some p) (hinv : InstanceMatchesState w)
    (hon : OnlyInstanceActive none w)
    (h : UInteraction.TryActivateInteraction (componentHandlers fuel) p a w = .ok w') :
    InstanceMatchesState w' ∧ OnlyInstanceActive none w' := by
  cases ho : w.Objects[p]? with
  | none =>
    simp only [UInteraction.TryActivateInteraction, ho] at h
    cases h
  | some o =>
    rcases Bool.eq_false_or_eq_true (IsValid a) with ha | ha
    · rcases Bool.eq_false_or_eq_true (conditionsPass a o.Conditions) with hc | hc
      · rw [tryActivate_pass _ p a w o ho ha hc] at h
        rw [← Except.ok.inj h]
        exact ⟨hinv, only_setObject_instance _ hp hon⟩
      · rw [tryActivate_fail_cancel _ p a w o ho ha hc] at h
        exact cancel_settles fuel p .Cancel_ConditionsNotMet
          ((w.setObject p { o with InteractingActor := a }).emitAll
            (evaluations p a o.Conditions)) w' hp hinv (only_setObject_instance _ hp hon) h
    · rw [tryActivate_invalid _ p a w o ho ha] at h
      rw [← Except.ok.inj h]
      exact ⟨hinv, hon⟩

theorem canCommitLoop_settles (fuel p : Nat) (actor : Option AActor) :
    ∀ (cs : List UInteractionCondition) (k : Nat) (w w' : World) (b : Bool),
      w.Component.ActiveInteractionInstance = some p → InstanceMatchesState w →
      OnlyInstanceActive none w →
      UInteraction.CanCommitInteraction.loop (componentHandlers fuel) p actor cs k w
        = .ok (b, w') →
      InstanceMatchesState w' ∧ OnlyInstanceActive none w' := by
  intro cs
  induction cs with
  | nil =>
    intro k w w' b _ hinv hon h
    simp only [UInteraction.CanCommitInteraction.loop, Except.ok.injEq, Prod.mk.injEq] at h
    rw [← h.2]
    exact ⟨hinv, hon⟩
  | cons c cs ih =>
    intro k w w' b hp hinv hon h
    cases hc : c.CheckInteractionConditions actor with
    | true =>
      simp only [UInteraction.CanCommitInteraction.loop, hc, if_true] at h
      cases hr : UInteraction.CancelInteraction (componentHandlers fuel) p
          .Cancel_ConditionsNotMet (w.emit (.CheckInteractionConditions p k)) with
      | error e => rw [hr] at h; cases h
      | ok w2 =>
        rw [hr] at h
        simp only [Except.ok.injEq, Prod.mk.injEq] at h
        rw [← h.2]
        exact cancel_settles fuel p .Cancel_ConditionsNotMet
          (w.emit (.CheckInteractionConditions p k)) w2 hp hinv hon hr
    | false =>
      simp only [UInteraction.CanCommitInteraction.loop, hc, Bool.false_eq_true, if_false] at h
      exact ih (k + 1) (w.emit (.CheckInteractionConditions p k)) w' b hp hinv hon h

theorem call_settles (fuel p : Nat) (c : LifecycleCall) (w w' : World)
    (hp : w.Component.ActiveInteractionInstance = some p) (hinv : InstanceMatchesState w)
    (hon : OnlyInstanceActive none w) (h : c.run (componentHandlers fuel) p w = .ok w') :
    InstanceMatchesState w' ∧ OnlyInstanceActive none w' := by
  have hcan : ∀ (b : Bool) (w1 : World),
      UInteraction.CanCommitInteraction (componentHandlers fuel) p w = .ok (b, w1) →
      InstanceMatchesState w1 ∧ OnlyInstanceActive none w1 := by
    intro b w1 h1
    cases ho : w.Objects[p]? with
    | none =>
      simp only [UInteraction.CanCommitInteraction, ho] at h1
      cases h1
    | some o =>
      rw [canCommit_eq _ p w o ho] at h1
      exact canCommitLoop_settles fuel p _ _ 0 w w1 b hp hinv hon h1
  cases c with
  | TryActivate a => exact tryActivate_settles fuel p a w w' hp hinv hon h
  | CanCommit =>
    have h' : (match UInteraction.CanCommitInteraction (componentHandlers fuel) p w with
      | .error e => Except.error e
      | .ok r => .ok r.2) = .ok w' := h
    cases hr : UInteraction.CanCommitInteraction (componentHandlers fuel) p w with
    | error e => rw [hr] at h'; cases h'
    | ok r =>
      rw [hr] at h'
      obtain ⟨b, w1⟩ := r
      rw [← Except.ok.inj h']
      exact hcan b w1 hr
  | Commit b =>
    have h' : UInteraction.CommitInteraction (componentHandlers fuel) p b w = .ok w' := h
    cases b with
    | true =>
      rw [← Except.ok.inj h']
      exact ⟨hinv, hon⟩
    | false =>
      rw [commit_eq] at h'
      obtain ⟨b1, w1, hr, hw⟩ := thenCommitted_ok h'
      rw [hw]
      exact hcan b1 w1 hr
  | End => exact end_settles fuel p w w' hp hinv hon h
  | Cancel r => exact cancel_settles fuel p r w w' hp hinv hon h

theorem start_settles (fuel : Nat) (a : Option AActor) (w w' : World)
    (hinv : InstanceMatchesState w) (hon : OnlyInstanceActive none w)
    (h : StartSequentialInteractions fuel a w = .ok w') :
    InstanceMatchesState w' ∧ OnlyInstanceActive none w' := by
  cases hact : w.Component.ActiveInteractionInstance with
  | some p =>
    simp only [StartSequentialInteractions, hact, Option.isSome_some, if_true] at h
    rw [← Except.ok.inj h]
    exact ⟨hinv, hon⟩
  | none =>
    have hna : NoneActive none w := by
      intro q o hq hx
      rcases Bool.eq_false_or_eq_true o.bIsActive with ho | ho
      · have := hon q o hq hx ho
        rw [hact] at this
        cases this
      · exact ho
    rcases Bool.eq_false_or_eq_true (IsValid a) with ha | ha
    · have h' : StartNextSequentialInteraction fuel (w.started a) = .ok w' := by
        simpa [StartSequentialInteractions, hact, ha] using h
      exact startNext_settles none fuel (w.started a) w' hact hna h'
    · have h' : w' = w.setState .SequentialState_Waiting := by
        simp only [StartSequentialInteractions, hact, ha, Option.isSome_none, Bool.false_eq_true,
          if_false, Bool.not_false, if_true] at h
        exact (Except.ok.inj h).symm
      rw [h']
      refine ⟨?_, noneActive_only rfl hna⟩
      show (w.Component.ActiveInteractionInstance.isSome = true
        ↔ EInteractionState.SequentialState_Waiting = .SequentialState_InProgress)
      rw [hact]
      exact ⟨fun h => Bool.noConfusion h, fun h => EInteractionState.noConfusion h⟩

/-! ## Calls on the active instance that return -/

/-- For the active instance of the component, when it does not advance
automatically, the component's `OnInteractionEnded` returns, with the heap as it
was. -/
theorem onEnded_returns (fuel : Nat) (b : Bool) (w : World) (p : Nat) (inst : UInteraction)
    (hp : w.Component.ActiveInteractionInstance = some p) (hinst : w.Objects[p]? = some inst)
    (hauto : inst.bStartNextInteractionAutomatically = false) :
    ∃ w3, OnInteractionEnded fuel b w = .ok w3 ∧ w3.Objects = w.Objects := by
  rcases Bool.eq_false_or_eq_true (IsValidIndex w.Component.SequentialInteractions
    w.Component.CurrentSequentialInteractionIndex) with hv | hv
  · obtain ⟨i, s, hi, hs⟩ := isValidIndex_true hv
    refine ⟨w.afterOutcome i s b, ?_, rfl⟩
    show OnInteractionEndedWith (StartNextSequentialInteraction fuel) b w = _
    rw [onEndedWith_eq _ b w p inst i s hp hinst hi hs, hauto]
    rfl
  · exact ⟨_, onEndedWith_invalid _ b w p inst hp hinst hv, rfl⟩

theorem cancel_returns (fuel p : Nat) (r : EInteractionCancelReason) (w : World)
    (o : UInteraction) (ho : w.Objects[p]? = some o)
    (hp : w.Component.ActiveInteractionInstance = some p)
    (hauto : o.bStartNextInteractionAutomatically = false) :
    ∃ w', UInteraction.CancelInteraction (componentHandlers fuel) p r w = .ok w' := by
  rw [cancel_eq _ p r w o ho]
  rcases Bool.eq_false_or_eq_true o.OnInteractionCancelled with hb | hb
  · rw [broadcastCancelled_bound _ hb]
    have hat : ((w.setObject p { o with bIsActive := false }).emit
        (.BroadcastCancelled p r)).Objects[p]? = some { o with bIsActive := false } :=
      List.getElem?_set_self (getElem?_lt_of_some ho)
    obtain ⟨w3, h3, _⟩ := onEnded_returns fuel false
      ((w.setObject p { o with bIsActive := false }).emit (.BroadcastCancelled p r)) p
      { o with bIsActive := false } hp hat hauto
    have h3' : (componentHandlers fuel).OnInteractionCancelled r
        ((w.setObject p { o with bIsActive := false }).emit (.BroadcastCancelled p r))
        = .ok w3 := h3
    rw [h3']
    exact ⟨_, rfl⟩
  · rw [broadcastCancelled_unbound _ hb]
    exact ⟨_, rfl⟩

theorem end_returns (fuel p : Nat) (w : World) (o : UInteraction)
    (ho : w.Objects[p]? = some o) (hp : w.Component.ActiveInteractionInstance = some p)
    (hauto : o.bStartNextInteractionAutomatically = false) :
    ∃ w', UInteraction.EndInteraction (componentHandlers fuel) p w = .ok w' := by
  rcases Bool.eq_false_or_eq_true o.bIsActive with hact | hact
  · rw [endInteraction_eq _ p w o ho hact]
    have ho' : (w.emit (.BroadcastEnded p true)).Objects[p]? = some o := ho
    rcases Bool.eq_false_or_eq_true o.OnInteractionEnded with hb | hb
    · rw [broadcastEnded_bound _ hb]
      obtain ⟨w3, h3, hobj⟩ := onEnded_returns fuel true (w.emit (.BroadcastEnded p true)) p o
        hp ho' hauto
      have h3' : (componentHandlers fuel).OnInteractionEnded true
          (w.emit (.BroadcastEnded p true)) = .ok w3 := h3
      have ho3 : w3.Objects[p]? = some o := by rw [hobj]; exact ho'
      rw [h3']
      simp only [thenEnded, ho3]
      exact ⟨_, rfl⟩
    · rw [broadcastEnded_unbound _ hb]
      simp only [thenEnded, ho']
      exact ⟨_, rfl⟩
  · exact ⟨w, endInteraction_inactive _ p w o ho hact⟩

theorem canCommitLoop_returns (fuel p : Nat) (actor : Option AActor) (o : UInteraction)
    (hauto : o.bStartNextInteractionAutomatically = false) :
    ∀ (cs : List UInteractionCondition) (k : Nat) (w : World), w.Objects[p]? = some o →
      w.Component.ActiveInteractionInstance = some p →
      ∃ b w', UInteraction.CanCommitInteraction.loop (componentHandlers fuel) p actor cs k w
        = .ok (b, w') := by
  intro cs
  induction cs with
  | nil => intro k w _ _; exact ⟨true, w, rfl⟩
  | cons c cs ih =>
    intro k w ho hp
    cases hc : c.CheckInteractionConditions actor with
    | true =>
      obtain ⟨w2, h2⟩ := cancel_returns fuel p .Cancel_ConditionsNotMet
        (w.emit (.CheckInteractionConditions p k)) o ho hp hauto
      refine ⟨false, w2, ?_⟩
      simp only [UInteraction.CanCommitInteraction.loop, hc, if_true, h2]
    | false =>
      obtain ⟨b, w', h⟩ := ih (k + 1) (w.emit (.CheckInteractionConditions p k)) ho hp
      refine ⟨b, w', ?_⟩
      simp only [UInteraction.CanCommitInteraction.loop, hc, Bool.false_eq_true, if_false]
      exact h

/-! ## Activation conditions against commit conditions -/

theorem exists_first_raw_true (actor : Option AActor) :
    ∀ cs : List UInteractionCondition, (∃ c ∈ cs, rawResult actor c = true) →
      ∃ (pre : List UInteractionCondition) (c : UInteractionCondition)
        (post : List UInteractionCondition),
        cs = pre ++ c :: post ∧ (∀ d ∈ pre, rawResult actor d = false)
          ∧ rawResult actor c = true := by
  intro cs
  induction cs with
  | nil => intro h; obtain ⟨c, hc, _⟩ := h; cases hc
  | cons d cs ih =>
    intro h
    rcases Bool.eq_false_or_eq_true (rawResult actor d) with hd | hd
    · exact ⟨[], d, cs, rfl, (fun _ h => by cases h), hd⟩
    · obtain ⟨c, hc, hraw⟩ := h
      have hmem : c ∈ cs := by
        rcases List.mem_cons.1 hc with h | h
        · rw [h, hd] at hraw; cases hraw
        · exact h
      obtain ⟨pre, c', post, h1, h2, h3⟩ := ih ⟨c, hmem, hraw⟩
      refine ⟨d :: pre, c', post, by rw [h1]; rfl, ?_, h3⟩
      intro e he
      rcases List.mem_cons.1 he with h | h
      · rw [h]; exact hd
      · exact h2 e h

/-! ## The component as lifecycle calls leave it -/

/-- A lifecycle call with the component's handlers changes the component only
through one run of `OnInteractionEnded`, made in a state with the component as
it was. -/
theorem cancel_component (fuel p : Nat) (r : EInteractionCancelReason) (w w' : World)
    (h : UInteraction.CancelInteraction (componentHandlers fuel) p r w = .ok w') :
    w'.Component = w.Component
      ∨ ∃ (b : Bool) (wm w3 : World), wm.Component = w.Component
          ∧ OnInteractionEnded fuel b wm = .ok w3 ∧ w'.Component = w3.Component := by
  cases ho : w.Objects[p]? with
  | none =>
    simp only [UInteraction.CancelInteraction, ho] at h
    cases h
  | some o =>
    rw [cancel_eq _ p r w o ho] at h
    obtain ⟨w3, h3, hw⟩ := thenEmit_ok h
    rcases Bool.eq_false_or_eq_true o.OnInteractionCancelled with hb | hb
    · rw [broadcastCancelled_bound _ hb] at h3
      exact Or.inr ⟨false,
        (w.setObject p { o with bIsActive := false }).emit (.BroadcastCancelled p r), w3,
        rfl, h3, by rw [hw]; rfl⟩
    · rw [broadcastCancelled_unbound _ hb] at h3
      left
      rw [hw, ← Except.ok.inj h3]
      rfl

theorem end_component (fuel p : Nat) (w w' : World)
    (h : UInteraction.EndInteraction (componentHandlers fuel) p w = .ok w') :
    w'.Component = w.Component
      ∨ ∃ (b : Bool) (wm w3 : World), wm.Component = w.Component
          ∧ OnInteractionEnded fuel b wm = .ok w3 ∧ w'.Component = w3.Component := by
  cases ho : w.Objects[p]? with
  | none =>
    simp only [UInteraction.EndInteraction, ho] at h
    cases h
  | some o =>
    rcases Bool.eq_false_or_eq_true o.bIsActive with hact | hact
    · rw [endInteraction_eq _ p w o ho hact] at h
      obtain ⟨w3, o2, h3, _, hw⟩ := thenEnded_ok h
      rcases Bool.eq_false_or_eq_true o.OnInteractionEnded with hb | hb
      · rw [broadcastEnded_bound _ hb] at h3
        exact Or.inr ⟨true, w.emit (.BroadcastEnded p true), w3, rfl, h3, by rw [hw]; rfl⟩
      · rw [broadcastEnded_unbound _ hb] at h3
        left
        rw [hw, ← Except.ok.inj h3]
        rfl
    · rw [endInteraction_inactive _ p w o ho hact] at h
      left
      rw [← Except.ok.inj h]

theorem canCommitLoop_component (fuel p : Nat) (actor : Option AActor) :
    ∀ (cs : List UInteractionCondition) (k : Nat) (w w' : World) (b : Bool),
      UInteraction.CanCommitInteraction.loop (componentHandlers fuel) p actor cs k w
        = .ok (b, w') →
      w'.Component = w.Component
        ∨ ∃ (b : Bool) (wm w3 : World), wm.Component = w.Component
            ∧ OnInteractionEnded fuel b wm = .ok w3 ∧ w'.Component = w3.Component := by
  intro cs
  induction cs with
  | nil =>
    intro k w w' b h
    simp only [UInteraction.CanCommitInteraction.loop, Except.ok.injEq, Prod.mk.injEq] at h
    left
    rw [← h.2]
  | cons c cs ih =>
    intro k w w' b h
    cases hc : c.CheckInteractionConditions actor with
    | true =>
      simp only [UInteraction.CanCommitInteraction.loop, hc, if_true] at h
      cases hr : UInteraction.CancelInteraction (componentHandlers fuel) p
          .Cancel_ConditionsNotMet (w.emit (.CheckInteractionConditions p k)) with
      | error e => rw [hr] at h; cases h
      | ok w2 =>
        rw [hr] at h
        simp only [Except.ok.injEq, Prod.mk.injEq] at h
        rw [← h.2]
        exact cancel_component fuel p .Cancel_ConditionsNotMet
          (w.emit (.CheckInteractionConditions p k)) w2 hr
    | false =>
      simp only [UInteraction.CanCommitInteraction.loop, hc, Bool.false_eq_true, if_false] at h
      exact ih (k + 1) (w.emit (.CheckInteractionConditions p k)) w' b h

theorem call_component (fuel p : Nat) (c : LifecycleCall) (w w' : World)
    (h : c.run (componentHandlers fuel) p w = .ok w') :
    w'.Component = w.Component
      ∨ ∃ (b : Bool) (wm w3 : World), wm.Component = w.Component
          ∧ OnInteractionEnded fuel b wm = .ok w3 ∧ w'.Component = w3.Component := by
  have hcan : ∀ (b : Bool) (w1 : World),
      UInteraction.CanCommitInteraction (componentHandlers fuel) p w = .ok (b, w1) →
      w1.Component = w.Component
        ∨ ∃ (b : Bool) (wm w3 : World), wm.Component = w.Component
            ∧ OnInteractionEnded fuel b wm = .ok w3 ∧ w1.Component = w3.Component := by
    intro b w1 h1
    cases ho : w.Objects[p]? with
    | none =>
      simp only [UInteraction.CanCommitInteraction, ho] at h1
      cases h1
    | some o =>
      rw [canCommit_eq _ p w o ho] at h1
      exact canCommitLoop_component fuel p _ _ 0 w w1 b h1
  cases c with
  | TryActivate a =>
    have h' : UInteraction.TryActivateInteraction (componentHandlers fuel) p a w = .ok w' := h
    cases ho : w.Objects[p]? with
    | none =>
      simp only [UInteraction.TryActivateInteraction, ho] at h'
      cases h'
    | some o =>
      rcases Bool.eq_false_or_eq_true (IsValid a) with ha | ha
      · rcases Bool.eq_false_or_eq_true (conditionsPass a o.Conditions) with hc | hc
        · rw [tryActivate_pass _ p a w o ho ha hc] at h'
          left
          rw [← Except.ok.inj h']
          rfl
        · rw [tryActivate_fail_cancel _ p a w o ho ha hc] at h'
          exact cancel_component fuel p .Cancel_ConditionsNotMet
            ((w.setObject p { o with InteractingActor := a }).emitAll
              (evaluations p a o.Conditions)) w' h'
      · rw [tryActivate_invalid _ p a w o ho ha] at h'
        left
        rw [← Except.ok.inj h']
        rfl
  | CanCommit =>
    have h' : (match UInteraction.CanCommitInteraction (componentHandlers fuel) p w with
      | .error e => Except.error e
      | .ok r => .ok r.2) = .ok w' := h
    cases hr : UInteraction.CanCommitInteraction (componentHandlers fuel) p w with
    | error e => rw [hr] at h'; cases h'
    | ok r =>
      rw [hr] at h'
      obtain ⟨b, w1⟩ := r
      rw [← Except.ok.inj h']
      exact hcan b w1 hr
  | Commit b =>
    have h' : UInteraction.CommitInteraction (componentHandlers fuel) p b w = .ok w' := h
    cases b with
    | true =>
      left
      rw [← Except.ok.inj h']
      rfl
    | false =>
      rw [commit_eq] at h'
      obtain ⟨b1, w1, hr, hw⟩ := thenCommitted_ok h'
      rw [hw]
      exact hcan b1 w1 hr
  | End => exact end_component fuel p w w' h
  | Cancel r => exact cancel_component fuel p r w w' h

/-! ## The cursor stays in range -/

theorem cursorInRange_congr {w w' : World} (h : w'.Component = w.Component)
    (hw : CursorInRange w) : CursorInRange w' := by
  unfold CursorInRange
  rw [h]
  exact hw

theorem cursorInRange_afterOutcome (w : World) (i : Nat) (s : FSequentialInteraction)
    (b : Bool) (hs : w.Component.SequentialInteractions[i]? = some s) :
    CursorInRange (w.afterOutcome i s b) := by
  have hlt : i < w.Component.SequentialInteractions.length := getElem?_lt_of_some hs
  refine ⟨?_, fun h => Bool.noConfusion h, ?_⟩
  · show (if endsSequence w.Component.SequentialInteractions i s b then (-1 : Int)
        else (i : Int)) = -1
      ∨ (0 ≤ (if endsSequence w.Component.SequentialInteractions i s b then (-1 : Int)
          else (i : Int))
        ∧ (if endsSequence w.Component.SequentialInteractions i s b then (-1 : Int)
          else (i : Int)) < ((markedSlots w.Component.SequentialInteractions i s).length : Int))
    rw [markedSlots_length]
    split
    · left; rfl
    · right; omega
  · show (if endsSequence w.Component.SequentialInteractions i s b
        then EInteractionState.SequentialState_Idle
        else EInteractionState.SequentialState_Waiting) ≠ .SequentialState_Failed
    split <;> exact fun h => EInteractionState.noConfusion h

/-- Whenever `StartNextSequentialInteraction`, called without an active
instance, returns, the cursor is in range and the state is not failed. -/
theorem startNext_inRange :
    ∀ (fuel : Nat) (w w' : World), w.Component.ActiveInteractionInstance = none → True →
      StartNextSequentialInteraction fuel w = .ok w' → CursorInRange w' := by
  apply chain_post (fun _ => True) CursorInRange
  · intro w hnone _
    refine ⟨Or.inl rfl, fun h => ?_, fun h => EInteractionState.noConfusion h⟩
    have h' : w.Component.ActiveInteractionInstance.isSome = true := h
    rw [hnone] at h'
    cases h'
  · intro w i s _ _ hs
    have hlt : i < w.Component.SequentialInteractions.length := getElem?_lt_of_some hs
    have hr : 0 ≤ (i : Int) ∧ (i : Int) < (w.Component.SequentialInteractions.length : Int) :=
      ⟨by omega, by omega⟩
    exact ⟨Or.inr hr, fun _ => hr, fun h => EInteractionState.noConfusion h⟩
  · intro w i s _ _ hs
    have hlt : i < w.Component.SequentialInteractions.length := getElem?_lt_of_some hs
    have hr : 0 ≤ (i : Int) ∧ (i : Int) < (w.Component.SequentialInteractions.length : Int) :=
      ⟨by omega, by omega⟩
    exact ⟨Or.inr hr, fun _ => hr, fun h => EInteractionState.noConfusion h⟩
  · intro w i s _ _ hs
    exact ⟨trivial, cursorInRange_afterOutcome (w.cancelledAt i s) i s false hs⟩
  · intro w sig h
    exact h
  · intro w h hsome
    exact ⟨h.1, h.2.1, fun h => EInteractionState.noConfusion h⟩

/-- Whenever the component's `OnInteractionEnded`, called with an active
instance and the cursor in range, returns, the cursor is in range and the state
is not failed. -/
theorem onEnded_inRange (fuel : Nat) (b : Bool) (p : Nat) (wm w3 : World)
    (hp : wm.Component.ActiveInteractionInstance = some p) (hr : CursorInRange wm)
    (h : OnInteractionEnded fuel b wm = .ok w3) : CursorInRange w3 := by
  have h' : OnInteractionEndedWith (StartNextSequentialInteraction fuel) b wm = .ok w3 := h
  cases hinst : wm.Objects[p]? with
  | none =>
    simp only [OnInteractionEndedWith, hp, hinst] at h'
    cases h'
  | some inst =>
    obtain ⟨h0, hlt⟩ := hr.2.1 (by rw [hp]; rfl)
    obtain ⟨i, hi⟩ : ∃ i : Nat, wm.Component.CurrentSequentialInteractionIndex = (i : Int) :=
      ⟨wm.Component.CurrentSequentialInteractionIndex.toNat, by omega⟩
    have hilt : i < wm.Component.SequentialInteractions.length := by omega
    have hs : wm.Component.SequentialInteractions[i]?
        = some (wm.Component.SequentialInteractions[i]) := List.getElem?_eq_getElem hilt
    rw [onEndedWith_eq _ b wm p inst i _ hp hinst hi hs] at h'
    split at h'
    · exact startNext_inRange fuel _ w3 rfl trivial h'
    · rw [← Except.ok.inj h']
      exact cursorInRange_afterOutcome wm i _ b hs

/-! ## Chains over non-repeatable slots -/

/-- From an index inside the array the search loop does not fail. -/
theorem scanSlots_total (slots : List FSequentialInteraction) :
    ∀ (steps j : Nat), j + steps ≤ slots.length →
      scanSlots slots steps (j : Int) = .ok none
        ∨ ∃ (i : Nat) (s : FSequentialInteraction),
            scanSlots slots steps (j : Int) = .ok (some (i : Int))
              ∧ slots[i]? = some s ∧ s.bInteractionComplete = false := by
  intro steps
  induction steps with
  | zero => intro j _; exact Or.inl rfl
  | succ steps ih =>
    intro j hj
    have hlt : j < slots.length := by omega
    have hs : slots[j]? = some slots[j] := List.getElem?_eq_getElem hlt
    have hslot : slotAt slots (j : Int) = some slots[j] := by
      simp [slotAt, hs]
    rcases Bool.eq_false_or_eq_true slots[j].bInteractionComplete with hc | hc
    · have hstep : scanSlots slots (steps + 1) (j : Int)
          = scanSlots slots steps ((j : Int) + 1) := by
        simp only [scanSlots, hslot, hc, Bool.not_true, Bool.false_eq_true, if_false]
      have hcast : ((j + 1 : Nat) : Int) = (j : Int) + 1 := by push_cast; rfl
      rw [hstep, ← hcast]
      exact ih (j + 1) (by omega)
    · right
      refine ⟨j, slots[j], ?_, hs, hc⟩
      simp only [scanSlots, hslot, hc, Bool.not_false, if_true]

/-- With the cursor none or an index, `StartNextSequentialInteraction` either
finds no slot and ends the sequence, or enters a slot that is not complete. -/
theorem startNext_total_cases (fuel : Nat) (w : World)
    (hc : -1 ≤ w.Component.CurrentSequentialInteractionIndex) :
    StartNextSequentialInteraction (fuel + 1) w = .ok (EndSequentialInteractions w)
      ∨ ∃ (i : Nat) (s : FSequentialInteraction),
          w.Component.SequentialInteractions[i]? = some s ∧ s.bInteractionComplete = false
          ∧ StartNextSequentialInteraction (fuel + 1) w
            = thenInProgress (UInteraction.TryActivateInteraction (componentHandlers fuel)
                w.Objects.length w.Component.CurrentlyInteractingActor (w.enterSlot i s)) := by
  obtain ⟨j, hj⟩ : ∃ j : Nat, w.Component.CurrentSequentialInteractionIndex + 1 = (j : Int) :=
    ⟨(w.Component.CurrentSequentialInteractionIndex + 1).toNat, by omega⟩
  have hscan : scanSlots w.Component.SequentialInteractions
      (((w.Component.SequentialInteractions.length : Int) - 1)
        - (w.Component.CurrentSequentialInteractionIndex + 1) + 1).toNat
      (w.Component.CurrentSequentialInteractionIndex + 1) = .ok none
      ∨ ∃ (i : Nat) (s : FSequentialInteraction),
          scanSlots w.Component.SequentialInteractions
            (((w.Component.SequentialInteractions.length : Int) - 1)
              - (w.Component.CurrentSequentialInteractionIndex + 1) + 1).toNat
            (w.Component.CurrentSequentialInteractionIndex + 1) = .ok (some (i : Int))
            ∧ w.Component.SequentialInteractions[i]? = some s
            ∧ s.bInteractionComplete = false := by
    rw [hj]
    by_cases hle : j ≤ w.Component.SequentialInteractions.length
    · exact scanSlots_total _ _ j (by omega)
    · have h0 : (((w.Component.SequentialInteractions.length : Int) - 1) - (j : Int) + 1).toNat
          = 0 := by omega
      rw [h0]
      exact Or.inl rfl
  rcases hscan with h | ⟨i, s, h, hs, hinc⟩
  · left
    simp only [StartNextSequentialInteraction, h]
  · exact Or.inr ⟨i, s, hs, hinc, startNext_of_scan fuel w i s hs h⟩

theorem incompleteCount_set (t : FSequentialInteraction) :
    ∀ (slots : List FSequentialInteraction) (i : Nat) (s : FSequentialInteraction),
      slots[i]? = some s →
      incompleteCount (slots.set i t) + (if s.bInteractionComplete then 0 else 1)
        = incompleteCount slots + (if t.bInteractionComplete then 0 else 1) := by
  intro slots
  induction slots with
  | nil => intro i s h; simp at h
  | cons x xs ih =>
    intro i s h
    cases i with
    | zero =>
      simp only [List.getElem?_cons_zero, Option.some.injEq] at h
      subst h
      simp only [List.set_cons_zero, incompleteCount, List.countP_cons]
      cases x.bInteractionComplete <;> cases t.bInteractionComplete <;> simp
    | succ i =>
      simp only [List.getElem?_cons_succ] at h
      have := ih i s h
      simp only [List.set_cons_succ, incompleteCount, List.countP_cons] at this ⊢
      omega

theorem incompleteCount_marked (slots : List FSequentialInteraction) (i : Nat)
    (s : FSequentialInteraction) (hs : slots[i]? = some s) :
    incompleteCount (markedSlots slots i s) ≤ incompleteCount slots
      ∧ (s.SequentialInteraction.bCanRepeatInteraction = false →
          s.bInteractionComplete = false →
          incompleteCount (markedSlots slots i s) + 1 = incompleteCount slots) := by
  unfold markedSlots
  rcases Bool.eq_false_or_eq_true s.SequentialInteraction.bCanRepeatInteraction with hr | hr
  · simp only [hr, if_true]
    exact ⟨Nat.le_refl _, fun h => by cases h⟩
  · simp only [hr, Bool.false_eq_true, if_false]
    have := incompleteCount_set { s with bInteractionComplete := true } slots i s hs
    simp only [if_true] at this
    refine ⟨?_, fun _ hinc => ?_⟩
    · split at this <;> omega
    · rw [hinc] at this
      simpa using this

theorem marked_templates (slots : List FSequentialInteraction) (i : Nat)
    (s : FSequentialInteraction) (hs : slots[i]? = some s)
    (hrep : ∀ t ∈ slots, t.SequentialInteraction.bCanRepeatInteraction = false) :
    ∀ t ∈ markedSlots slots i s, t.SequentialInteraction.bCanRepeatInteraction = false := by
  intro t ht
  unfold markedSlots at ht
  split at ht
  · exact hrep t ht
  · rcases List.mem_or_eq_of_mem_set ht with h | h
    · exact hrep t h
    · rw [h]
      exact hrep s (List.getElem?_mem hs)

theorem thenInProgress_objects {sig : Signal} {w3 : World} :
    ∃ w', thenInProgress (thenEmit sig (.ok w3)) = .ok w' ∧ w'.Objects = w3.Objects := by
  rcases Bool.eq_false_or_eq_true (w3.emit sig).Component.ActiveInteractionInstance.isSome
    with h | h
  · exact ⟨(w3.emit sig).setState .SequentialState_InProgress,
      by simp only [thenEmit, thenInProgress, h, if_true], rfl⟩
  · exact ⟨w3.emit sig,
      by simp only [thenEmit, thenInProgress, h, Bool.false_eq_true, if_false], rfl⟩

/-- Over non-repeatable slots `StartNextSequentialInteraction` returns as soon as
the fuel exceeds the number of incomplete slots, having created at most that
many instances. -/
theorem startNext_terminates :
    ∀ (fuel : Nat) (w : World),
      (∀ s ∈ w.Component.SequentialInteractions,
        s.SequentialInteraction.bCanRepeatInteraction = false) →
      -1 ≤ w.Component.CurrentSequentialInteractionIndex →
      incompleteCount w.Component.SequentialInteractions < fuel →
      ∃ w', StartNextSequentialInteraction fuel w = .ok w'
        ∧ w'.Objects.length
            ≤ w.Objects.length + incompleteCount w.Component.SequentialInteractions := by
  intro fuel
  induction fuel with
  | zero => intro w _ _ h; omega
  | succ fuel ih =>
    intro w hrep hc hfuel
    rcases startNext_total_cases fuel w hc with h | ⟨i, s, hs, hinc, h⟩
    · exact ⟨_, h, Nat.le_add_right _ _⟩
    · rw [h]
      have hdec := (incompleteCount_marked _ i s hs).2 (hrep s (List.getElem?_mem hs)) hinc
      obtain ⟨e1, e2, e3⟩ := entered_cases fuel w i s
      rcases Bool.eq_false_or_eq_true (IsValid w.Component.CurrentlyInteractingActor)
        with ha | ha
      · rcases Bool.eq_false_or_eq_true (conditionsPass w.Component.CurrentlyInteractingActor
          s.SequentialInteraction.Conditions) with hp | hp
        · refine ⟨_, e2 ha hp, ?_⟩
          show (w.Objects ++ [_]).length ≤ _
          rw [List.length_append, List.length_singleton]
          omega
        · rw [e3 ha hp]
          have hhandler : OnInteractionCancelled fuel .Cancel_ConditionsNotMet
              (w.cancelledAt i s)
              = if (workingCopy s.SequentialInteraction).bStartNextInteractionAutomatically
                then StartNextSequentialInteraction fuel
                  ((w.cancelledAt i s).afterOutcome i s false)
                else .ok ((w.cancelledAt i s).afterOutcome i s false) := by
            show OnInteractionEndedWith (StartNextSequentialInteraction fuel) false
              (w.cancelledAt i s) = _
            rw [onEndedWith_eq _ false (w.cancelledAt i s) w.Objects.length _ i s rfl
              (cancelledAt_object w i s) rfl hs]
          have hlen : ((w.cancelledAt i s).afterOutcome i s false).Objects.length
              = w.Objects.length + 1 := by
            show (w.Objects ++ [_]).length = _
            rw [List.length_append, List.length_singleton]
          have hw3 : ∃ w3, OnInteractionCancelled fuel .Cancel_ConditionsNotMet
              (w.cancelledAt i s) = .ok w3
              ∧ w3.Objects.length
                ≤ w.Objects.length + incompleteCount w.Component.SequentialInteractions := by
            rw [hhandler]
            split
            · obtain ⟨w3, h3, hle⟩ := ih ((w.cancelledAt i s).afterOutcome i s false)
                (marked_templates _ i s hs hrep)
                (by
                  show (-1 : Int) ≤ if endsSequence w.Component.SequentialInteractions i s false
                    then -1 else (i : Int)
                  split <;> omega)
                (by
                  show incompleteCount (markedSlots w.Component.SequentialInteractions i s)
                    < fuel
                  omega)
              refine ⟨w3, h3, ?_⟩
              have hcount : incompleteCount
                  ((w.cancelledAt i s).afterOutcome i s false).Component.SequentialInteractions
                  = incompleteCount (markedSlots w.Component.SequentialInteractions i s) := rfl
              rw [hlen, hcount] at hle
              omega
            · exact ⟨_, rfl, by rw [hlen]; omega⟩
          obtain ⟨w3, h3, hle⟩ := hw3
          rw [h3]
          obtain ⟨w', hw', hobj⟩ := @thenInProgress_objects
            (.InteractionCancelled w.Objects.length .Cancel_ConditionsNotMet) w3
          exact ⟨w', hw', by rw [hobj]; exact hle⟩
      · refine ⟨_, e1 ha, ?_⟩
        show (w.Objects ++ [_]).length ≤ _
        rw [List.length_append, List.length_singleton]
        omega

/-! ## Changing an object that the chain does not read -/

theorem startNext_entered (fuel : Nat) (w : World) (i : Nat) (s : FSequentialInteraction)
    (hs : w.Component.SequentialInteractions[i]? = some s)
    (hrun : StartNextSequentialInteraction (fuel + 1) w
      = thenInProgress (UInteraction.TryActivateInteraction (componentHandlers fuel)
          w.Objects.length w.Component.CurrentlyInteractingActor (w.enterSlot i s))) :
    StartNextSequentialInteraction (fuel + 1) w
      = enteredResult (StartNextSequentialInteraction fuel) w i s := by
  rw [hrun]
  obtain ⟨e1, e2, e3⟩ := entered_cases fuel w i s
  unfold enteredResult
  rcases Bool.eq_false_or_eq_true (IsValid w.Component.CurrentlyInteractingActor) with ha | ha
  · rcases Bool.eq_false_or_eq_true (conditionsPass w.Component.CurrentlyInteractingActor
      s.SequentialInteraction.Conditions) with hc | hc
    · rw [e2 ha hc]
      simp only [ha, hc, if_true]
    · rw [e3 ha hc]
      have hhandler : OnInteractionCancelled fuel .Cancel_ConditionsNotMet (w.cancelledAt i s)
          = if s.SequentialInteraction.bStartNextInteractionAutomatically
            then StartNextSequentialInteraction fuel
              ((w.cancelledAt i s).afterOutcome i s false)
            else .ok ((w.cancelledAt i s).afterOutcome i s false) := by
        show OnInteractionEndedWith (StartNextSequentialInteraction fuel) false
          (w.cancelledAt i s) = _
        rw [onEndedWith_eq _ false (w.cancelledAt i s) w.Objects.length _ i s rfl
          (cancelledAt_object w i s) rfl hs]
        rfl
      rw [hhandler]
      simp only [ha, hc, if_true, Bool.false_eq_true, if_false]
  · rw [e1 ha]
    simp only [ha, Bool.false_eq_true, if_false]

theorem setObject_enterSlot (w : World) (p : Nat) (o' : UInteraction) (i : Nat)
    (s : FSequentialInteraction) (hp : p < w.Objects.length) :
    (w.setObject p o').enterSlot i s = (w.enterSlot i s).setObject p o' := by
  simp [World.enterSlot, World.setObject, List.set_append_left _ _ hp]

theorem setObject_activatedAt (w : World) (p : Nat) (o' : UInteraction) (i : Nat)
    (s : FSequentialInteraction) (hp : p < w.Objects.length) :
    (w.setObject p o').activatedAt i s = (w.activatedAt i s).setObject p o' := by
  simp [World.activatedAt, World.setObject, List.set_append_left _ _ hp]

theorem setObject_cancelledAt (w : World) (p : Nat) (o' : UInteraction) (i : Nat)
    (s : FSequentialInteraction) (hp : p < w.Objects.length) :
    (w.setObject p o').cancelledAt i s = (w.cancelledAt i s).setObject p o' := by
  simp [World.cancelledAt, World.setObject, List.set_append_left _ _ hp]

theorem lift_thenCancelled (p : Nat) (o' : UInteraction) (sig : Signal)
    (r : Except Fault World) :
    thenInProgress (thenEmit sig (liftResult (fun v => v.setObject p o') r))
      = liftResult (fun v => v.setObject p o') (thenInProgress (thenEmit sig r)) := by
  cases r with
  | error e => cases e <;> rfl
  | ok w3 =>
    rcases Bool.eq_false_or_eq_true (w3.emit sig).Component.ActiveInteractionInstance.isSome
      with h | h
    · have h' : (((fun v : World => v.setObject p o') w3).emit
          sig).Component.ActiveInteractionInstance.isSome = true := h
      simp only [liftResult, thenEmit, thenInProgress, h, h', if_true]
      rfl
    · have h' : (((fun v : World => v.setObject p o') w3).emit
          sig).Component.ActiveInteractionInstance.isSome = false := h
      simp only [liftResult, thenEmit, thenInProgress, h, h', Bool.false_eq_true, if_false]
      rfl

theorem enteredResult_frame (p : Nat) (o' : UInteraction) (next : World → Except Fault World)
    (w : World) (i : Nat) (s : FSequentialInteraction) (hp : p < w.Objects.length)
    (hnext : next (((w.cancelledAt i s).afterOutcome i s false).setObject p o')
      = liftResult (fun v => v.setObject p o')
          (next ((w.cancelledAt i s).afterOutcome i s false))) :
    enteredResult next (w.setObject p o') i s
      = liftResult (fun v => v.setObject p o') (enteredResult next w i s) := by
  have hlen : (w.setObject p o').Objects.length = w.Objects.length := List.length_set _ _ _
  have hcomp : (w.setObject p o').Component = w.Component := rfl
  have hafter : ((w.cancelledAt i s).setObject p o').afterOutcome i s false
      = ((w.cancelledAt i s).afterOutcome i s false).setObject p o' := rfl
  unfold enteredResult
  rw [hlen, hcomp, setObject_activatedAt w p o' i s hp, setObject_cancelledAt w p o' i s hp,
    setObject_enterSlot w p o' i s hp, hafter]
  rcases Bool.eq_false_or_eq_true (IsValid w.Component.CurrentlyInteractingActor) with ha | ha
  · rcases Bool.eq_false_or_eq_true (conditionsPass w.Component.CurrentlyInteractingActor
      s.SequentialInteraction.Conditions) with hc | hc
    · simp only [ha, hc, if_true]
      rfl
    · simp only [ha, hc, if_true, Bool.false_eq_true, if_false]
      rcases Bool.eq_false_or_eq_true s.SequentialInteraction.bStartNextInteractionAutomatically
        with hauto | hauto
      · simp only [hauto, if_true]
        rw [hnext]
        exact lift_thenCancelled p o' _ _
      · simp only [hauto, Bool.false_eq_true, if_false]
        exact lift_thenCancelled p o' _ (.ok ((w.cancelledAt i s).afterOutcome i s false))
  · simp only [ha, Bool.false_eq_true, if_false]
    rfl

/-- `StartNextSequentialInteraction` neither reads nor writes an object that is
on the heap when it is called: overwriting that object before the call or after
it gives the same result. -/
theorem startNext_frame (p : Nat) (o' : UInteraction) :
    ∀ (fuel : Nat) (w : World), p < w.Objects.length →
      StartNextSequentialInteraction fuel (w.setObject p o')
        = liftResult (fun v => v.setObject p o') (StartNextSequentialInteraction fuel w) := by
  intro fuel
  induction fuel with
  | zero => intro w _; rfl
  | succ fuel ih =>
    intro w hp
    rcases scanSlots_cases w.Component.SequentialInteractions
        (((w.Component.SequentialInteractions.length : Int) - 1)
          - (w.Component.CurrentSequentialInteractionIndex + 1) + 1).toNat
        (w.Component.CurrentSequentialInteractionIndex + 1) with h | h | ⟨i, s, h, _, hs, _⟩
    · have h' : scanSlots (w.setObject p o').Component.SequentialInteractions
          ((((w.setObject p o').Component.SequentialInteractions.length : Int) - 1)
            - ((w.setObject p o').Component.CurrentSequentialInteractionIndex + 1) + 1).toNat
          ((w.setObject p o').Component.CurrentSequentialInteractionIndex + 1)
          = .error .outOfBounds := h
      have e1 : StartNextSequentialInteraction (fuel + 1) w = .error .outOfBounds := by
        simp only [StartNextSequentialInteraction, h]
      have e2 : StartNextSequentialInteraction (fuel + 1) (w.setObject p o')
          = .error .outOfBounds := by
        simp only [StartNextSequentialInteraction, h']
      rw [e1, e2]
      rfl
    · have h' : scanSlots (w.setObject p o').Component.SequentialInteractions
          ((((w.setObject p o').Component.SequentialInteractions.length : Int) - 1)
            - ((w.setObject p o').Component.CurrentSequentialInteractionIndex + 1) + 1).toNat
          ((w.setObject p o').Component.CurrentSequentialInteractionIndex + 1)
          = .ok none := h
      have e1 : StartNextSequentialInteraction (fuel + 1) w
          = .ok (EndSequentialInteractions w) := by
        simp only [StartNextSequentialInteraction, h]
      have e2 : StartNextSequentialInteraction (fuel + 1) (w.setObject p o')
          = .ok (EndSequentialInteractions (w.setObject p o')) := by
        simp only [StartNextSequentialInteraction, h']
      rw [e1, e2]
      rfl
    · have hlen : (w.setObject p o').Objects.length = w.Objects.length :=
        List.length_set _ _ _
      have e1 := startNext_entered fuel w i s hs (startNext_of_scan fuel w i s hs h)
      have e2 := startNext_entered fuel (w.setObject p o') i s hs
        (startNext_of_scan fuel (w.setObject p o') i s hs h)
      rw [e1, e2]
      apply enteredResult_frame p o' _ w i s hp
      apply ih
      show p < (w.Objects ++ [_]).length
      rw [List.length_append]
      omega

/-- The component's `OnInteractionEnded` reads of the active instance only its
automatic-advance flag: overwriting the instance by an object with the same flag
before the call or after it gives the same result. -/
theorem onEnded_frame (fuel : Nat) (b : Bool) (w : World) (p : Nat) (inst o' : UInteraction)
    (hp : w.Component.ActiveInteractionInstance = some p) (hinst : w.Objects[p]? = some inst)
    (hauto : o'.bStartNextInteractionAutomatically = inst.bStartNextInteractionAutomatically) :
    OnInteractionEnded fuel b (w.setObject p o')
      = liftResult (fun v => v.setObject p o') (OnInteractionEnded fuel b w) := by
  have hlt : p < w.Objects.length := getElem?_lt_of_some hinst
  have hinst' : (w.setObject p o').Objects[p]? = some o' := List.getElem?_set_self hlt
  have hp' : (w.setObject p o').Component.ActiveInteractionInstance = some p := hp
  show OnInteractionEndedWith (StartNextSequentialInteraction fuel) b (w.setObject p o')
    = liftResult (fun v => v.setObject p o')
        (OnInteractionEndedWith (StartNextSequentialInteraction fuel) b w)
  rcases Bool.eq_false_or_eq_true (IsValidIndex w.Component.SequentialInteractions
    w.Component.CurrentSequentialInteractionIndex) with hv | hv
  · obtain ⟨i, s, hi, hs⟩ := isValidIndex_true hv
    rw [onEndedWith_eq _ b w p inst i s hp hinst hi hs,
      onEndedWith_eq _ b (w.setObject p o') p o' i s hp' hinst' hi hs, hauto]
    split
    · exact startNext_frame p o' fuel (w.afterOutcome i s b) hlt
    · rfl
  · rw [onEndedWith_invalid _ b w p inst hp hinst hv,
      onEndedWith_invalid _ b (w.setObject p o') p o' hp' hinst' hv]
    rfl

theorem liftResult_ok {f : World → World} {r : Except Fault World} {w1 : World}
    (h : r = .ok w1) : liftResult f r = .ok (f w1) := by
  rw [h]
  rfl

/-! ## Changing the automatic-advance flag of a template -/

theorem setTemplateAuto_afterOutcome (w : World) (i : Nat) (s : FSequentialInteraction)
    (y b : Bool) (hs : w.Component.SequentialInteractions[i]? = some s) :
    ((w.setTemplateAuto i s y).afterOutcome i
        { s with SequentialInteraction :=
            { s.SequentialInteraction with bStartNextInteractionAutomatically := y } }
        b).Component.CurrentSequentialInteractionIndex
        = (w.afterOutcome i s b).Component.CurrentSequentialInteractionIndex
      ∧ ((w.setTemplateAuto i s y).afterOutcome i
          { s with SequentialInteraction :=
              { s.SequentialInteraction with bStartNextInteractionAutomatically := y } }
          b).Component.CurrentInteractionState
          = (w.afterOutcome i s b).Component.CurrentInteractionState
      ∧ ((w.setTemplateAuto i s y).afterOutcome i
          { s with SequentialInteraction :=
              { s.SequentialInteraction with bStartNextInteractionAutomatically := y } }
          b).Component.SequentialInteractions.map (fun t => t.bInteractionComplete)
          = (w.afterOutcome i s b).Component.SequentialInteractions.map
              (fun t => t.bInteractionComplete) := by
  have hends : endsSequence (w.setTemplateAuto i s y).Component.SequentialInteractions i
      { s with SequentialInteraction :=
          { s.SequentialInteraction with bStartNextInteractionAutomatically := y } } b
      = endsSequence w.Component.SequentialInteractions i s b := by
    simp [endsSequence, World.setTemplateAuto, World.setSlots]
  have hself : (w.Component.SequentialInteractions.map (fun t => t.bInteractionComplete)).set i
      s.bInteractionComplete
      = w.Component.SequentialInteractions.map (fun t => t.bInteractionComplete) := by
    apply List.ext_getElem?
    intro j
    by_cases hj : i = j
    · subst hj
      rw [List.getElem?_set_self (by simpa using getElem?_lt_of_some hs)]
      simp [hs]
    · rw [List.getElem?_set_ne hj]
  refine ⟨?_, ?_, ?_⟩
  · simp only [World.afterOutcome, hends]
  · simp only [World.afterOutcome, hends]
  · show (markedSlots (w.Component.SequentialInteractions.set i _) i _).map _
      = (markedSlots w.Component.SequentialInteractions i s).map _
    unfold markedSlots
    rcases Bool.eq_false_or_eq_true s.SequentialInteraction.bCanRepeatInteraction with hr | hr
    · simp only [hr, if_true, List.map_set]
      exact hself
    · simp only [hr, Bool.false_eq_true, if_false, List.set_set, List.map_set]

/-! ## Chains that never return, with complete slots in between -/

theorem exists_firstIncompleteAfter (slots : List FSequentialInteraction) (c : Int) :
    ∀ (k : Nat) (s : FSequentialInteraction), c < (k : Int) → slots[k]? = some s →
      s.bInteractionComplete = false → ∃ i, FirstIncompleteAfter slots c i := by
  intro k
  induction k using Nat.strong_induction_on with
  | _ k ih =>
    intro s hk hs hinc
    by_cases h : ∃ (j : Nat) (t : FSequentialInteraction), c < (j : Int) ∧ j < k
        ∧ slots[j]? = some t ∧ t.bInteractionComplete = false
    · obtain ⟨j, t, h1, h2, h3, h4⟩ := h
      exact ih j h2 t h1 h3 h4
    · refine ⟨k, hk, ⟨s, hs, hinc⟩, fun j t h1 h2 h3 => ?_⟩
      rcases Bool.eq_false_or_eq_true t.bInteractionComplete with ht | ht
      · exact ht
      · exact absurd ⟨j, t, h1, h2, h3, ht⟩ h

/-- In a sequence whose slots are complete or restless and whose last slot is
restless, with the cursor before the last slot,
`StartNextSequentialInteraction` uses up any amount of fuel, creating one
instance per unit. -/
theorem startNext_restlessTail (E : Option AActor) (hE : IsValid E = true) :
    ∀ (fuel : Nat) (w : World), w.Component.CurrentlyInteractingActor = E →
      RestlessTail E w.Component.SequentialInteractions →
      -1 ≤ w.Component.CurrentSequentialInteractionIndex →
      w.Component.CurrentSequentialInteractionIndex + 1
        < (w.Component.SequentialInteractions.length : Int) →
      ∃ w', StartNextSequentialInteraction fuel w = .error (.outOfFuel w')
        ∧ w'.Objects.length = w.Objects.length + fuel := by
  intro fuel
  induction fuel with
  | zero => intro w _ _ _ _; exact ⟨w, rfl, rfl⟩
  | succ fuel ih =>
    intro w hact htail hc hlt
    obtain ⟨hall, slast, hlast, hrest⟩ := htail
    have hlastlt : w.Component.SequentialInteractions.length - 1
        < w.Component.SequentialInteractions.length := getElem?_lt_of_some hlast
    obtain ⟨i, hfirst⟩ := exists_firstIncompleteAfter w.Component.SequentialInteractions
      w.Component.CurrentSequentialInteractionIndex
      (w.Component.SequentialInteractions.length - 1) slast (by omega) hlast hrest.2.2.2
    obtain ⟨s, hs, hinc⟩ := hfirst.2.1
    have hilt : i < w.Component.SequentialInteractions.length := getElem?_lt_of_some hs
    have hmem : s ∈ w.Component.SequentialInteractions := List.getElem?_mem hs
    obtain ⟨hrep, hauto, hfail, _⟩ : Restless E s := by
      rcases hall s hmem with h | h
      · rw [hinc] at h; cases h
      · exact h
    have hrun := startNext_fail fuel w hc i s hs hfirst (by rw [hact]; exact hE)
      (by rw [hact]; exact hfail)
    have hhandler : OnInteractionCancelled fuel .Cancel_ConditionsNotMet (w.cancelledAt i s)
        = StartNextSequentialInteraction fuel ((w.cancelledAt i s).afterOutcome i s false) := by
      show OnInteractionEndedWith (StartNextSequentialInteraction fuel) false
        (w.cancelledAt i s) = _
      rw [onEndedWith_eq _ false (w.cancelledAt i s) w.Objects.length _ i s rfl
        (cancelledAt_object w i s) rfl hs]
      have : (workingCopy s.SequentialInteraction).bStartNextInteractionAutomatically = true :=
        hauto
      simp only [this, if_true]
    have hm : markedSlots w.Component.SequentialInteractions i s
        = w.Component.SequentialInteractions := by
      simp [markedSlots, hrep]
    obtain ⟨w', h1, h2⟩ := ih ((w.cancelledAt i s).afterOutcome i s false) hact
      (by
        show RestlessTail E (markedSlots w.Component.SequentialInteractions i s)
        rw [hm]; exact ⟨hall, slast, hlast, hrest⟩)
      (by
        show (-1 : Int) ≤ if endsSequence w.Component.SequentialInteractions i s false
          then -1 else (i : Int)
        split <;> omega)
      (by
        show (if endsSequence w.Component.SequentialInteractions i s false
          then -1 else (i : Int)) + 1
            < ((markedSlots w.Component.SequentialInteractions i s).length : Int)
        rw [hm]
        by_cases he : endsSequence w.Component.SequentialInteractions i s false = true
        · rw [if_pos he]; omega
        · rw [if_neg he]
          have hne : ¬ ((i : Int) = (w.Component.SequentialInteractions.length : Int) - 1) := by
            intro hl
            apply he
            simp [endsSequence, hl]
          omega)
    refine ⟨w', ?_, ?_⟩
    · rw [hrun, hhandler, h1]
      rfl
    · rw [h2]
      show (w.Objects ++ [_]).length + fuel = _
      rw [List.length_append, List.length_singleton]
      omega

/-! ## Calls on a bound instance whose handler does not return -/

/-- When the component's `OnInteractionEnded` is cut off, the objects that were
on the heap are as they were and the log has gained no signal about them. -/
theorem onEnded_cutoff (fuel : Nat) (b : Bool) (wm w' : World) (p : Nat)
    (hp : p < wm.Objects.length)
    (h : OnInteractionEnded fuel b wm = .error (.outOfFuel w')) :
    w'.Objects[p]? = wm.Objects[p]?
      ∧ ∃ ext, w'.Log = wm.Log ++ ext ∧ ∀ sig ∈ ext, sig.obj ≠ p := by
  have hu := onInteractionEnded_untouched fuel b wm
  rw [h] at hu
  obtain ⟨_, h2, ext, h3, h4⟩ : Untouched wm w' := hu
  exact ⟨h2 p hp, ext, h3, fun sig hs => by have := h4 sig hs; omega⟩

theorem thenEmit_cutoff {sig : Signal} {r : Except Fault World} {w' : World}
    (h : thenEmit sig r = .error (.outOfFuel w')) : r = .error (.outOfFuel w') := by
  cases r with
  | error e => exact h
  | ok w3 => cases h

theorem thenRefuse_cutoff {r : Except Fault World} {w' : World}
    (h : thenRefuse r = .error (.outOfFuel w')) : r = .error (.outOfFuel w') := by
  cases r with
  | error e =>
    have he : e = .outOfFuel w' := Except.error.inj h
    rw [he]
  | ok w3 => cases h

theorem thenCommitted_cutoff {p : Nat} {r : Except Fault (Bool × World)} {w' : World}
    (h : thenCommitted p r = .error (.outOfFuel w')) : r = .error (.outOfFuel w') := by
  cases r with
  | error e =>
    have he : e = .outOfFuel w' := Except.error.inj h
    rw [he]
  | ok r =>
    obtain ⟨b, w1⟩ := r
    cases b with
    | true => cases h
    | false =>
      simp only [thenCommitted, Bool.not_false, if_true] at h
      cases ho : w1.Objects[p]? with
      | none => rw [ho] at h; cases h
      | some o =>
        rw [ho] at h
        cases hact : o.InteractingActor with
        | none => simp only [hact] at h; cases h
        | some a => simp only [hact] at h; cases h

/-- When `CancelInteraction` with the component's handlers is cut off, the
object is inactive, its cancellation has been broadcast, and the log holds no
further signal about it: the event `InteractionCancelled` has not fired. -/
theorem cancel_cutoff (fuel p : Nat) (r : EInteractionCancelReason) (w w' : World)
    (o : UInteraction) (ho : w.Objects[p]? = some o)
    (h : UInteraction.CancelInteraction (componentHandlers fuel) p r w
      = .error (.outOfFuel w')) :
    w'.Objects[p]? = some { o with bIsActive := false }
      ∧ ∃ ext, w'.Log = w.Log ++ [.BroadcastCancelled p r] ++ ext
        ∧ ∀ sig ∈ ext, sig.obj ≠ p := by
  have hlt := getElem?_lt_of_some ho
  rw [cancel_eq _ p r w o ho] at h
  have h3 := thenEmit_cutoff h
  have hat : ((w.setObject p { o with bIsActive := false }).emit
      (.BroadcastCancelled p r)).Objects[p]? = some { o with bIsActive := false } :=
    List.getElem?_set_self hlt
  rcases Bool.eq_false_or_eq_true o.OnInteractionCancelled with hb | hb
  · rw [broadcastCancelled_bound _ hb] at h3
    obtain ⟨q1, ext, q2, q3⟩ := onEnded_cutoff fuel false
      ((w.setObject p { o with bIsActive := false }).emit (.BroadcastCancelled p r)) w' p
      (getElem?_lt_of_some hat) h3
    exact ⟨by rw [q1, hat], ext, q2, q3⟩
  · rw [broadcastCancelled_unbound _ hb] at h3
    cases h3

/-- When `EndInteraction` with the component's handlers is cut off, the object
is as it was, still active, its end has been broadcast, and the log holds no
further signal about it: the event `InteractionEnded` has not fired. -/
theorem end_cutoff (fuel p : Nat) (w w' : World) (o : UInteraction)
    (ho : w.Objects[p]? = some o)
    (h : UInteraction.EndInteraction (componentHandlers fuel) p w = .error (.outOfFuel w')) :
    o.bIsActive = true ∧ w'.Objects[p]? = some o
      ∧ ∃ ext, w'.Log = w.Log ++ [.BroadcastEnded p true] ++ ext
        ∧ ∀ sig ∈ ext, sig.obj ≠ p := by
  have hlt := getElem?_lt_of_some ho
  rcases Bool.eq_false_or_eq_true o.bIsActive with hact | hact
  · rw [endInteraction_eq _ p w o ho hact] at h
    have ho' : (w.emit (.BroadcastEnded p true)).Objects[p]? = some o := ho
    rcases Bool.eq_false_or_eq_true o.OnInteractionEnded with hb | hb
    · rw [broadcastEnded_bound _ hb] at h
      cases hr : (componentHandlers fuel).OnInteractionEnded true
          (w.emit (.BroadcastEnded p true)) with
      | ok w3 =>
        rw [hr] at h
        cases ho3 : w3.Objects[p]? with
        | none => simp only [thenEnded, ho3] at h; cases h
        | some o3 => simp only [thenEnded, ho3] at h; cases h
      | error e =>
        rw [hr] at h
        have he : e = .outOfFuel w' := Except.error.inj h
        rw [he] at hr
        obtain ⟨q1, ext, q2, q3⟩ := onEnded_cutoff fuel true
          (w.emit (.BroadcastEnded p true)) w' p hlt hr
        exact ⟨hact, by rw [q1]; exact ho', ext, q2, q3⟩
    · rw [broadcastEnded_unbound _ hb] at h
      simp only [thenEnded, ho'] at h
      cases h
  · rw [endInteraction_inactive _ p w o ho hact] at h
    cases h

/-- With an active instance that advances automatically, a valid instigator and
a sequence that, after the marking, cannot come to rest, the component's
`OnInteractionEnded` uses up any amount of fuel. -/
theorem onEnded_never_returns (fuel : Nat) (b : Bool) (w : World) (p : Nat)
    (inst : UInteraction) (i : Nat) (s : FSequentialInteraction)
    (hp : w.Component.ActiveInteractionInstance = some p) (hinst : w.Objects[p]? = some inst)
    (hauto : inst.bStartNextInteractionAutomatically = true)
    (hi : w.Component.CurrentSequentialInteractionIndex = (i : Int))
    (hs : w.Component.SequentialInteractions[i]? = some s)
    (hE : IsValid w.Component.CurrentlyInteractingActor = true)
    (htail : RestlessTail w.Component.CurrentlyInteractingActor
      (markedSlots w.Component.SequentialInteractions i s))
    (hcur : (if endsSequence w.Component.SequentialInteractions i s b then (-1 : Int)
      else (i : Int)) + 1 < (w.Component.SequentialInteractions.length : Int)) :
    ∃ w', OnInteractionEnded fuel b w = .error (.outOfFuel w')
      ∧ w'.Objects.length = w.Objects.length + fuel := by
  have hrun : OnInteractionEnded fuel b w
      = StartNextSequentialInteraction fuel (w.afterOutcome i s b) := by
    show OnInteractionEndedWith (StartNextSequentialInteraction fuel) b w = _
    rw [onEndedWith_eq _ b w p inst i s hp hinst hi hs, hauto]
    rfl
  rw [hrun]
  exact startNext_restlessTail w.Component.CurrentlyInteractingActor hE fuel
    (w.afterOutcome i s b) rfl htail
    (by
      show (-1 : Int) ≤ if endsSequence w.Component.SequentialInteractions i s b
        then -1 else (i : Int)
      split <;> omega)
    (by
      show (if endsSequence w.Component.SequentialInteractions i s b then (-1 : Int)
        else (i : Int)) + 1
          < ((markedSlots w.Component.SequentialInteractions i s).length : Int)
      rw [markedSlots_length]
      exact hcur)

theorem cancel_never_returns (fuel p : Nat) (r : EInteractionCancelReason) (w : World)
    (o : UInteraction) (i : Nat) (s : FSequentialInteraction)
    (ho : w.Objects[p]? = some o) (hbound : o.OnInteractionCancelled = true)
    (hp : w.Component.ActiveInteractionInstance = some p)
    (hauto : o.bStartNextInteractionAutomatically = true)
    (hi : w.Component.CurrentSequentialInteractionIndex = (i : Int))
    (hs : w.Component.SequentialInteractions[i]? = some s)
    (hE : IsValid w.Component.CurrentlyInteractingActor = true)
    (htail : RestlessTail w.Component.CurrentlyInteractingActor
      (markedSlots w.Component.SequentialInteractions i s))
    (hcur : (if endsSequence w.Component.SequentialInteractions i s false then (-1 : Int)
      else (i : Int)) + 1 < (w.Component.SequentialInteractions.length : Int)) :
    ∃ w', UInteraction.CancelInteraction (componentHandlers fuel) p r w
      = .error (.outOfFuel w') := by
  have hat : ((w.setObject p { o with bIsActive := false }).emit
      (.BroadcastCancelled p r)).Objects[p]? = some { o with bIsActive := false } :=
    List.getElem?_set_self (getElem?_lt_of_some ho)
  obtain ⟨w', h, _⟩ := onEnded_never_returns fuel false
    ((w.setObject p { o with bIsActive := false }).emit (.BroadcastCancelled p r)) p
    { o with bIsActive := false } i s hp hat hauto hi hs hE htail hcur
  refine ⟨w', ?_⟩
  rw [cancel_eq _ p r w o ho, broadcastCancelled_bound _ hbound]
  have h' : (componentHandlers fuel).OnInteractionCancelled r
      ((w.setObject p { o with bIsActive := false }).emit (.BroadcastCancelled p r))
      = .error (.outOfFuel w') := h
  rw [h']
  rfl

theorem end_never_returns (fuel p : Nat) (w : World) (o : UInteraction) (i : Nat)
    (s : FSequentialInteraction)
    (ho : w.Objects[p]? = some o) (hact : o.bIsActive = true)
    (hbound : o.OnInteractionEnded = true)
    (hp : w.Component.ActiveInteractionInstance = some p)
    (hauto : o.bStartNextInteractionAutomatically = true)
    (hi : w.Component.CurrentSequentialInteractionIndex = (i : Int))
    (hs : w.Component.SequentialInteractions[i]? = some s)
    (hE : IsValid w.Component.CurrentlyInteractingActor = true)
    (htail : RestlessTail w.Component.CurrentlyInteractingActor
      (markedSlots w.Component.SequentialInteractions i s))
    (hcur : (if endsSequence w.Component.SequentialInteractions i s true then (-1 : Int)
      else (i : Int)) + 1 < (w.Component.SequentialInteractions.length : Int)) :
    ∃ w', UInteraction.EndInteraction (componentHandlers fuel) p w
      = .error (.outOfFuel w') := by
  have ho' : (w.emit (.BroadcastEnded p true)).Objects[p]? = some o := ho
  obtain ⟨w', h, _⟩ := onEnded_never_returns fuel true (w.emit (.BroadcastEnded p true)) p o i s
    hp ho' hauto hi hs hE htail hcur
  refine ⟨w', ?_⟩
  rw [endInteraction_eq _ p w o ho hact, broadcastEnded_bound _ hbound]
  have h' : (componentHandlers fuel).OnInteractionEnded true (w.emit (.BroadcastEnded p true))
      = .error (.outOfFuel w') := h
  rw [h']
  rfl

/-- In `scenarioStuck`, once slot 0 is complete, the sequence cannot come to
rest for `actorE`. -/
theorem scenarioStuck_tail :
    RestlessTail actorE
      [{ slotOf (template false true [UInteractionCondition.always false]) false with
          bInteractionComplete := true },
        slotOf (template true true [UInteractionCondition.base]) false] := by
  refine ⟨fun s hs => ?_, _, rfl, ⟨rfl, rfl, rfl, rfl⟩⟩
  rcases List.mem_cons.1 hs with h | h
  · left; rw [h]
  · right
    rw [List.mem_singleton.1 h]
    exact ⟨rfl, rfl, rfl, rfl⟩

/-- One start of `scenarioStuck` for `actorE` returns `scenarioStuck1`. -/
theorem scenarioStuck_start :
    StartSequentialInteractions 1 actorE scenarioStuck = .ok scenarioStuck1 := rfl

/-- The active instance of `scenarioStuck1` is `stuckInstance`, at address 0. -/
theorem scenarioStuck_instance :
    scenarioStuck1.Objects[0]? = some stuckInstance
      ∧ scenarioStuck1.Component.ActiveInteractionInstance = some 0 := ⟨rfl, rfl⟩

/-- In `scenarioStuck1` the cancellation by `CanCommitInteraction` of the active
instance never returns: for every fuel the run is cut off, after the
instance was made inactive and its cancellation broadcast. -/
theorem scenarioStuck_canCommit (fuel : Nat) :
    ∃ w', UInteraction.CanCommitInteraction (componentHandlers fuel) 0 scenarioStuck1
        = .error (.outOfFuel w')
      ∧ (∃ o, w'.Objects[0]? = some o ∧ o.bIsActive = false)
      ∧ ∃ ext, w'.Log = scenarioStuck1.Log
            ++ [.CheckInteractionConditions 0 0,
                .BroadcastCancelled 0 .Cancel_ConditionsNotMet] ++ ext
          ∧ ∀ sig ∈ ext, sig.obj ≠ 0 := by
  have hcc : UInteraction.CanCommitInteraction (componentHandlers fuel) 0 scenarioStuck1
      = thenRefuse (UInteraction.CancelInteraction (componentHandlers fuel) 0
          .Cancel_ConditionsNotMet (scenarioStuck1.emitAll (checksFrom 0 0 1))) := by
    rw [canCommit_eq _ 0 scenarioStuck1 _ rfl]
    exact canCommitLoop_first_true _ 0 _ (UInteractionCondition.always false) [] rfl [] 0
      scenarioStuck1 (fun d hd => absurd hd (List.not_mem_nil _))
  have ho : (scenarioStuck1.emitAll (checksFrom 0 0 1)).Objects[0]? = some stuckInstance := rfl
  obtain ⟨w', h⟩ := cancel_never_returns fuel 0 .Cancel_ConditionsNotMet
    (scenarioStuck1.emitAll (checksFrom 0 0 1)) stuckInstance 0
    (slotOf (template false true [UInteractionCondition.always false]) false)
    ho rfl rfl rfl rfl rfl rfl scenarioStuck_tail (by decide)
  obtain ⟨q1, ext, q2, q3⟩ := cancel_cutoff fuel 0 _ _ w' stuckInstance ho h
  refine ⟨w', ?_, ⟨_, q1, rfl⟩, ext, ?_, q3⟩
  · rw [hcc, h]
    rfl
  · rw [q2]
    rfl

/-- In `scenarioStuck1` `EndInteraction` on the active instance never returns:
for every fuel the run is cut off after the broadcast, with the instance still
active. -/
theorem scenarioStuck_end (fuel : Nat) :
    ∃ w', UInteraction.EndInteraction (componentHandlers fuel) 0 scenarioStuck1
        = .error (.outOfFuel w')
      ∧ (∃ o, w'.Objects[0]? = some o ∧ o.bIsActive = true)
      ∧ ∃ ext, w'.Log = scenarioStuck1.Log ++ [.BroadcastEnded 0 true] ++ ext
          ∧ ∀ sig ∈ ext, sig.obj ≠ 0 := by
  have ho : scenarioStuck1.Objects[0]? = some stuckInstance := rfl
  obtain ⟨w', h⟩ := end_never_returns fuel 0 scenarioStuck1 stuckInstance 0
    (slotOf (template false true [UInteractionCondition.always false]) false)
    ho rfl rfl rfl rfl rfl rfl rfl scenarioStuck_tail (by decide)
  obtain ⟨_, q1, ext, q2, q3⟩ := end_cutoff fuel 0 _ w' stuckInstance ho h
  exact ⟨w', h, ⟨_, q1, rfl⟩, ext, q2, q3⟩

/-- When `CanCommitInteraction` answers false, with handlers that leave the
object alone, the object is as before apart from the cleared active flag. -/
theorem canCommit_refused_object (H : Handlers) (p : Nat) (hq : H.Quiet p) (w w1 : World)
    (o : UInteraction) (ho : w.Objects[p]? = some o)
    (h : UInteraction.CanCommitInteraction H p w = .ok (false, w1)) :
    w1.Objects[p]? = some { o with bIsActive := false } := by
  have hans := canCommitLoop_answer H p o.InteractingActor o.Conditions 0 w w1 false
    (by rw [← canCommit_eq H p w o ho]; exact h)
  have hex : ∃ c ∈ o.Conditions, rawResult o.InteractingActor c = true := by
    by_contra hno
    push_neg at hno
    have hall : o.Conditions.all (fun c => !rawResult o.InteractingActor c) = true := by
      rw [List.all_eq_true]
      intro c hc
      simp [hno c hc]
    rw [hall] at hans
    cases hans
  obtain ⟨pre, c, post, hcs, hpre, hc⟩ := exists_first_raw_true _ _ hex
  rw [canCommit_eq H p w o ho, hcs, canCommitLoop_first_true H p _ c post hc pre 0 w hpre] at h
  obtain ⟨_, hr⟩ := thenRefuse_ok h
  have ho' : (w.emitAll (checksFrom p 0 (pre.length + 1))).Objects[p]? = some o := ho
  obtain ⟨_, _, q2, _⟩ := cancel_quiet H p hq _ _ w1 o ho' hr
  exact q2
theorem slotAt_set_ne (slots : List FSequentialInteraction) (i : Nat)
    (t' : FSequentialInteraction) (idx : Int) (h : idx ≠ (i : Int)) :
    slotAt (slots.set i t') idx = slotAt slots idx := by
  unfold slotAt
  split
  · rename_i h0
    have hne : i ≠ idx.toNat := by omega
    rw [List.getElem?_set_ne hne]
  · rfl

/-- The scan over the slots reads only their completion flags: replacing a
complete slot by a complete slot does not change its result. -/
theorem scanSlots_set_complete (slots : List FSequentialInteraction) (i : Nat)
    (t t' : FSequentialInteraction) (ht : slots[i]? = some t)
    (hc : t.bInteractionComplete = true) (hc' : t'.bInteractionComplete = true) :
    ∀ (steps : Nat) (idx : Int),
      scanSlots (slots.set i t') steps idx = scanSlots slots steps idx := by
  intro steps
  induction steps with
  | zero => intro idx; rfl
  | succ n ih =>
    intro idx
    by_cases h : idx = (i : Int)
    · have h1 : slotAt slots idx = some t := by
        simp [slotAt, h, ht]
      have h2 : slotAt (slots.set i t') idx = some t' := by
        have hlt := getElem?_lt_of_some ht
        simp [slotAt, h, List.getElem?_set_self hlt]
      simp only [scanSlots, h1, h2, hc, hc', Bool.not_true, Bool.false_eq_true, if_false]
      exact ih _
    · simp only [scanSlots, slotAt_set_ne slots i t' idx h]
      cases slotAt slots idx with
      | none => rfl
      | some s =>
        simp only
        split
        · rfl
        · exact ih _

theorem setSlot_afterOutcome (w : World) (i j : Nat) (t' s : FSequentialInteraction) (b : Bool)
    (hij : i ≠ j) :
    (w.setSlot i t').afterOutcome j s b = (w.afterOutcome j s b).setSlot i t' := by
  have hm : markedSlots (w.Component.SequentialInteractions.set i t') j s
      = (markedSlots w.Component.SequentialInteractions j s).set i t' := by
    unfold markedSlots
    split
    · rfl
    · exact List.set_comm _ _ _ hij
  have he : endsSequence (w.Component.SequentialInteractions.set i t') j s b
      = endsSequence w.Component.SequentialInteractions j s b := by
    simp [endsSequence]
  simp only [World.afterOutcome, World.setSlot, World.setSlots, hm, he]

theorem lift_thenCancelled_slot (i : Nat) (t' : FSequentialInteraction) (sig : Signal)
    (r : Except Fault World) :
    thenInProgress (thenEmit sig (liftResult (fun v => v.setSlot i t') r))
      = liftResult (fun v => v.setSlot i t') (thenInProgress (thenEmit sig r)) := by
  cases r with
  | error e => cases e <;> rfl
  | ok w3 =>
    rcases Bool.eq_false_or_eq_true (w3.emit sig).Component.ActiveInteractionInstance.isSome
      with h | h
    · have h' : (((fun v : World => v.setSlot i t') w3).emit
          sig).Component.ActiveInteractionInstance.isSome = true := h
      simp only [liftResult, thenEmit, thenInProgress, h, h', if_true]
      rfl
    · have h' : (((fun v : World => v.setSlot i t') w3).emit
          sig).Component.ActiveInteractionInstance.isSome = false := h
      simp only [liftResult, thenEmit, thenInProgress, h, h', Bool.false_eq_true, if_false]
      rfl

theorem enteredResult_slot (i : Nat) (t' : FSequentialInteraction)
    (next : World → Except Fault World) (w : World) (j : Nat) (s : FSequentialInteraction)
    (hij : i ≠ j)
    (hnext : next (((w.cancelledAt j s).afterOutcome j s false).setSlot i t')
      = liftResult (fun v => v.setSlot i t')
          (next ((w.cancelledAt j s).afterOutcome j s false))) :
    enteredResult next (w.setSlot i t') j s
      = liftResult (fun v => v.setSlot i t') (enteredResult next w j s) := by
  have hlen : (w.setSlot i t').Objects.length = w.Objects.length := rfl
  have hact : (w.setSlot i t').Component.CurrentlyInteractingActor
      = w.Component.CurrentlyInteractingActor := rfl
  have h1 : (w.setSlot i t').activatedAt j s = (w.activatedAt j s).setSlot i t' := rfl
  have h2 : (w.setSlot i t').cancelledAt j s = (w.cancelledAt j s).setSlot i t' := rfl
  have h3 : (w.setSlot i t').enterSlot j s = (w.enterSlot j s).setSlot i t' := rfl
  unfold enteredResult
  rw [hlen, hact, h1, h2, h3, setSlot_afterOutcome _ i j t' s false hij]
  rcases Bool.eq_false_or_eq_true (IsValid w.Component.CurrentlyInteractingActor) with ha | ha
  · rcases Bool.eq_false_or_eq_true (conditionsPass w.Component.CurrentlyInteractingActor
      s.SequentialInteraction.Conditions) with hc | hc
    · simp only [ha, hc, if_true]
      rfl
    · simp only [ha, hc, if_true, Bool.false_eq_true, if_false]
      rcases Bool.eq_false_or_eq_true s.SequentialInteraction.bStartNextInteractionAutomatically
        with hauto | hauto
      · simp only [hauto, if_true]
        rw [hnext]
        exact lift_thenCancelled_slot i t' _ _
      · simp only [hauto, Bool.false_eq_true, if_false]
        exact lift_thenCancelled_slot i t' _ (.ok ((w.cancelledAt j s).afterOutcome j s false))
  · simp only [ha, Bool.false_eq_true, if_false]
    rfl

/-- `StartNextSequentialInteraction` never reads the template of a slot that is
complete: replacing such a slot by another complete slot before the call or
after it gives the same result. -/
theorem startNext_slot (i : Nat) (t' : FSequentialInteraction)
    (hc' : t'.bInteractionComplete = true) :
    ∀ (fuel : Nat) (w : World) (t : FSequentialInteraction),
      w.Component.SequentialInteractions[i]? = some t → t.bInteractionComplete = true →
      StartNextSequentialInteraction fuel (w.setSlot i t')
        = liftResult (fun v => v.setSlot i t') (StartNextSequentialInteraction fuel w) := by
  intro fuel
  induction fuel with
  | zero => intro w t _ _; rfl
  | succ fuel ih =>
    intro w t ht hc
    have hlen : (w.setSlot i t').Component.SequentialInteractions.length
        = w.Component.SequentialInteractions.length := List.length_set _ _ _
    have hscan : scanSlots (w.setSlot i t').Component.SequentialInteractions
        ((((w.setSlot i t').Component.SequentialInteractions.length : Int) - 1)
          - ((w.setSlot i t').Component.CurrentSequentialInteractionIndex + 1) + 1).toNat
        ((w.setSlot i t').Component.CurrentSequentialInteractionIndex + 1)
        = scanSlots w.Component.SequentialInteractions
        (((w.Component.SequentialInteractions.length : Int) - 1)
          - (w.Component.CurrentSequentialInteractionIndex + 1) + 1).toNat
        (w.Component.CurrentSequentialInteractionIndex + 1) := by
      rw [hlen]
      exact scanSlots_set_complete _ i t t' ht hc hc' _ _
    rcases scanSlots_cases w.Component.SequentialInteractions
        (((w.Component.SequentialInteractions.length : Int) - 1)
          - (w.Component.CurrentSequentialInteractionIndex + 1) + 1).toNat
        (w.Component.CurrentSequentialInteractionIndex + 1) with h | h | ⟨j, s, h, _, hs, hinc⟩
    · have h' := hscan.trans h
      have e1 : StartNextSequentialInteraction (fuel + 1) w = .error .outOfBounds := by
        simp only [StartNextSequentialInteraction, h]
      have e2 : StartNextSequentialInteraction (fuel + 1) (w.setSlot i t')
          = .error .outOfBounds := by
        simp only [StartNextSequentialInteraction, h']
      rw [e1, e2]
      rfl
    · have h' := hscan.trans h
      have e1 : StartNextSequentialInteraction (fuel + 1) w
          = .ok (EndSequentialInteractions w) := by
        simp only [StartNextSequentialInteraction, h]
      have e2 : StartNextSequentialInteraction (fuel + 1) (w.setSlot i t')
          = .ok (EndSequentialInteractions (w.setSlot i t')) := by
        simp only [StartNextSequentialInteraction, h']
      rw [e1, e2]
      rfl
    · have h' := hscan.trans h
      have hij : i ≠ j := by
        intro hij
        rw [← hij, ht] at hs
        rw [← Option.some.inj hs, hc] at hinc
        cases hinc
      have hs' : (w.setSlot i t').Component.SequentialInteractions[j]? = some s := by
        show (w.Component.SequentialInteractions.set i t')[j]? = some s
        rw [List.getElem?_set_ne hij]
        exact hs
      have e1 := startNext_entered fuel w j s hs (startNext_of_scan fuel w j s hs h)
      have e2 := startNext_entered fuel (w.setSlot i t') j s hs'
        (startNext_of_scan fuel (w.setSlot i t') j s hs' h')
      rw [e1, e2]
      apply enteredResult_slot i t' _ w j s hij
      apply ih _ t
      · show (markedSlots w.Component.SequentialInteractions j s)[i]? = some t
        unfold markedSlots
        split
        · exact ht
        · rw [List.getElem?_set_ne (Ne.symm hij)]
          exact ht
      · exact hc

theorem setTemplateAuto_afterOutcome_done (w : World) (i : Nat) (s : FSequentialInteraction)
    (y b : Bool) (hs : w.Component.SequentialInteractions[i]? = some s)
    (hdone : s.bInteractionComplete = true
      ∨ s.SequentialInteraction.bCanRepeatInteraction = false) :
    (w.setTemplateAuto i s y).afterOutcome i
        { s with SequentialInteraction :=
            { s.SequentialInteraction with bStartNextInteractionAutomatically := y } } b
      = (w.afterOutcome i s b).setSlot i
          { s with
            SequentialInteraction :=
              { s.SequentialInteraction with bStartNextInteractionAutomatically := y }
            bInteractionComplete := true } := by
  have hm : markedSlots (w.Component.SequentialInteractions.set i
        { s with SequentialInteraction :=
            { s.SequentialInteraction with bStartNextInteractionAutomatically := y } }) i
        { s with SequentialInteraction :=
            { s.SequentialInteraction with bStartNextInteractionAutomatically := y } }
      = (markedSlots w.Component.SequentialInteractions i s).set i
          { s with
            SequentialInteraction :=
              { s.SequentialInteraction with bStartNextInteractionAutomatically := y }
            bInteractionComplete := true } := by
    unfold markedSlots
    rcases Bool.eq_false_or_eq_true s.SequentialInteraction.bCanRepeatInteraction with hr | hr
    · have hc : s.bInteractionComplete = true := by
        rcases hdone with h | h
        · exact h
        · rw [hr] at h
          cases h
      simp only [hr, if_true]
      congr 1
      cases s
      simp only at hc
      subst hc
      rfl
    · simp only [hr, Bool.false_eq_true, if_false, List.set_set]
  have he : endsSequence (w.Component.SequentialInteractions.set i
        { s with SequentialInteraction :=
            { s.SequentialInteraction with bStartNextInteractionAutomatically := y } }) i
        { s with SequentialInteraction :=
            { s.SequentialInteraction with bStartNextInteractionAutomatically := y } } b
      = endsSequence w.Component.SequentialInteractions i s b := by
    simp [endsSequence]
  simp only [World.afterOutcome, World.setSlot, World.setSlots, World.setTemplateAuto, hm, he]

/-- The automatic-advance flag of the template of the slot at the cursor has no
influence on how the component handles an outcome when that slot is complete
once the outcome is marked (it is not repeatable, or it was complete before):
the run with the flag set to `y` gives the result of the run without, with the
flag `y` in that slot. -/
theorem onEnded_templateAuto (fuel : Nat) (b : Bool) (w : World) (p : Nat)
    (inst : UInteraction) (i : Nat) (s : FSequentialInteraction) (y : Bool)
    (hp : w.Component.ActiveInteractionInstance = some p) (hinst : w.Objects[p]? = some inst)
    (hi : w.Component.CurrentSequentialInteractionIndex = (i : Int))
    (hs : w.Component.SequentialInteractions[i]? = some s)
    (hdone : s.bInteractionComplete = true
      ∨ s.SequentialInteraction.bCanRepeatInteraction = false) :
    OnInteractionEnded fuel b (w.setTemplateAuto i s y)
      = liftResult (fun v => v.setSlot i
          { s with
            SequentialInteraction :=
              { s.SequentialInteraction with bStartNextInteractionAutomatically := y }
            bInteractionComplete := true })
          (OnInteractionEnded fuel b w) := by
  show OnInteractionEndedWith (StartNextSequentialInteraction fuel) b (w.setTemplateAuto i s y)
    = liftResult _ (OnInteractionEndedWith (StartNextSequentialInteraction fuel) b w)
  rw [onEndedWith_eq _ b w p inst i s hp hinst hi hs,
    onEndedWith_eq _ b (w.setTemplateAuto i s y) p inst i _ hp hinst hi
      (List.getElem?_set_self (getElem?_lt_of_some hs)),
    setTemplateAuto_afterOutcome_done w i s y b hs hdone]
  split
  · refine startNext_slot i _ rfl fuel (w.afterOutcome i s b) _ (markedSlots_at _ i s hs) ?_
    rcases hdone with h | h
    · simp [h]
    · simp [h]
  · rfl

theorem flags_setSlot (w : World) (i : Nat) (t t' : FSequentialInteraction)
    (ht : w.Component.SequentialInteractions[i]? = some t)
    (hc : t'.bInteractionComplete = t.bInteractionComplete) :
    (w.setSlot i t').Component.SequentialInteractions.map (fun u => u.bInteractionComplete)
      = w.Component.SequentialInteractions.map (fun u => u.bInteractionComplete) := by
  show (w.Component.SequentialInteractions.set i t').map (fun u => u.bInteractionComplete) = _
  apply List.ext_getElem?
  intro k
  by_cases hk : k = i
  · subst hk
    have hlt := getElem?_lt_of_some ht
    rw [List.getElem?_map, List.getElem?_map, List.getElem?_set_self hlt, ht]
    simp [hc]
  · rw [List.getElem?_map, List.getElem?_map, List.getElem?_set_ne (Ne.symm hk)]

/-- A slot that is complete once an outcome is marked is complete in the state
in which the handling of the outcome returns. -/
theorem onEnded_slot_done (fuel : Nat) (b : Bool) (w w1 : World) (p : Nat)
    (inst : UInteraction) (i : Nat) (s : FSequentialInteraction)
    (hp : w.Component.ActiveInteractionInstance = some p) (hinst : w.Objects[p]? = some inst)
    (hi : w.Component.CurrentSequentialInteractionIndex = (i : Int))
    (hs : w.Component.SequentialInteractions[i]? = some s)
    (hdone : s.bInteractionComplete = true
      ∨ s.SequentialInteraction.bCanRepeatInteraction = false)
    (h : OnInteractionEnded fuel b w = .ok w1) :
    ∃ t, w1.Component.SequentialInteractions[i]? = some t ∧ t.bInteractionComplete = true := by
  have hm := markedSlots_at w.Component.SequentialInteractions i s hs
  have hmc : (s.bInteractionComplete || !s.SequentialInteraction.bCanRepeatInteraction)
      = true := by
    rcases hdone with h | h
    · simp [h]
    · simp [h]
  have h' : OnInteractionEndedWith (StartNextSequentialInteraction fuel) b w = .ok w1 := h
  rw [onEndedWith_eq _ b w p inst i s hp hinst hi hs] at h'
  split at h'
  · have hr := startNext_slotsAdvance fuel (w.afterOutcome i s b)
    rw [h'] at hr
    rcases hr.2 i _ hm with h2 | ⟨_, h2⟩
    · exact ⟨_, h2, hmc⟩
    · exact ⟨_, h2, rfl⟩
  · have hw : w1 = w.afterOutcome i s b := (Except.ok.inj h').symm
    rw [hw]
    exact ⟨_, hm, hmc⟩

/-! ## C1: a second start while an instance is active -/

/-- C1. Mutual exclusion: in every state in which a working instance is active,
`StartSequentialInteractions` returns, for every instigator (valid or not) and
whatever the fuel, the state it was called in: no object is added to the heap and
the active instance, cursor, state, recorded instigator, slots with their
completion flags, and the log are all unchanged. -/
theorem C1_start_while_active_is_noop (fuel : Nat) (a : Option AActor) (w : World)
    (h : w.Component.ActiveInteractionInstance ≠ none) :
    StartSequentialInteractions fuel a w = .ok w := by
  unfold StartSequentialInteractions
  cases hp : w.Component.ActiveInteractionInstance with
  | none => exact absurd hp h
  | some p => simp

/-- Witness for C1: scenario A after its first start has an active instance, and
a second start, here with a null actor, returns that same state. -/
theorem C1_start_while_active_is_noop_witness :
    scenarioA1.Component.ActiveInteractionInstance ≠ none
      ∧ StartSequentialInteractions 0 none scenarioA1 = .ok scenarioA1 :=
  ⟨by decide, C1_start_while_active_is_noop 0 none scenarioA1 (by decide)⟩

/-! ## C2: what `StartNextSequentialInteraction` selects -/

/-- C2, as stated, fails. In scenario B, started for a valid actor, slot 0 is
the first incomplete slot after the cursor, yet when
`StartNextSequentialInteraction` returns the cursor is `-1` and not `0`, and there
is no working instance: the copy of slot 0 cancelled itself during activation and
`OnInteractionCancelled` ran inside the call. -/
theorem C2_counterexample :
    FirstIncompleteAfter (scenarioB.started actorE).Component.SequentialInteractions
        (scenarioB.started actorE).Component.CurrentSequentialInteractionIndex 0
      ∧ ∃ w, StartNextSequentialInteraction 1 (scenarioB.started actorE) = .ok w
        ∧ w.Component.CurrentSequentialInteractionIndex = -1
        ∧ w.Component.CurrentSequentialInteractionIndex ≠ 0
        ∧ w.Component.ActiveInteractionInstance = none
        ∧ w.Component.CurrentInteractionState = .SequentialState_Idle := by
  refine ⟨⟨by decide, ⟨_, rfl, rfl⟩, ?_⟩, _, rfl, rfl, by decide, rfl, rfl⟩
  intro k t _ hk
  omega

/-- C2, amended. Let the cursor be `-1` (none) or an index. If slot `i` is the
first slot after the cursor that is not complete,
`StartNextSequentialInteraction` sets the cursor to `i`, makes a fresh copy of
that slot's template the working instance, binds its handlers and asks it to
activate. When the recorded instigator is valid and every condition passes, it
returns with cursor `i`, that copy, with the instigator recorded and active, as
the one new object and the active instance, the slots untouched and the state
in-progress. When the instigator is valid and a condition fails,
`OnInteractionCancelled` runs inside the call in the state with cursor `i` and
the copy as active instance, and what it leaves (followed by the blueprint cancel
event) is what the call returns. If every slot after the cursor is complete, no
object is created, the instance and slots are untouched and the call leaves
cursor `-1` and state idle. -/
theorem C2_advance_selects_first_incomplete (fuel : Nat) (w : World)
    (hc : -1 ≤ w.Component.CurrentSequentialInteractionIndex) :
    (∀ (i : Nat) (s : FSequentialInteraction),
      w.Component.SequentialInteractions[i]? = some s →
      FirstIncompleteAfter w.Component.SequentialInteractions
        w.Component.CurrentSequentialInteractionIndex i →
      StartNextSequentialInteraction (fuel + 1) w
          = thenInProgress (UInteraction.TryActivateInteraction (componentHandlers fuel)
              w.Objects.length w.Component.CurrentlyInteractingActor (w.enterSlot i s))
        ∧ (IsValid w.Component.CurrentlyInteractingActor = true →
            conditionsPass w.Component.CurrentlyInteractingActor
              s.SequentialInteraction.Conditions = true →
            ∃ w', StartNextSequentialInteraction (fuel + 1) w = .ok w'
              ∧ w'.Component.CurrentSequentialInteractionIndex = (i : Int)
              ∧ w'.Component.ActiveInteractionInstance = some w.Objects.length
              ∧ w'.Objects = w.Objects ++ [{ workingCopy s.SequentialInteraction with
                  InteractingActor := w.Component.CurrentlyInteractingActor
                  bIsActive := true }]
              ∧ w'.Component.CurrentInteractionState = .SequentialState_InProgress
              ∧ w'.Component.SequentialInteractions = w.Component.SequentialInteractions)
        ∧ (IsValid w.Component.CurrentlyInteractingActor = true →
            conditionsPass w.Component.CurrentlyInteractingActor
              s.SequentialInteraction.Conditions = false →
            StartNextSequentialInteraction (fuel + 1) w
              = thenInProgress (thenEmit
                  (.InteractionCancelled w.Objects.length .Cancel_ConditionsNotMet)
                  (OnInteractionCancelled fuel .Cancel_ConditionsNotMet
                    (w.cancelledAt i s)))))
    ∧ (AllCompleteAfter w.Component.SequentialInteractions
          w.Component.CurrentSequentialInteractionIndex →
        ∃ w', StartNextSequentialInteraction (fuel + 1) w = .ok w'
          ∧ w'.Component.CurrentSequentialInteractionIndex = -1
          ∧ w'.Component.CurrentInteractionState = .SequentialState_Idle
          ∧ w'.Objects = w.Objects
          ∧ w'.Component.ActiveInteractionInstance = w.Component.ActiveInteractionInstance
          ∧ w'.Component.SequentialInteractions = w.Component.SequentialInteractions) := by
  refine ⟨?_, ?_⟩
  · intro i s hs hfirst
    refine ⟨startNext_found fuel w hc i s hs hfirst, ?_, ?_⟩
    · intro ha hcnd
      exact ⟨_, startNext_pass fuel w hc i s hs hfirst ha hcnd, rfl, rfl, rfl, rfl, rfl⟩
    · intro ha hcnd
      exact startNext_fail fuel w hc i s hs hfirst ha hcnd
  · intro hall
    rw [startNext_none fuel w hc hall]
    exact ⟨_, rfl, rfl, rfl, rfl, rfl, rfl⟩

/-- Witness for C2: in scenario A, started for a valid actor, slot 0 is selected
and activated. -/
theorem C2_advance_selects_first_incomplete_witness :
    -1 ≤ (scenarioA.started actorE).Component.CurrentSequentialInteractionIndex
      ∧ ∃ w', StartNextSequentialInteraction 1 (scenarioA.started actorE) = .ok w'
        ∧ w'.Component.CurrentSequentialInteractionIndex = 0
        ∧ w'.Component.ActiveInteractionInstance = some 0
        ∧ w'.Component.CurrentInteractionState = .SequentialState_InProgress := by
  refine ⟨by decide, ?_⟩
  obtain ⟨w', h1, h2, h3, _, h5, _⟩ :=
    ((C2_advance_selects_first_incomplete 0 (scenarioA.started actorE) (by decide)).1 0
      (slotOf (template false true []) false) rfl
      ⟨by decide, ⟨_, rfl, rfl⟩, fun k t _ hk => by omega⟩).2.1 rfl rfl
  exact ⟨w', h1, h2, h3, h5⟩

/-! ## C3: the marking step of `OnInteractionEnded` -/

/-- C3. Completion marking is independent of the outcome. Take a state with an
active instance and a valid cursor `i` whose slot is `s`, and either value of the
outcome flag `b`. `OnInteractionEnded` first reaches the state `afterOutcome`, in
which slot `i` has `complete = (previous value OR template non-repeatable)`,
every other slot is as before, and the slot array is the same for `b` and `!b`;
it then returns that state, or runs the auto-advance from it. Whenever the call
returns (or its auto-advance chain is cut off for lack of fuel), slot `i` still
holds that value; without auto-advance the call returns `afterOutcome` itself. -/
theorem C3_marking_ignores_outcome (fuel : Nat) (b : Bool) (w : World) (p : Nat)
    (inst : UInteraction) (i : Nat) (s : FSequentialInteraction)
    (hp : w.Component.ActiveInteractionInstance = some p) (hinst : w.Objects[p]? = some inst)
    (hi : w.Component.CurrentSequentialInteractionIndex = (i : Int))
    (hs : w.Component.SequentialInteractions[i]? = some s) :
    (OnInteractionEnded fuel b w
        = if inst.bStartNextInteractionAutomatically then
            StartNextSequentialInteraction fuel (w.afterOutcome i s b)
          else .ok (w.afterOutcome i s b))
      ∧ (w.afterOutcome i s b).Component.SequentialInteractions[i]?
          = some { s with bInteractionComplete :=
              s.bInteractionComplete || !s.SequentialInteraction.bCanRepeatInteraction }
      ∧ (∀ j : Nat, j ≠ i → (w.afterOutcome i s b).Component.SequentialInteractions[j]?
          = w.Component.SequentialInteractions[j]?)
      ∧ (w.afterOutcome i s b).Component.SequentialInteractions
          = (w.afterOutcome i s (!b)).Component.SequentialInteractions
      ∧ Reaches (fun _ w' => ∃ s', w'.Component.SequentialInteractions[i]? = some s'
          ∧ s'.bInteractionComplete
            = (s.bInteractionComplete || !s.SequentialInteraction.bCanRepeatInteraction))
          w (OnInteractionEnded fuel b w) := by
  have heq := onEndedWith_eq (StartNextSequentialInteraction fuel) b w p inst i s hp hinst hi hs
  have hat := markedSlots_at w.Component.SequentialInteractions i s hs
  refine ⟨heq, hat, fun j hj => markedSlots_other _ i j s hj, rfl, ?_⟩
  -- the flag of slot `i` after the marking step is kept by whatever follows
  have hkeep : ∀ w' : World,
      SlotsAdvance (w.afterOutcome i s b).Component.SequentialInteractions
        w'.Component.SequentialInteractions →
      ∃ s', w'.Component.SequentialInteractions[i]? = some s' ∧ s'.bInteractionComplete
        = (s.bInteractionComplete || !s.SequentialInteraction.bCanRepeatInteraction) := by
    intro w' hadv'
    rcases hadv'.2 i _ hat with h1 | ⟨hr, h1⟩
    · exact ⟨_, h1, rfl⟩
    · refine ⟨_, h1, ?_⟩
      have hr' : s.SequentialInteraction.bCanRepeatInteraction = false := hr
      simp [hr']
  unfold OnInteractionEnded at heq ⊢
  rw [heq]
  split
  · exact reaches_mono (fun w' h => hkeep w' h)
      (chain_rel slotsAdvance_chainRel fuel (w.afterOutcome i s b) rfl)
  · exact hkeep _ (slotsAdvance_refl _)

/-- Witness for C3: in scenario A, after the start, the copy of slot 0 reports a
failed outcome; slot 0, whose template is non-repeatable, is complete when the
call returns. -/
theorem C3_marking_ignores_outcome_witness :
    scenarioA1.Component.ActiveInteractionInstance = some 0
      ∧ scenarioA1.Objects[0]? = some { workingCopy (template false true []) with
          InteractingActor := actorE, bIsActive := true }
      ∧ scenarioA1.Component.CurrentSequentialInteractionIndex = ((0 : Nat) : Int)
      ∧ scenarioA1.Component.SequentialInteractions[0]?
          = some (slotOf (template false true []) false)
      ∧ ∃ s', (returned scenarioA1
            (OnInteractionEnded 1 false scenarioA1)).Component.SequentialInteractions[0]?
          = some s' ∧ s'.bInteractionComplete = true :=
  ⟨rfl, rfl, rfl, rfl,
    (C3_marking_ignores_outcome 1 false scenarioA1 0 _ 0 _ rfl rfl rfl rfl).2.2.2.2⟩

/-! ## C4: completion flags are never cleared -/

/-- C4. Monotonic completion: for each of `StartSequentialInteractions`,
`StartNextSequentialInteraction`, `OnInteractionEnded`, `OnInteractionCancelled`
and `EndSequentialInteractions`, called in any state with any arguments and any
fuel, every slot whose complete flag is set before the call has it set in the
state the call returns, and also in the state in which a chain of nested
auto-advance calls is cut off, so that no step of a chain, finished or not,
clears a flag. -/
theorem C4_monotonic_completion (fuel : Nat) (w : World) :
    (∀ a, Reaches FlagsKept w (StartSequentialInteractions fuel a w))
      ∧ Reaches FlagsKept w (StartNextSequentialInteraction fuel w)
      ∧ (∀ b, Reaches FlagsKept w (OnInteractionEnded fuel b w))
      ∧ (∀ r, Reaches FlagsKept w (OnInteractionCancelled fuel r w))
      ∧ FlagsKept w (EndSequentialInteractions w) := by
  refine ⟨fun a => ?_, ?_, fun b => ?_, fun r => ?_, ?_⟩
  · exact reaches_mono (fun _ h => flagsKept_of_slotsAdvance h)
      (startSequence_reaches slotsAdvance_chainRel fuel a w)
  · exact reaches_mono (fun _ h => flagsKept_of_slotsAdvance h) (startNext_slotsAdvance fuel w)
  · exact reaches_mono (fun _ h => flagsKept_of_slotsAdvance h)
      (onInteractionEnded_reaches slotsAdvance_chainRel fuel b w)
  · exact reaches_mono (fun _ h => flagsKept_of_slotsAdvance h)
      (onInteractionCancelled_reaches slotsAdvance_chainRel fuel r w)
  · exact flagsKept_of_slotsAdvance (slotsAdvance_refl _)

/-! ## C5: conditions gate activation -/

/-- C5. Conditions gate activation. For an interaction `o` at address `p` and a
valid instigator `a`: `AreInteractionConditionsMet` returns the conjunction, over
the condition list, of `evaluate XOR invert` (true for the empty list).
If every condition passes, `TryActivateInteraction` records the instigator,
makes the interaction active and fires `InteractionActivated`, after the
evaluations and with no cancellation, whatever is bound to its delegates. If some
condition fails (false uninverted, or true inverted), the call is
`CancelInteraction(Cancel_ConditionsNotMet)`; with no handler bound the
interaction is then not active, the cancellation is broadcast and the blueprint
cancel event fires, both with reason `Cancel_ConditionsNotMet`, and no
`InteractionActivated` fires. With the component's handlers, bound or not, the
same holds in every state in which the call returns or in which the component's
auto-advance chain is cut off: the interaction is not active, its cancellation
was broadcast and no `InteractionActivated` was fired for it. So the interaction
is active afterwards exactly when every condition passes. -/
theorem C5_conditions_gate_activation (H : Handlers) (p : Nat) (a : Option AActor) (w : World)
    (o : UInteraction) (ho : w.Objects[p]? = some o) (ha : IsValid a = true) :
    (UInteraction.AreInteractionConditionsMet p w
        = .ok (o.Conditions.all (fun c =>
              xor (c.CheckInteractionConditions o.InteractingActor) c.InvertCondition),
            w.emitAll (evaluations p o.InteractingActor o.Conditions)))
      ∧ (o.Conditions = [] → UInteraction.AreInteractionConditionsMet p w = .ok (true, w))
      ∧ ((∀ c ∈ o.Conditions, xor (c.CheckInteractionConditions a) c.InvertCondition = true) →
          ∃ w', UInteraction.TryActivateInteraction H p a w = .ok w'
            ∧ w'.Objects = w.Objects.set p { o with InteractingActor := a, bIsActive := true }
            ∧ w'.Log = w.Log ++ evaluations p a o.Conditions ++ [.InteractionActivated p]
            ∧ w'.Component = w.Component
            ∧ (∀ r, Signal.BroadcastCancelled p r ∉ evaluations p a o.Conditions
                  ++ [Signal.InteractionActivated p]))
      ∧ ((∃ c ∈ o.Conditions,
            (c.InvertCondition = false ∧ c.CheckInteractionConditions a = false)
              ∨ (c.InvertCondition = true ∧ c.CheckInteractionConditions a = true)) →
          UInteraction.TryActivateInteraction H p a w
              = UInteraction.CancelInteraction H p .Cancel_ConditionsNotMet
                  ((w.setObject p { o with InteractingActor := a }).emitAll
                    (evaluations p a o.Conditions))
            ∧ (o.OnInteractionCancelled = false →
                ∃ w', UInteraction.TryActivateInteraction H p a w = .ok w'
                  ∧ w'.Objects
                      = w.Objects.set p { o with InteractingActor := a, bIsActive := false }
                  ∧ w'.Log = w.Log ++ evaluations p a o.Conditions
                      ++ [.BroadcastCancelled p .Cancel_ConditionsNotMet,
                          .InteractionCancelled p .Cancel_ConditionsNotMet]
                  ∧ w'.Component = w.Component
                  ∧ Signal.InteractionActivated p ∉ evaluations p a o.Conditions
                      ++ [Signal.BroadcastCancelled p .Cancel_ConditionsNotMet,
                          Signal.InteractionCancelled p .Cancel_ConditionsNotMet])
            ∧ (∀ fuel : Nat, Reaches (fun _ w' =>
                  w'.Objects[p]? = some { o with InteractingActor := a, bIsActive := false }
                    ∧ ∃ ext, w'.Log = w.Log ++ ext
                      ∧ Signal.BroadcastCancelled p .Cancel_ConditionsNotMet ∈ ext
                      ∧ Signal.InteractionActivated p ∉ ext)
                w (UInteraction.TryActivateInteraction (componentHandlers fuel) p a w)))
      ∧ (o.OnInteractionCancelled = false →
          ∃ w' o', UInteraction.TryActivateInteraction H p a w = .ok w'
            ∧ w'.Objects[p]? = some o'
            ∧ (o'.bIsActive = true
                ↔ ∀ c ∈ o.Conditions,
                    xor (c.CheckInteractionConditions a) c.InvertCondition = true)
            ∧ (Signal.InteractionActivated p ∈ w'.Log.drop w.Log.length
                ↔ ∀ c ∈ o.Conditions,
                    xor (c.CheckInteractionConditions a) c.InvertCondition = true)) := by
  have hp := getElem?_lt_of_some ho
  have hnoAct : Signal.InteractionActivated p ∉ evaluations p a o.Conditions
      ++ [Signal.BroadcastCancelled p .Cancel_ConditionsNotMet,
          Signal.InteractionCancelled p .Cancel_ConditionsNotMet] := by
    intro hmem
    rcases List.mem_append.1 hmem with h | h
    · obtain ⟨j, hj⟩ := evaluations_checks _ _ _ _ h
      cases hj
    · simp at h
  have hpass : conditionsPass a o.Conditions = true →
      UInteraction.TryActivateInteraction H p a w
        = .ok (((w.setObject p { o with InteractingActor := a, bIsActive := true }).emitAll
          (evaluations p a o.Conditions)).emit (.InteractionActivated p)) :=
    tryActivate_pass H p a w o ho ha
  have hfail : conditionsPass a o.Conditions = false → o.OnInteractionCancelled = false →
      UInteraction.TryActivateInteraction H p a w
        = .ok ((((w.setObject p { o with InteractingActor := a, bIsActive := false }).emitAll
            (evaluations p a o.Conditions)).emit
              (.BroadcastCancelled p .Cancel_ConditionsNotMet)).emit
                (.InteractionCancelled p .Cancel_ConditionsNotMet)) := by
    intro hc hb
    rw [tryActivate_fail H p a w o ho ha hc, hb]
    rfl
  refine ⟨areConditionsMet_eq p w o ho, ?_, ?_, ?_, ?_⟩
  · intro hnil
    rw [areConditionsMet_eq p w o ho, hnil]
    simp [conditionsPass, evaluations, UInteraction.AreInteractionConditionsMet.loop,
      World.emitAll]
  · intro hall
    refine ⟨_, hpass ((conditionsPass_iff a o.Conditions).2 hall), rfl, ?_, rfl, ?_⟩
    · simp [World.emit, World.emitAll, World.setObject]
    · intro r hmem
      rcases List.mem_append.1 hmem with h | h
      · obtain ⟨j, hj⟩ := evaluations_checks _ _ _ _ h
        cases hj
      · simp at h
  · intro hex
    have hc := (conditionsPass_false_iff a o.Conditions).2 hex
    refine ⟨tryActivate_fail_cancel H p a w o ho ha hc, ?_,
      fun fuel => tryActivate_fail_component fuel p a w o ho ha hc⟩
    intro hb
    refine ⟨_, hfail hc hb, rfl, ?_, rfl, hnoAct⟩
    simp [World.emit, World.emitAll, World.setObject]
  · intro hb
    cases hc : conditionsPass a o.Conditions with
    | true =>
      have hall := (conditionsPass_iff a o.Conditions).1 hc
      refine ⟨_, { o with InteractingActor := a, bIsActive := true }, hpass hc, ?_, ?_, ?_⟩
      · simp [World.emit, World.emitAll, World.setObject, hp]
      · exact ⟨fun _ => hall, fun _ => rfl⟩
      · refine ⟨fun _ => hall, fun _ => ?_⟩
        simp [World.emit, World.emitAll, World.setObject]
    | false =>
      have hnall : ¬ ∀ c ∈ o.Conditions,
          xor (c.CheckInteractionConditions a) c.InvertCondition = true := by
        intro hall
        rw [(conditionsPass_iff a o.Conditions).2 hall] at hc
        cases hc
      refine ⟨_, { o with InteractingActor := a, bIsActive := false }, hfail hc hb, ?_, ?_, ?_⟩
      · simp [World.emit, World.emitAll, World.setObject, hp]
      · exact ⟨fun h => Bool.noConfusion h, fun h => absurd h hnall⟩
      · have : (((((w.setObject p { o with InteractingActor := a, bIsActive := false }).emitAll
            (evaluations p a o.Conditions)).emit
              (.BroadcastCancelled p .Cancel_ConditionsNotMet)).emit
                (.InteractionCancelled p .Cancel_ConditionsNotMet)).Log.drop w.Log.length)
            = evaluations p a o.Conditions
              ++ [Signal.BroadcastCancelled p .Cancel_ConditionsNotMet,
                  Signal.InteractionCancelled p .Cancel_ConditionsNotMet] := by
          simp [World.emit, World.emitAll, World.setObject]
        rw [this]
        exact ⟨fun h => absurd h hnoAct, fun h => absurd h hnall⟩

/-- Witness for C5: an interaction with the base condition, which evaluates to
false, is cancelled when a valid actor tries to activate it. -/
theorem C5_conditions_gate_activation_witness :
    (isolated (template true false [UInteractionCondition.base])).Objects[0]?
        = some (template true false [UInteractionCondition.base])
      ∧ IsValid actorE = true
      ∧ ∃ w', UInteraction.TryActivateInteraction (componentHandlers 0) 0 actorE
            (isolated (template true false [UInteractionCondition.base])) = .ok w'
          ∧ w'.Log = [.CheckInteractionConditions 0 0,
              .BroadcastCancelled 0 .Cancel_ConditionsNotMet,
              .InteractionCancelled 0 .Cancel_ConditionsNotMet] := by
  refine ⟨rfl, rfl, ?_⟩
  obtain ⟨w', h1, _, h3, _, _⟩ :=
    ((C5_conditions_gate_activation (componentHandlers 0) 0 actorE
      (isolated (template true false [UInteractionCondition.base]))
      (template true false [UInteractionCondition.base]) rfl rfl).2.2.2.1
        ⟨UInteractionCondition.base, List.mem_singleton.2 rfl, Or.inl ⟨rfl, rfl⟩⟩).2.1 rfl
  exact ⟨w', h1, h3⟩

/-! ## C6: activation without a valid instigator -/

/-- C6, the code at the failing input. `TryActivateInteraction(nullptr)` on the
working instance of the slot of scenario B fires only the blueprint event
`InteractionCancelled(Cancel_Failed)`: nothing is broadcast, so the component
still holds the instance as active. `CancelInteraction(Cancel_Failed)` in the same
state broadcasts the cancellation, and the component drops the instance. And on
an interaction that is active, `TryActivateInteraction(nullptr)` leaves the active
flag set. -/
theorem C6_invalid_instigator_is_not_cancel :
    (∃ w', UInteraction.TryActivateInteraction (componentHandlers 1) 0 none scenarioBNullActor
          = .ok w'
        ∧ w'.Log = [.InteractionCancelled 0 .Cancel_Failed]
        ∧ w'.Component.ActiveInteractionInstance = some 0)
      ∧ (∃ w', UInteraction.CancelInteraction (componentHandlers 1) 0 .Cancel_Failed
            scenarioBNullActor = .ok w'
        ∧ w'.Log = [.BroadcastCancelled 0 .Cancel_Failed, .InteractionCancelled 0 .Cancel_Failed]
        ∧ w'.Component.ActiveInteractionInstance = none)
      ∧ (∃ w' o', UInteraction.TryActivateInteraction (componentHandlers 1) 0 none
            (isolated { template true false [] with bIsActive := true }) = .ok w'
        ∧ w'.Objects[0]? = some o' ∧ o'.bIsActive = true) :=
  ⟨⟨_, rfl, rfl, rfl⟩, ⟨_, rfl, rfl, rfl⟩, ⟨_, _, rfl, rfl, rfl⟩⟩

/-! ## C7: terminal notifications of an interaction -/

/-- C7, as stated, fails. On the working instance of slot 0 of scenario A, active
and bound to the component: two `CancelInteraction` calls deliver two cancelled
notifications, and `EndInteraction` followed by `CancelInteraction` delivers an
ended and a cancelled notification, two terminal notifications in all. -/
theorem C7_counterexample :
    (∃ w', runCalls (componentHandlers 1) 0
          [.Cancel .Cancel_Cancelled, .Cancel .Cancel_Cancelled] scenarioA1 = .ok w'
        ∧ w'.Log.countP (isCancelled 0) = 2)
      ∧ (∃ w', runCalls (componentHandlers 1) 0 [.End, .Cancel .Cancel_Cancelled] scenarioA1
          = .ok w'
        ∧ w'.Log.countP (isEnded 0) = 1 ∧ w'.Log.countP (isCancelled 0) = 1
        ∧ w'.Log.countP (isEnded 0) + w'.Log.countP (isCancelled 0) = 2) :=
  ⟨⟨_, rfl, by decide⟩, ⟨_, rfl, by decide, by decide, by decide⟩⟩

/-- C7, amended. Take an interaction `o` at address `p`. With the component's
handlers, bound to it or not, whenever a sequence of lifecycle calls on it
returns, then among the signals added to the log: each call has delivered at most
one terminal notification of `o`; the ended notifications, plus one if `o` is
active at the end, are at most the activations, plus one if `o` was active at the
start (an ended notification is delivered only while active and leaves `o`
inactive); and every `CancelInteraction` has delivered a cancelled notification,
whatever was delivered before. With no handler bound, every sequence of calls
returns, with the same bounds, provided that an instigator is recorded on `o` or
that the sequence holds no `CommitInteraction` without bypass (the refused
branch of such a call reads the recorded instigator). `EndInteraction` on an
inactive interaction changes nothing. An activation attempt with a valid
instigator delivers no ended notification, and a cancelled one exactly when it
leaves `o` inactive. -/
theorem C7_terminal_notifications (p : Nat) (w : World) (o : UInteraction)
    (ho : w.Objects[p]? = some o) :
    (∀ (fuel : Nat) (cs : List LifecycleCall) (w' : World),
        runCalls (componentHandlers fuel) p cs w = .ok w' →
        ∃ (o' : UInteraction) (ext : List Signal),
          w'.Objects[p]? = some o' ∧ w'.Log = w.Log ++ ext
            ∧ ext.countP (isEnded p) + ext.countP (isCancelled p) ≤ cs.length
            ∧ ext.countP (isEnded p) + activeUnits o'
                ≤ ext.countP (isActivated p) + activeUnits o
            ∧ cs.countP LifecycleCall.isCancel ≤ ext.countP (isCancelled p))
      ∧ (o.OnInteractionEnded = false → o.OnInteractionCancelled = false →
          ∀ (H : Handlers) (cs : List LifecycleCall),
            (o.InteractingActor.isSome = true ∨ ∀ c ∈ cs, c ≠ LifecycleCall.Commit false) →
            ∃ (w' : World) (o' : UInteraction) (ext : List Signal),
              runCalls H p cs w = .ok w' ∧ w'.Objects[p]? = some o' ∧ w'.Log = w.Log ++ ext
                ∧ ext.countP (isEnded p) + ext.countP (isCancelled p) ≤ cs.length
                ∧ ext.countP (isEnded p) + activeUnits o'
                    ≤ ext.countP (isActivated p) + activeUnits o
                ∧ cs.countP LifecycleCall.isCancel ≤ ext.countP (isCancelled p))
      ∧ (o.bIsActive = false → ∀ H : Handlers, UInteraction.EndInteraction H p w = .ok w)
      ∧ (∀ (fuel : Nat) (a : Option AActor) (w' : World), IsValid a = true →
          UInteraction.TryActivateInteraction (componentHandlers fuel) p a w = .ok w' →
          ∃ (o' : UInteraction) (ext : List Signal),
            w'.Objects[p]? = some o' ∧ w'.Log = w.Log ++ ext
              ∧ ext.countP (isEnded p) = 0
              ∧ (o'.bIsActive = false → ext.countP (isCancelled p) = 1)
              ∧ (o'.bIsActive = true → ext.countP (isCancelled p) = 0)) := by
  have hp := getElem?_lt_of_some ho
  refine ⟨?_, ?_, ?_, ?_⟩
  · intro fuel cs w' h
    exact runCalls_quiet _ p (componentHandlers_quiet fuel p) cs w w' o ho h
  · intro hb1 hb2 H cs hsafe
    obtain ⟨w', o', ext, h1, h2, h3, h4, h5, h6⟩ :=
      runCalls_unbound H p cs w o ho hb1 hb2 hsafe
    exact ⟨w', o', ext, h1, h2, h3, h5, h4, h6⟩
  · intro hact H
    exact endInteraction_inactive H p w o ho hact
  · intro fuel a w' ha h
    obtain ⟨e1, e2, _⟩ := evaluations_count p p a o.Conditions
    cases hc : conditionsPass a o.Conditions with
    | true =>
      rw [tryActivate_pass _ p a w o ho ha hc] at h
      have hw := (Except.ok.inj h).symm
      subst hw
      refine ⟨{ o with InteractingActor := a, bIsActive := true },
        evaluations p a o.Conditions ++ [.InteractionActivated p], ?_, ?_, ?_, ?_, ?_⟩
      · simp [World.emit, World.emitAll, World.setObject, hp]
      · simp [World.emit, World.emitAll, World.setObject]
      · simp [List.countP_append, e1, isEnded]
      · intro h; exact Bool.noConfusion h
      · intro _; simp [List.countP_append, e2, isCancelled]
    | false =>
      rw [tryActivate_fail_cancel _ p a w o ho ha hc] at h
      obtain ⟨ext, q1, q2, q3⟩ := cancel_quiet _ p (componentHandlers_quiet fuel p) _ _ w'
        { o with InteractingActor := a }
        (by simp [World.emitAll, World.setObject, hp]) h
      obtain ⟨c1, c2, _⟩ := quiet_counts p ext q1
      refine ⟨_, evaluations p a o.Conditions
        ++ [.BroadcastCancelled p .Cancel_ConditionsNotMet] ++ ext
        ++ [.InteractionCancelled p .Cancel_ConditionsNotMet], q2, ?_, ?_, ?_, ?_⟩
      · rw [q3]; simp [World.emitAll, World.setObject]
      · simp [List.countP_append, e1, c1, isEnded]
      · intro _; simp [List.countP_append, e2, c2, isCancelled]
      · intro h; exact Bool.noConfusion h

/-- Witness for C7: on the working instance of slot 0 of scenario A,
`EndInteraction`, `EndInteraction` again and `CancelInteraction` return; three
calls deliver at most three terminal notifications, at least one of them
cancelled. -/
theorem C7_terminal_notifications_witness :
    scenarioA1.Objects[0]? = some { workingCopy (template false true []) with
        InteractingActor := actorE, bIsActive := true }
      ∧ runCalls (componentHandlers 1) 0 [.End, .End, .Cancel .Cancel_Cancelled] scenarioA1
          = .ok scenarioA1Ended
      ∧ ∃ (o' : UInteraction) (ext : List Signal),
          scenarioA1Ended.Objects[0]? = some o' ∧ scenarioA1Ended.Log = scenarioA1.Log ++ ext
            ∧ ext.countP (isEnded 0) + ext.countP (isCancelled 0) ≤ 3
            ∧ ext.countP (isEnded 0) + activeUnits o' ≤ ext.countP (isActivated 0) + 1
            ∧ 1 ≤ ext.countP (isCancelled 0) :=
  ⟨rfl, rfl,
    (C7_terminal_notifications 0 scenarioA1 _ rfl).1 1
      [.End, .End, .Cancel .Cancel_Cancelled] scenarioA1Ended rfl⟩

/-! ## C8: when an outcome ends the sequence -/

/-- C8. End-of-sequence rule: in a state with an active instance whose
auto-advance flag is clear and a valid cursor `i`, `OnInteractionEnded(b)`
returns, for any fuel, a state without active instance and with the heap as it
was; if `i` is the last index, or `b` is false and the slot's
reset-on-failure flag is set, the cursor is `-1` and the state idle; otherwise
the cursor is still `i` and the state waiting. -/
theorem C8_end_of_sequence_rule (fuel : Nat) (b : Bool) (w : World) (p : Nat)
    (inst : UInteraction) (i : Nat) (s : FSequentialInteraction)
    (hp : w.Component.ActiveInteractionInstance = some p) (hinst : w.Objects[p]? = some inst)
    (hauto : inst.bStartNextInteractionAutomatically = false)
    (hi : w.Component.CurrentSequentialInteractionIndex = (i : Int))
    (hs : w.Component.SequentialInteractions[i]? = some s) :
    ∃ w', OnInteractionEnded fuel b w = .ok w'
      ∧ w'.Component.ActiveInteractionInstance = none
      ∧ w'.Objects = w.Objects
      ∧ ((i + 1 = w.Component.SequentialInteractions.length
            ∨ (b = false ∧ s.bResetInteractionsOnConditionsFail = true)) →
          w'.Component.CurrentSequentialInteractionIndex = -1
            ∧ w'.Component.CurrentInteractionState = .SequentialState_Idle)
      ∧ (¬ (i + 1 = w.Component.SequentialInteractions.length
            ∨ (b = false ∧ s.bResetInteractionsOnConditionsFail = true)) →
          w'.Component.CurrentSequentialInteractionIndex = (i : Int)
            ∧ w'.Component.CurrentInteractionState = .SequentialState_Waiting) := by
  have heq := onEndedWith_eq (StartNextSequentialInteraction fuel) b w p inst i s hp hinst hi hs
  refine ⟨w.afterOutcome i s b, ?_, rfl, rfl, ?_, ?_⟩
  · unfold OnInteractionEnded
    rw [heq, hauto]
    rfl
  · intro h
    have he : endsSequence w.Component.SequentialInteractions i s b = true := by
      rcases h with h | ⟨h1, h2⟩
      · simp [endsSequence]; left; omega
      · simp [endsSequence, h1, h2]
    simp [World.afterOutcome, he]
  · intro h
    have he : endsSequence w.Component.SequentialInteractions i s b = false := by
      simp only [not_or, not_and] at h
      cases hb : b <;> cases hr : s.bResetInteractionsOnConditionsFail <;>
        simp [endsSequence, hb, hr] at h ⊢ <;> omega
    simp [World.afterOutcome, he]

/-- Witness for C8: in scenario A the copy of slot 1, which does not advance
automatically, reports success at the last index; the sequence ends. -/
theorem C8_end_of_sequence_rule_witness :
    scenarioA2.Component.ActiveInteractionInstance = some 1
      ∧ scenarioA2.Objects[1]? = some { workingCopy (template false false []) with
          InteractingActor := actorE, bIsActive := true }
      ∧ scenarioA2.Component.CurrentSequentialInteractionIndex = ((1 : Nat) : Int)
      ∧ scenarioA2.Component.SequentialInteractions[1]?
          = some (slotOf (template false false []) false)
      ∧ ∃ w', OnInteractionEnded 0 true scenarioA2 = .ok w'
        ∧ w'.Component.ActiveInteractionInstance = none
        ∧ w'.Component.CurrentSequentialInteractionIndex = -1
        ∧ w'.Component.CurrentInteractionState = .SequentialState_Idle := by
  refine ⟨rfl, rfl, rfl, rfl, ?_⟩
  obtain ⟨w', h1, h2, _, h4, _⟩ :=
    C8_end_of_sequence_rule 0 true scenarioA2 1 _ 1 _ rfl rfl rfl rfl rfl
  exact ⟨w', h1, h2, (h4 (Or.inl rfl)).1, (h4 (Or.inl rfl)).2⟩

/-! ## C9: scenario A -/

/-- C9. Scenario A generalised. (1) In the state the constructor leaves, with a
first slot that is not complete and whose interaction has no conditions,
`StartSequentialInteractions` for a valid actor records the actor, activates a
fresh copy of slot 0 (cursor 0, `InteractionActivated` fired) and returns with
state in-progress. (2) When the active working instance, at a cursor `i` that is
not the last index and with its auto-advance flag set, ends successfully
(`EndInteraction`), slot `i` is marked complete if its template is
non-repeatable, and if `j` is then the first incomplete slot after `i`, without
conditions, the call returns with cursor `j`, a fresh active copy of slot `j` as
the one new object and the active instance, and state in-progress; the ended
instance is inactive. The call creates that one instance only: nothing further
happens until the new instance reports an outcome. -/
theorem C9_scenario_A (fuel : Nat) :
    (∀ (w : World) (slots : List FSequentialInteraction) (s0 : FSequentialInteraction)
        (E : Option AActor),
        w.Component = USequentialInteractionComponent.ctor slots → slots[0]? = some s0 →
        s0.bInteractionComplete = false → s0.SequentialInteraction.Conditions = [] →
        IsValid E = true →
        ∃ w', StartSequentialInteractions (fuel + 1) E w = .ok w'
          ∧ w'.Component.CurrentSequentialInteractionIndex = 0
          ∧ w'.Component.ActiveInteractionInstance = some w.Objects.length
          ∧ w'.Objects = w.Objects ++ [{ workingCopy s0.SequentialInteraction with
              InteractingActor := E, bIsActive := true }]
          ∧ w'.Component.CurrentInteractionState = .SequentialState_InProgress
          ∧ w'.Log = w.Log ++ [.InteractionActivated w.Objects.length]
          ∧ w'.Component.SequentialInteractions = slots
          ∧ w'.Component.CurrentlyInteractingActor = E)
      ∧ (∀ (w : World) (p : Nat) (inst : UInteraction) (i j : Nat)
          (s sj : FSequentialInteraction),
          w.Component.ActiveInteractionInstance = some p → w.Objects[p]? = some inst →
          inst.bIsActive = true → inst.OnInteractionEnded = true →
          inst.bStartNextInteractionAutomatically = true →
          w.Component.CurrentSequentialInteractionIndex = (i : Int) →
          w.Component.SequentialInteractions[i]? = some s →
          i + 1 < w.Component.SequentialInteractions.length →
          IsValid w.Component.CurrentlyInteractingActor = true →
          FirstIncompleteAfter (markedSlots w.Component.SequentialInteractions i s) (i : Int) j →
          w.Component.SequentialInteractions[j]? = some sj →
          sj.SequentialInteraction.Conditions = [] →
          ∃ w', UInteraction.EndInteraction (componentHandlers (fuel + 1)) p w = .ok w'
            ∧ w'.Component.SequentialInteractions
                = markedSlots w.Component.SequentialInteractions i s
            ∧ w'.Component.SequentialInteractions[i]?
                = some { s with bInteractionComplete :=
                    s.bInteractionComplete || !s.SequentialInteraction.bCanRepeatInteraction }
            ∧ w'.Component.CurrentSequentialInteractionIndex = (j : Int)
            ∧ w'.Component.ActiveInteractionInstance = some w.Objects.length
            ∧ w'.Objects = w.Objects.set p { inst with bIsActive := false }
                ++ [{ workingCopy sj.SequentialInteraction with
                      InteractingActor := w.Component.CurrentlyInteractingActor
                      bIsActive := true }]
            ∧ w'.Component.CurrentInteractionState = .SequentialState_InProgress
            ∧ w'.Log = w.Log ++ [.BroadcastEnded p true,
                .InteractionActivated w.Objects.length, .InteractionEnded p]) := by
  refine ⟨?_, ?_⟩
  · intro w slots s0 E hw hs0 hc0 hcond hE
    have hnone : w.Component.ActiveInteractionInstance = none := by rw [hw]; rfl
    have hstart : StartSequentialInteractions (fuel + 1) E w
        = StartNextSequentialInteraction (fuel + 1) (w.started E) := by
      simp [StartSequentialInteractions, hnone, hE, World.started]
    have hslots : (w.started E).Component.SequentialInteractions = slots := by
      simp [World.started, World.setActor, World.setState, hw,
        USequentialInteractionComponent.ctor]
    have hcur : (w.started E).Component.CurrentSequentialInteractionIndex = -1 := by
      simp [World.started, World.setActor, World.setState, hw,
        USequentialInteractionComponent.ctor]
    have hfirst : FirstIncompleteAfter (w.started E).Component.SequentialInteractions
        (w.started E).Component.CurrentSequentialInteractionIndex 0 := by
      rw [hslots, hcur]
      exact ⟨by decide, ⟨s0, hs0, hc0⟩, fun k t _ hk => by omega⟩
    have hpass : conditionsPass (w.started E).Component.CurrentlyInteractingActor
        s0.SequentialInteraction.Conditions = true := by
      rw [hcond]; rfl
    have hres := startNext_pass fuel (w.started E) (by rw [hcur]) 0 s0
      (by rw [hslots]; exact hs0) hfirst hE hpass
    refine ⟨_, hstart.trans hres, rfl, rfl, rfl, rfl, ?_, hslots, rfl⟩
    simp [World.activatedAt, World.started, World.setActor, World.setState, hcond, evaluations,
      UInteraction.AreInteractionConditionsMet.loop]
  · intro w p inst i j s sj hp hinst hact hbound hauto hi hs hlast hE hfirst hsj hcond
    have hplt := getElem?_lt_of_some hinst
    -- the handler runs in the state after the broadcast has been logged
    have hout : OnInteractionEndedWith (StartNextSequentialInteraction (fuel + 1)) true
        (w.emit (.BroadcastEnded p true))
        = StartNextSequentialInteraction (fuel + 1)
            ((w.emit (.BroadcastEnded p true)).afterOutcome i s true) := by
      rw [onEndedWith_eq _ true (w.emit (.BroadcastEnded p true)) p inst i s hp hinst hi hs,
        hauto]
      rfl
    have hends : endsSequence w.Component.SequentialInteractions i s true = false := by
      simp [endsSequence]; omega
    have hcur : ((w.emit (.BroadcastEnded p true)).afterOutcome i s
        true).Component.CurrentSequentialInteractionIndex = (i : Int) := by
      simp [World.afterOutcome, World.emit, hends]
    have hji : j ≠ i := by
      intro h
      have := hfirst.1
      omega
    have hsj' : ((w.emit (.BroadcastEnded p true)).afterOutcome i s
        true).Component.SequentialInteractions[j]? = some sj := by
      show (markedSlots w.Component.SequentialInteractions i s)[j]? = some sj
      rw [markedSlots_other _ i j s hji]
      exact hsj
    have hpass : conditionsPass ((w.emit (.BroadcastEnded p true)).afterOutcome i s
        true).Component.CurrentlyInteractingActor sj.SequentialInteraction.Conditions = true := by
      rw [hcond]; rfl
    have hnext := startNext_pass fuel ((w.emit (.BroadcastEnded p true)).afterOutcome i s true)
      (by rw [hcur]; omega) j sj hsj' (by rw [hcur]; exact hfirst) hE hpass
    have hobj : (((w.emit (.BroadcastEnded p true)).afterOutcome i s true).activatedAt j
        sj).Objects[p]? = some inst := by
      simp [World.activatedAt, World.afterOutcome, World.emit, List.getElem?_append_left hplt,
        hinst]
    have hend : UInteraction.EndInteraction (componentHandlers (fuel + 1)) p w
        = .ok (((((w.emit (.BroadcastEnded p true)).afterOutcome i s true).activatedAt j
            sj).setObject p { inst with bIsActive := false }).emit (.InteractionEnded p)) := by
      rw [endInteraction_eq _ p w inst hinst hact, hbound]
      have hb : UInteraction.BroadcastEnded (componentHandlers (fuel + 1)) true true
          (w.emit (.BroadcastEnded p true))
          = OnInteractionEndedWith (StartNextSequentialInteraction (fuel + 1)) true
              (w.emit (.BroadcastEnded p true)) := rfl
      rw [hb, hout, hnext]
      simp only [thenEnded, hobj, hbound]
    refine ⟨_, hend, rfl, markedSlots_at _ i s hs, rfl, rfl, ?_, rfl, ?_⟩
    · simp [World.activatedAt, World.afterOutcome, World.emit, World.setObject,
        List.set_append, hplt]
    · simp [World.activatedAt, World.afterOutcome, World.emit, World.setObject, hcond,
        evaluations, UInteraction.AreInteractionConditionsMet.loop]

/-- Witness for C9, scenario A itself: the start activates slot 0, and when its
copy ends successfully the sequence stands at `S0.complete = true`,
`S1.complete = false`, cursor 1, state in-progress, with the copy of slot 1
active. -/
theorem C9_scenario_A_witness :
    (∃ w1, StartSequentialInteractions 1 actorE scenarioA = .ok w1
        ∧ w1.Component.CurrentSequentialInteractionIndex = 0
        ∧ w1.Component.CurrentInteractionState = .SequentialState_InProgress)
      ∧ StartSequentialInteractions 1 actorE scenarioA = .ok scenarioA1
      ∧ ∃ w2, UInteraction.EndInteraction (componentHandlers 1) 0 scenarioA1 = .ok w2
        ∧ w2.Component.SequentialInteractions.map (fun s => s.bInteractionComplete)
            = [true, false]
        ∧ w2.Component.CurrentSequentialInteractionIndex = 1
        ∧ w2.Component.CurrentInteractionState = .SequentialState_InProgress
        ∧ w2.Component.ActiveInteractionInstance = some 1 := by
  refine ⟨?_, rfl, ?_⟩
  · obtain ⟨w1, h1, h2, _, _, h5, _⟩ :=
      (C9_scenario_A 0).1 scenarioA _ (slotOf (template false true []) false) actorE
        rfl rfl rfl rfl rfl
    exact ⟨w1, h1, h2, h5⟩
  · obtain ⟨w2, h1, h2, _, h4, h5, _, h7, _⟩ :=
      (C9_scenario_A 0).2 scenarioA1 0 _ 0 1 (slotOf (template false true []) false)
        (slotOf (template false false []) false) rfl rfl rfl rfl rfl rfl rfl (by decide) rfl
        ⟨by decide, ⟨_, rfl, rfl⟩, fun k t hk1 hk2 => by omega⟩ rfl rfl
    exact ⟨w2, h1, by rw [h2]; rfl, h4, h7, h5⟩

/-! ## C10: scenario B -/

/-- C10. Scenario B generalised. In the state the constructor leaves, with a
single slot that is incomplete, non-repeatable and has a condition that fails for
the valid actor `E`, `StartSequentialInteractions` returns (two units of fuel are
enough, whether or not the slot advances automatically) with state idle, cursor
`-1`, no active instance and the slot complete. The one instance it created has
the instigator recorded and is inactive; the log gained the evaluations, the
broadcast of the cancellation and the blueprint cancel event, both with reason
`Cancel_ConditionsNotMet`, and no `InteractionActivated`. -/
theorem C10_scenario_B (fuel : Nat) (w : World) (s0 : FSequentialInteraction)
    (E : Option AActor) (hw : w.Component = USequentialInteractionComponent.ctor [s0])
    (hc0 : s0.bInteractionComplete = false)
    (hrep : s0.SequentialInteraction.bCanRepeatInteraction = false) (hE : IsValid E = true)
    (hfail : ∃ c ∈ s0.SequentialInteraction.Conditions,
      (c.InvertCondition = false ∧ c.CheckInteractionConditions E = false)
        ∨ (c.InvertCondition = true ∧ c.CheckInteractionConditions E = true)) :
    ∃ w', StartSequentialInteractions (fuel + 2) E w = .ok w'
      ∧ w'.Component.CurrentInteractionState = .SequentialState_Idle
      ∧ w'.Component.CurrentSequentialInteractionIndex = -1
      ∧ w'.Component.ActiveInteractionInstance = none
      ∧ w'.Component.SequentialInteractions = [{ s0 with bInteractionComplete := true }]
      ∧ w'.Objects = w.Objects ++ [{ workingCopy s0.SequentialInteraction with
          InteractingActor := E, bIsActive := false }]
      ∧ w'.Log = w.Log ++ evaluations w.Objects.length E s0.SequentialInteraction.Conditions
          ++ [.BroadcastCancelled w.Objects.length .Cancel_ConditionsNotMet,
              .InteractionCancelled w.Objects.length .Cancel_ConditionsNotMet]
      ∧ (∀ q, Signal.InteractionActivated q ∉
          evaluations w.Objects.length E s0.SequentialInteraction.Conditions
            ++ [Signal.BroadcastCancelled w.Objects.length .Cancel_ConditionsNotMet,
                Signal.InteractionCancelled w.Objects.length .Cancel_ConditionsNotMet]) := by
  have hnone : w.Component.ActiveInteractionInstance = none := by rw [hw]; rfl
  have hstart : StartSequentialInteractions (fuel + 2) E w
      = StartNextSequentialInteraction (fuel + 2) (w.started E) := by
    simp [StartSequentialInteractions, hnone, hE, World.started]
  have hslots : (w.started E).Component.SequentialInteractions = [s0] := by
    simp [World.started, World.setActor, World.setState, hw,
      USequentialInteractionComponent.ctor]
  have hcur : (w.started E).Component.CurrentSequentialInteractionIndex = -1 := by
    simp [World.started, World.setActor, World.setState, hw,
      USequentialInteractionComponent.ctor]
  have hfirst : FirstIncompleteAfter (w.started E).Component.SequentialInteractions
      (w.started E).Component.CurrentSequentialInteractionIndex 0 := by
    rw [hslots, hcur]
    exact ⟨by decide, ⟨s0, rfl, hc0⟩, fun k t _ hk => by omega⟩
  have hcnd : conditionsPass (w.started E).Component.CurrentlyInteractingActor
      s0.SequentialInteraction.Conditions = false :=
    (conditionsPass_false_iff E _).2 hfail
  have hs0 : (w.started E).Component.SequentialInteractions[0]? = some s0 := by
    rw [hslots]; rfl
  have hnext := startNext_fail (fuel + 1) (w.started E) (by rw [hcur]) 0 s0 hs0 hfirst hE hcnd
  -- the outcome handler, run on the cancelled copy
  have hs0' : ((w.started E).cancelledAt 0 s0).Component.SequentialInteractions[0]? = some s0 :=
    hs0
  have hout := onEndedWith_eq (StartNextSequentialInteraction (fuel + 1)) false
    ((w.started E).cancelledAt 0 s0) (w.started E).Objects.length _ 0 s0 rfl
    (cancelledAt_object (w.started E) 0 s0) rfl hs0'
  have hends : endsSequence ((w.started E).cancelledAt 0 s0).Component.SequentialInteractions
      0 s0 false = true := by
    have : ((w.started E).cancelledAt 0 s0).Component.SequentialInteractions = [s0] := hslots
    rw [this]
    simp [endsSequence]
  have hmarked : markedSlots ((w.started E).cancelledAt 0 s0).Component.SequentialInteractions
      0 s0 = [{ s0 with bInteractionComplete := true }] := by
    have : ((w.started E).cancelledAt 0 s0).Component.SequentialInteractions = [s0] := hslots
    rw [this]
    simp [markedSlots, hrep]
  have hafter : ((w.started E).cancelledAt 0 s0).afterOutcome 0 s0 false
      = { Component :=
            { SequentialInteractions := [{ s0 with bInteractionComplete := true }]
              CurrentSequentialInteractionIndex := -1
              CurrentlyInteractingActor := E
              ActiveInteractionInstance := none
              CurrentInteractionState := .SequentialState_Idle }
          Objects := w.Objects ++ [{ workingCopy s0.SequentialInteraction with
            InteractingActor := E, bIsActive := false }]
          Log := w.Log ++ evaluations w.Objects.length E s0.SequentialInteraction.Conditions
            ++ [.BroadcastCancelled w.Objects.length .Cancel_ConditionsNotMet] } := by
    simp only [World.afterOutcome, hends, hmarked, if_true]
    rfl
  have hhandler : OnInteractionCancelled (fuel + 1) .Cancel_ConditionsNotMet
      ((w.started E).cancelledAt 0 s0)
      = .ok (((w.started E).cancelledAt 0 s0).afterOutcome 0 s0 false) := by
    show OnInteractionEndedWith (StartNextSequentialInteraction (fuel + 1)) false
      ((w.started E).cancelledAt 0 s0) = _
    rw [hout]
    split
    · rw [hafter]
      have hall : AllCompleteAfter [{ s0 with bInteractionComplete := true }] (-1) := by
        intro k t _ hk
        cases k with
        | zero =>
          simp only [List.getElem?_cons_zero, Option.some.injEq] at hk
          rw [← hk]
        | succ n => simp at hk
      rw [startNext_none fuel _ (by show (-1 : Int) ≤ -1; decide) hall]
      rfl
    · rfl
  refine ⟨_, hstart.trans (hnext.trans (by rw [hhandler, hafter]; rfl)), rfl, rfl, rfl, rfl, rfl,
    ?_, ?_⟩
  · simp [World.emit]
    rfl
  · intro q hmem
    rcases List.mem_append.1 hmem with h | h
    · obtain ⟨j, hj⟩ := evaluations_checks _ _ _ _ h
      cases hj
    · simp at h

/-- Witness for C10, scenario B itself: one non-repeatable slot whose condition
is the base condition. -/
theorem C10_scenario_B_witness :
    scenarioB.Component = USequentialInteractionComponent.ctor
        [slotOf (template false false [UInteractionCondition.base]) false]
      ∧ IsValid actorE = true
      ∧ ∃ w', StartSequentialInteractions 2 actorE scenarioB = .ok w'
        ∧ w'.Component.CurrentInteractionState = .SequentialState_Idle
        ∧ w'.Component.CurrentSequentialInteractionIndex = -1
        ∧ w'.Component.ActiveInteractionInstance = none
        ∧ w'.Component.SequentialInteractions.map (fun s => s.bInteractionComplete) = [true]
        ∧ w'.Log = [.CheckInteractionConditions 0 0,
            .BroadcastCancelled 0 .Cancel_ConditionsNotMet,
            .InteractionCancelled 0 .Cancel_ConditionsNotMet] := by
  refine ⟨rfl, rfl, ?_⟩
  obtain ⟨w', h1, h2, h3, h4, h5, _, h7, _⟩ :=
    C10_scenario_B 0 scenarioB (slotOf (template false false [UInteractionCondition.base]) false)
      actorE rfl rfl rfl rfl
      ⟨UInteractionCondition.base, List.mem_singleton.2 rfl, Or.inl ⟨rfl, rfl⟩⟩
  exact ⟨w', h1, h2, h3, h4, by rw [h5]; rfl, by rw [h7]; rfl⟩

/-! ## C11: starting without a valid instigator -/

/-- C11. Scenario C. In every state without an active instance,
`StartSequentialInteractions` with an absent or invalid instigator returns, and
the state it returns differs from the one it was called in only in
`CurrentInteractionState`, which is waiting: no instance is active, the cursor,
the recorded instigator, the slots, the heap of instances and the log are as
before. This holds for every amount of fuel, zero included, for which
`StartNextSequentialInteraction` would not return: it is not run. -/
theorem C11_invalid_instigator_only_waits (fuel : Nat) (a : Option AActor) (w : World)
    (hnone : w.Component.ActiveInteractionInstance = none) (ha : IsValid a = false) :
    ∃ w', StartSequentialInteractions fuel a w = .ok w'
      ∧ w' = w.setState .SequentialState_Waiting
      ∧ w'.Component.CurrentInteractionState = .SequentialState_Waiting
      ∧ w'.Component.ActiveInteractionInstance = none
      ∧ w'.Component.CurrentSequentialInteractionIndex
          = w.Component.CurrentSequentialInteractionIndex
      ∧ w'.Component.CurrentlyInteractingActor = w.Component.CurrentlyInteractingActor
      ∧ w'.Component.SequentialInteractions = w.Component.SequentialInteractions
      ∧ w'.Objects = w.Objects ∧ w'.Log = w.Log := by
  refine ⟨w.setState .SequentialState_Waiting, ?_, rfl, rfl, hnone, rfl, rfl, rfl, rfl, rfl⟩
  unfold StartSequentialInteractions
  simp [hnone, ha]

/-- Witness for C11: scenario B before any call, with no instigator and no fuel. -/
theorem C11_invalid_instigator_only_waits_witness :
    scenarioB.Component.ActiveInteractionInstance = none ∧ IsValid none = false
      ∧ ∃ w', StartSequentialInteractions 0 none scenarioB = .ok w'
        ∧ w'.Component.CurrentInteractionState = .SequentialState_Waiting
        ∧ w'.Component.ActiveInteractionInstance = none
        ∧ w'.Component.CurrentSequentialInteractionIndex = -1
        ∧ w'.Objects = [] := by
  refine ⟨rfl, rfl, ?_⟩
  obtain ⟨w', h1, _, h3, h4, h5, _, _, h8, _⟩ :=
    C11_invalid_instigator_only_waits 0 none scenarioB rfl rfl
  exact ⟨w', h1, h3, h4, by rw [h5]; rfl, by rw [h8]; rfl⟩

/-! ## C12: the completion query -/

/-- C12. `HasInteractionBeenCompleted` is a total function of the state and the
index, with no state of its own to return: for an index `i` with
`0 ≤ i < count` it is the completion flag of slot `i`, and for a negative index
or one from `count` on it is false. -/
theorem C12_has_been_completed (w : World) (InteractionIndex : Int) :
    (∀ (i : Nat) (s : FSequentialInteraction), InteractionIndex = (i : Int) →
        w.Component.SequentialInteractions[i]? = some s →
        HasInteractionBeenCompleted w InteractionIndex = s.bInteractionComplete)
      ∧ (InteractionIndex < 0
          ∨ (w.Component.SequentialInteractions.length : Int) ≤ InteractionIndex →
        HasInteractionBeenCompleted w InteractionIndex = false) := by
  constructor
  · intro i s hi hs
    subst hi
    have hlt : i < w.Component.SequentialInteractions.length := getElem?_lt_of_some hs
    unfold HasInteractionBeenCompleted IsValidIndex slotAt
    simp [hlt, hs]
  · intro h
    unfold HasInteractionBeenCompleted IsValidIndex
    rcases h with h | h
    · have : ¬ (0 ≤ InteractionIndex) := by omega
      simp [this]
    · have : ¬ (InteractionIndex < (w.Component.SequentialInteractions.length : Int)) := by
        omega
      simp [this]

/-- Witness for C12: index 99 on the two slots of scenario A. -/
theorem C12_has_been_completed_witness :
    scenarioA.Component.SequentialInteractions.length = 2
      ∧ HasInteractionBeenCompleted scenarioA 99 = false :=
  ⟨rfl, (C12_has_been_completed scenarioA 99).2 (Or.inr (by decide))⟩

/-! ## C13: `CanCommitInteraction` -/

/-- C13, counterexample. `scenarioStuck` holds a non-repeatable slot 0 whose
only condition has a true raw result and is not inverted, and a repeatable slot
1 whose activation fails; both advance automatically. One start for `actorE`
returns `scenarioStuck1`, with the copy of slot 0 active at address 0.
`CanCommitInteraction` on that instance, with the component's handlers, finds
the true raw result and cancels, and the cancellation broadcast never returns:
for every fuel the run is cut off, so no answer is given and the event
`InteractionCancelled` of the instance is not in the log. -/
theorem C13_can_commit_may_not_answer :
    StartSequentialInteractions 1 actorE scenarioStuck = .ok scenarioStuck1
      ∧ scenarioStuck1.Objects[0]? = some stuckInstance
      ∧ scenarioStuck1.Component.ActiveInteractionInstance = some 0
      ∧ stuckInstance.Conditions.map (rawResult stuckInstance.InteractingActor) = [true]
      ∧ ∀ fuel : Nat,
          (∀ (b : Bool) (w' : World),
            UInteraction.CanCommitInteraction (componentHandlers fuel) 0 scenarioStuck1
              ≠ .ok (b, w'))
          ∧ ∃ w', UInteraction.CanCommitInteraction (componentHandlers fuel) 0 scenarioStuck1
                = .error (.outOfFuel w')
              ∧ Signal.InteractionCancelled 0 .Cancel_ConditionsNotMet ∉ w'.Log := by
  refine ⟨rfl, rfl, rfl, rfl, fun fuel => ?_⟩
  obtain ⟨w', h, _, ext, hlog, hext⟩ := scenarioStuck_canCommit fuel
  refine ⟨fun b w1 hb => ?_, w', h, fun hmem => ?_⟩
  · rw [h] at hb
    cases hb
  · rw [hlog] at hmem
    rcases List.mem_append.1 hmem with hm | hm
    · revert hm
      decide
    · exact hext _ hm rfl

/-- C13, amended. `CanCommitInteraction` reads the raw result of each condition for the
stored instigator, never `InvertCondition`. For every interaction object `o`,
with any handlers:
* if every raw result is false, it evaluates every condition, cancels nothing
  and answers true (with no condition it answers true in the unchanged state);
* if `c` is the first condition with a true raw result, it evaluates the
  conditions up to `c` and no further, calls
  `CancelInteraction(Cancel_ConditionsNotMet)` and answers false; with nothing
  bound this returns with the object inactive and the log extended by the
  evaluations, one broadcast of `OnInteractionCancelled` and the event
  `InteractionCancelled`; with the component's handlers it answers false
  whenever it returns, the object is inactive and the log has gained exactly one
  cancellation broadcast of the object; and when the run with the component's
  handlers is cut off instead, the object is inactive all the same and the log
  has gained the evaluations and that one broadcast, with no later signal of
  the object: the event `InteractionCancelled` has not fired and no answer is
  given;
* whenever it returns, its answer is "every raw result is false";
* its loop gives the same result for any other condition list with the same raw
  results, whatever the inversion flags;
* for the component's active instance, when it does not advance automatically,
  the call returns with the component's handlers. -/
theorem C13_can_commit_reads_raw_results (H : Handlers) (p : Nat) (w : World)
    (o : UInteraction) (ho : w.Objects[p]? = some o) :
    ((∀ c ∈ o.Conditions, rawResult o.InteractingActor c = false) →
        UInteraction.CanCommitInteraction H p w
          = .ok (true, w.emitAll (checksFrom p 0 o.Conditions.length)))
      ∧ (o.Conditions = [] → UInteraction.CanCommitInteraction H p w = .ok (true, w))
      ∧ (∀ (pre : List UInteractionCondition) (c : UInteractionCondition)
          (post : List UInteractionCondition), o.Conditions = pre ++ c :: post →
          (∀ d ∈ pre, rawResult o.InteractingActor d = false) →
          rawResult o.InteractingActor c = true →
          UInteraction.CanCommitInteraction H p w
              = thenRefuse (UInteraction.CancelInteraction H p .Cancel_ConditionsNotMet
                  (w.emitAll (checksFrom p 0 (pre.length + 1))))
            ∧ (o.OnInteractionCancelled = false →
                UInteraction.CanCommitInteraction H p w
                  = .ok (false,
                      ((((w.emitAll (checksFrom p 0 (pre.length + 1))).setObject p
                        { o with bIsActive := false }).emit
                          (.BroadcastCancelled p .Cancel_ConditionsNotMet)).emit
                            (.InteractionCancelled p .Cancel_ConditionsNotMet))))
            ∧ (∀ (fuel : Nat) (b : Bool) (w' : World),
                UInteraction.CanCommitInteraction (componentHandlers fuel) p w = .ok (b, w') →
                b = false ∧ w'.Objects[p]? = some { o with bIsActive := false }
                  ∧ ∃ ext, (∀ sig ∈ ext, sig.obj ≠ p)
                    ∧ w'.Log = w.Log ++ checksFrom p 0 (pre.length + 1)
                        ++ [.BroadcastCancelled p .Cancel_ConditionsNotMet] ++ ext
                        ++ [.InteractionCancelled p .Cancel_ConditionsNotMet]
                    ∧ (checksFrom p 0 (pre.length + 1)
                        ++ [Signal.BroadcastCancelled p .Cancel_ConditionsNotMet] ++ ext
                        ++ [Signal.InteractionCancelled p .Cancel_ConditionsNotMet]).countP
                          (isCancelled p) = 1)
            ∧ (∀ (fuel : Nat) (w' : World),
                UInteraction.CanCommitInteraction (componentHandlers fuel) p w
                  = .error (.outOfFuel w') →
                w'.Objects[p]? = some { o with bIsActive := false }
                  ∧ ∃ ext, (∀ sig ∈ ext, sig.obj ≠ p)
                    ∧ w'.Log = w.Log ++ checksFrom p 0 (pre.length + 1)
                        ++ [.BroadcastCancelled p .Cancel_ConditionsNotMet] ++ ext))
      ∧ (∀ (b : Bool) (w' : World), UInteraction.CanCommitInteraction H p w = .ok (b, w') →
          b = o.Conditions.all (fun c => !rawResult o.InteractingActor c))
      ∧ (∀ cs' : List UInteractionCondition,
          cs'.map (rawResult o.InteractingActor) = o.Conditions.map (rawResult o.InteractingActor) →
          UInteraction.CanCommitInteraction.loop H p o.InteractingActor cs' 0 w
            = UInteraction.CanCommitInteraction H p w)
      ∧ (w.Component.ActiveInteractionInstance = some p →
          o.bStartNextInteractionAutomatically = false → ∀ fuel : Nat,
          ∃ (b : Bool) (w' : World),
            UInteraction.CanCommitInteraction (componentHandlers fuel) p w = .ok (b, w')) := by
  have hfirst : ∀ (H : Handlers) (pre : List UInteractionCondition) (c : UInteractionCondition)
      (post : List UInteractionCondition), o.Conditions = pre ++ c :: post →
      (∀ d ∈ pre, rawResult o.InteractingActor d = false) →
      rawResult o.InteractingActor c = true →
      UInteraction.CanCommitInteraction H p w
        = thenRefuse (UInteraction.CancelInteraction H p .Cancel_ConditionsNotMet
            (w.emitAll (checksFrom p 0 (pre.length + 1)))) := by
    intro H pre c post hcs hpre hc
    rw [canCommit_eq H p w o ho, hcs]
    exact canCommitLoop_first_true H p _ c post hc pre 0 w hpre
  refine ⟨fun hall => ?_, fun hnil => ?_, fun pre c post hcs hpre hc => ⟨?_, fun hb => ?_,
    fun fuel b w' h => ?_, fun fuel w' h => ?_⟩, fun b w' h => ?_, fun cs' hcs' => ?_,
    fun hp hauto fuel => ?_⟩
  · rw [canCommit_eq H p w o ho]
    exact canCommitLoop_all_false H p _ _ 0 w hall
  · rw [canCommit_eq H p w o ho, hnil]
    rfl
  · exact hfirst H pre c post hcs hpre hc
  · have ho' : (w.emitAll (checksFrom p 0 (pre.length + 1))).Objects[p]? = some o := ho
    rw [hfirst H pre c post hcs hpre hc, cancel_eq H p _ _ o ho',
      broadcastCancelled_unbound H hb]
    rfl
  · have ho' : (w.emitAll (checksFrom p 0 (pre.length + 1))).Objects[p]? = some o := ho
    rw [hfirst (componentHandlers fuel) pre c post hcs hpre hc] at h
    obtain ⟨hb, hr⟩ := thenRefuse_ok h
    obtain ⟨ext, q1, q2, q3⟩ := cancel_quiet (componentHandlers fuel) p
      (componentHandlers_quiet fuel p) _ _ w' o ho' hr
    refine ⟨hb, q2, ext, q1, ?_, ?_⟩
    · rw [q3]
      simp [World.emitAll]
    · have hq := (quiet_counts p ext q1).2.1
      have hchk := (checksFrom_counts p p (pre.length + 1) 0).1
      simp [List.countP_append, hq, hchk, isCancelled]
  · have ho' : (w.emitAll (checksFrom p 0 (pre.length + 1))).Objects[p]? = some o := ho
    rw [hfirst (componentHandlers fuel) pre c post hcs hpre hc] at h
    obtain ⟨q1, ext, q2, q3⟩ := cancel_cutoff fuel p _ _ w' o ho' (thenRefuse_cutoff h)
    exact ⟨q1, ext, q3, q2⟩
  · rw [canCommit_eq H p w o ho] at h
    exact canCommitLoop_answer H p _ _ 0 w w' b h
  · rw [canCommit_eq H p w o ho]
    exact canCommitLoop_congr H p _ _ cs' 0 w hcs'
  · rw [canCommit_eq _ p w o ho]
    exact canCommitLoop_returns fuel p _ o hauto _ 0 w ho hp

/-- Witness for C13: an active interaction whose conditions have the raw results
false, true, false, the second one inverted; the second evaluation cancels and
the third condition is not evaluated. -/
theorem C13_can_commit_reads_raw_results_witness :
    (isolated committing).Objects[0]? = some committing
      ∧ committing.Conditions.map (fun c => c.InvertCondition) = [false, true, false]
      ∧ ∃ w', UInteraction.CanCommitInteraction (componentHandlers 0) 0 (isolated committing)
            = .ok (false, w')
        ∧ w'.Objects.map (fun o => o.bIsActive) = [false]
        ∧ w'.Log = [.CheckInteractionConditions 0 0, .CheckInteractionConditions 0 1,
            .BroadcastCancelled 0 .Cancel_ConditionsNotMet,
            .InteractionCancelled 0 .Cancel_ConditionsNotMet] := by
  have h := ((C13_can_commit_reads_raw_results (componentHandlers 0) 0 (isolated committing)
    committing rfl).2.2.1 [UInteractionCondition.base] (UInteractionCondition.always true)
    [UInteractionCondition.base] rfl
    (fun d hd => by rw [List.mem_singleton.1 hd]; rfl) rfl).2.1 rfl
  exact ⟨rfl, rfl, _, h, rfl, rfl⟩

/-! ## C14: `CommitInteraction` -/

/-- C14, counterexample. In `scenarioStuck1`, the state one start of
`scenarioStuck` for `actorE` returns, `CommitInteraction` without the bypass on
the active instance never fires `InteractionCommitted`: the condition of the
instance has a true raw result, the cancellation broadcast never returns, and
for every fuel the run is cut off with no `InteractionCommitted` of the
instance in the log. -/
theorem C14_commit_may_not_fire :
    StartSequentialInteractions 1 actorE scenarioStuck = .ok scenarioStuck1
      ∧ scenarioStuck1.Objects[0]? = some stuckInstance
      ∧ scenarioStuck1.Component.ActiveInteractionInstance = some 0
      ∧ ∀ fuel : Nat,
          (∀ w' : World,
            UInteraction.CommitInteraction (componentHandlers fuel) 0 false scenarioStuck1
              ≠ .ok w')
          ∧ ∃ w', UInteraction.CommitInteraction (componentHandlers fuel) 0 false scenarioStuck1
                = .error (.outOfFuel w')
              ∧ w'.Log.countP (isCommitted 0) = 0 := by
  refine ⟨rfl, rfl, rfl, fun fuel => ?_⟩
  obtain ⟨w', h, _, ext, hlog, hext⟩ := scenarioStuck_canCommit fuel
  have hrun : UInteraction.CommitInteraction (componentHandlers fuel) 0 false scenarioStuck1
      = .error (.outOfFuel w') := by
    rw [commit_eq, h]
    rfl
  refine ⟨fun w1 hw1 => ?_, w', hrun, ?_⟩
  · rw [hrun] at hw1
    cases hw1
  · rw [hlog, List.countP_append, quiet_committed 0 ext hext]
    rfl

/-- C14, amended. `CommitInteraction` is not blocked by the answer of
`CanCommitInteraction`. For every interaction object `o` at `p`:
* with `bBypassRequirements` it returns the state with `InteractionCommitted`
  appended to the log and nothing else changed: no condition is evaluated,
  nothing is cancelled, the active flag is as before;
* without it, it runs `CanCommitInteraction` and then goes on to
  `InteractionCommitted` whatever the answer: with every raw result false after
  the evaluations, and, for an object with a recorded instigator, with a first
  true raw result after the evaluations up to it and the cancellation with
  `Cancel_ConditionsNotMet`, which leaves the object inactive;
* when the run with the component's handlers is cut off, the object is
  inactive, the log has gained the evaluations and the cancellation broadcast,
  and no later signal of the object: `InteractionCommitted` has not fired;
* with nothing bound the call returns, for the bypass, for an object with a
  recorded instigator and when every raw result is false, and with the
  component's handlers whenever it returns, the log has gained
  `InteractionCommitted` of the object exactly once, as the last signal;
* for the component's active instance, when it does not advance automatically,
  the call returns with the component's handlers in those same three cases. -/
theorem C14_commit_is_never_blocked (H : Handlers) (p : Nat) (w : World) (o : UInteraction)
    (ho : w.Objects[p]? = some o) :
    (UInteraction.CommitInteraction H p true w = .ok (w.emit (.InteractionCommitted p))
        ∧ (w.emit (.InteractionCommitted p)).Objects = w.Objects
        ∧ (w.emit (.InteractionCommitted p)).Component = w.Component
        ∧ (w.emit (.InteractionCommitted p)).Log = w.Log ++ [.InteractionCommitted p])
      ∧ UInteraction.CommitInteraction H p false w
          = thenCommitted p (UInteraction.CanCommitInteraction H p w)
      ∧ ((∀ c ∈ o.Conditions, rawResult o.InteractingActor c = false) →
          UInteraction.CommitInteraction H p false w
            = .ok ((w.emitAll (checksFrom p 0 o.Conditions.length)).emit
                (.InteractionCommitted p)))
      ∧ (∀ (pre : List UInteractionCondition) (c : UInteractionCondition)
          (post : List UInteractionCondition), o.Conditions = pre ++ c :: post →
          (∀ d ∈ pre, rawResult o.InteractingActor d = false) →
          rawResult o.InteractingActor c = true →
          (o.OnInteractionCancelled = false → o.InteractingActor.isSome = true →
              UInteraction.CommitInteraction H p false w
                = .ok (((((w.emitAll (checksFrom p 0 (pre.length + 1))).setObject p
                    { o with bIsActive := false }).emit
                      (.BroadcastCancelled p .Cancel_ConditionsNotMet)).emit
                        (.InteractionCancelled p .Cancel_ConditionsNotMet)).emit
                          (.InteractionCommitted p)))
            ∧ (∀ (fuel : Nat) (w' : World),
                UInteraction.CommitInteraction (componentHandlers fuel) p false w = .ok w' →
                w'.Objects[p]? = some { o with bIsActive := false }
                  ∧ ∃ ext, (∀ sig ∈ ext, sig.obj ≠ p)
                    ∧ w'.Log = w.Log ++ checksFrom p 0 (pre.length + 1)
                        ++ [.BroadcastCancelled p .Cancel_ConditionsNotMet] ++ ext
                        ++ [.InteractionCancelled p .Cancel_ConditionsNotMet,
                            .InteractionCommitted p])
            ∧ (∀ (fuel : Nat) (w' : World),
                UInteraction.CommitInteraction (componentHandlers fuel) p false w
                  = .error (.outOfFuel w') →
                w'.Objects[p]? = some { o with bIsActive := false }
                  ∧ ∃ ext, (∀ sig ∈ ext, sig.obj ≠ p)
                    ∧ w'.Log = w.Log ++ checksFrom p 0 (pre.length + 1)
                        ++ [.BroadcastCancelled p .Cancel_ConditionsNotMet] ++ ext))
      ∧ (o.OnInteractionCancelled = false → ∀ bBypassRequirements : Bool,
          (bBypassRequirements = true ∨ o.InteractingActor.isSome = true
            ∨ ∀ c ∈ o.Conditions, rawResult o.InteractingActor c = false) →
          ∃ (w' : World) (before : List Signal),
            UInteraction.CommitInteraction H p bBypassRequirements w = .ok w'
              ∧ w'.Log = w.Log ++ before ++ [.InteractionCommitted p]
              ∧ before.countP (isCommitted p) = 0)
      ∧ (∀ (fuel : Nat) (bBypassRequirements : Bool) (w' : World),
          UInteraction.CommitInteraction (componentHandlers fuel) p bBypassRequirements w
            = .ok w' →
          ∃ before : List Signal, w'.Log = w.Log ++ before ++ [.InteractionCommitted p]
            ∧ before.countP (isCommitted p) = 0)
      ∧ (w.Component.ActiveInteractionInstance = some p →
          o.bStartNextInteractionAutomatically = false →
          ∀ (fuel : Nat) (bBypassRequirements : Bool),
          (bBypassRequirements = true ∨ o.InteractingActor.isSome = true
            ∨ ∀ c ∈ o.Conditions, rawResult o.InteractingActor c = false) →
          ∃ w' : World,
            UInteraction.CommitInteraction (componentHandlers fuel) p bBypassRequirements w
              = .ok w') := by
  have hfirst : ∀ (H : Handlers) (pre : List UInteractionCondition) (c : UInteractionCondition)
      (post : List UInteractionCondition), o.Conditions = pre ++ c :: post →
      (∀ d ∈ pre, rawResult o.InteractingActor d = false) →
      rawResult o.InteractingActor c = true →
      UInteraction.CanCommitInteraction H p w
        = thenRefuse (UInteraction.CancelInteraction H p .Cancel_ConditionsNotMet
            (w.emitAll (checksFrom p 0 (pre.length + 1)))) := by
    intro H pre c post hcs hpre hc
    rw [canCommit_eq H p w o ho, hcs]
    exact canCommitLoop_first_true H p _ c post hc pre 0 w hpre
  have hsome : ∀ w1 : World, w1.Objects[p]? = some { o with bIsActive := false } →
      o.InteractingActor.isSome = true →
      thenCommitted p (.ok (false, w1)) = .ok (w1.emit (.InteractionCommitted p)) :=
    fun w1 h1 ha => thenCommitted_refused p w1 _ h1 ha
  have hallFalse : (∀ c ∈ o.Conditions, rawResult o.InteractingActor c = false) →
      ∀ H : Handlers, UInteraction.CanCommitInteraction H p w
        = .ok (true, w.emitAll (checksFrom p 0 o.Conditions.length)) := by
    intro hall H
    rw [canCommit_eq H p w o ho]
    exact canCommitLoop_all_false H p _ _ 0 w hall
  refine ⟨⟨rfl, rfl, rfl, rfl⟩, commit_eq H p w, fun hall => ?_,
    fun pre c post hcs hpre hc => ⟨fun hb ha => ?_, fun fuel w' h => ?_, fun fuel w' h => ?_⟩,
    fun hb b hsafe => ?_,
    fun fuel b w' h => commit_quiet _ p (componentHandlers_quiet fuel p) b w w' o ho h,
    fun hp hauto fuel b hsafe => ?_⟩
  · rw [commit_eq, hallFalse hall H]
    rfl
  · have ho' : (w.emitAll (checksFrom p 0 (pre.length + 1))).Objects[p]? = some o := ho
    rw [commit_eq, hfirst H pre c post hcs hpre hc, cancel_eq H p _ _ o ho',
      broadcastCancelled_unbound H hb]
    exact hsome _ (List.getElem?_set_self (getElem?_lt_of_some ho)) ha
  · have ho' : (w.emitAll (checksFrom p 0 (pre.length + 1))).Objects[p]? = some o := ho
    rw [commit_eq, hfirst (componentHandlers fuel) pre c post hcs hpre hc] at h
    obtain ⟨b, w1, hr, hw⟩ := thenCommitted_ok h
    subst hw
    obtain ⟨_, hr'⟩ := thenRefuse_ok hr
    obtain ⟨ext, q1, q2, q3⟩ := cancel_quiet (componentHandlers fuel) p
      (componentHandlers_quiet fuel p) _ _ w1 o ho' hr'
    refine ⟨q2, ext, q1, ?_⟩
    show w1.Log ++ [Signal.InteractionCommitted p] = _
    rw [q3]
    simp [World.emitAll]
  · have ho' : (w.emitAll (checksFrom p 0 (pre.length + 1))).Objects[p]? = some o := ho
    rw [commit_eq, hfirst (componentHandlers fuel) pre c post hcs hpre hc] at h
    obtain ⟨q1, ext, q2, q3⟩ := cancel_cutoff fuel p _ _ w' o ho'
      (thenRefuse_cutoff (thenCommitted_cutoff h))
    exact ⟨q1, ext, q3, q2⟩
  · cases b with
    | true => exact ⟨_, [], rfl, by simp [World.emit], rfl⟩
    | false =>
      obtain ⟨b, w1, pre, h1, h2, _, hans, h5, h6⟩ :=
        canCommitLoop_unbound H p o.InteractingActor o hb o.Conditions 0 w ho
      have hpre : pre.countP (isCommitted p) = 0 :=
        count_checks_zero p _ pre (fun _ => rfl) h2
      cases b with
      | true =>
        have hrun : UInteraction.CommitInteraction H p false w
            = .ok (w1.emit (.InteractionCommitted p)) := by
          rw [commit_eq, canCommit_eq H p w o ho, h1]
          rfl
        refine ⟨_, pre, hrun, ?_, hpre⟩
        show w1.Log ++ [Signal.InteractionCommitted p] = _
        rw [(h5 rfl).2]
      | false =>
        have ha : o.InteractingActor.isSome = true := by
          rcases hsafe with hs | hs | hs
          · cases hs
          · exact hs
          · have h1' := h1
            rw [← canCommit_eq H p w o ho, hallFalse hs H] at h1'
            cases h1'
        have hobj : w1.Objects[p]? = some { o with bIsActive := false } := by
          rw [(h6 rfl).1]
          exact List.getElem?_set_self (getElem?_lt_of_some ho)
        have hrun : UInteraction.CommitInteraction H p false w
            = .ok (w1.emit (.InteractionCommitted p)) := by
          rw [commit_eq, canCommit_eq H p w o ho, h1]
          exact hsome w1 hobj ha
        refine ⟨_, pre ++ [.BroadcastCancelled p .Cancel_ConditionsNotMet,
          .InteractionCancelled p .Cancel_ConditionsNotMet], hrun, ?_, ?_⟩
        · show w1.Log ++ [Signal.InteractionCommitted p] = _
          rw [(h6 rfl).2]
          simp
        · simp [List.countP_append, hpre, isCommitted]
  · cases b with
    | true => exact ⟨_, rfl⟩
    | false =>
      obtain ⟨b1, w1, h1⟩ := canCommitLoop_returns fuel p o.InteractingActor o hauto
        o.Conditions 0 w ho hp
      rw [← canCommit_eq _ p w o ho] at h1
      refine ⟨w1.emit (.InteractionCommitted p), ?_⟩
      rw [commit_eq, h1]
      cases b1 with
      | true => rfl
      | false =>
        have ha : o.InteractingActor.isSome = true := by
          rcases hsafe with hs | hs | hs
          · cases hs
          · exact hs
          · rw [hallFalse hs (componentHandlers fuel)] at h1
            cases h1
        exact hsome w1 (canCommit_refused_object _ p (componentHandlers_quiet fuel p) w w1 o
          ho h1) ha

/-- Witness for C14: the interaction `committing`, whose second raw result is
true: without the bypass the commitment follows the cancellation, with it the
object stays active and only `InteractionCommitted` is logged. -/
theorem C14_commit_is_never_blocked_witness :
    (isolated committing).Objects[0]? = some committing
      ∧ (∃ w', UInteraction.CommitInteraction (componentHandlers 0) 0 false (isolated committing)
            = .ok w'
          ∧ w'.Objects.map (fun o => o.bIsActive) = [false]
          ∧ w'.Log = [.CheckInteractionConditions 0 0, .CheckInteractionConditions 0 1,
              .BroadcastCancelled 0 .Cancel_ConditionsNotMet,
              .InteractionCancelled 0 .Cancel_ConditionsNotMet, .InteractionCommitted 0])
      ∧ (∃ w', UInteraction.CommitInteraction (componentHandlers 0) 0 true (isolated committing)
            = .ok w'
          ∧ w'.Objects.map (fun o => o.bIsActive) = [true]
          ∧ w'.Log = [.InteractionCommitted 0]) := by
  have h := C14_commit_is_never_blocked (componentHandlers 0) 0 (isolated committing)
    committing rfl
  exact ⟨rfl,
    ⟨_, (h.2.2.2.1 [UInteractionCondition.base] (UInteractionCondition.always true)
      [UInteractionCondition.base] rfl
      (fun d hd => by rw [List.mem_singleton.1 hd]; rfl) rfl).1 rfl rfl, rfl, rfl⟩,
    ⟨_, h.1.1, rfl, rfl⟩⟩

/-! ## C15: `EndInteraction` -/

/-- C15, counterexample. In `scenarioStuck1`, the state one start of
`scenarioStuck` for `actorE` returns, the copy of slot 0 is active at address
0. `EndInteraction` on it broadcasts `OnInteractionEnded(true)` and the
broadcast never returns: for every fuel the run is cut off with the instance
still active and without its event `InteractionEnded` in the log. -/
theorem C15_end_may_leave_active :
    StartSequentialInteractions 1 actorE scenarioStuck = .ok scenarioStuck1
      ∧ scenarioStuck1.Objects[0]? = some stuckInstance
      ∧ stuckInstance.bIsActive = true
      ∧ scenarioStuck1.Component.ActiveInteractionInstance = some 0
      ∧ ∀ fuel : Nat,
          (∀ w' : World,
            UInteraction.EndInteraction (componentHandlers fuel) 0 scenarioStuck1 ≠ .ok w')
          ∧ ∃ w', UInteraction.EndInteraction (componentHandlers fuel) 0 scenarioStuck1
                = .error (.outOfFuel w')
              ∧ (∃ o, w'.Objects[0]? = some o ∧ o.bIsActive = true)
              ∧ Signal.InteractionEnded 0 ∉ w'.Log := by
  refine ⟨rfl, rfl, rfl, rfl, fun fuel => ?_⟩
  obtain ⟨w', h, hobj, ext, hlog, hext⟩ := scenarioStuck_end fuel
  refine ⟨fun w1 hw1 => ?_, w', h, hobj, fun hmem => ?_⟩
  · rw [h] at hw1
    cases hw1
  · rw [hlog] at hmem
    rcases List.mem_append.1 hmem with hm | hm
    · revert hm
      decide
    · exact hext _ hm rfl

/-- C15, amended. `EndInteraction` is guarded by the active flag. For every
interaction object `o` at `p`:
* if `o` is not active the call returns the state it was called in: nothing is
  emitted and no field changes;
* if `o` is active and nothing is bound, the call returns with one broadcast of
  `OnInteractionEnded(true)`, the object inactive and the event
  `InteractionEnded`, in this order;
* if `o` is active, with the component's handlers the call, whenever it returns,
  has left the object inactive, and the log has gained the broadcast of
  `OnInteractionEnded(true)` first, the event `InteractionEnded` last, and in
  between only signals about other objects: exactly one ended broadcast and no
  cancellation broadcast of the object;
* hence in the state returned by `EndInteraction` or by `CancelInteraction`, a
  call of `EndInteraction` returns that state unchanged;
* for the component's active instance, when it does not advance automatically,
  the call returns with the component's handlers;
* when the run with the component's handlers is cut off instead, the object was
  active and still is, and the log has gained the broadcast of
  `OnInteractionEnded(true)` and after it only signals about other objects: the
  event `InteractionEnded` has not fired. -/
theorem C15_end_is_guarded (H : Handlers) (p : Nat) (w : World) (o : UInteraction)
    (ho : w.Objects[p]? = some o) :
    (o.bIsActive = false → UInteraction.EndInteraction H p w = .ok w)
      ∧ (o.bIsActive = true → o.OnInteractionEnded = false →
          UInteraction.EndInteraction H p w
            = .ok (((w.emit (.BroadcastEnded p true)).setObject p
                { o with bIsActive := false }).emit (.InteractionEnded p)))
      ∧ (o.bIsActive = true → ∀ (fuel : Nat) (w' : World),
          UInteraction.EndInteraction (componentHandlers fuel) p w = .ok w' →
          w'.Objects[p]? = some { o with bIsActive := false }
            ∧ ∃ ext, (∀ sig ∈ ext, sig.obj ≠ p)
              ∧ w'.Log = w.Log ++ [.BroadcastEnded p true] ++ ext ++ [.InteractionEnded p]
              ∧ ([Signal.BroadcastEnded p true] ++ ext ++ [Signal.InteractionEnded p]).countP
                  (isEnded p) = 1
              ∧ ([Signal.BroadcastEnded p true] ++ ext ++ [Signal.InteractionEnded p]).countP
                  (isCancelled p) = 0)
      ∧ (∀ (fuel : Nat) (w1 : World),
          (UInteraction.EndInteraction (componentHandlers fuel) p w = .ok w1
            ∨ ∃ r, UInteraction.CancelInteraction (componentHandlers fuel) p r w = .ok w1) →
          ∀ H' : Handlers, UInteraction.EndInteraction H' p w1 = .ok w1)
      ∧ (w.Component.ActiveInteractionInstance = some p →
          o.bStartNextInteractionAutomatically = false → ∀ fuel : Nat,
          ∃ w' : World, UInteraction.EndInteraction (componentHandlers fuel) p w = .ok w')
      ∧ (∀ (fuel : Nat) (w' : World),
          UInteraction.EndInteraction (componentHandlers fuel) p w = .error (.outOfFuel w') →
          o.bIsActive = true ∧ w'.Objects[p]? = some o
            ∧ ∃ ext, (∀ sig ∈ ext, sig.obj ≠ p)
              ∧ w'.Log = w.Log ++ [.BroadcastEnded p true] ++ ext) := by
  refine ⟨fun hact => endInteraction_inactive H p w o ho hact, fun hact hb => ?_,
    fun hact fuel w' h => ?_, fun fuel w1 h H' => ?_,
    fun hp hauto fuel => end_returns fuel p w o ho hp hauto,
    fun fuel w' h => ?_⟩
  · rw [endInteraction_eq H p w o ho hact, broadcastEnded_unbound H hb]
    have ho' : (w.emit (.BroadcastEnded p true)).Objects[p]? = some o := ho
    simp only [thenEnded, ho']
  · obtain ⟨ext, q1, q2, q3⟩ := end_quiet (componentHandlers fuel) p
      (componentHandlers_quiet fuel p) w w' o ho hact h
    obtain ⟨c1, c2, _⟩ := quiet_counts p ext q1
    refine ⟨q2, ext, q1, q3, ?_, ?_⟩
    · simp [List.countP_append, c1, isEnded]
    · simp [List.countP_append, c2, isCancelled]
  · rcases h with h | ⟨r, h⟩
    · rcases Bool.eq_false_or_eq_true o.bIsActive with hact | hact
      · obtain ⟨_, _, q2, _⟩ := end_quiet (componentHandlers fuel) p
          (componentHandlers_quiet fuel p) w w1 o ho hact h
        exact endInteraction_inactive H' p w1 _ q2 rfl
      · rw [endInteraction_inactive _ p w o ho hact] at h
        have hw : w1 = w := (Except.ok.inj h).symm
        subst hw
        exact endInteraction_inactive H' p w1 o ho hact
    · obtain ⟨_, _, q2, _⟩ := cancel_quiet (componentHandlers fuel) p
        (componentHandlers_quiet fuel p) r w w1 o ho h
      exact endInteraction_inactive H' p w1 _ q2 rfl
  · obtain ⟨q0, q1, ext, q2, q3⟩ := end_cutoff fuel p w w' o ho h
    exact ⟨q0, q1, ext, q3, q2⟩

/-- Witness for C15: scenario A with the copy of slot 0 active. Its
`EndInteraction` returns the state `scenarioA2`, with the ended broadcast of
object 0 once, and a second `EndInteraction` returns `scenarioA2` unchanged. -/
theorem C15_end_is_guarded_witness :
    (scenarioA1.Objects[0]?.map (fun o => o.bIsActive)) = some true
      ∧ UInteraction.EndInteraction (componentHandlers 1) 0 scenarioA1 = .ok scenarioA2
      ∧ scenarioA2.Log = [.InteractionActivated 0, .BroadcastEnded 0 true,
          .InteractionActivated 1, .InteractionEnded 0]
      ∧ UInteraction.EndInteraction (componentHandlers 1) 0 scenarioA2 = .ok scenarioA2 :=
  ⟨rfl, rfl, rfl,
    (C15_end_is_guarded (componentHandlers 1) 0 scenarioA1
      { workingCopy (template false true []) with InteractingActor := actorE, bIsActive := true }
      rfl).2.2.2.1 1 scenarioA2 (Or.inl rfl) (componentHandlers 1)⟩

/-! ## C16: an outcome reported at an invalid cursor -/

/-- C16. In every state with an active instance whose cursor is not an index of
a slot (negative, `-1` included, or from the slot count on),
`OnInteractionEnded`, for either value of `bCompletedSuccessfully`, returns with
the state failed and no active instance, and with the cursor, the slots, the
recorded instigator, the heap and the log as before. This holds whatever the
instance's `bStartNextInteractionAutomatically` and for every amount of fuel,
zero included: neither `EndSequentialInteractions` nor
`StartNextSequentialInteraction` runs. -/
theorem C16_invalid_cursor_fails (fuel : Nat) (bCompletedSuccessfully : Bool) (w : World)
    (p : Nat) (inst : UInteraction)
    (hp : w.Component.ActiveInteractionInstance = some p) (hinst : w.Objects[p]? = some inst)
    (hc : w.Component.CurrentSequentialInteractionIndex < 0
      ∨ (w.Component.SequentialInteractions.length : Int)
          ≤ w.Component.CurrentSequentialInteractionIndex) :
    ∃ w', OnInteractionEnded fuel bCompletedSuccessfully w = .ok w'
      ∧ w'.Component.CurrentInteractionState = .SequentialState_Failed
      ∧ w'.Component.ActiveInteractionInstance = none
      ∧ w'.Component.CurrentSequentialInteractionIndex
          = w.Component.CurrentSequentialInteractionIndex
      ∧ w'.Component.SequentialInteractions = w.Component.SequentialInteractions
      ∧ w'.Component.CurrentlyInteractingActor = w.Component.CurrentlyInteractingActor
      ∧ w'.Objects = w.Objects ∧ w'.Log = w.Log := by
  have hv : IsValidIndex w.Component.SequentialInteractions
      w.Component.CurrentSequentialInteractionIndex = false := by
    unfold IsValidIndex
    rcases hc with h | h
    · have : ¬ (0 ≤ w.Component.CurrentSequentialInteractionIndex) := by omega
      simp [this]
    · have : ¬ (w.Component.CurrentSequentialInteractionIndex
          < (w.Component.SequentialInteractions.length : Int)) := by omega
      simp [this]
  exact ⟨_, onEndedWith_invalid _ bCompletedSuccessfully w p inst hp hinst hv,
    rfl, rfl, rfl, rfl, rfl, rfl, rfl⟩

/-- Witness for C16: scenario A with the copy of slot 0 active (a copy that
advances automatically) and the cursor moved to 5, past the two slots; the
failed outcome is reported with no fuel. -/
theorem C16_invalid_cursor_fails_witness :
    (scenarioA1.setIndex 5).Component.ActiveInteractionInstance = some 0
      ∧ ((scenarioA1.setIndex 5).Objects[0]?.map
          (fun o => o.bStartNextInteractionAutomatically)) = some true
      ∧ ∃ w', OnInteractionEnded 0 false (scenarioA1.setIndex 5) = .ok w'
        ∧ w'.Component.CurrentInteractionState = .SequentialState_Failed
        ∧ w'.Component.ActiveInteractionInstance = none
        ∧ w'.Component.CurrentSequentialInteractionIndex = 5
        ∧ w'.Objects.length = 1 := by
  refine ⟨rfl, rfl, ?_⟩
  obtain ⟨w', h1, h2, h3, h4, _, _, h7, _⟩ :=
    C16_invalid_cursor_fails 0 false (scenarioA1.setIndex 5) 0
      { workingCopy (template false true []) with InteractingActor := actorE, bIsActive := true }
      rfl rfl (Or.inr (by decide))
  exact ⟨w', h1, h2, h3, by rw [h4]; rfl, by rw [h7]; rfl⟩

/-! ## C17: ending the sequence -/

/-- C17. `EndSequentialInteractions` sets the cursor to none (`-1`) and the
state to idle and changes nothing else: the slots, with their completion flags,
the active instance, the recorded instigator, the heap and the log are as
before. Hence `StartSequentialInteractions` for a valid instigator, in the state
it leaves when no instance is active, skips the slots already complete: it
enters the first slot of the whole list that is not complete (returning with the
cursor there and its copy active when the conditions pass), and if every slot is
complete it creates no instance and returns idle with the cursor none. -/
theorem C17_end_sequence_keeps_flags (w : World) :
    (EndSequentialInteractions w).Component.CurrentSequentialInteractionIndex = -1
      ∧ (EndSequentialInteractions w).Component.CurrentInteractionState
          = .SequentialState_Idle
      ∧ (EndSequentialInteractions w).Component.SequentialInteractions
          = w.Component.SequentialInteractions
      ∧ (EndSequentialInteractions w).Component.ActiveInteractionInstance
          = w.Component.ActiveInteractionInstance
      ∧ (EndSequentialInteractions w).Component.CurrentlyInteractingActor
          = w.Component.CurrentlyInteractingActor
      ∧ (EndSequentialInteractions w).Objects = w.Objects
      ∧ (EndSequentialInteractions w).Log = w.Log
      ∧ ∀ (fuel : Nat) (a : Option AActor),
          w.Component.ActiveInteractionInstance = none → IsValid a = true →
          (∀ (i : Nat) (s : FSequentialInteraction),
              w.Component.SequentialInteractions[i]? = some s →
              FirstIncompleteAfter w.Component.SequentialInteractions (-1) i →
              StartSequentialInteractions (fuel + 1) a (EndSequentialInteractions w)
                  = thenInProgress (UInteraction.TryActivateInteraction (componentHandlers fuel)
                      w.Objects.length a
                      (((EndSequentialInteractions w).started a).enterSlot i s))
                ∧ (conditionsPass a s.SequentialInteraction.Conditions = true →
                    StartSequentialInteractions (fuel + 1) a (EndSequentialInteractions w)
                      = .ok (((EndSequentialInteractions w).started a).activatedAt i s)))
            ∧ (AllCompleteAfter w.Component.SequentialInteractions (-1) →
                StartSequentialInteractions (fuel + 1) a (EndSequentialInteractions w)
                  = .ok (EndSequentialInteractions ((EndSequentialInteractions w).started a))) := by
  refine ⟨rfl, rfl, rfl, rfl, rfl, rfl, rfl, ?_⟩
  intro fuel a hnone ha
  have hstart : StartSequentialInteractions (fuel + 1) a (EndSequentialInteractions w)
      = StartNextSequentialInteraction (fuel + 1) ((EndSequentialInteractions w).started a) := by
    have hn : (EndSequentialInteractions w).Component.ActiveInteractionInstance = none := hnone
    unfold StartSequentialInteractions
    simp only [hn, ha, Option.isSome_none, Bool.false_eq_true, if_false, Bool.not_true]
    rfl
  have hcur : (-1 : Int)
      ≤ ((EndSequentialInteractions w).started a).Component.CurrentSequentialInteractionIndex := by
    show (-1 : Int) ≤ -1
    decide
  refine ⟨fun i s hs hfirst => ⟨?_, fun hpass => ?_⟩, fun hall => ?_⟩
  · rw [hstart]
    exact startNext_found fuel _ hcur i s hs hfirst
  · rw [hstart]
    exact startNext_pass fuel _ hcur i s hs hfirst ha hpass
  · rw [hstart]
    exact startNext_none fuel _ hcur hall

/-- Witness for C17: two manual slots of which the first is complete, with the
cursor on it; after `EndSequentialInteractions` the flags are as before and
`StartSequentialInteractions` enters slot 1. -/
theorem C17_end_sequence_keeps_flags_witness :
    scenarioManualHalf.Component.SequentialInteractions.map (fun s => s.bInteractionComplete)
        = [true, false]
      ∧ scenarioManualHalf.Component.CurrentSequentialInteractionIndex = 0
      ∧ scenarioManualHalf.Component.ActiveInteractionInstance = none
      ∧ IsValid actorE = true
      ∧ (EndSequentialInteractions scenarioManualHalf).Component.SequentialInteractions.map
          (fun s => s.bInteractionComplete) = [true, false]
      ∧ ∃ w', StartSequentialInteractions 1 actorE (EndSequentialInteractions scenarioManualHalf)
            = .ok w'
        ∧ w'.Component.CurrentSequentialInteractionIndex = 1
        ∧ w'.Component.ActiveInteractionInstance = some 1 := by
  have h := (((C17_end_sequence_keeps_flags scenarioManualHalf).2.2.2.2.2.2.2 0 actorE rfl rfl).1 1
    (slotOf (template false false []) false) rfl
    ⟨by decide, ⟨_, rfl, rfl⟩, fun k t _ hk ht => by
      have hk0 : k = 0 := by omega
      subst hk0
      have ht' : some ({ slotOf (template false false []) false with
          bInteractionComplete := true }) = some t := ht
      cases ht'
      rfl⟩).2 rfl
  exact ⟨rfl, rfl, rfl, rfl, rfl, _, h, rfl, rfl⟩

/-! ## C18: the restart from the top -/

/-- C18, counterexample. In `scenarioRestart1` the active instance is the copy
of slot 0, which advances automatically, and slot 0 resets on failure. The
marking step of `OnInteractionEnded(false)` leaves slot 1 incomplete, the restart
from the top enters slot 1, whose copy fails its condition and is cancelled
inside the call, and slot 1 is the last slot: the call returns idle with the
cursor none and no instance although slot 1 is not complete. -/
theorem C18_counterexample :
    scenarioRestart1.Component.ActiveInteractionInstance = some 0
      ∧ scenarioRestart1.Component.CurrentSequentialInteractionIndex = 0
      ∧ (scenarioRestart1.Objects[0]?.map (fun o => o.bStartNextInteractionAutomatically))
          = some true
      ∧ (scenarioRestart1.Component.SequentialInteractions[0]?.map
          (fun s => s.bResetInteractionsOnConditionsFail)) = some true
      ∧ (scenarioRestart1.afterOutcome 0 (slotOf (template false true []) true)
          false).Component.SequentialInteractions.map (fun s => s.bInteractionComplete)
          = [true, false]
      ∧ ∃ w', OnInteractionEnded 1 false scenarioRestart1 = .ok w'
        ∧ w'.Component.CurrentInteractionState = .SequentialState_Idle
        ∧ w'.Component.CurrentSequentialInteractionIndex = -1
        ∧ w'.Component.ActiveInteractionInstance = none
        ∧ w'.Component.SequentialInteractions.map (fun s => s.bInteractionComplete)
            = [true, false]
        ∧ w'.Log = scenarioRestart1.Log ++ [.CheckInteractionConditions 1 0,
            .BroadcastCancelled 1 .Cancel_ConditionsNotMet,
            .InteractionCancelled 1 .Cancel_ConditionsNotMet] :=
  ⟨rfl, rfl, rfl, rfl, rfl, _, rfl, rfl, rfl, rfl, rfl, rfl⟩

/-- C18, amended. Take a state whose active instance advances automatically,
with a valid cursor `i` whose slot is `s`, and an outcome `b` such that `i` is
the last index or (`b` is false and the slot resets on failure). Then
`OnInteractionEnded(b)` marks, runs `EndSequentialInteractions` (cursor none,
state idle, no active instance) and runs `StartNextSequentialInteraction` from
that state, which scans from index 0:
* if every slot is complete after the marking step, no instance is created and
  the call returns idle with the cursor none;
* otherwise the first incomplete slot `j` of the whole list is entered: its copy
  becomes the working instance and `TryActivateInteraction` is called on it.
  With a valid recorded instigator and passing conditions the call returns with
  cursor `j`, the copy active and the state in-progress; with a failing
  condition the component's `OnInteractionCancelled` runs inside the call, and
  the state at return is the one it leaves;
* `j` is `i` itself when slot `i` is repeatable and not complete and every
  earlier slot is complete. -/
theorem C18_auto_advance_restarts_from_top (fuel : Nat) (b : Bool) (w : World) (p : Nat)
    (inst : UInteraction) (i : Nat) (s : FSequentialInteraction)
    (hp : w.Component.ActiveInteractionInstance = some p) (hinst : w.Objects[p]? = some inst)
    (hauto : inst.bStartNextInteractionAutomatically = true)
    (hi : w.Component.CurrentSequentialInteractionIndex = (i : Int))
    (hs : w.Component.SequentialInteractions[i]? = some s)
    (hend : (i : Int) = (w.Component.SequentialInteractions.length : Int) - 1
      ∨ (b = false ∧ s.bResetInteractionsOnConditionsFail = true)) :
    OnInteractionEnded fuel b w = StartNextSequentialInteraction fuel (w.afterOutcome i s b)
      ∧ (w.afterOutcome i s b).Component.CurrentSequentialInteractionIndex = -1
      ∧ (w.afterOutcome i s b).Component.CurrentInteractionState = .SequentialState_Idle
      ∧ (w.afterOutcome i s b).Component.ActiveInteractionInstance = none
      ∧ (w.afterOutcome i s b).Component.SequentialInteractions
          = markedSlots w.Component.SequentialInteractions i s
      ∧ (AllCompleteAfter (markedSlots w.Component.SequentialInteractions i s) (-1) →
          OnInteractionEnded (fuel + 1) b w = .ok (w.afterOutcome i s b))
      ∧ (∀ (j : Nat) (sj : FSequentialInteraction),
          (markedSlots w.Component.SequentialInteractions i s)[j]? = some sj →
          FirstIncompleteAfter (markedSlots w.Component.SequentialInteractions i s) (-1) j →
          OnInteractionEnded (fuel + 1) b w
              = thenInProgress (UInteraction.TryActivateInteraction (componentHandlers fuel)
                  w.Objects.length w.Component.CurrentlyInteractingActor
                  ((w.afterOutcome i s b).enterSlot j sj))
            ∧ (IsValid w.Component.CurrentlyInteractingActor = true →
                conditionsPass w.Component.CurrentlyInteractingActor
                  sj.SequentialInteraction.Conditions = true →
                OnInteractionEnded (fuel + 1) b w
                  = .ok ((w.afterOutcome i s b).activatedAt j sj))
            ∧ (IsValid w.Component.CurrentlyInteractingActor = true →
                conditionsPass w.Component.CurrentlyInteractingActor
                  sj.SequentialInteraction.Conditions = false →
                OnInteractionEnded (fuel + 1) b w
                  = thenInProgress (thenEmit
                      (.InteractionCancelled w.Objects.length .Cancel_ConditionsNotMet)
                      (OnInteractionCancelled fuel .Cancel_ConditionsNotMet
                        ((w.afterOutcome i s b).cancelledAt j sj)))))
      ∧ (s.SequentialInteraction.bCanRepeatInteraction = true →
          s.bInteractionComplete = false →
          (∀ (k : Nat) (t : FSequentialInteraction), k < i →
            w.Component.SequentialInteractions[k]? = some t → t.bInteractionComplete = true) →
          (markedSlots w.Component.SequentialInteractions i s)[i]? = some s
            ∧ FirstIncompleteAfter (markedSlots w.Component.SequentialInteractions i s)
                (-1) i) := by
  have hends : endsSequence w.Component.SequentialInteractions i s b = true := by
    unfold endsSequence
    rcases hend with h | ⟨hb, hr⟩
    · simp [h]
    · simp [hb, hr]
  obtain ⟨hcur, hstate, hfix⟩ := afterOutcome_ended w i s b hends
  have hrun : ∀ fuel, OnInteractionEnded fuel b w
      = StartNextSequentialInteraction fuel (w.afterOutcome i s b) := by
    intro fuel
    show OnInteractionEndedWith (StartNextSequentialInteraction fuel) b w = _
    rw [onEndedWith_eq _ b w p inst i s hp hinst hi hs, hauto]
    rfl
  have hc : (-1 : Int) ≤ (w.afterOutcome i s b).Component.CurrentSequentialInteractionIndex := by
    rw [hcur]
  refine ⟨hrun fuel, hcur, hstate, rfl, rfl, fun hall => ?_, fun j sj hj hfirst => ⟨?_, ?_, ?_⟩,
    fun hrep hinc hbefore => ?_⟩
  · rw [hrun, startNext_none fuel _ hc (by rw [hcur]; exact hall), hfix]
  · rw [hrun]
    exact startNext_found fuel _ hc j sj hj (by rw [hcur]; exact hfirst)
  · intro ha hpass
    rw [hrun]
    exact startNext_pass fuel _ hc j sj hj (by rw [hcur]; exact hfirst) ha hpass
  · intro ha hfail
    rw [hrun]
    exact startNext_fail fuel _ hc j sj hj (by rw [hcur]; exact hfirst) ha hfail
  · have hm : markedSlots w.Component.SequentialInteractions i s
        = w.Component.SequentialInteractions := by
      simp [markedSlots, hrep]
    rw [hm]
    exact ⟨hs, by omega, ⟨s, hs, hinc⟩, fun k t _ hk ht => hbefore k t hk ht⟩

/-- Witness for C18: a single repeatable slot that advances automatically, with
its copy active; after a successful end the restart from the top enters the same
slot again and its new copy is active. -/
theorem C18_auto_advance_restarts_from_top_witness :
    scenarioRepeat1.Component.ActiveInteractionInstance = some 0
      ∧ scenarioRepeat1.Component.CurrentSequentialInteractionIndex = 0
      ∧ ∃ w', OnInteractionEnded 1 true scenarioRepeat1 = .ok w'
        ∧ w'.Component.CurrentSequentialInteractionIndex = 0
        ∧ w'.Component.ActiveInteractionInstance = some 1
        ∧ w'.Component.CurrentInteractionState = .SequentialState_InProgress
        ∧ w'.Component.SequentialInteractions.map (fun s => s.bInteractionComplete)
            = [false] := by
  have h := C18_auto_advance_restarts_from_top 0 true scenarioRepeat1 0
    { workingCopy (template true true []) with InteractingActor := actorE, bIsActive := true }
    0 (slotOf (template true true []) false) rfl rfl rfl rfl rfl (Or.inl rfl)
  have hfirst := h.2.2.2.2.2.2.2 rfl rfl (fun k t hk _ => by omega)
  have hrun := ((h.2.2.2.2.2.2.1 0 (slotOf (template true true []) false)
    hfirst.1 hfirst.2).2.1 rfl rfl)
  exact ⟨rfl, rfl, _, hrun, rfl, rfl, rfl, rfl⟩

/-! ## C19: the active instance and the state -/

/-- C19. In every state reachable from the constructed component by calls of
`StartSequentialInteractions` (any instigator) and by lifecycle calls on the
active working instance, through which it reports its outcome, each observed
when the call has returned: an instance is active exactly when the state is
in-progress; and at most one working instance exists: the component holds at
most one, every interaction object on the heap that is active is that instance,
so no two objects are active. -/
theorem C19_instance_iff_in_progress (slots : List FSequentialInteraction) (w : World)
    (h : Reachable slots w) :
    (w.Component.ActiveInteractionInstance.isSome = true
        ↔ w.Component.CurrentInteractionState = .SequentialState_InProgress)
      ∧ (∀ (q : Nat) (o : UInteraction), w.Objects[q]? = some o → o.bIsActive = true →
          w.Component.ActiveInteractionInstance = some q)
      ∧ (∀ (q q' : Nat) (o o' : UInteraction), w.Objects[q]? = some o →
          w.Objects[q']? = some o' → o.bIsActive = true → o'.bIsActive = true → q = q') := by
  have hmain : InstanceMatchesState w ∧ OnlyInstanceActive none w := by
    induction h with
    | init =>
      refine ⟨⟨fun h => Bool.noConfusion h, fun h => EInteractionState.noConfusion h⟩, ?_⟩
      intro q o hq
      simp [initialWorld] at hq
    | start fuel a w w' _ hrun ih => exact start_settles fuel a w w' ih.1 ih.2 hrun
    | report fuel c p w w' _ hp hrun ih => exact call_settles fuel p c w w' hp ih.1 ih.2 hrun
  refine ⟨hmain.1, fun q o hq hact => hmain.2 q o hq (by simp) hact,
    fun q q' o o' hq hq' hact hact' => ?_⟩
  have h1 := hmain.2 q o hq (by simp) hact
  have h2 := hmain.2 q' o' hq' (by simp) hact'
  rw [h1] at h2
  exact Option.some.inj h2

/-- Witness for C19: scenario A after its start and the end of the copy of slot
0, whose auto-advance has made the copy of slot 1 the active instance. -/
theorem C19_instance_iff_in_progress_witness :
    Reachable [slotOf (template false true []) false, slotOf (template false false []) false]
        scenarioA2
      ∧ scenarioA2.Component.ActiveInteractionInstance = some 1
      ∧ scenarioA2.Component.CurrentInteractionState = .SequentialState_InProgress
      ∧ scenarioA2.Objects.map (fun o => o.bIsActive) = [false, true]
      ∧ (scenarioA2.Component.ActiveInteractionInstance.isSome = true
          ↔ scenarioA2.Component.CurrentInteractionState = .SequentialState_InProgress) :=
  have hreach : Reachable
      [slotOf (template false true []) false, slotOf (template false false []) false]
      scenarioA2 :=
    Reachable.report 1 .End 0 scenarioA1 scenarioA2
      (Reachable.start 1 actorE scenarioA scenarioA1 Reachable.init rfl) rfl rfl
  ⟨hreach, rfl, rfl, rfl, (C19_instance_iff_in_progress _ scenarioA2 hreach).1⟩

/-! ## C20: an auto-advance chain without end -/

/-- C20. Take a non-empty slot list, as constructed (no slot complete), in which
every template is repeatable, advances automatically and has conditions that
fail for the valid instigator `E`. Then `StartSequentialInteractions` for `E`
from the initial state never returns: for every amount of fuel, that is for
every depth to which the nested calls of `StartNextSequentialInteraction` are
followed, the chain is still running at that depth and has created exactly that
many working instances. Hence for every bound `n` the chain creates more than
`n` working instances. -/
theorem C20_auto_advance_never_quiesces (slots : List FSequentialInteraction)
    (E : Option AActor) (hne : slots ≠ []) (hall : ∀ s ∈ slots, Restless E s)
    (hE : IsValid E = true) :
    (∀ fuel : Nat, ∃ w',
        StartSequentialInteractions fuel E (initialWorld slots) = .error (.outOfFuel w')
          ∧ w'.Objects.length = fuel)
      ∧ (∀ n : Nat, ∃ (fuel : Nat) (w' : World),
          StartSequentialInteractions fuel E (initialWorld slots) = .error (.outOfFuel w')
            ∧ n < w'.Objects.length)
      ∧ (∀ (fuel : Nat) (w' : World),
          StartSequentialInteractions fuel E (initialWorld slots) ≠ .ok w') := by
  have hmain : ∀ fuel : Nat, ∃ w',
      StartSequentialInteractions fuel E (initialWorld slots) = .error (.outOfFuel w')
        ∧ w'.Objects.length = fuel := by
    intro fuel
    have hstart : StartSequentialInteractions fuel E (initialWorld slots)
        = StartNextSequentialInteraction fuel ((initialWorld slots).started E) := by
      unfold StartSequentialInteractions
      have hn : (initialWorld slots).Component.ActiveInteractionInstance = none := rfl
      simp only [hn, hE, Option.isSome_none, Bool.false_eq_true, if_false, Bool.not_true]
      rfl
    have hpos : 0 < slots.length := List.length_pos.2 hne
    obtain ⟨w', h1, h2⟩ := startNext_restless E hE fuel ((initialWorld slots).started E) rfl
      hall (by show (-1 : Int) ≤ -1; decide)
      (by show (-1 : Int) + 1 < (slots.length : Int); omega)
    refine ⟨w', by rw [hstart, h1], ?_⟩
    rw [h2]
    show ([] : List UInteraction).length + fuel = fuel
    simp
  refine ⟨hmain, fun n => ?_, fun fuel w' h => ?_⟩
  · obtain ⟨w', h1, h2⟩ := hmain (n + 1)
    exact ⟨n + 1, w', h1, by omega⟩
  · obtain ⟨w2, h1, _⟩ := hmain fuel
    rw [h1] at h
    cases h

/-- Witness for C20: a single repeatable slot that advances automatically and
whose base condition fails; followed to depth 3 the chain is still running and
has created 3 working instances. -/
theorem C20_auto_advance_never_quiesces_witness :
    scenarioLoop = initialWorld [slotOf (template true true [UInteractionCondition.base]) false]
      ∧ IsValid actorE = true
      ∧ ∃ w', StartSequentialInteractions 3 actorE scenarioLoop = .error (.outOfFuel w')
        ∧ w'.Objects.length = 3 :=
  ⟨rfl, rfl,
    (C20_auto_advance_never_quiesces
      [slotOf (template true true [UInteractionCondition.base]) false] actorE
      (by simp)
      (fun s hs => by rw [List.mem_singleton.1 hs]; exact ⟨rfl, rfl, rfl, rfl⟩) rfl).1 3⟩

/-! ## C21: the state before a start -/

/-- C21. `StartSequentialInteractions` does not read `CurrentInteractionState`.
For two states without an active instance that differ only in that field (the
same `w` with the field set to `st1` and to `st2`), the call with the same
instigator gives the same result: the same returned state (state, cursor,
instance, slots, heap and log of notifications), or the same failure or cut-off
chain. In particular a failed component is started exactly as an idle one. -/
theorem C21_start_ignores_state (fuel : Nat) (a : Option AActor) (w : World)
    (st1 st2 : EInteractionState)
    (hnone : w.Component.ActiveInteractionInstance = none) :
    StartSequentialInteractions fuel a (w.setState st1)
      = StartSequentialInteractions fuel a (w.setState st2) := by
  have h1 : (w.setState st1).Component.ActiveInteractionInstance = none := hnone
  have h2 : (w.setState st2).Component.ActiveInteractionInstance = none := hnone
  unfold StartSequentialInteractions
  simp only [h1, h2, Option.isSome_none, Bool.false_eq_true, if_false]
  rfl

/-- Witness for C21: scenario A before its start, once failed and once idle;
both starts return the state `scenarioA1`, in-progress with the copy of slot 0
active. -/
theorem C21_start_ignores_state_witness :
    (scenarioA.setState .SequentialState_Failed).Component.ActiveInteractionInstance = none
      ∧ StartSequentialInteractions 1 actorE (scenarioA.setState .SequentialState_Failed)
          = StartSequentialInteractions 1 actorE (scenarioA.setState .SequentialState_Idle)
      ∧ StartSequentialInteractions 1 actorE (scenarioA.setState .SequentialState_Failed)
          = .ok scenarioA1
      ∧ scenarioA1.Component.CurrentInteractionState = .SequentialState_InProgress :=
  ⟨rfl, C21_start_ignores_state 1 actorE scenarioA .SequentialState_Failed
    .SequentialState_Idle rfl, rfl, rfl⟩

/-! ## C22: chains over non-repeatable slots -/

/-- C22. Take a component all of whose slot templates are non-repeatable, with
any conditions, any `bStartNextInteractionAutomatically` and reset flags, and
let `m` be the number of slots that are not complete. Then, followed to a depth
of more than `m` nested calls of `StartNextSequentialInteraction` (fuel greater
than `m`):
* every call of `StartSequentialInteractions` (cursor none or an index) returns,
  and the heap has grown by at most `m` working instances;
* every outcome reported by the active instance, through `OnInteractionEnded`
  with either flag or through `OnInteractionCancelled`, returns, and the heap has
  grown by at most `m` working instances;
* the reason: the marking step for an outcome at a slot that was not complete
  leaves one incomplete slot fewer. -/
theorem C22_non_repeatable_chains_terminate (w : World)
    (hrep : ∀ s ∈ w.Component.SequentialInteractions,
      s.SequentialInteraction.bCanRepeatInteraction = false) :
    (∀ (a : Option AActor) (fuel : Nat),
        -1 ≤ w.Component.CurrentSequentialInteractionIndex →
        incompleteCount w.Component.SequentialInteractions < fuel →
        ∃ w', StartSequentialInteractions fuel a w = .ok w'
          ∧ w'.Objects.length
              ≤ w.Objects.length + incompleteCount w.Component.SequentialInteractions)
      ∧ (∀ (p : Nat) (inst : UInteraction) (b : Bool) (fuel : Nat),
          w.Component.ActiveInteractionInstance = some p → w.Objects[p]? = some inst →
          incompleteCount w.Component.SequentialInteractions < fuel →
          ∃ w', OnInteractionEnded fuel b w = .ok w'
            ∧ w'.Objects.length
                ≤ w.Objects.length + incompleteCount w.Component.SequentialInteractions)
      ∧ (∀ (p : Nat) (inst : UInteraction) (r : EInteractionCancelReason) (fuel : Nat),
          w.Component.ActiveInteractionInstance = some p → w.Objects[p]? = some inst →
          incompleteCount w.Component.SequentialInteractions < fuel →
          ∃ w', OnInteractionCancelled fuel r w = .ok w'
            ∧ w'.Objects.length
                ≤ w.Objects.length + incompleteCount w.Component.SequentialInteractions)
      ∧ (∀ (i : Nat) (s : FSequentialInteraction),
          w.Component.SequentialInteractions[i]? = some s → s.bInteractionComplete = false →
          incompleteCount (markedSlots w.Component.SequentialInteractions i s) + 1
            = incompleteCount w.Component.SequentialInteractions) := by
  have hreport : ∀ (p : Nat) (inst : UInteraction) (b : Bool) (fuel : Nat),
      w.Component.ActiveInteractionInstance = some p → w.Objects[p]? = some inst →
      incompleteCount w.Component.SequentialInteractions < fuel →
      ∃ w', OnInteractionEnded fuel b w = .ok w'
        ∧ w'.Objects.length
            ≤ w.Objects.length + incompleteCount w.Component.SequentialInteractions := by
    intro p inst b fuel hp hinst hfuel
    rcases Bool.eq_false_or_eq_true (IsValidIndex w.Component.SequentialInteractions
      w.Component.CurrentSequentialInteractionIndex) with hv | hv
    · obtain ⟨i, s, hi, hs⟩ := isValidIndex_true hv
      have hrun : OnInteractionEnded fuel b w
          = if inst.bStartNextInteractionAutomatically then
              StartNextSequentialInteraction fuel (w.afterOutcome i s b)
            else .ok (w.afterOutcome i s b) :=
        onEndedWith_eq _ b w p inst i s hp hinst hi hs
      rw [hrun]
      have hle := (incompleteCount_marked _ i s hs).1
      split
      · obtain ⟨w', h1, h2⟩ := startNext_terminates fuel (w.afterOutcome i s b)
          (marked_templates _ i s hs hrep)
          (by
            show (-1 : Int) ≤ if endsSequence w.Component.SequentialInteractions i s b
              then -1 else (i : Int)
            split <;> omega)
          (by
            show incompleteCount (markedSlots w.Component.SequentialInteractions i s) < fuel
            omega)
        refine ⟨w', h1, ?_⟩
        have hcount : incompleteCount (w.afterOutcome i s b).Component.SequentialInteractions
            = incompleteCount (markedSlots w.Component.SequentialInteractions i s) := rfl
        have hobj : (w.afterOutcome i s b).Objects.length = w.Objects.length := rfl
        rw [hcount, hobj] at h2
        omega
      · exact ⟨_, rfl, Nat.le_add_right _ _⟩
    · exact ⟨_, onEndedWith_invalid _ b w p inst hp hinst hv, Nat.le_add_right _ _⟩
  refine ⟨fun a fuel hc hfuel => ?_, hreport,
    fun p inst r fuel hp hinst hfuel => hreport p inst false fuel hp hinst hfuel,
    fun i s hs hinc =>
      (incompleteCount_marked _ i s hs).2 (hrep s (List.getElem?_mem hs)) hinc⟩
  cases hact : w.Component.ActiveInteractionInstance with
  | some p =>
    refine ⟨w, ?_, Nat.le_add_right _ _⟩
    simp only [StartSequentialInteractions, hact, Option.isSome_some, if_true]
  | none =>
    rcases Bool.eq_false_or_eq_true (IsValid a) with ha | ha
    · have hstart : StartSequentialInteractions fuel a w
          = StartNextSequentialInteraction fuel (w.started a) := by
        simp only [StartSequentialInteractions, hact, ha, Option.isSome_none,
          Bool.false_eq_true, if_false, Bool.not_true]
        rfl
      rw [hstart]
      exact startNext_terminates fuel (w.started a) hrep hc hfuel
    · refine ⟨w.setState .SequentialState_Waiting, ?_, Nat.le_add_right _ _⟩
      simp only [StartSequentialInteractions, hact, ha, Option.isSome_none,
        Bool.false_eq_true, if_false, Bool.not_false, if_true]

/-- Witness for C22: scenario B, one non-repeatable slot whose copy is cancelled
at once: one slot is incomplete, and with fuel 2 the start returns with one
instance created. -/
theorem C22_non_repeatable_chains_terminate_witness :
    incompleteCount scenarioB.Component.SequentialInteractions = 1
      ∧ ∃ w', StartSequentialInteractions 2 actorE scenarioB = .ok w'
        ∧ w'.Objects.length ≤ scenarioB.Objects.length + 1 :=
  ⟨rfl, (C22_non_repeatable_chains_terminate scenarioB
    (fun s hs => by rw [List.mem_singleton.1 hs]; rfl)).1 actorE 2 (by decide) (by decide)⟩

/-! ## C23: activation conditions against commit conditions -/

/-- C23, counterexample. In `scenarioStuck1`, the state one start of
`scenarioStuck` for `actorE` returns, the active instance at address 0 has one
condition, not inverted, and `AreInteractionConditionsMet` answers true for it.
`CanCommitInteraction` on that instance, with the component's handlers, does
not answer false: for every fuel the run is cut off inside the cancellation
broadcast and no answer is given. -/
theorem C23_met_conditions_may_not_answer :
    StartSequentialInteractions 1 actorE scenarioStuck = .ok scenarioStuck1
      ∧ scenarioStuck1.Objects[0]? = some stuckInstance
      ∧ stuckInstance.Conditions.map (fun c => c.InvertCondition) = [false]
      ∧ UInteraction.AreInteractionConditionsMet 0 scenarioStuck1
          = .ok (true, scenarioStuck1.emit (.CheckInteractionConditions 0 0))
      ∧ ∀ fuel : Nat,
          (∀ (b : Bool) (w' : World),
            UInteraction.CanCommitInteraction (componentHandlers fuel) 0 scenarioStuck1
              ≠ .ok (b, w'))
          ∧ ∃ w', UInteraction.CanCommitInteraction (componentHandlers fuel) 0 scenarioStuck1
              = .error (.outOfFuel w') := by
  refine ⟨rfl, rfl, rfl, rfl, fun fuel => ?_⟩
  obtain ⟨w', h, _⟩ := scenarioStuck_canCommit fuel
  refine ⟨fun b w1 hb => ?_, w', h⟩
  rw [h] at hb
  cases hb

/-- C23, amended. Take an interaction object `o` for which
`AreInteractionConditionsMet` answers true (for its stored instigator; the
conditions are functions of the instigator).
* If some condition of `o` is not inverted, `CanCommitInteraction` finds a
  condition with a true raw result, calls
  `CancelInteraction(Cancel_ConditionsNotMet)` and answers false: it never
  answers true; with nothing bound it returns false with the object inactive and
  the cancellation broadcast in the log, and with the component's handlers it
  answers false, with the object inactive and that broadcast in the log,
  whenever it returns; it returns for the component's active instance when
  that instance does not advance automatically; and when the run with the
  component's handlers is cut off instead, the object is inactive and the log
  has gained evaluations and that broadcast, with no later signal of the object,
  and no answer is given.
* If `CanCommitInteraction` answers true, every condition of `o` is inverted and
  has a false raw result (which includes the case of no condition). -/
theorem C23_met_conditions_block_commit (H : Handlers) (p : Nat) (w w1 : World)
    (o : UInteraction) (ho : w.Objects[p]? = some o)
    (hmet : UInteraction.AreInteractionConditionsMet p w = .ok (true, w1)) :
    ((∃ c ∈ o.Conditions, c.InvertCondition = false) →
        (∃ (pre : List UInteractionCondition) (c : UInteractionCondition)
            (post : List UInteractionCondition),
            o.Conditions = pre ++ c :: post
              ∧ (∀ d ∈ pre, rawResult o.InteractingActor d = false)
              ∧ rawResult o.InteractingActor c = true
              ∧ UInteraction.CanCommitInteraction H p w
                  = thenRefuse (UInteraction.CancelInteraction H p .Cancel_ConditionsNotMet
                      (w.emitAll (checksFrom p 0 (pre.length + 1)))))
          ∧ (∀ (b : Bool) (w' : World),
              UInteraction.CanCommitInteraction H p w = .ok (b, w') → b = false)
          ∧ (o.OnInteractionCancelled = false →
              ∃ w', UInteraction.CanCommitInteraction H p w = .ok (false, w')
                ∧ w'.Objects[p]? = some { o with bIsActive := false }
                ∧ ∃ gained, w'.Log = w.Log ++ gained
                  ∧ Signal.BroadcastCancelled p .Cancel_ConditionsNotMet ∈ gained)
          ∧ (∀ (fuel : Nat) (b : Bool) (w' : World),
              UInteraction.CanCommitInteraction (componentHandlers fuel) p w = .ok (b, w') →
              b = false ∧ w'.Objects[p]? = some { o with bIsActive := false }
                ∧ ∃ gained, w'.Log = w.Log ++ gained
                  ∧ Signal.BroadcastCancelled p .Cancel_ConditionsNotMet ∈ gained)
          ∧ (w.Component.ActiveInteractionInstance = some p →
              o.bStartNextInteractionAutomatically = false → ∀ fuel : Nat,
              ∃ w' : World,
                UInteraction.CanCommitInteraction (componentHandlers fuel) p w = .ok (false, w'))
          ∧ (∀ (fuel : Nat) (w' : World),
              UInteraction.CanCommitInteraction (componentHandlers fuel) p w
                = .error (.outOfFuel w') →
              w'.Objects[p]? = some { o with bIsActive := false }
                ∧ ∃ (k : Nat) (ext : List Signal), (∀ sig ∈ ext, sig.obj ≠ p)
                  ∧ w'.Log = w.Log ++ checksFrom p 0 k
                      ++ [.BroadcastCancelled p .Cancel_ConditionsNotMet] ++ ext))
      ∧ (∀ w' : World, UInteraction.CanCommitInteraction H p w = .ok (true, w') →
          ∀ c ∈ o.Conditions,
            c.InvertCondition = true ∧ rawResult o.InteractingActor c = false) := by
  have hpass : conditionsPass o.InteractingActor o.Conditions = true := by
    rw [areConditionsMet_eq p w o ho] at hmet
    simp only [Except.ok.injEq, Prod.mk.injEq] at hmet
    exact hmet.1
  have hxor := (conditionsPass_iff _ _).1 hpass
  have hanswer : ∀ (H : Handlers) (b : Bool) (w' : World),
      UInteraction.CanCommitInteraction H p w = .ok (b, w') →
      b = o.Conditions.all (fun c => !rawResult o.InteractingActor c) := by
    intro H b w' h
    rw [canCommit_eq H p w o ho] at h
    exact canCommitLoop_answer H p _ _ 0 w w' b h
  refine ⟨fun hnormal => ?_, fun w' h c hc => ?_⟩
  · obtain ⟨c0, hc0, hinv⟩ := hnormal
    have hraw0 : rawResult o.InteractingActor c0 = true := by
      have := hxor c0 hc0
      rw [hinv] at this
      simpa [rawResult] using this
    obtain ⟨pre, c, post, hcs, hpre, hc⟩ :=
      exists_first_raw_true o.InteractingActor o.Conditions ⟨c0, hc0, hraw0⟩
    have hrun : ∀ H : Handlers, UInteraction.CanCommitInteraction H p w
        = thenRefuse (UInteraction.CancelInteraction H p .Cancel_ConditionsNotMet
            (w.emitAll (checksFrom p 0 (pre.length + 1)))) := by
      intro H
      rw [canCommit_eq H p w o ho, hcs]
      exact canCommitLoop_first_true H p _ c post hc pre 0 w hpre
    have ho' : (w.emitAll (checksFrom p 0 (pre.length + 1))).Objects[p]? = some o := ho
    refine ⟨⟨pre, c, post, hcs, hpre, hc, hrun H⟩, fun b w' h => ?_, fun hb => ?_,
      fun fuel b w' h => ?_, fun hp hauto fuel => ?_, fun fuel w' h => ?_⟩
    · rw [hrun H] at h
      exact (thenRefuse_ok h).1
    · have hval : UInteraction.CanCommitInteraction H p w
          = .ok (false,
              ((((w.emitAll (checksFrom p 0 (pre.length + 1))).setObject p
                { o with bIsActive := false }).emit
                  (.BroadcastCancelled p .Cancel_ConditionsNotMet)).emit
                    (.InteractionCancelled p .Cancel_ConditionsNotMet))) := by
        rw [hrun H, cancel_eq H p _ _ o ho', broadcastCancelled_unbound H hb]
        rfl
      refine ⟨_, hval, List.getElem?_set_self (getElem?_lt_of_some ho),
        checksFrom p 0 (pre.length + 1)
          ++ [Signal.BroadcastCancelled p .Cancel_ConditionsNotMet,
              Signal.InteractionCancelled p .Cancel_ConditionsNotMet], ?_, ?_⟩
      · show w.Log ++ checksFrom p 0 (pre.length + 1)
            ++ [Signal.BroadcastCancelled p .Cancel_ConditionsNotMet]
            ++ [Signal.InteractionCancelled p .Cancel_ConditionsNotMet]
          = w.Log ++ (checksFrom p 0 (pre.length + 1)
            ++ [Signal.BroadcastCancelled p .Cancel_ConditionsNotMet,
                Signal.InteractionCancelled p .Cancel_ConditionsNotMet])
        simp
      · simp
    · rw [hrun (componentHandlers fuel)] at h
      obtain ⟨hb, hr⟩ := thenRefuse_ok h
      obtain ⟨ext, _, q2, q3⟩ := cancel_quiet (componentHandlers fuel) p
        (componentHandlers_quiet fuel p) _ _ w' o ho' hr
      refine ⟨hb, q2, checksFrom p 0 (pre.length + 1)
        ++ [Signal.BroadcastCancelled p .Cancel_ConditionsNotMet] ++ ext
        ++ [Signal.InteractionCancelled p .Cancel_ConditionsNotMet], ?_, ?_⟩
      · rw [q3]
        simp [World.emitAll]
      · simp
    · obtain ⟨w', hr⟩ := cancel_returns fuel p .Cancel_ConditionsNotMet
        (w.emitAll (checksFrom p 0 (pre.length + 1))) o ho' hp hauto
      refine ⟨w', ?_⟩
      rw [hrun (componentHandlers fuel), hr]
      rfl
    · rw [hrun (componentHandlers fuel)] at h
      obtain ⟨q1, ext, q2, q3⟩ := cancel_cutoff fuel p _ _ w' o ho' (thenRefuse_cutoff h)
      exact ⟨q1, pre.length + 1, ext, q3, q2⟩
  · have hall := (hanswer H true w' h).symm
    rw [List.all_eq_true] at hall
    have hraw : rawResult o.InteractingActor c = false := by
      simpa using hall c hc
    have := hxor c hc
    have hraw' : c.CheckInteractionConditions o.InteractingActor = false := hraw
    rw [hraw'] at this
    exact ⟨by simpa using this, hraw⟩

/-- Witness for C23: an active interaction whose only condition is not inverted
and has a true raw result: the activation conditions are met, and
`CanCommitInteraction` answers false and leaves the object inactive. -/
theorem C23_met_conditions_block_commit_witness :
    (isolated activated).Objects[0]? = some activated
      ∧ activated.Conditions.map (fun c => c.InvertCondition) = [false]
      ∧ UInteraction.AreInteractionConditionsMet 0 (isolated activated)
          = .ok (true, (isolated activated).emit (.CheckInteractionConditions 0 0))
      ∧ ∃ w', UInteraction.CanCommitInteraction (componentHandlers 0) 0 (isolated activated)
            = .ok (false, w')
        ∧ w'.Objects[0]? = some { activated with bIsActive := false } :=
  have h := ((C23_met_conditions_block_commit (componentHandlers 0) 0 (isolated activated)
    ((isolated activated).emit (.CheckInteractionConditions 0 0)) activated rfl rfl).1
    ⟨UInteractionCondition.always false, List.mem_singleton.2 rfl, rfl⟩).2.2.1 rfl
  ⟨rfl, rfl, rfl, h.choose, h.choose_spec.1, h.choose_spec.2.1⟩

/-! ## C24: the flags that decide an outcome -/

/-- C24, counterexample. `scenarioRepeat` has one slot, repeatable, without
conditions, whose template advances automatically; in `scenarioRepeat1` its
copy is the active instance at address 0. Two runs handle the successful
outcome of that copy, the second with the template's automatic-advance flag
set to false once the copy exists. Both enter the slot again, but the new copy
at address 1 advances automatically in the first run and not in the second, and
the successful outcome of that copy leaves the first run in progress with a
third copy active and the second run idle with no instance. -/
theorem C24_template_flag_reaches_next_copy :
    scenarioRepeat1.Component.ActiveInteractionInstance = some 0
      ∧ scenarioRepeat1.Component.CurrentSequentialInteractionIndex = 0
      ∧ scenarioRepeat1.Component.SequentialInteractions
          = [slotOf (template true true []) false]
      ∧ ∃ wa wb wa2 wb2 : World,
          OnInteractionEnded 1 true scenarioRepeat1 = .ok wa
          ∧ OnInteractionEnded 1 true
              (scenarioRepeat1.setTemplateAuto 0 (slotOf (template true true []) false) false)
              = .ok wb
          ∧ wa.Component.ActiveInteractionInstance = some 1
          ∧ wb.Component.ActiveInteractionInstance = some 1
          ∧ wa.Objects.map (fun o => o.bStartNextInteractionAutomatically) = [true, true]
          ∧ wb.Objects.map (fun o => o.bStartNextInteractionAutomatically) = [true, false]
          ∧ OnInteractionEnded 1 true wa = .ok wa2
          ∧ OnInteractionEnded 1 true wb = .ok wb2
          ∧ wa2.Component.CurrentInteractionState = .SequentialState_InProgress
          ∧ wa2.Component.ActiveInteractionInstance = some 2
          ∧ wb2.Component.CurrentInteractionState = .SequentialState_Idle
          ∧ wb2.Component.ActiveInteractionInstance = none :=
  ⟨rfl, rfl, rfl, _, _, _, _, rfl, rfl, rfl, rfl, rfl, rfl, rfl, rfl, rfl, rfl, rfl, rfl⟩

/-- C24, amended. Take a state with an active instance `inst` at `p` and a
valid cursor `i` whose slot is `s`, and an outcome `b` reported to
`OnInteractionEnded`.
* The decision to advance is the instance's own
  `bStartNextInteractionAutomatically` at the time of the report, and the
  marking is decided by the template's `bCanRepeatInteraction`: after it slot
  `i` has `complete = (previous value OR template non-repeatable)`.
* Two runs that differ only in the instance's `bCanRepeatInteraction` (or in any
  fields of the instance other than its automatic-advance flag) give the same
  result, up to that object itself: the same returned, failed or cut-off state
  with the object at `p` overwritten; so when one returns the other returns with
  the same component (state, cursor, instance, slots with their completion
  flags) and the same log.
* With the automatic-advance flag of the template of slot `i` set to any value
  `y`, the decision is still the instance's flag, and the state reached by the
  marking and the end-of-sequence rule has the same cursor, state and
  completion flags: the marking and the decision do not read the template's
  flag, which is read only when a copy of the template is made.
* When slot `i` is complete once the outcome is marked (it is not repeatable,
  or it was complete before), no copy of it is made again and the template's
  flag has no influence on the result: the run with the flag set to `y` gives
  the returned, failed or cut-off state of the run without, with the flag `y`
  in slot `i`; so when one returns the other returns with the same cursor,
  state, instance, completion flags, objects and log.
* When the instance does not advance automatically, both runs return, with the
  same cursor, state, instance, completion flags, objects and log. -/
theorem C24_flags_that_decide_an_outcome (fuel : Nat) (b : Bool) (w : World) (p : Nat)
    (inst : UInteraction) (i : Nat) (s : FSequentialInteraction)
    (hp : w.Component.ActiveInteractionInstance = some p) (hinst : w.Objects[p]? = some inst)
    (hi : w.Component.CurrentSequentialInteractionIndex = (i : Int))
    (hs : w.Component.SequentialInteractions[i]? = some s) :
    (OnInteractionEnded fuel b w
        = if inst.bStartNextInteractionAutomatically then
            StartNextSequentialInteraction fuel (w.afterOutcome i s b)
          else .ok (w.afterOutcome i s b))
      ∧ (w.afterOutcome i s b).Component.SequentialInteractions[i]?
          = some { s with bInteractionComplete :=
              s.bInteractionComplete || !s.SequentialInteraction.bCanRepeatInteraction }
      ∧ (∀ o' : UInteraction,
          o'.bStartNextInteractionAutomatically = inst.bStartNextInteractionAutomatically →
          OnInteractionEnded fuel b (w.setObject p o')
            = liftResult (fun v => v.setObject p o') (OnInteractionEnded fuel b w))
      ∧ (∀ x : Bool,
          OnInteractionEnded fuel b (w.setObject p { inst with bCanRepeatInteraction := x })
            = liftResult (fun v => v.setObject p { inst with bCanRepeatInteraction := x })
                (OnInteractionEnded fuel b w))
      ∧ (∀ (x : Bool) (w1 : World), OnInteractionEnded fuel b w = .ok w1 →
          ∃ w2, OnInteractionEnded fuel b
                (w.setObject p { inst with bCanRepeatInteraction := x }) = .ok w2
            ∧ w2.Component = w1.Component ∧ w2.Log = w1.Log
            ∧ w2.Objects = w1.Objects.set p { inst with bCanRepeatInteraction := x })
      ∧ (∀ y : Bool,
          (OnInteractionEnded fuel b (w.setTemplateAuto i s y)
              = if inst.bStartNextInteractionAutomatically then
                  StartNextSequentialInteraction fuel
                    ((w.setTemplateAuto i s y).afterOutcome i
                      { s with SequentialInteraction :=
                          { s.SequentialInteraction with
                            bStartNextInteractionAutomatically := y } } b)
                else .ok ((w.setTemplateAuto i s y).afterOutcome i
                      { s with SequentialInteraction :=
                          { s.SequentialInteraction with
                            bStartNextInteractionAutomatically := y } } b))
            ∧ ((w.setTemplateAuto i s y).afterOutcome i
                { s with SequentialInteraction :=
                    { s.SequentialInteraction with bStartNextInteractionAutomatically := y } }
                b).Component.CurrentSequentialInteractionIndex
                = (w.afterOutcome i s b).Component.CurrentSequentialInteractionIndex
            ∧ ((w.setTemplateAuto i s y).afterOutcome i
                { s with SequentialInteraction :=
                    { s.SequentialInteraction with bStartNextInteractionAutomatically := y } }
                b).Component.CurrentInteractionState
                = (w.afterOutcome i s b).Component.CurrentInteractionState
            ∧ ((w.setTemplateAuto i s y).afterOutcome i
                { s with SequentialInteraction :=
                    { s.SequentialInteraction with bStartNextInteractionAutomatically := y } }
                b).Component.SequentialInteractions.map (fun t => t.bInteractionComplete)
                = (w.afterOutcome i s b).Component.SequentialInteractions.map
                    (fun t => t.bInteractionComplete))
      ∧ ((s.bInteractionComplete = true
            ∨ s.SequentialInteraction.bCanRepeatInteraction = false) → ∀ y : Bool,
          OnInteractionEnded fuel b (w.setTemplateAuto i s y)
              = liftResult (fun v => v.setSlot i
                  { s with
                    SequentialInteraction :=
                      { s.SequentialInteraction with bStartNextInteractionAutomatically := y }
                    bInteractionComplete := true })
                  (OnInteractionEnded fuel b w)
            ∧ ∀ w1 : World, OnInteractionEnded fuel b w = .ok w1 →
                ∃ w2, OnInteractionEnded fuel b (w.setTemplateAuto i s y) = .ok w2
                  ∧ w2.Component.CurrentSequentialInteractionIndex
                      = w1.Component.CurrentSequentialInteractionIndex
                  ∧ w2.Component.CurrentInteractionState = w1.Component.CurrentInteractionState
                  ∧ w2.Component.ActiveInteractionInstance
                      = w1.Component.ActiveInteractionInstance
                  ∧ w2.Component.SequentialInteractions.map (fun t => t.bInteractionComplete)
                      = w1.Component.SequentialInteractions.map
                          (fun t => t.bInteractionComplete)
                  ∧ w2.Objects = w1.Objects ∧ w2.Log = w1.Log)
      ∧ (inst.bStartNextInteractionAutomatically = false → ∀ y : Bool,
          ∃ w1 w2, OnInteractionEnded fuel b w = .ok w1
            ∧ OnInteractionEnded fuel b (w.setTemplateAuto i s y) = .ok w2
            ∧ w2.Component.CurrentSequentialInteractionIndex
                = w1.Component.CurrentSequentialInteractionIndex
            ∧ w2.Component.CurrentInteractionState = w1.Component.CurrentInteractionState
            ∧ w2.Component.ActiveInteractionInstance = w1.Component.ActiveInteractionInstance
            ∧ w2.Component.SequentialInteractions.map (fun t => t.bInteractionComplete)
                = w1.Component.SequentialInteractions.map (fun t => t.bInteractionComplete)
            ∧ w2.Objects = w1.Objects ∧ w2.Log = w1.Log) := by
  refine ⟨onEndedWith_eq _ b w p inst i s hp hinst hi hs, markedSlots_at _ i s hs,
    fun o' hauto => onEnded_frame fuel b w p inst o' hp hinst hauto,
    fun x => onEnded_frame fuel b w p inst _ hp hinst rfl,
    fun x w1 h1 => ?_, fun y => ?_, fun hdone y => ⟨?_, fun w1 h1 => ?_⟩, fun hauto y => ?_⟩
  · refine ⟨w1.setObject p { inst with bCanRepeatInteraction := x }, ?_, rfl, rfl, rfl⟩
    rw [onEnded_frame fuel b w p inst { inst with bCanRepeatInteraction := x } hp hinst rfl]
    exact liftResult_ok h1
  · obtain ⟨h1, h2, h3⟩ := setTemplateAuto_afterOutcome w i s y b hs
    refine ⟨?_, h1, h2, h3⟩
    exact onEndedWith_eq _ b (w.setTemplateAuto i s y) p inst i _ hp hinst hi
      (List.getElem?_set_self (getElem?_lt_of_some hs))
  · exact onEnded_templateAuto fuel b w p inst i s y hp hinst hi hs hdone
  · obtain ⟨t, ht, hc⟩ := onEnded_slot_done fuel b w w1 p inst i s hp hinst hi hs hdone h1
    refine ⟨w1.setSlot i
      { s with
        SequentialInteraction :=
          { s.SequentialInteraction with bStartNextInteractionAutomatically := y }
        bInteractionComplete := true }, ?_, rfl, rfl, rfl,
      flags_setSlot w1 i t _ ht hc.symm, rfl, rfl⟩
    rw [onEnded_templateAuto fuel b w p inst i s y hp hinst hi hs hdone]
    exact liftResult_ok h1
  · obtain ⟨h1, h2, h3⟩ := setTemplateAuto_afterOutcome w i s y b hs
    have e1 : OnInteractionEnded fuel b w = .ok (w.afterOutcome i s b) := by
      show OnInteractionEndedWith (StartNextSequentialInteraction fuel) b w = _
      rw [onEndedWith_eq _ b w p inst i s hp hinst hi hs, hauto]
      rfl
    have e2 : OnInteractionEnded fuel b (w.setTemplateAuto i s y)
        = .ok ((w.setTemplateAuto i s y).afterOutcome i
            { s with SequentialInteraction :=
                { s.SequentialInteraction with bStartNextInteractionAutomatically := y } }
            b) := by
      show OnInteractionEndedWith (StartNextSequentialInteraction fuel) b
        (w.setTemplateAuto i s y) = _
      rw [onEndedWith_eq _ b (w.setTemplateAuto i s y) p inst i _ hp hinst hi
        (List.getElem?_set_self (getElem?_lt_of_some hs)), hauto]
      rfl
    exact ⟨_, _, e1, e2, h1, h2, rfl, h3, rfl, rfl⟩

/-- Witness for C24: scenario A with the copy of slot 0 active (non-repeatable
template); with the copy made repeatable at runtime the successful outcome still
marks slot 0 complete and advances to slot 1. -/
theorem C24_flags_that_decide_an_outcome_witness :
    scenarioA1.Component.ActiveInteractionInstance = some 0
      ∧ scenarioA1.Component.CurrentSequentialInteractionIndex = 0
      ∧ ∃ w2, OnInteractionEnded 1 true
            (scenarioA1.setObject 0
              { workingCopy (template false true []) with
                InteractingActor := actorE, bIsActive := true,
                bCanRepeatInteraction := true }) = .ok w2
        ∧ w2.Component.SequentialInteractions.map (fun t => t.bInteractionComplete)
            = [true, false]
        ∧ w2.Component.CurrentSequentialInteractionIndex = 1
        ∧ w2.Component.ActiveInteractionInstance = some 1 := by
  have h := (C24_flags_that_decide_an_outcome 1 true scenarioA1 0
    { workingCopy (template false true []) with InteractingActor := actorE, bIsActive := true }
    0 (slotOf (template false true []) false) rfl rfl rfl rfl).2.2.2.1 true
  exact ⟨rfl, rfl, _, h, rfl, rfl, rfl⟩

/-! ## C25: the failed branch -/

/-- C25. In every state reachable from the constructed component (cursor none,
idle, no instance) by calls of `StartSequentialInteractions` and by lifecycle
calls on the active working instance, through which it reports its outcome while
it is the active instance: the cursor is none (`-1`) or the index of a slot; it
is the index of a slot whenever an instance is active; the state is not failed;
and an outcome reported in that state finds the cursor valid, so that
`OnInteractionEnded` takes the marking branch, not the failed one. -/
theorem C25_failed_branch_unreachable (slots : List FSequentialInteraction) (w : World)
    (h : Reachable slots w) :
    (w.Component.CurrentSequentialInteractionIndex = -1
        ∨ (0 ≤ w.Component.CurrentSequentialInteractionIndex
            ∧ w.Component.CurrentSequentialInteractionIndex
                < (w.Component.SequentialInteractions.length : Int)))
      ∧ (w.Component.ActiveInteractionInstance.isSome = true →
          0 ≤ w.Component.CurrentSequentialInteractionIndex
            ∧ w.Component.CurrentSequentialInteractionIndex
                < (w.Component.SequentialInteractions.length : Int))
      ∧ w.Component.CurrentInteractionState ≠ .SequentialState_Failed
      ∧ (∀ (p : Nat) (inst : UInteraction) (fuel : Nat) (b : Bool),
          w.Component.ActiveInteractionInstance = some p → w.Objects[p]? = some inst →
          IsValidIndex w.Component.SequentialInteractions
              w.Component.CurrentSequentialInteractionIndex = true
            ∧ ∃ (i : Nat) (s : FSequentialInteraction),
              w.Component.CurrentSequentialInteractionIndex = (i : Int)
                ∧ w.Component.SequentialInteractions[i]? = some s
                ∧ OnInteractionEnded fuel b w
                    = if inst.bStartNextInteractionAutomatically then
                        StartNextSequentialInteraction fuel (w.afterOutcome i s b)
                      else .ok (w.afterOutcome i s b)) := by
  have hmain : CursorInRange w := by
    induction h with
    | init =>
      exact ⟨Or.inl rfl, fun h => Bool.noConfusion h, fun h => EInteractionState.noConfusion h⟩
    | start fuel a w w' _ hrun ih =>
      cases hact : w.Component.ActiveInteractionInstance with
      | some p =>
        simp only [StartSequentialInteractions, hact, Option.isSome_some, if_true] at hrun
        rw [← Except.ok.inj hrun]
        exact ih
      | none =>
        rcases Bool.eq_false_or_eq_true (IsValid a) with ha | ha
        · have h' : StartNextSequentialInteraction fuel (w.started a) = .ok w' := by
            simpa [StartSequentialInteractions, hact, ha] using hrun
          exact startNext_inRange fuel (w.started a) w' hact trivial h'
        · have h' : w' = w.setState .SequentialState_Waiting := by
            simp only [StartSequentialInteractions, hact, ha, Option.isSome_none,
              Bool.false_eq_true, if_false, Bool.not_false, if_true] at hrun
            exact (Except.ok.inj hrun).symm
          rw [h']
          exact ⟨ih.1, ih.2.1, fun h => EInteractionState.noConfusion h⟩
    | report fuel c p w w' _ hp hrun ih =>
      rcases call_component fuel p c w w' hrun with hc | ⟨b, wm, w3, hm, h3, hc⟩
      · exact cursorInRange_congr hc ih
      · exact cursorInRange_congr hc
          (onEnded_inRange fuel b p wm w3 (by rw [hm]; exact hp) (cursorInRange_congr hm ih) h3)
  refine ⟨hmain.1, hmain.2.1, hmain.2.2, fun p inst fuel b hp hinst => ?_⟩
  obtain ⟨h0, hlt⟩ := hmain.2.1 (by rw [hp]; rfl)
  obtain ⟨i, hi⟩ : ∃ i : Nat, w.Component.CurrentSequentialInteractionIndex = (i : Int) :=
    ⟨w.Component.CurrentSequentialInteractionIndex.toNat, by omega⟩
  have hilt : i < w.Component.SequentialInteractions.length := by omega
  have hs : w.Component.SequentialInteractions[i]?
      = some (w.Component.SequentialInteractions[i]) := List.getElem?_eq_getElem hilt
  refine ⟨?_, i, _, hi, hs, onEndedWith_eq _ b w p inst i _ hp hinst hi hs⟩
  unfold IsValidIndex
  simp [h0, hlt]

/-- Witness for C25: scenario A after its start and the end of the copy of slot
0: the copy of slot 1 is active and the cursor is 1, the index of a slot. -/
theorem C25_failed_branch_unreachable_witness :
    Reachable [slotOf (template false true []) false, slotOf (template false false []) false]
        scenarioA2
      ∧ scenarioA2.Component.CurrentSequentialInteractionIndex = 1
      ∧ scenarioA2.Component.SequentialInteractions.length = 2
      ∧ scenarioA2.Component.CurrentInteractionState ≠ .SequentialState_Failed :=
  have hreach : Reachable
      [slotOf (template false true []) false, slotOf (template false false []) false]
      scenarioA2 :=
    Reachable.report 1 .End 0 scenarioA1 scenarioA2
      (Reachable.start 1 actorE scenarioA scenarioA1 Reachable.init rfl) rfl rfl
  ⟨hreach, rfl, rfl, (C25_failed_branch_unreachable _ scenarioA2 hreach).2.2.1⟩

end SequentialInteractions
